import Mathlib

/-!
# DashPlayer renderer: a shallow embedding of `DashPlayerRenderer.cpp`

The renderer is an actor: public entry points are called from producer and
control threads and mostly post a message; the handlers run one at a time on
the looper thread.  The embedding is explicit state passing over a record
`Renderer` that holds the member fields of `DashPlayer::Renderer`, the looper
mailbox (`mailbox`, the messages posted to the renderer and not yet handled)
and an observable trace (`out`: callbacks posted back to the producer, calls
made on the audio sink, notifications posted to the control layer).

Conventions of the embedding
* `int64_t` time values and the `int32_t` generation counters are `Int`
  (no wrap-around: signed overflow is undefined in C++ and out of reach for
  microsecond time stamps and flush counts); `uint32_t` frame counters and
  `size_t` byte counts are `Nat` reduced modulo `2 ^ 32` / `2 ^ sizeBits`.
* `CHECK` failures, null dereferences and the other ways a call cannot return
  are `Result.fail`, with the kind of failure.
* Whatever a handler reads from its collaborators while it runs (wall clock,
  audio sink) is one `Env` record per call: the readings are constant during
  one handler.  The two `float` expressions of the source are taken from the
  environment as the `int64_t` value they are cast to.
* A call of a public entry point and the handling of one message are each one
  atomic `Action`; the looper may hand over any message of the mailbox
  (`Action.deliver i`), which covers every order in which delayed and
  undelayed messages can come due.  The worked examples deliver in an order the
  looper can produce: undelayed messages in posting order, a delayed message
  not before its delay has passed.
* `mStats` (statistics logging) and `mLogLevel` have no effect on the fields
  modelled here and are left out.
-/

namespace DashPlayer

/-- Value of `OK` (`status_t`). -/
def OK : Int := 0

/-- Value of `Renderer::kMinPositionUpdateDelayUs`. -/
def kMinPositionUpdateDelayUs : Int := 100000

/-- Ways in which a call does not return normally: a `CHECK` on the
renderer's own state or arguments fails (`checkFailed`), a
`CHECK(..->findInt64("timeUs", ..))` on a buffer fails (`noTimeUs`), a
`CHECK_EQ` on a result of the audio sink fails (`sinkFailed`), a null pointer
or the head of an empty list is dereferenced (`nullDeref`), the bound on the
passes of a loop is used up (`outOfFuel`), or there is no message at the
position the looper is asked to deliver (`noMessage`). -/
inductive Fault
  | checkFailed
  | noTimeUs
  | sinkFailed
  | nullDeref
  | outOfFuel
  | noMessage
deriving DecidableEq, Repr

/-- Outcome of a call that may abort. -/
inductive Result (α : Type)
  | ok (a : α)
  | fail (f : Fault)
deriving DecidableEq, Repr

/-- Sequencing of calls that may abort. -/
def Result.bind {α β : Type} (r : Result α) (k : α → Result β) : Result β :=
  match r with
  | .ok a => k a
  | .fail f => .fail f

/-- An `ABuffer`: payload bytes and the two meta entries the renderer reads. -/
structure ABuffer where
  /-- Payload, `size()` is its length. -/
  data : List Nat
  /-- Entry `meta()->findInt64("timeUs", ..)`, absent when not set. -/
  timeUs : Option Int
  /-- Entry `meta()->findInt32("disc", ..)`, absent when not set. -/
  disc : Option Int
deriving DecidableEq, Repr

/-- A `QueueEntry`.  `mNotifyConsumed` is the identity of the producer's
callback message; it is null for entries made by `onQueueEOS`. -/
structure QueueEntry where
  mBuffer : Option ABuffer
  mNotifyConsumed : Option Nat
  mOffset : Nat
  mFinalResult : Int
deriving DecidableEq, Repr

/-- Messages handled by `onMessageReceived`. -/
inductive Msg
  | drainAudioQueue (generation : Int)
  | drainVideoQueue (generation : Int)
  | queueBuffer (audio : Bool) (buffer : ABuffer) (notifyConsumed : Nat)
  | queueEOS (audio : Bool) (finalResult : Int)
  | flush (audio : Bool)
  | audioSinkChanged
  | pause
  | resume
  | delayQueued
deriving DecidableEq, Repr

/-- Observable effects of the renderer, in the order they happen.
`consumed` is `mNotifyConsumed->post()`; its first field records which
stream the entry belonged to and `render` is the value of the callback's
"render" field when the renderer set it. -/
inductive Out
  | consumed (audio : Bool) (cb : Nat) (render : Option Int)
  | sinkWrite (bytes : List Nat)
  | sinkPause
  | sinkStart
  | eos (audio : Bool) (finalResult : Int)
  | flushComplete (audio : Bool)
  | position (positionUs videoLateByUs : Int)
deriving DecidableEq, Repr

/-- Readings a handler takes from the wall clock, the audio sink and the
platform while it runs. -/
structure Env where
  /-- Reading of `ALooper::GetNowUs()`. -/
  nowUs : Int
  /-- Whether `mAudioSink->getPosition(..)` returns `OK`. -/
  positionOK : Bool
  /-- Frames played as stored by `getPosition`. -/
  numFramesPlayed : Nat
  /-- Result of `mAudioSink->frameCount()`. -/
  frameCount : Int
  /-- Result of `mAudioSink->frameSize()`. -/
  frameSize : Int
  /-- Result of `mAudioSink->latency()`, in msec. -/
  latency : Nat
  /-- Whether `mAudioSink->write(p, n)` returns `n`. -/
  writeOK : Bool
  /-- Whether `mAudioSink->getFramesWritten(..)` returns `OK`. -/
  framesWrittenOK : Bool
  /-- Frames written as stored by `getFramesWritten`. -/
  framesWritten : Nat
  /-- Value of `(int64_t)(msecsPerFrame() * (float)(pending * 1000ll))`
  for a number of frames pending playout. -/
  playoutUs : Nat → Int
  /-- Value of `(int64_t)(((float)latency() / 2 + (float)pending *
  msecsPerFrame()) * 1000ll)` for a number of frames pending playout. -/
  offsetUs : Nat → Int
  /-- Width of `size_t` and `ssize_t` in bits. -/
  sizeBits : Nat

/-- The member fields of `DashPlayer::Renderer`, the mailbox of its looper and
the trace of its observable effects. -/
structure Renderer where
  mNumFramesWritten : Nat
  mDrainAudioQueuePending : Bool
  mDrainVideoQueuePending : Bool
  mDrainVideoQueuePendingUntilFirstAudio : Bool
  mAudioQueueGeneration : Int
  mVideoQueueGeneration : Int
  mAnchorTimeMediaUs : Int
  mAnchorTimeRealUs : Int
  mSeekTimeUs : Int
  mFlushingAudio : Bool
  mFlushingVideo : Bool
  mHasAudio : Bool
  mHasVideo : Bool
  mSyncQueues : Bool
  mPaused : Bool
  mWasPaused : Bool
  mLastPositionUpdateUs : Int
  mVideoLateByUs : Int
  mLastReceivedVideoSampleUs : Int
  mDelayPending : Bool
  mDelayToQueueUs : Int
  mDelayToQueueTimeRealUs : Int
  mIsLiveStream : Bool
  mStartUpLatencyBeginUs : Int
  mStartUpLatencyUs : Int
  mDiscFromAnchorRealTimeRefresh : Bool
  mAVSyncDelayWindowUs : Int
  mRealTimeOffsetUs : Int
  mLastRenderedTimeMediaUs : Int
  mAudioQueue : List QueueEntry
  mVideoQueue : List QueueEntry
  mailbox : List (Msg × Int)
  out : List Out
deriving DecidableEq

/-- Wrap an integer into the range of a signed `bits`-bit integer. -/
def wrapSigned (bits : Nat) (x : Int) : Int :=
  (x + 2 ^ (bits - 1)) % 2 ^ bits - 2 ^ (bits - 1)

/-- The constructor.  `avSyncDelayMsec` is `atoi` of the property
`persist.dash.avsync.window.msec` when that property is set and non-empty;
`realTimeOffsetUs` and `lastRenderedTimeMediaUs` stand for the two fields the
constructor leaves uninitialised. -/
def Renderer.new (avSyncDelayMsec : Option Int)
    (realTimeOffsetUs lastRenderedTimeMediaUs : Int) : Renderer :=
  { mNumFramesWritten := 0
    mDrainAudioQueuePending := false
    mDrainVideoQueuePending := false
    mDrainVideoQueuePendingUntilFirstAudio := false
    mAudioQueueGeneration := 0
    mVideoQueueGeneration := 0
    mAnchorTimeMediaUs := -1
    mAnchorTimeRealUs := -1
    mSeekTimeUs := 0
    mFlushingAudio := false
    mFlushingVideo := false
    mHasAudio := false
    mHasVideo := false
    mSyncQueues := false
    mPaused := false
    mWasPaused := false
    mLastPositionUpdateUs := -1
    mVideoLateByUs := 0
    mLastReceivedVideoSampleUs := -1
    mDelayPending := false
    mDelayToQueueUs := 0
    mDelayToQueueTimeRealUs := 0
    mIsLiveStream := false
    mStartUpLatencyBeginUs := -1
    mStartUpLatencyUs := 0
    mDiscFromAnchorRealTimeRefresh := false
    mAVSyncDelayWindowUs :=
      match avSyncDelayMsec with
      | none => 40000
      | some msec =>
        if wrapSigned 32 (msec * 1000) > 0 then wrapSigned 32 (msec * 1000) else 40000
    mRealTimeOffsetUs := realTimeOffsetUs
    mLastRenderedTimeMediaUs := lastRenderedTimeMediaUs
    mAudioQueue := []
    mVideoQueue := []
    mailbox := []
    out := [] }

/-- Posting of a message to the renderer's own looper: `msg->post(delayUs)`. -/
def post (s : Renderer) (m : Msg) (delayUs : Int) : Renderer :=
  { s with mailbox := s.mailbox ++ [(m, delayUs)] }

/-- Record of an observable effect. -/
def emit (s : Renderer) (o : Out) : Renderer :=
  { s with out := s.out ++ [o] }

/-- Call `entry->mNotifyConsumed->post()`, with the "render" field when set. -/
def postConsumed (s : Renderer) (audio : Bool) (entry : QueueEntry)
    (render : Option Int) : Result Renderer :=
  match entry.mNotifyConsumed with
  | none => .fail .nullDeref
  | some cb => .ok (emit s (.consumed audio cb render))

/-- The queue of one stream. -/
def getQueue (audio : Bool) (s : Renderer) : List QueueEntry :=
  if audio then s.mAudioQueue else s.mVideoQueue

/-- Replace the queue of one stream. -/
def setQueue (audio : Bool) (s : Renderer) (q : List QueueEntry) : Renderer :=
  if audio then { s with mAudioQueue := q } else { s with mVideoQueue := q }

/-- Source function `Renderer::notifyEOS`. -/
def notifyEOS (s : Renderer) (audio : Bool) (finalResult : Int) : Renderer :=
  emit s (.eos audio finalResult)

/-- Source function `Renderer::notifyFlushComplete`. -/
def notifyFlushComplete (s : Renderer) (audio : Bool) : Renderer :=
  emit s (.flushComplete audio)

/-- Source function `Renderer::notifyPosition`. -/
def notifyPosition (env : Env) (s : Renderer) (isEOS : Bool) : Renderer :=
  if s.mAnchorTimeRealUs < 0 ∨ s.mAnchorTimeMediaUs < 0 then s
  else if (!isEOS) ∧ (s.mLastPositionUpdateUs ≥ 0
      ∧ env.nowUs < s.mLastPositionUpdateUs + kMinPositionUpdateDelayUs) then s
  else
    let positionUs :=
      if s.mSeekTimeUs ≠ 0 then s.mSeekTimeUs
      else (env.nowUs - s.mAnchorTimeRealUs) + s.mAnchorTimeMediaUs
    emit { s with mLastPositionUpdateUs := env.nowUs }
      (.position positionUs s.mVideoLateByUs)

/-- Source function `Renderer::notifySeekPosition`. -/
def notifySeekPosition (env : Env) (s : Renderer) (seekTime : Int) : Renderer :=
  emit { s with mSeekTimeUs := seekTime, mLastPositionUpdateUs := env.nowUs }
    (.position seekTime s.mVideoLateByUs)

/-- Source function `Renderer::postDrainAudioQueue`. -/
def postDrainAudioQueue (s : Renderer) (delayUs : Int) : Renderer :=
  if s.mDelayPending || s.mDrainAudioQueuePending || s.mSyncQueues || s.mPaused then s
  else if s.mAudioQueue.isEmpty then s
  else
    post { s with mDrainAudioQueuePending := true }
      (.drainAudioQueue s.mAudioQueueGeneration) delayUs

/-- Tail of `postDrainVideoQueue`: `msg->post(delayUs); mDrainVideoQueuePending = true`. -/
def postVideoDrainMsg (s : Renderer) (delayUs : Int) : Renderer :=
  { post s (.drainVideoQueue s.mVideoQueueGeneration) delayUs with
    mDrainVideoQueuePending := true }

/-- Source function `Renderer::postDrainVideoQueue`. -/
def postDrainVideoQueue (env : Env) (s : Renderer) : Result Renderer :=
  if s.mDelayPending || s.mDrainVideoQueuePending || s.mSyncQueues || s.mPaused
      || s.mDrainVideoQueuePendingUntilFirstAudio then .ok s
  else
    match s.mVideoQueue with
    | [] => .ok s
    | entry :: _ =>
      match entry.mBuffer with
      | none => .ok (postVideoDrainMsg s 0)
      | some buffer =>
        match buffer.timeUs with
        | none => .fail .noTimeUs
        | some mediaTimeUs =>
          if s.mAnchorTimeMediaUs < 0 ∨ s.mAnchorTimeRealUs < 0 then
            .ok (postVideoDrainMsg
              { s with mAnchorTimeMediaUs := mediaTimeUs, mAnchorTimeRealUs := env.nowUs } 0)
          else if s.mWasPaused then
            let s1 := { s with mWasPaused := false }
            if !s1.mHasAudio then
              let s2 := { s1 with mAnchorTimeMediaUs := mediaTimeUs,
                                  mAnchorTimeRealUs := env.nowUs }
              let realTimeUs := (mediaTimeUs - s2.mAnchorTimeMediaUs) + s2.mAnchorTimeRealUs
              .ok (postVideoDrainMsg s2 (realTimeUs - env.nowUs))
            else if !s1.mAudioQueue.isEmpty then
              .ok (if !s1.mDrainVideoQueuePendingUntilFirstAudio then
                     { s1 with mDrainVideoQueuePendingUntilFirstAudio := true }
                   else s1)
            else
              let realTimeUs := (mediaTimeUs - s1.mAnchorTimeMediaUs) + s1.mAnchorTimeRealUs
              .ok (postVideoDrainMsg s1 (realTimeUs - env.nowUs))
          else
            let realTimeUs := (mediaTimeUs - s.mAnchorTimeMediaUs) + s.mAnchorTimeRealUs
            .ok (postVideoDrainMsg s (realTimeUs - env.nowUs))

/-- Source function `Renderer::syncQueuesDone`. -/
def syncQueuesDone (env : Env) (s : Renderer) : Result Renderer :=
  if !s.mSyncQueues then .ok s
  else
    let s1 := { s with mSyncQueues := false }
    let s2 := if !s1.mAudioQueue.isEmpty then postDrainAudioQueue s1 0 else s1
    if !s2.mVideoQueue.isEmpty then postDrainVideoQueue env s2 else .ok s2

/-- Source function `Renderer::queueBuffer`. -/
def queueBuffer (s : Renderer) (audio : Bool) (buffer : ABuffer)
    (notifyConsumed : Nat) : Renderer :=
  post s (.queueBuffer audio buffer notifyConsumed) 0

/-- Source function `Renderer::queueEOS`. -/
def queueEOS (env : Env) (s : Renderer) (audio : Bool) (finalResult : Int) :
    Result Renderer :=
  if finalResult = OK then .fail .checkFailed
  else
    (if s.mSyncQueues then syncQueuesDone env s else .ok s).bind fun s1 =>
      .ok (post s1 (.queueEOS audio finalResult) 0)

/-- Source function `Renderer::queueDelay`. -/
def queueDelay (env : Env) (s : Renderer) (delayUs : Int) : Renderer :=
  if s.mDelayPending then
    { s with mDelayToQueueUs := delayUs, mDelayToQueueTimeRealUs := env.nowUs }
  else
    let s1 := if s.mHasAudio then emit s .sinkPause else s
    let s2 := post s1 .delayQueued delayUs
    { s2 with mDelayPending := true, mDelayToQueueUs := 0 }

/-- Source function `Renderer::flush`. -/
def flush (s : Renderer) (audio : Bool) : Result Renderer :=
  if audio then
    if s.mFlushingAudio then .fail .checkFailed
    else .ok (post { s with mFlushingAudio := true } (.flush audio) 0)
  else
    if s.mFlushingVideo then .fail .checkFailed
    else .ok (post { s with mFlushingVideo := true } (.flush audio) 0)

/-- Source function `Renderer::signalTimeDiscontinuity`. -/
def signalTimeDiscontinuity (s : Renderer) : Result Renderer :=
  if !s.mAudioQueue.isEmpty then .fail .checkFailed
  else if !s.mVideoQueue.isEmpty then .fail .checkFailed
  else
    .ok { s with
      mAnchorTimeMediaUs := -1
      mAnchorTimeRealUs := -1
      mRealTimeOffsetUs := 0
      mWasPaused := false
      mSeekTimeUs := 0
      mSyncQueues := s.mHasAudio && s.mHasVideo
      mHasAudio := false
      mHasVideo := false
      mLastReceivedVideoSampleUs := -1
      mDrainVideoQueuePendingUntilFirstAudio := false
      mStartUpLatencyBeginUs := -1
      mStartUpLatencyUs := 0
      mDiscFromAnchorRealTimeRefresh := false }

/-- Source function `Renderer::pause`. -/
def pause (s : Renderer) : Renderer := post s .pause 0

/-- Source function `Renderer::resume`. -/
def resume (s : Renderer) : Renderer := post s .resume 0

/-- Source function `Renderer::signalAudioSinkChanged`. -/
def signalAudioSinkChanged (s : Renderer) : Renderer := post s .audioSinkChanged 0

/-- Source function `Renderer::signalRefreshAnchorRealTime`. -/
def signalRefreshAnchorRealTime (env : Env) (s : Renderer)
    (bAddStartUpLatency : Bool) : Renderer :=
  if s.mAnchorTimeMediaUs > -1 ∧ s.mAnchorTimeRealUs > -1 then
    let s1 := { s with mAnchorTimeMediaUs := s.mLastRenderedTimeMediaUs,
                       mAnchorTimeRealUs := env.nowUs + s.mRealTimeOffsetUs }
    let s2 := if bAddStartUpLatency then
        { s1 with mAnchorTimeRealUs := s1.mAnchorTimeRealUs + s1.mStartUpLatencyUs }
      else s1
    { s2 with mDiscFromAnchorRealTimeRefresh := true }
  else s

/-- Source function `Renderer::setMediaPresence`. -/
def setMediaPresence (s : Renderer) (audio : Bool) (bValue : Bool) : Renderer :=
  if audio then { s with mHasAudio := bValue } else { s with mHasVideo := bValue }

/-- Source function `Renderer::setLiveStream`. -/
def setLiveStream (s : Renderer) (bLiveStream : Bool) : Renderer :=
  { s with mIsLiveStream := bLiveStream }

/-- Value of `buffer->size()`, a `size_t`. -/
def ABuffer.size (env : Env) (buffer : ABuffer) : Nat :=
  buffer.data.length % 2 ^ env.sizeBits

/-- Value of `mNumFramesWritten - numFramesPlayed` in `uint32_t` arithmetic. -/
def numFramesPendingPlayout (env : Env) (s : Renderer) : Nat :=
  (s.mNumFramesWritten % 2 ^ 32 + 2 ^ 32 - env.numFramesPlayed % 2 ^ 32) % 2 ^ 32

/-- Value of `numBytesAvailableToWrite` before the loop of `onDrainAudioQueue`:
`frameCount() - (mNumFramesWritten - numFramesPlayed)` stored in an `ssize_t`,
times `frameSize()`, stored in a `size_t`. -/
def numBytesAvailableToWrite (env : Env) (s : Renderer) : Nat :=
  let numFramesAvailableToWrite : Int :=
    wrapSigned env.sizeBits (env.frameCount - (numFramesPendingPlayout env s : Int))
  ((numFramesAvailableToWrite * env.frameSize) % 2 ^ env.sizeBits).toNat

/-- How one pass through the loop body of `onDrainAudioQueue` ends: the
function returns `b`, or the loop test is evaluated again with `n` bytes of
room left in the sink. -/
inductive Ctl
  | ret (b : Bool) (s : Renderer)
  | next (n : Nat) (s : Renderer)

/-- The renderer state a pass through the loop body ends in. -/
def Ctl.state : Ctl → Renderer
  | .ret _ s => s
  | .next _ s => s

/-- Value of `copy` in the loop body of `onDrainAudioQueue`:
`size() - mOffset`, cut down to the room `n` left in the sink. -/
def copySize (env : Env) (n : Nat) (entry : QueueEntry) (buffer : ABuffer) : Nat :=
  let w := 2 ^ env.sizeBits
  let copy := (buffer.size env + w - entry.mOffset % w) % w
  if copy > n then n else copy

/-- Loop body of `onDrainAudioQueue` from `size_t copy = ...` to its end
(source lines 501-520): write what fits of the head entry to the sink. -/
def audioWrite (env : Env) (n : Nat) (s : Renderer) (entry : QueueEntry)
    (buffer : ABuffer) (rest : List QueueEntry) : Result Ctl :=
  let copy := copySize env n entry buffer
  let s1 := emit s (.sinkWrite ((buffer.data.drop entry.mOffset).take copy))
  if !env.writeOK then .fail .sinkFailed
  else
    let entry1 := { entry with mOffset := (entry.mOffset + copy) % 2 ^ env.sizeBits }
    (if entry1.mOffset = buffer.size env then
        (postConsumed s1 true entry1 none).bind fun s2 =>
          .ok { s2 with mAudioQueue := rest }
      else .ok { s1 with mAudioQueue := entry1 :: rest }).bind fun s3 =>
    let copiedFrames := copy / (env.frameSize % 2 ^ env.sizeBits).toNat
    .ok (.next (n - copy)
      { s3 with mNumFramesWritten := (s3.mNumFramesWritten + copiedFrames % 2 ^ 32) % 2 ^ 32 })

/-- Loop body of `onDrainAudioQueue` from "rendering audio at media time"
(source lines 478-498): re-derive the anchor from the head entry, then write. -/
def audioAnchor (env : Env) (n : Nat) (s : Renderer) (entry : QueueEntry)
    (buffer : ABuffer) (rest : List QueueEntry) (mediaTimeUs : Int) : Result Ctl :=
  let s1 := { s with mAnchorTimeMediaUs := mediaTimeUs, mLastRenderedTimeMediaUs := mediaTimeUs }
  if !env.positionOK then .fail .sinkFailed
  else
    let s2 := { s1 with mRealTimeOffsetUs := env.offsetUs (numFramesPendingPlayout env s1) }
    let s3 := { s2 with mAnchorTimeRealUs := env.nowUs + s2.mRealTimeOffsetUs }
    audioWrite env n s3 entry buffer rest

/-- One pass through the body of the `while` loop of `onDrainAudioQueue`
(source lines 412-520); the loop test has just held. -/
def audioBody (env : Env) (n : Nat) (s : Renderer) : Result Ctl :=
  match s.mAudioQueue with
  | [] => .fail .nullDeref
  | entry :: rest =>
    match entry.mBuffer with
    | none =>
      .ok (.ret false { notifyEOS s true entry.mFinalResult with mAudioQueue := rest })
    | some buffer =>
      if entry.mOffset = 0 then
        match buffer.timeUs with
        | none => .fail .noTimeUs
        | some mediaTimeUs =>
          if s.mIsLiveStream && s.mHasVideo then
            if s.mAnchorTimeRealUs < 0 ∧ s.mAnchorTimeMediaUs ≠ mediaTimeUs then
              .ok (.ret true s)
            else if mediaTimeUs < s.mLastReceivedVideoSampleUs then
              (postConsumed s true entry none).bind fun s1 =>
                .ok (.next n { s1 with mAudioQueue := rest })
            else if (s.mDiscFromAnchorRealTimeRefresh ∨ buffer.disc = some 1)
                ∧ s.mAnchorTimeMediaUs > 0 ∧ s.mAnchorTimeRealUs > 0 then
              let realTimeUs := (mediaTimeUs - s.mAnchorTimeMediaUs) + s.mAnchorTimeRealUs
              let delayUs := realTimeUs - env.nowUs - ((env.latency * 1000 % 2 ^ 32 / 2 : Nat) : Int)
              let s1 := { s with mDiscFromAnchorRealTimeRefresh := false }
              if delayUs > 0 then
                let entry1 := { entry with mBuffer := some { buffer with disc := some 0 } }
                let s2 := { s1 with mAudioQueue := entry1 :: rest,
                                    mAnchorTimeMediaUs := mediaTimeUs,
                                    mAnchorTimeRealUs := realTimeUs }
                .ok (.ret false (postDrainAudioQueue s2 delayUs))
              else audioAnchor env n s1 entry buffer rest mediaTimeUs
            else audioAnchor env n s entry buffer rest mediaTimeUs
          else audioAnchor env n s entry buffer rest mediaTimeUs
      else audioWrite env n s entry buffer rest

/-- End of `onDrainAudioQueue` after the loop: `notifyPosition(); return !mAudioQueue.empty()`. -/
def afterAudioLoop (env : Env) (s : Renderer) : Bool × Renderer :=
  let s1 := notifyPosition env s false
  (!s1.mAudioQueue.isEmpty, s1)

/-- The `while (numBytesAvailableToWrite > 0 && !mAudioQueue.empty())` loop of
`onDrainAudioQueue` followed by the end of the function; the first argument
bounds the number of passes. -/
def audioLoop (env : Env) : Nat → Nat → Renderer → Result (Bool × Renderer)
  | 0, n, s =>
    if n > 0 ∧ !s.mAudioQueue.isEmpty then .fail .outOfFuel
    else .ok (afterAudioLoop env s)
  | fuel + 1, n, s =>
    if n > 0 ∧ !s.mAudioQueue.isEmpty then
      match audioBody env n s with
      | .fail f => .fail f
      | .ok (.ret b s1) => .ok (b, s1)
      | .ok (.next n1 s1) => audioLoop env fuel n1 s1
    else .ok (afterAudioLoop env s)

/-- Source function `Renderer::onDrainAudioQueue` after the first-frame EOS test
(source lines 401-525). -/
def drainAudioSink (env : Env) (s : Renderer) : Result (Bool × Renderer) :=
  if !env.positionOK then .ok (false, s)
  else audioLoop env s.mAudioQueue.length (numBytesAvailableToWrite env s) s

/-- Start-up latency bookkeeping at the top of both drains:
`if (mStartUpLatencyUs == 0 && mStartUpLatencyBeginUs >= 0) mStartUpLatencyUs = now - begin`. -/
def measureStartUpLatency (env : Env) (s : Renderer) : Renderer :=
  if s.mStartUpLatencyUs = 0 ∧ s.mStartUpLatencyBeginUs ≥ 0 then
    { s with mStartUpLatencyUs := env.nowUs - s.mStartUpLatencyBeginUs }
  else s

/-- Source function `Renderer::onDrainAudioQueue` from "Check if first frame is
EOS" on (source lines 385-525). -/
def drainAudioFirst (env : Env) (s : Renderer) : Result (Bool × Renderer) :=
  match s.mAudioQueue with
  | [] => drainAudioSink env s
  | entry :: rest =>
    if (entry :: rest).length = 1 ∧ entry.mBuffer = none then
      .ok (false, { notifyEOS s true entry.mFinalResult with mAudioQueue := rest })
    else drainAudioSink env s

/-- Source function `Renderer::onDrainAudioQueue`. -/
def onDrainAudioQueue (env : Env) (s : Renderer) : Result (Bool × Renderer) :=
  if s.mDelayPending then .ok (false, s)
  else drainAudioFirst env (measureStartUpLatency env s)

/-- Source function `Renderer::onDrainVideoQueue` from `mLastReceivedVideoSampleUs =
mediaTimeUs` to the end of the `if (tooLate) .. else ..` (source lines 616-651):
the lateness of the head frame, the late-frame anchor reset and the decision.
Returns `tooLate` and the updated fields. -/
def videoRenderDecision (env : Env) (s : Renderer) (mediaTimeUs : Int) : Bool × Renderer :=
  let s2 := { s with mLastReceivedVideoSampleUs := mediaTimeUs }
  let realTimeUs := mediaTimeUs - s2.mAnchorTimeMediaUs + s2.mAnchorTimeRealUs
  let nowUs := env.nowUs
  let s3 := { s2 with mVideoLateByUs := nowUs - realTimeUs }
  let tooLate0 : Bool := decide (s3.mVideoLateByUs > s3.mAVSyncDelayWindowUs)
  let reset : Bool :=
    tooLate0 && (!s3.mHasAudio || decide (mediaTimeUs > s3.mAnchorTimeMediaUs))
  let s4 :=
    if reset then
      { s3 with mAnchorTimeMediaUs := mediaTimeUs, mAnchorTimeRealUs := env.nowUs }
    else s3
  let tooLate : Bool := if reset then false else tooLate0
  let s5 :=
    if tooLate then s4
    else { s4 with mLastRenderedTimeMediaUs := mediaTimeUs, mRealTimeOffsetUs := 0 }
  (tooLate, s5)

/-- Source function `Renderer::onDrainVideoQueue` from `if (mVideoQueue.empty())` on
(source lines 593-659). -/
def drainVideoHead (env : Env) (s : Renderer) : Result Renderer :=
  match s.mVideoQueue with
  | [] => .ok s
  | entry :: rest =>
    match entry.mBuffer with
    | none =>
      let s2 := notifyEOS (notifyPosition env s true) false entry.mFinalResult
      .ok { s2 with mVideoQueue := rest, mVideoLateByUs := 0 }
    | some buffer =>
      match buffer.timeUs with
      | none => .fail .noTimeUs
      | some mediaTimeUs =>
        match videoRenderDecision env s mediaTimeUs with
        | (tooLate, s5) =>
          (postConsumed s5 false entry (some (if !tooLate then 1 else 0))).bind fun s6 =>
            .ok (notifyPosition env { s6 with mVideoQueue := rest } false)

/-- Source function `Renderer::onDrainVideoQueue`. -/
def onDrainVideoQueue (env : Env) (s : Renderer) : Result Renderer :=
  if s.mDelayPending then .ok s
  else drainVideoHead env (measureStartUpLatency env s)

/-- Source function `Renderer::dropBufferWhileFlushing`; `notifyConsumed` is
the "notifyConsumed" entry of the message when it has one. -/
def dropBufferWhileFlushing (s : Renderer) (audio : Bool)
    (notifyConsumed : Option Nat) : Bool × Renderer :=
  let flushing := if audio then s.mFlushingAudio else s.mFlushingVideo
  if !flushing then (false, s)
  else
    match notifyConsumed with
    | some cb => (true, emit s (.consumed audio cb none))
    | none => (true, s)

/-- Source function `Renderer::setStartAnchorMediaAndPostDrainQueue`. -/
def setStartAnchorMediaAndPostDrainQueue (s : Renderer) : Result Renderer :=
  match s.mVideoQueue, s.mAudioQueue with
  | ventry :: _, aentry :: _ =>
    match ventry.mBuffer, aentry.mBuffer with
    | some firstVideoBuffer, some firstAudioBuffer =>
      let firstVideoTimeUs : Int := firstVideoBuffer.timeUs.getD (-1)
      let firstAudioTimeUs : Int := firstAudioBuffer.timeUs.getD (-1)
      let s1 :=
        if firstAudioTimeUs ≥ 0 ∧ firstVideoTimeUs ≥ 0 then
          { s with mAnchorTimeMediaUs :=
              if firstAudioTimeUs ≤ firstVideoTimeUs then firstAudioTimeUs else firstVideoTimeUs }
        else if firstAudioTimeUs ≥ 0 then { s with mAnchorTimeMediaUs := firstAudioTimeUs }
        else if firstVideoTimeUs ≥ 0 then { s with mAnchorTimeMediaUs := firstVideoTimeUs }
        else s
      .ok (postDrainAudioQueue { s1 with mDrainVideoQueuePendingUntilFirstAudio := true } 0)
    | _, _ => .fail .nullDeref
  | _, _ => .fail .nullDeref

/-- Tail of `onQueueBuffer` after `postDrainVideoQueue()` (source lines 738-771):
the cross-queue synchronisation step. -/
def syncQueuesStep (env : Env) (s : Renderer) : Result Renderer :=
  if !s.mSyncQueues || s.mAudioQueue.isEmpty || s.mVideoQueue.isEmpty then .ok s
  else
    match s.mAudioQueue, s.mVideoQueue with
    | aentry :: arest, ventry :: _ =>
      match aentry.mBuffer, ventry.mBuffer with
      | some firstAudioBuffer, some firstVideoBuffer =>
        match firstAudioBuffer.timeUs, firstVideoBuffer.timeUs with
        | some firstAudioTimeUs, some firstVideoTimeUs =>
          let diff := firstVideoTimeUs - firstAudioTimeUs
          if diff > 100000 then
            (postConsumed s true aentry none).bind fun s1 =>
              .ok { s1 with mAudioQueue := arest }
          else syncQueuesDone env s
        | _, _ => .fail .noTimeUs
      | _, _ => syncQueuesDone env s
    | _, _ => .ok s

/-- Source function `Renderer::onQueueBuffer` from `if (audio) { mAudioQueue.push_back(entry)`
to its end (source lines 702-771). -/
def enqueueBuffer (env : Env) (s : Renderer) (audio : Bool) (entry : QueueEntry) :
    Result Renderer :=
  if audio then
    let s3 := { s with mAudioQueue := s.mAudioQueue ++ [entry] }
    if s3.mHasVideo && decide (s3.mAnchorTimeMediaUs < 0) then
      if s3.mVideoQueue.length < 2 then .ok s3
      else setStartAnchorMediaAndPostDrainQueue s3
    else .ok (postDrainAudioQueue s3 0)
  else
    let s3 := { s with mVideoQueue := s.mVideoQueue ++ [entry] }
    if s3.mHasAudio && decide (s3.mAnchorTimeMediaUs < 0) then
      if s3.mAudioQueue.length = 0 then .ok s3
      else if s3.mVideoQueue.length < 2 then .ok s3
      else setStartAnchorMediaAndPostDrainQueue s3
    else (postDrainVideoQueue env s3).bind fun s4 => syncQueuesStep env s4

/-- The entry `onQueueBuffer` makes of a buffer and its callback. -/
def bufferEntry (buffer : ABuffer) (notifyConsumed : Nat) : QueueEntry :=
  { mBuffer := some buffer, mNotifyConsumed := some notifyConsumed,
    mOffset := 0, mFinalResult := OK }

/-- The entry `onQueueEOS` makes of a final result. -/
def eosEntry (finalResult : Int) : QueueEntry :=
  { mBuffer := none, mNotifyConsumed := none, mOffset := 0, mFinalResult := finalResult }

/-- Start of `onQueueBuffer`: `if (audio) mHasAudio = true; else mHasVideo = true;`. -/
def markPresent (s : Renderer) (audio : Bool) : Renderer :=
  if audio then { s with mHasAudio := true } else { s with mHasVideo := true }

/-- In `onQueueBuffer`: `if (mStartUpLatencyBeginUs < 0) mStartUpLatencyBeginUs = now`. -/
def beginStartUpLatency (env : Env) (s : Renderer) : Renderer :=
  if s.mStartUpLatencyBeginUs < 0 then { s with mStartUpLatencyBeginUs := env.nowUs } else s

/-- Source function `Renderer::onQueueBuffer`. -/
def onQueueBuffer (env : Env) (s : Renderer) (audio : Bool) (buffer : ABuffer)
    (notifyConsumed : Nat) : Result Renderer :=
  match dropBufferWhileFlushing (markPresent s audio) audio (some notifyConsumed) with
  | (true, s1) => .ok s1
  | (false, s1) =>
    enqueueBuffer env (beginStartUpLatency env s1) audio (bufferEntry buffer notifyConsumed)

/-- Source function `Renderer::onQueueEOS`. -/
def onQueueEOS (env : Env) (s : Renderer) (audio : Bool) (finalResult : Int) :
    Result Renderer :=
  match dropBufferWhileFlushing s audio none with
  | (true, s1) => .ok s1
  | (false, s1) =>
    if audio then
      .ok (postDrainAudioQueue
        { s1 with mAudioQueue := s1.mAudioQueue ++ [eosEntry finalResult] } 0)
    else
      postDrainVideoQueue env { s1 with mVideoQueue := s1.mVideoQueue ++ [eosEntry finalResult] }

/-- The `while (!queue->empty())` loop of `flushQueue`; the list argument is
the content of the queue being flushed. -/
def flushLoop (audio : Bool) : List QueueEntry → Renderer → Result Renderer
  | [], s => .ok s
  | entry :: rest, s =>
    (if entry.mBuffer ≠ none then postConsumed s audio entry none else .ok s).bind fun s1 =>
      flushLoop audio rest (setQueue audio s1 rest)

/-- Source function `Renderer::flushQueue`, applied to the queue of one stream. -/
def flushQueue (audio : Bool) (s : Renderer) : Result Renderer :=
  flushLoop audio (getQueue audio s) s

/-- Source function `Renderer::onFlush`. -/
def onFlush (env : Env) (s : Renderer) (audio : Bool) : Result Renderer :=
  (syncQueuesDone env s).bind fun s1 =>
    if audio then
      (flushQueue true s1).bind fun s2 =>
        .ok (notifyFlushComplete
          { s2 with mFlushingAudio := false, mDrainAudioQueuePending := false,
                    mAudioQueueGeneration := s2.mAudioQueueGeneration + 1 } audio)
    else
      (flushQueue false s1).bind fun s2 =>
        .ok (notifyFlushComplete
          { s2 with mFlushingVideo := false, mDrainVideoQueuePending := false,
                    mVideoQueueGeneration := s2.mVideoQueueGeneration + 1 } audio)

/-- Source function `Renderer::onAudioSinkChanged`. -/
def onAudioSinkChanged (env : Env) (s : Renderer) : Result Renderer :=
  if s.mDrainAudioQueuePending then .fail .checkFailed
  else
    let s1 := { s with mNumFramesWritten := 0 }
    .ok (if env.framesWrittenOK then
           { s1 with mNumFramesWritten := env.framesWritten % 2 ^ 32 }
         else s1)

/-- Source function `Renderer::onPause`. -/
def onPause (s : Renderer) : Result Renderer :=
  if s.mPaused then .fail .checkFailed
  else
    let s1 := { s with mDrainAudioQueuePending := false,
                       mAudioQueueGeneration := s.mAudioQueueGeneration + 1,
                       mDrainVideoQueuePending := false,
                       mVideoQueueGeneration := s.mVideoQueueGeneration + 1 }
    let s2 := if s1.mHasAudio then emit s1 .sinkPause else s1
    .ok { s2 with mPaused := true, mWasPaused := true }

/-- Source function `Renderer::onResume`. -/
def onResume (env : Env) (s : Renderer) : Result Renderer :=
  if !s.mPaused then .ok s
  else
    let s1 := if s.mHasAudio && !s.mDelayPending then emit s .sinkStart else s
    let s2 := { s1 with mPaused := false }
    let s3 := if s2.mIsLiveStream then signalRefreshAnchorRealTime env s2 false else s2
    let s4 := if !s3.mAudioQueue.isEmpty then postDrainAudioQueue s3 0 else s3
    if !s4.mVideoQueue.isEmpty then postDrainVideoQueue env s4 else .ok s4

/-- Source function `Renderer::onDelayQueued`. -/
def onDelayQueued (env : Env) (s : Renderer) : Result Renderer :=
  let s1 := { s with mDelayPending := false }
  let delayToQueueUs := s.mDelayToQueueUs
  let delayToQueueTimeRealUs := s.mDelayToQueueTimeRealUs
  let delayUs := delayToQueueUs - (env.nowUs - delayToQueueTimeRealUs)
  if delayToQueueUs > 0 ∧ delayUs > 0 then .ok (queueDelay env s1 delayUs)
  else
    let s2 := if s1.mHasAudio && !s1.mPaused then emit s1 .sinkStart else s1
    postDrainVideoQueue env (postDrainAudioQueue s2 0)

/-- Source function `Renderer::onMessageReceived`. -/
def onMessageReceived (env : Env) (s : Renderer) (msg : Msg) : Result Renderer :=
  match msg with
  | .drainAudioQueue generation =>
    let s1 := { s with mDrainAudioQueuePending := false }
    if generation ≠ s1.mAudioQueueGeneration then .ok s1
    else
      (onDrainAudioQueue env s1).bind fun (postAudio, s2) =>
        (if s2.mDrainVideoQueuePendingUntilFirstAudio then
            postDrainVideoQueue env { s2 with mDrainVideoQueuePendingUntilFirstAudio := false }
          else .ok s2).bind fun s3 =>
        if postAudio then
          if !env.positionOK then .fail .sinkFailed
          else
            let delayUs := env.playoutUs (numFramesPendingPlayout env s3)
            .ok (postDrainAudioQueue s3 (Int.tdiv delayUs 2))
        else .ok s3
  | .drainVideoQueue generation =>
    let s1 := { s with mDrainVideoQueuePending := false }
    if generation ≠ s1.mVideoQueueGeneration then .ok s1
    else (onDrainVideoQueue env s1).bind fun s2 => postDrainVideoQueue env s2
  | .queueBuffer audio buffer notifyConsumed => onQueueBuffer env s audio buffer notifyConsumed
  | .queueEOS audio finalResult => onQueueEOS env s audio finalResult
  | .flush audio => onFlush env s audio
  | .audioSinkChanged => onAudioSinkChanged env s
  | .pause => onPause s
  | .resume => onResume env s
  | .delayQueued => onDelayQueued env s

/-- What can happen to a renderer: a call of one of its public entry points
from another thread, or its looper handing the message at position `i` of
the mailbox to `onMessageReceived`. -/
inductive Action
  | queueBuffer (audio : Bool) (buffer : ABuffer) (notifyConsumed : Nat)
  | queueEOS (audio : Bool) (finalResult : Int)
  | queueDelay (delayUs : Int)
  | flush (audio : Bool)
  | signalTimeDiscontinuity
  | pause
  | resume
  | signalRefreshAnchorRealTime (bAddStartUpLatency : Bool)
  | signalAudioSinkChanged
  | notifySeekPosition (seekTime : Int)
  | setMediaPresence (audio : Bool) (bValue : Bool)
  | setLiveStream (bLiveStream : Bool)
  | deliver (i : Nat)

/-- One action on the renderer. -/
def step (env : Env) (s : Renderer) : Action → Result Renderer
  | .queueBuffer audio buffer notifyConsumed => .ok (queueBuffer s audio buffer notifyConsumed)
  | .queueEOS audio finalResult => queueEOS env s audio finalResult
  | .queueDelay delayUs => .ok (queueDelay env s delayUs)
  | .flush audio => flush s audio
  | .signalTimeDiscontinuity => signalTimeDiscontinuity s
  | .pause => .ok (pause s)
  | .resume => .ok (resume s)
  | .signalRefreshAnchorRealTime b => .ok (signalRefreshAnchorRealTime env s b)
  | .signalAudioSinkChanged => .ok (signalAudioSinkChanged s)
  | .notifySeekPosition seekTime => .ok (notifySeekPosition env s seekTime)
  | .setMediaPresence audio bValue => .ok (setMediaPresence s audio bValue)
  | .setLiveStream b => .ok (setLiveStream s b)
  | .deliver i =>
    match s.mailbox[i]? with
    | none => .fail .noMessage
    | some (msg, _) => onMessageReceived env { s with mailbox := s.mailbox.eraseIdx i } msg

/-- A sequence of actions, each with the readings of its environment. -/
def run : Renderer → List (Env × Action) → Result Renderer
  | s, [] => .ok s
  | s, (env, a) :: rest => (step env s a).bind fun s1 => run s1 rest

/-! ## Vocabulary of the properties -/

/-- The flushing flag of one stream (`mFlushingAudio` / `mFlushingVideo`). -/
def flushingFlag (audio : Bool) (s : Renderer) : Bool :=
  if audio then s.mFlushingAudio else s.mFlushingVideo

/-- The generation counter of one stream. -/
def queueGeneration (audio : Bool) (s : Renderer) : Int :=
  if audio then s.mAudioQueueGeneration else s.mVideoQueueGeneration

/-- The drain-pending flag of one stream. -/
def drainPending (audio : Bool) (s : Renderer) : Bool :=
  if audio then s.mDrainAudioQueuePending else s.mDrainVideoQueuePending

/-- The callback identity of a trace element that is a posted callback of the
given stream. -/
def consumedOf (audio : Bool) : Out → Option Nat
  | .consumed a cb _ => if a = audio then some cb else none
  | _ => none

/-- Callbacks posted so far for one stream, oldest first. -/
def postedCallbacks (audio : Bool) (s : Renderer) : List Nat :=
  s.out.filterMap (consumedOf audio)

/-- The callback a queue entry still owes: that of a payload entry. -/
def owedCallback (e : QueueEntry) : Option Nat :=
  if e.mBuffer ≠ none then e.mNotifyConsumed else none

/-- Callbacks owed by the entries waiting in the queue of one stream. -/
def pendingCallbacks (audio : Bool) (s : Renderer) : List Nat :=
  (getQueue audio s).filterMap owedCallback

/-- What identifies a queue entry while it waits: payload bytes and time
stamp, callback and final result.  The write offset and the "disc" mark,
which the audio drain updates in place, are not part of it. -/
structure EntryKey where
  payload : Option (List Nat × Option Int)
  notifyConsumed : Option Nat
  finalResult : Int
deriving DecidableEq, Repr

/-- Identity of a queue entry. -/
def entryKey (e : QueueEntry) : EntryKey :=
  { payload := e.mBuffer.map fun b => (b.data, b.timeUs)
    notifyConsumed := e.mNotifyConsumed
    finalResult := e.mFinalResult }

/-- Identities of the entries waiting in the queue of one stream. -/
def queueKeys (audio : Bool) (s : Renderer) : List EntryKey :=
  (getQueue audio s).map entryKey

/-- The callback owed by an entry, read off its identity. -/
def keyCallback (k : EntryKey) : Option Nat :=
  if k.payload ≠ none then k.notifyConsumed else none

/-- Final results carried by the `kWhatQueueEOS` messages in the mailbox. -/
def eosResult (m : Msg × Int) : Option Int :=
  match m.1 with
  | .queueEOS _ finalResult => some finalResult
  | _ => none

/-- Final results of all EOS messages waiting in the mailbox. -/
def eosResults (s : Renderer) : List Int :=
  s.mailbox.filterMap eosResult

/-- The part of the state the queue properties are about. -/
structure QView where
  aq : List QueueEntry
  vq : List QueueEntry
  pa : List Nat
  pv : List Nat
  eos : List Int
  fa : Bool
  fv : Bool

/-- Queues, posted callbacks, waiting EOS results and flushing flags of a
renderer. -/
def Renderer.view (s : Renderer) : QView :=
  { aq := s.mAudioQueue, vq := s.mVideoQueue,
    pa := postedCallbacks true s, pv := postedCallbacks false s,
    eos := eosResults s, fa := s.mFlushingAudio, fv := s.mFlushingVideo }

/-- The queue of one stream in a view. -/
def QView.queue (audio : Bool) (v : QView) : List QueueEntry :=
  if audio then v.aq else v.vq

/-- The callbacks posted for one stream in a view. -/
def QView.posted (audio : Bool) (v : QView) : List Nat :=
  if audio then v.pa else v.pv

/-- The flushing flag of one stream in a view. -/
def QView.flushing (audio : Bool) (v : QView) : Bool :=
  if audio then v.fa else v.fv

/-- The view after an entry is appended to the queue of a stream. -/
def QView.push (audio : Bool) (e : QueueEntry) (v : QView) : QView :=
  if audio then { v with aq := v.aq ++ [e] } else { v with vq := v.vq ++ [e] }

/-- The view after the flushing flag of a stream is given a value. -/
def QView.setFlushing (audio : Bool) (b : Bool) (v : QView) : QView :=
  if audio then { v with fa := b } else { v with fv := b }

/-- The view after a callback of a stream is posted without being queued. -/
def QView.reject (audio : Bool) (cb : Nat) (v : QView) : QView :=
  if audio then { v with pa := v.pa ++ [cb] } else { v with pv := v.pv ++ [cb] }

/-- Removal of entries from the heads of the queues, each payload entry
posting its callback, and in-place updates of a head entry that keep its
identity: what the drains and the flush do to the queues. -/
inductive Pops : QView → QView → Prop
  | refl (v : QView) : Pops v v
  | payloadA {v v1 : QView} {e : QueueEntry} {rest : List QueueEntry} {cb : Nat} :
      Pops v v1 → v1.aq = e :: rest → e.mBuffer ≠ none → e.mNotifyConsumed = some cb →
      Pops v { v1 with aq := rest, pa := v1.pa ++ [cb] }
  | payloadV {v v1 : QView} {e : QueueEntry} {rest : List QueueEntry} {cb : Nat} :
      Pops v v1 → v1.vq = e :: rest → e.mBuffer ≠ none → e.mNotifyConsumed = some cb →
      Pops v { v1 with vq := rest, pv := v1.pv ++ [cb] }
  | eosA {v v1 : QView} {e : QueueEntry} {rest : List QueueEntry} :
      Pops v v1 → v1.aq = e :: rest → e.mBuffer = none →
      Pops v { v1 with aq := rest }
  | eosV {v v1 : QView} {e : QueueEntry} {rest : List QueueEntry} :
      Pops v v1 → v1.vq = e :: rest → e.mBuffer = none →
      Pops v { v1 with vq := rest }
  | touchA {v v1 : QView} {e e1 : QueueEntry} {rest : List QueueEntry} :
      Pops v v1 → v1.aq = e :: rest → entryKey e1 = entryKey e →
      Pops v { v1 with aq := e1 :: rest }

/-- The view once a message has been taken in: a buffer or EOS marker is
appended to its queue, or, when the stream is flushing, the callback of the
buffer is posted at once; a flush message clears the flushing flag of its
stream; other messages take nothing in. -/
def ingest (s : Renderer) : Msg → QView
  | .queueBuffer audio buffer cb =>
    if flushingFlag audio s then s.view.reject audio cb
    else s.view.push audio (bufferEntry buffer cb)
  | .queueEOS audio finalResult =>
    if flushingFlag audio s then s.view else s.view.push audio (eosEntry finalResult)
  | .flush audio => s.view.setFlushing audio false
  | _ => s.view

/-- The view once an action has taken in what it brings: the message it
delivers, the EOS message it posts, or the flushing flag it sets. -/
def stepIngest (s : Renderer) : Action → QView
  | .deliver i =>
    match s.mailbox[i]? with
    | some (msg, _) => ingest { s with mailbox := s.mailbox.eraseIdx i } msg
    | none => s.view
  | .queueEOS _ finalResult => { s.view with eos := s.view.eos ++ [finalResult] }
  | .flush audio => s.view.setFlushing audio true
  | _ => s.view

/-- Stream presence, live mode, sync window, stall and pause state: fields the
drains and the posting of drain messages read and never write. -/
structure Settings where
  hasAudio : Bool
  hasVideo : Bool
  live : Bool
  window : Int
  delayPending : Bool
  delayToQueueUs : Int
  delayToQueueTimeRealUs : Int
  paused : Bool
deriving DecidableEq

/-- The settings of a renderer. -/
def Renderer.settings (s : Renderer) : Settings :=
  { hasAudio := s.mHasAudio, hasVideo := s.mHasVideo, live := s.mIsLiveStream,
    window := s.mAVSyncDelayWindowUs, delayPending := s.mDelayPending,
    delayToQueueUs := s.mDelayToQueueUs,
    delayToQueueTimeRealUs := s.mDelayToQueueTimeRealUs, paused := s.mPaused }

/-- Fields that posting drain messages leaves alone. -/
structure Stable (s s1 : Renderer) : Prop where
  aq : s1.mAudioQueue = s.mAudioQueue
  vq : s1.mVideoQueue = s.mVideoQueue
  out : s1.out = s.out
  genA : s1.mAudioQueueGeneration = s.mAudioQueueGeneration
  genV : s1.mVideoQueueGeneration = s.mVideoQueueGeneration
  flushA : s1.mFlushingAudio = s.mFlushingAudio
  flushV : s1.mFlushingVideo = s.mFlushingVideo
  eos : eosResults s1 = eosResults s
  settings : s1.settings = s.settings
  lastPos : s1.mLastPositionUpdateUs = s.mLastPositionUpdateUs

/-- The `kWhatQueueBuffer` message an action hands to the handler: its stream
and callback. -/
def deliveredBuffer (s : Renderer) : Action → Option (Bool × Nat)
  | .deliver i =>
    match s.mailbox[i]? with
    | some (.queueBuffer audio _ cb, _) => some (audio, cb)
    | _ => none
  | _ => none

/-- The callback of the buffer an action queues on the given stream, as a
list of at most one element. -/
def queuedNow (audio : Bool) (s : Renderer) (a : Action) : List Nat :=
  match deliveredBuffer s a with
  | some (au, cb) => if au = audio then [cb] else []
  | none => []

/-- Callbacks of the `kWhatQueueBuffer` messages of one stream handled along
a run, in the order they were handled. -/
def queuedCallbacks (audio : Bool) : Renderer → List (Env × Action) → List Nat
  | _, [] => []
  | s, (env, a) :: rest =>
    queuedNow audio s a ++
      (match step env s a with
       | .ok s1 => queuedCallbacks audio s1 rest
       | .fail _ => [])

/-- Along the run, no `kWhatQueueBuffer` message of the stream is handled
while the flushing flag of the stream is set. -/
def notFlushingWhenQueued (audio : Bool) : Renderer → List (Env × Action) → Bool
  | _, [] => true
  | s, (env, a) :: rest =>
    (queuedNow audio s a == [] || !flushingFlag audio s) &&
      (match step env s a with
       | .ok s1 => notFlushingWhenQueued audio s1 rest
       | .fail _ => true)

/-- The action hands the `kWhatFlush` message of the stream to the handler. -/
def deliversFlush (audio : Bool) (s : Renderer) : Action → Bool
  | .deliver i =>
    match s.mailbox[i]? with
    | some (.flush au, _) => au == audio
    | _ => false
  | _ => false

/-- Along the run, the `kWhatFlush` message of the stream is not handled. -/
def noFlushDelivered (audio : Bool) : Renderer → List (Env × Action) → Bool
  | _, [] => true
  | s, (env, a) :: rest =>
    !deliversFlush audio s a &&
      (match step env s a with
       | .ok s1 => noFlushDelivered audio s1 rest
       | .fail _ => true)

/-- The final result of a queue entry fits its kind: not `OK` on an EOS marker
(an entry without payload), `OK` on a payload entry. -/
def entryResultOK (e : QueueEntry) : Prop :=
  (e.mBuffer = none → e.mFinalResult ≠ OK) ∧ (e.mBuffer ≠ none → e.mFinalResult = OK)

/-- Every queue entry has a fitting final result and no EOS message waiting in
the mailbox carries `OK`. -/
def ResultsWellFormed (v : QView) : Prop :=
  (∀ e ∈ v.aq, entryResultOK e) ∧ (∀ e ∈ v.vq, entryResultOK e) ∧ ∀ r ∈ v.eos, r ≠ OK

/-- No entry but the last is an EOS marker (an entry without payload). -/
def eosLast : List EntryKey → Bool
  | [] => true
  | [_] => true
  | k :: k1 :: rest => k.payload.isSome && eosLast (k1 :: rest)

/-- No entry is an EOS marker. -/
def noMarker (ks : List EntryKey) : Bool :=
  ks.all fun k => k.payload.isSome

/-- The entry an action appends to the queue of the given stream, as a list of
at most one element: that of a `kWhatQueueBuffer` or `kWhatQueueEOS` message of
the stream handled while the stream is not flushing. -/
def pushedNow (audio : Bool) (s : Renderer) : Action → List QueueEntry
  | .deliver i =>
    match s.mailbox[i]? with
    | some (.queueBuffer au buffer cb, _) =>
      if au == audio && !flushingFlag audio s then [bufferEntry buffer cb] else []
    | some (.queueEOS au finalResult, _) =>
      if au == audio && !flushingFlag audio s then [eosEntry finalResult] else []
    | _ => []
  | _ => []

/-- Along the run, nothing is appended to the queue of the stream while that
queue holds an EOS marker. -/
def noIngestBehindEOS (audio : Bool) : Renderer → List (Env × Action) → Bool
  | _, [] => true
  | s, (env, a) :: rest =>
    ((pushedNow audio s a).isEmpty || noMarker (queueKeys audio s)) &&
      (match step env s a with
       | .ok s1 => noIngestBehindEOS audio s1 rest
       | .fail _ => true)

/-- The trace elements `flushQueue` produces for a queue content. -/
def flushEvents (audio : Bool) (q : List QueueEntry) : List Out :=
  q.filterMap fun e =>
    if e.mBuffer ≠ none then e.mNotifyConsumed.map fun cb => Out.consumed audio cb none
    else none

/-- Every payload entry of the queue has a callback to post. -/
def callbacksPresent (q : List QueueEntry) : Prop :=
  ∀ e ∈ q, e.mBuffer ≠ none → e.mNotifyConsumed ≠ none

/-- The head of the video queue, when it has a payload, carries a time stamp. -/
def videoHeadTimed (s : Renderer) : Prop :=
  ∀ e b, s.mVideoQueue.head? = some e → e.mBuffer = some b → b.timeUs ≠ none

/-- States reached from a freshly constructed renderer by a run all of whose
actions return. -/
def Reachable (s : Renderer) : Prop :=
  ∃ (msec : Option Int) (u1 u2 : Int) (acts : List (Env × Action)),
    run (Renderer.new msec u1 u2) acts = .ok s

/-! ## Sample data for the worked examples -/

/-- A sink with room for four frames of two bytes, nothing played yet. -/
def sampleEnv : Env :=
  { nowUs := 1000, positionOK := true, numFramesPlayed := 0, frameCount := 4, frameSize := 2,
    latency := 0, writeOK := true, framesWrittenOK := true, framesWritten := 0,
    playoutUs := fun pending => 10000 * pending, offsetUs := fun _ => 0, sizeBits := 32 }

/-- The same sink once the four frames written so far have been played. -/
def sampleEnvPlayed : Env := { sampleEnv with nowUs := 50000, numFramesPlayed := 4 }

/-- A six-byte buffer with time stamp 10. -/
def sampleBuffer1 : ABuffer := { data := [1, 2, 3, 4, 5, 6], timeUs := some 10, disc := none }

/-- A four-byte buffer with time stamp 20. -/
def sampleBuffer2 : ABuffer := { data := [7, 8, 9, 10], timeUs := some 20, disc := none }

/-- A two-byte buffer with time stamp 30. -/
def sampleBuffer3 : ABuffer := { data := [11, 12], timeUs := some 30, disc := none }

/-- A freshly constructed renderer. -/
def sampleStart : Renderer := Renderer.new none 0 0

/-- The state a run ends in, or the given state when the run aborts. -/
def runFrom (s : Renderer) (acts : List (Env × Action)) : Renderer :=
  match run s acts with
  | .ok s1 => s1
  | .fail _ => s

/-- The renderer after two audio buffers were queued and one pass of the audio
drain has filled the sink: the second buffer waits in the queue, two of its
four bytes written, and the next pass is scheduled for later. -/
def sampleHalfDrained : Renderer :=
  runFrom sampleStart
    [ (sampleEnv, .queueBuffer true sampleBuffer1 1),
      (sampleEnv, .queueBuffer true sampleBuffer2 2),
      (sampleEnv, .deliver 0),
      (sampleEnv, .deliver 0),
      (sampleEnv, .deliver 0) ]

/-- The renderer of `sampleHalfDrained` after `flush(audio)` was called. -/
def sampleFlushing : Renderer := runFrom sampleHalfDrained [(sampleEnv, .flush true)]

/-- The renderer of `sampleFlushing` after its flush message was handled, a
third audio buffer was queued and one pass of the audio drain found the sink
still full: the drain message of generation 0 scheduled before the flush and
the drain message of generation 1 scheduled after it both wait in the mailbox. -/
def sampleStaleDrain : Renderer :=
  runFrom sampleFlushing
    [ (sampleEnv, .deliver 1),
      (sampleEnv, .queueBuffer true sampleBuffer3 3),
      (sampleEnv, .deliver 1),
      (sampleEnv, .deliver 1) ]

/-- Value of `ERROR_END_OF_STREAM` (`status_t`). -/
def ERROR_END_OF_STREAM : Int := -1011

/-- The producer calls `queueEOS(audio)` and then `queueBuffer(audio)`, with no
flush in between; the looper then handles the two messages in that order. -/
def sampleBufferAfterEOS : List (Env × Action) :=
  [ (sampleEnv, .queueEOS true ERROR_END_OF_STREAM),
    (sampleEnv, .queueBuffer true sampleBuffer1 1),
    (sampleEnv, .deliver 0),
    (sampleEnv, .deliver 0) ]

/-- A video buffer with time stamp 10. -/
def sampleVideo1 : ABuffer := { data := [1], timeUs := some 10, disc := none }

/-- A video buffer with time stamp 20. -/
def sampleVideo2 : ABuffer := { data := [2], timeUs := some 20, disc := none }

/-- An audio buffer with time stamp -5. -/
def sampleAudioEarly : ABuffer := { data := [3, 4], timeUs := some (-5), disc := none }

/-- Both streams are declared present, two video buffers are queued and
handled; the renderer has no anchor yet and waits for audio. -/
def sampleAwaitingAudio : Renderer :=
  runFrom sampleStart
    [ (sampleEnv, .setMediaPresence true true),
      (sampleEnv, .setMediaPresence false true),
      (sampleEnv, .queueBuffer false sampleVideo1 1),
      (sampleEnv, .queueBuffer false sampleVideo2 2),
      (sampleEnv, .deliver 0),
      (sampleEnv, .deliver 0) ]

/-- The producer queues an audio buffer and then the EOS marker; the looper
handles the two messages in that order. -/
def sampleEOSAfterBuffer : List (Env × Action) :=
  [ (sampleEnv, .queueBuffer true sampleBuffer1 1),
    (sampleEnv, .queueEOS true ERROR_END_OF_STREAM),
    (sampleEnv, .deliver 0),
    (sampleEnv, .deliver 0) ]

/-- Two audio buffers are queued; one pass of the audio drain fills the sink
with the first buffer and the first two bytes of the second and schedules the
next pass for later; the stream is then flushed. -/
def sampleDrainThenFlush : List (Env × Action) :=
  [ (sampleEnv, .queueBuffer true sampleBuffer1 1),
    (sampleEnv, .queueBuffer true sampleBuffer2 2),
    (sampleEnv, .deliver 0),
    (sampleEnv, .deliver 0),
    (sampleEnv, .deliver 0),
    (sampleEnv, .flush true),
    (sampleEnv, .deliver 1) ]

/-! ## Vocabulary of the timing properties -/

/-- Wall-clock time at which a sample with the given media time is due under
the current anchor: `(mediaTimeUs - mAnchorTimeMediaUs) + mAnchorTimeRealUs`. -/
def realTimeOf (s : Renderer) (mediaTimeUs : Int) : Int :=
  (mediaTimeUs - s.mAnchorTimeMediaUs) + s.mAnchorTimeRealUs

/-- The test at the top of `postDrainVideoQueue` under which it returns at once. -/
def videoDrainGated (s : Renderer) : Bool :=
  s.mDelayPending || s.mDrainVideoQueuePending || s.mSyncQueues || s.mPaused
    || s.mDrainVideoQueuePendingUntilFirstAudio

/-- The test at the top of `postDrainAudioQueue` under which it returns at once. -/
def audioDrainGated (s : Renderer) : Bool :=
  s.mDelayPending || s.mDrainAudioQueuePending || s.mSyncQueues || s.mPaused

/-- The test in `onQueueBuffer` under which a buffer of the stream is only
appended: the other stream is present and no anchor media time is set. -/
def startGated (audio : Bool) (s : Renderer) : Bool :=
  (if audio then s.mHasVideo else s.mHasAudio) && decide (s.mAnchorTimeMediaUs < 0)

/-- The state of `onResume` on a paused renderer when it comes to posting the
drains (source lines 999-1008): the sink started, the pause flag cleared, the
anchor refreshed on a live stream. -/
def resumedState (env : Env) (s : Renderer) : Renderer :=
  let s1 := if s.mHasAudio && !s.mDelayPending then emit s .sinkStart else s
  let s2 := { s1 with mPaused := false }
  if s2.mIsLiveStream then signalRefreshAnchorRealTime env s2 false else s2

/-- The state `onPause` leaves when its `CHECK` holds (source lines 966-991). -/
def pausedState (s : Renderer) : Renderer :=
  let s1 := { s with mDrainAudioQueuePending := false,
                     mAudioQueueGeneration := s.mAudioQueueGeneration + 1,
                     mDrainVideoQueuePending := false,
                     mVideoQueueGeneration := s.mVideoQueueGeneration + 1 }
  let s2 := if s1.mHasAudio then emit s1 .sinkPause else s1
  { s2 with mPaused := true, mWasPaused := true }

/-- What `pausedState` changes. -/
structure PauseEffect (s s1 : Renderer) : Prop where
  genA : s1.mAudioQueueGeneration = s.mAudioQueueGeneration + 1
  genV : s1.mVideoQueueGeneration = s.mVideoQueueGeneration + 1
  out : s1.out = s.out ++ (if s.mHasAudio then [.sinkPause] else [])
  aq : s1.mAudioQueue = s.mAudioQueue
  vq : s1.mVideoQueue = s.mVideoQueue
  paused : s1.mPaused = true
  pendA : s1.mDrainAudioQueuePending = false
  pendV : s1.mDrainVideoQueuePending = false
  hasA : s1.mHasAudio = s.mHasAudio
  delay : s1.mDelayPending = s.mDelayPending
  mailbox : s1.mailbox = s.mailbox

/-- What `resumedState` changes. -/
structure ResumeEffect (s s1 : Renderer) : Prop where
  genA : s1.mAudioQueueGeneration = s.mAudioQueueGeneration
  genV : s1.mVideoQueueGeneration = s.mVideoQueueGeneration
  out : s1.out = s.out ++ (if s.mHasAudio && !s.mDelayPending then [.sinkStart] else [])
  aq : s1.mAudioQueue = s.mAudioQueue
  vq : s1.mVideoQueue = s.mVideoQueue
  paused : s1.mPaused = false
  pendA : s1.mDrainAudioQueuePending = s.mDrainAudioQueuePending
  pendV : s1.mDrainVideoQueuePending = s.mDrainVideoQueuePending
  mailbox : s1.mailbox = s.mailbox

/-- Whether a trace element is a position notification. -/
def isPosition : Out → Bool
  | .position _ _ => true
  | _ => false

/-- The position notifications posted so far, oldest first. -/
def positionEvents (s : Renderer) : List Out :=
  s.out.filter isPosition

/-- The test of `notifyPosition` under which a notification without the EOS
mark goes out at wall time `now`: none was recorded before, or the recorded
one is at least `kMinPositionUpdateDelayUs` old. -/
def rateOK (now : Int) (s : Renderer) : Prop :=
  s.mLastPositionUpdateUs < 0 ∨ now ≥ s.mLastPositionUpdateUs + kMinPositionUpdateDelayUs

/-- The settings are kept, no position notification is posted and the
recorded time of the last one is kept. -/
structure Quiet (s s1 : Renderer) : Prop where
  settings : s1.settings = s.settings
  positions : positionEvents s1 = positionEvents s
  lastPos : s1.mLastPositionUpdateUs = s.mLastPositionUpdateUs

/-- The settings are kept and at most one position notification is posted; if
one is posted, its wall time `now` is recorded and, when `limited`, the test
`rateOK` held. -/
structure Noted (limited : Bool) (now : Int) (s s1 : Renderer) : Prop where
  settings : s1.settings = s.settings
  pos : (positionEvents s1 = positionEvents s ∧
          s1.mLastPositionUpdateUs = s.mLastPositionUpdateUs) ∨
        ((∃ p l, positionEvents s1 = positionEvents s ++ [.position p l]) ∧
          s1.mLastPositionUpdateUs = now ∧ (limited = true → rateOK now s))

/-- No position notification is posted, the recorded time of the last one is
kept and has-audio is kept. -/
structure Silent (s s1 : Renderer) : Prop where
  positions : positionEvents s1 = positionEvents s
  lastPos : s1.mLastPositionUpdateUs = s.mLastPositionUpdateUs
  hasAudio : s1.mHasAudio = s.mHasAudio

/-- At most one position notification is posted; if one is posted, its wall
time `now` is recorded and, when `limited`, the test `rateOK` held. -/
def PosStep (limited : Bool) (now : Int) (s s1 : Renderer) : Prop :=
  (positionEvents s1 = positionEvents s ∧
    s1.mLastPositionUpdateUs = s.mLastPositionUpdateUs) ∨
  ((∃ p l, positionEvents s1 = positionEvents s ++ [.position p l]) ∧
    s1.mLastPositionUpdateUs = now ∧ (limited = true → rateOK now s))

/-- The head of the video queue is an EOS marker. -/
def videoHeadEOS (s : Renderer) : Bool :=
  match s.mVideoQueue with
  | e :: _ => e.mBuffer.isNone
  | [] => false

/-- The actions whose position notification is not subject to the rate limit:
`notifySeekPosition`, and the handling of a video drain message that finds an
EOS marker at the head of the video queue (`notifyPosition(true)`). -/
def unlimited (s : Renderer) : Action → Bool
  | .notifySeekPosition _ => true
  | .deliver i =>
    match s.mailbox[i]? with
    | some (.drainVideoQueue _, _) => videoHeadEOS s
    | _ => false
  | _ => false

/-- The actions that can set has-audio: `setMediaPresence(audio, true)` and the
handling of a `kWhatQueueBuffer` message of the audio stream. -/
def setsAudioPresence (s : Renderer) : Action → Bool
  | .setMediaPresence audio bValue => audio && bValue
  | .deliver i =>
    match s.mailbox[i]? with
    | some (.queueBuffer audio _ _, _) => audio
    | _ => false
  | _ => false

/-- Along the run, no action can set has-audio. -/
def noAudioPresence : Renderer → List (Env × Action) → Bool
  | _, [] => true
  | s, (env, a) :: rest =>
    !setsAudioPresence s a &&
      (match step env s a with
       | .ok s1 => noAudioPresence s1 rest
       | .fail _ => true)

/-- The callback and "render" field of a trace element that is a posted
callback of the video stream. -/
def renderOf : Out → Option (Nat × Option Int)
  | .consumed audio cb render => if audio then none else some (cb, render)
  | _ => none

/-- The callbacks posted for the video stream so far with the render decision
written into each, oldest first. -/
def renderDecisions (s : Renderer) : List (Nat × Option Int) :=
  s.out.filterMap renderOf

/-- The bytes of a queue entry not yet written to the sink: its payload from
`mOffset` on. -/
def entryRemaining (e : QueueEntry) : List Nat :=
  match e.mBuffer with
  | some b => b.data.drop e.mOffset
  | none => []

/-- The bytes of a queue not yet written to the sink, in queue order. -/
def queueRemaining : List QueueEntry → List Nat
  | [] => []
  | e :: rest => entryRemaining e ++ queueRemaining rest

/-- The bytes a trace element hands to `mAudioSink->write`. -/
def writtenOf : Out → List Nat
  | .sinkWrite bytes => bytes
  | _ => []

/-- All bytes written to the sink along a trace, in the order written. -/
def bytesOf : List Out → List Nat
  | [] => []
  | o :: rest => writtenOf o ++ bytesOf rest

/-- An audio entry the drain can write: a payload with a time stamp and a
callback, its size within a `size_t` of `w` bits, and bytes left to write. -/
def audioEntryOK (w : Nat) (e : QueueEntry) : Prop :=
  ∃ b cb t, e.mBuffer = some b ∧ e.mNotifyConsumed = some cb ∧ b.timeUs = some t ∧
    b.data.length < 2 ^ w ∧ e.mOffset < b.data.length

/-- The live-stream guards of the audio drain do not apply. -/
def nonLive (s : Renderer) : Prop :=
  (s.mIsLiveStream && s.mHasVideo) = false

/-- The audio drain called once for each of the given sink readings. -/
def drainAudioRepeatedly : Renderer → List Env → Result Renderer
  | s, [] => .ok s
  | s, env :: rest => (onDrainAudioQueue env s).bind fun r => drainAudioRepeatedly r.2 rest

/-! ## Sample data for the timing examples -/

/-- A freshly constructed renderer with both streams declared present. -/
def sampleBothPresent : Renderer :=
  runFrom sampleStart
    [ (sampleEnv, .setMediaPresence true true),
      (sampleEnv, .setMediaPresence false true) ]

/-- A video-only renderer whose first frame (time stamp 10) was rendered at
wall time 1000, which is its anchor; the frame with time stamp 20 is queued. -/
def sampleVideoAnchored : Renderer :=
  runFrom sampleStart
    [ (sampleEnv, .queueBuffer false sampleVideo1 1),
      (sampleEnv, .deliver 0),
      (sampleEnv, .deliver 0),
      (sampleEnv, .queueBuffer false sampleVideo2 2),
      (sampleEnv, .deliver 0) ]

/-- The sample sink read at wall time `t`. -/
def sampleEnvAt (t : Int) : Env := { sampleEnv with nowUs := t }

/-- A video-only renderer whose first frame (time stamp 10) was rendered at
wall time 1000, which is its anchor; the video queue is empty again. -/
def sampleVideoRendered : Renderer :=
  runFrom sampleStart
    [ (sampleEnv, .queueBuffer false sampleVideo1 1),
      (sampleEnv, .deliver 0),
      (sampleEnv, .deliver 0) ]

/-- The renderer of `sampleVideoRendered` with the frame of time stamp 20
appended to the video queue: the state in which `onQueueBuffer` calls
`postDrainVideoQueue`. -/
def sampleVideoDue : Renderer :=
  { sampleVideoRendered with mVideoQueue := [bufferEntry sampleVideo2 2] }

/-- A fresh renderer with the frame of time stamp 10 appended to the video
queue: the state in which `onQueueBuffer` calls `postDrainVideoQueue` for the
first frame. -/
def sampleVideoFirst : Renderer :=
  { sampleStart with mVideoQueue := [bufferEntry sampleVideo1 1], mHasVideo := true }

/-- A time discontinuity, then an audio buffer (time stamp 10) is queued and
written to the sink at wall time 1000, which anchors media time 10 there; then
the first video frame (time stamp 10) is queued and its drain message, posted
with delay 0, is handled at wall time 50000. -/
def sampleLateFirstFrame : List (Env × Action) :=
  [ (sampleEnv, .signalTimeDiscontinuity),
    (sampleEnv, .queueBuffer true sampleBuffer1 1),
    (sampleEnv, .deliver 0),
    (sampleEnv, .deliver 0),
    (sampleEnv, .queueBuffer false sampleVideo1 2),
    (sampleEnv, .deliver 0),
    (sampleEnvPlayed, .deliver 0) ]

/-- A time discontinuity, then a video frame and an audio buffer (both time
stamp 10) are queued; the video message is handled first and anchors media
time 10 at wall time 1000, then the audio message; the video drain message,
posted with delay 0, is still waiting. -/
def sampleVideoThenAudioQueued : List (Env × Action) :=
  [ (sampleEnv, .signalTimeDiscontinuity),
    (sampleEnv, .queueBuffer false sampleVideo1 1),
    (sampleEnv, .queueBuffer true sampleBuffer1 2),
    (sampleEnv, .deliver 0),
    (sampleEnv, .deliver 0) ]

/-- A video frame (time stamp 10) is queued; its message is handled and
anchors media time 10 at wall time 1000; the video drain message is still
waiting. -/
def sampleVideoOnlyQueued : List (Env × Action) :=
  [ (sampleEnv, .queueBuffer false sampleVideo1 1),
    (sampleEnv, .deliver 0) ]

/-- A video frame (time stamp 10) and the EOS marker are queued on a
video-only renderer; the frame is rendered at wall time 1000, which posts a
position notification, and the drain message for the marker is waiting. -/
def sampleVideoBeforeEOS : Renderer :=
  runFrom sampleStart
    [ (sampleEnv, .queueBuffer false sampleVideo1 1),
      (sampleEnv, .queueEOS false ERROR_END_OF_STREAM),
      (sampleEnv, .deliver 0),
      (sampleEnv, .deliver 0),
      (sampleEnv, .deliver 0) ]

/-- A video frame with time stamp -3. -/
def sampleVideoNeg1 : ABuffer := { data := [1], timeUs := some (-3), disc := none }

/-- A video frame with time stamp -2. -/
def sampleVideoNeg2 : ABuffer := { data := [2], timeUs := some (-2), disc := none }

/-- Both streams are declared present and the two video frames with negative
time stamps are queued and handled; the renderer has no anchor and waits for
audio. -/
def sampleAwaitingAudioNeg : Renderer :=
  runFrom sampleBothPresent
    [ (sampleEnv, .queueBuffer false sampleVideoNeg1 1),
      (sampleEnv, .queueBuffer false sampleVideoNeg2 2),
      (sampleEnv, .deliver 0),
      (sampleEnv, .deliver 0) ]

/-- An audio buffer with time stamp 1000000. -/
def sampleAudioStart : ABuffer := { data := [1, 2], timeUs := some 1000000, disc := none }

/-- A video frame with time stamp 1000000. -/
def sampleVideoStart1 : ABuffer := { data := [1], timeUs := some 1000000, disc := none }

/-- A video frame with time stamp 1033000. -/
def sampleVideoStart2 : ABuffer := { data := [2], timeUs := some 1033000, disc := none }

/-- Both streams are declared present; the first audio buffer and the first
video frame, both with time stamp 1000000, are queued and handled. -/
def sampleOneEach : Renderer :=
  runFrom sampleBothPresent
    [ (sampleEnv, .queueBuffer true sampleAudioStart 1),
      (sampleEnv, .queueBuffer false sampleVideoStart1 2),
      (sampleEnv, .deliver 0),
      (sampleEnv, .deliver 0) ]

/-- A live stream: the video frame of time stamp 20 is received and rendered
at wall time 1000, then the audio buffer of time stamp 10 is queued. -/
def sampleLiveLate : Renderer :=
  runFrom sampleStart
    [ (sampleEnv, .setLiveStream true),
      (sampleEnv, .queueBuffer false sampleVideo2 1),
      (sampleEnv, .deliver 0),
      (sampleEnv, .deliver 0),
      (sampleEnv, .queueBuffer true sampleBuffer1 2),
      (sampleEnv, .deliver 0) ]

/-- Two audio buffers of six and four bytes are queued and handled; the first
pass of the audio drain is still to come. -/
def sampleTwoQueued : Renderer :=
  runFrom sampleStart
    [ (sampleEnv, .queueBuffer true sampleBuffer1 1),
      (sampleEnv, .queueBuffer true sampleBuffer2 2),
      (sampleEnv, .deliver 0),
      (sampleEnv, .deliver 0) ]

/-! ## The decoder: `dpb-size` on a change of the output format -/

/-- Value of `mOutputBuffers.size() - minUndequeuedBufs - 5` in
`DashPlayer::Decoder::handleAnOutputBuffer` (source lines 372-373): `size()` is a
`size_t`, so the `int` operands are converted to `size_t` and the result is
the difference modulo `2 ^ sizeBits`. -/
def dpbDifference (sizeBits : Nat) (outputBuffers : Nat) (minUndequeuedBufs : Int) : Nat :=
  (((outputBuffers : Int) - minUndequeuedBufs - 5) % 2 ^ sizeBits).toNat

/-- The value `DashPlayer::Decoder::handleAnOutputBuffer` puts in the
"dpb-size" entry of its `kWhatOutputFormatChanged` notification (source lines
364-384).  `window` is `none` when `mNativeWindow` or the `ANativeWindow` it
holds is null, `some none` when the query of
`NATIVE_WINDOW_MIN_UNDEQUEUED_BUFFERS` does not return `NO_ERROR`, and
`some (some n)` when the query stores `n` in `minUndequeuedBufs`.  The
conditional expression has type `size_t`; its value, the difference or zero, is
converted to the `int` variable `dpbSize`. -/
def dpbSize (sizeBits : Nat) (outputBuffers : Nat) (window : Option (Option Int)) : Int :=
  match window with
  | none => 0
  | some none => 0
  | some (some minUndequeuedBufs) =>
    if dpbDifference sizeBits outputBuffers minUndequeuedBufs > 0 then
      wrapSigned 32 (dpbDifference sizeBits outputBuffers minUndequeuedBufs)
    else 0

/-! ## Vocabulary of the anchor, stall and offset properties -/

/-- The anchor pair: anchor media time and anchor real time. -/
def anchorPair (s : Renderer) : Int × Int :=
  (s.mAnchorTimeMediaUs, s.mAnchorTimeRealUs)

/-- Both values of the anchor pair are set: the negation of the test
`mAnchorTimeMediaUs < 0 || mAnchorTimeRealUs < 0` of `postDrainVideoQueue`,
which is the test `mAnchorTimeMediaUs > -1 && mAnchorTimeRealUs > -1` of
`signalRefreshAnchorRealTime`. -/
def anchorValid (s : Renderer) : Prop :=
  0 ≤ s.mAnchorTimeMediaUs ∧ 0 ≤ s.mAnchorTimeRealUs

/-- The time stamp of the buffer at the head of the video queue, when the
head is a buffer that has one. -/
def videoHeadTimeUs (s : Renderer) : Option Int :=
  match s.mVideoQueue with
  | [] => none
  | entry :: _ =>
    match entry.mBuffer with
    | none => none
    | some buffer => buffer.timeUs

/-- The case of `postDrainVideoQueue` that returns without posting (source
lines 556-566): past the tests at the top, the head of the video queue is a
time-stamped buffer, the anchor pair is set, the renderer was paused, audio is
present and the audio queue is not empty. -/
def videoWaitsForAudio (s : Renderer) : Bool :=
  !videoDrainGated s && (videoHeadTimeUs s).isSome &&
    !(decide (s.mAnchorTimeMediaUs < 0) || decide (s.mAnchorTimeRealUs < 0)) &&
    s.mWasPaused && s.mHasAudio && !s.mAudioQueue.isEmpty

/-- The media time to which `postDrainVideoQueue` sets the anchor, if it sets
it (source lines 551-560): past the tests at the top, the head of the video
queue is a time-stamped buffer, and the anchor pair is not set or the renderer
was paused and has no audio. -/
def videoReanchor (s : Renderer) : Option Int :=
  if videoDrainGated s then none
  else
    match videoHeadTimeUs s with
    | none => none
    | some mediaTimeUs =>
      if decide (s.mAnchorTimeMediaUs < 0) || decide (s.mAnchorTimeRealUs < 0) then
        some mediaTimeUs
      else if s.mWasPaused && !s.mHasAudio then some mediaTimeUs
      else none

/-- The clock is kept: the anchor pair, the media time rendered last, the
real-time offset and the was-paused flag. -/
structure ClockKept (s s1 : Renderer) : Prop where
  media : s1.mAnchorTimeMediaUs = s.mAnchorTimeMediaUs
  real : s1.mAnchorTimeRealUs = s.mAnchorTimeRealUs
  rendered : s1.mLastRenderedTimeMediaUs = s.mLastRenderedTimeMediaUs
  offset : s1.mRealTimeOffsetUs = s.mRealTimeOffsetUs
  wasPaused : s1.mWasPaused = s.mWasPaused

/-- The anchor is held: the anchor pair, the was-paused flag and has-audio are
kept. -/
structure AnchorHeld (s s1 : Renderer) : Prop where
  media : s1.mAnchorTimeMediaUs = s.mAnchorTimeMediaUs
  real : s1.mAnchorTimeRealUs = s.mAnchorTimeRealUs
  wasPaused : s1.mWasPaused = s.mWasPaused
  hasAudio : s1.mHasAudio = s.mHasAudio

/-- The anchor pair is set, no pause is still to be made up for by the video
drain, and no audio is present. -/
def videoAnchored (s : Renderer) : Prop :=
  anchorValid s ∧ s.mWasPaused = false ∧ s.mHasAudio = false

/-- The actions that apply the live-anchor refresh: a call of
`signalRefreshAnchorRealTime`, and the handling of a resume message on a
paused live stream. -/
def refreshesAnchor (s : Renderer) : Action → Bool
  | .signalRefreshAnchorRealTime _ => true
  | .deliver i =>
    match s.mailbox[i]? with
    | some (.resume, _) => s.mPaused && s.mIsLiveStream
    | _ => false
  | _ => false

/-- The action is the handling of a video drain message of the current
generation, no stall pending, that finds a time-stamped buffer at the head of
the video queue late by more than the sync window: the case in which, no audio
being present, `onDrainVideoQueue` resets the anchor to the frame (source
lines 625-633). -/
def lateFrameReset (env : Env) (s : Renderer) : Action → Bool
  | .deliver i =>
    match s.mailbox[i]? with
    | some (.drainVideoQueue generation, _) =>
      decide (generation = s.mVideoQueueGeneration) && !s.mDelayPending &&
        (match videoHeadTimeUs s with
         | some mediaTimeUs =>
           decide (env.nowUs - realTimeOf s mediaTimeUs > s.mAVSyncDelayWindowUs)
         | none => false)
    | _ => false
  | _ => false

/-- Whether an action is a call of `signalTimeDiscontinuity`. -/
def isDiscontinuity : Action → Bool
  | .signalTimeDiscontinuity => true
  | _ => false

/-- Whether a message is the stall-expiry message `kWhatDelayQueued`. -/
def isDelayQueued : Msg → Bool
  | .delayQueued => true
  | _ => false

/-- The number of stall-expiry messages waiting in the mailbox. -/
def delayMessages (s : Renderer) : Nat :=
  s.mailbox.countP fun m => isDelayQueued m.1

/-- The stall-pending flag is set exactly when a stall-expiry message waits in
the mailbox, and no more than one does. -/
def DelayInv (s : Renderer) : Prop :=
  delayMessages s = if s.mDelayPending then 1 else 0

/-- The stall state is kept: the stall-pending flag and the number of
stall-expiry messages in the mailbox. -/
structure StallKept (s s1 : Renderer) : Prop where
  flag : s1.mDelayPending = s.mDelayPending
  msgs : delayMessages s1 = delayMessages s

/-- The payload of a queue entry; an EOS marker has none. -/
def entryData (e : QueueEntry) : List Nat :=
  match e.mBuffer with
  | some b => b.data
  | none => []

/-- The offsets of the queued entries, given the bytes written to the sink so
far: every video entry and every audio entry behind the head of the audio
queue has offset 0; the offset of the head audio entry does not exceed the
size of its payload, and the bytes written to the sink last are the payload of
the head entry up to its offset; every audio payload is shorter than `2 ^ w`,
the range of a `size_t` of `w` bits. -/
def OffsetsOK (w : Nat) (aq vq : List QueueEntry) (written : List Nat) : Prop :=
  (∀ e ∈ vq, e.mOffset = 0) ∧
  (∀ e ∈ aq.tail, e.mOffset = 0) ∧
  (∀ e, aq.head? = some e →
    e.mOffset ≤ (entryData e).length ∧ (entryData e).take e.mOffset <:+ written) ∧
  (∀ e ∈ aq, (entryData e).length < 2 ^ w)

/-- The offsets of the entries queued in a renderer are in order. -/
def OffsetInv (w : Nat) (s : Renderer) : Prop :=
  OffsetsOK w s.mAudioQueue s.mVideoQueue (bytesOf s.out)

/-- The queues and the bytes written to the sink are kept. -/
structure QueuesKept (s s1 : Renderer) : Prop where
  aq : s1.mAudioQueue = s.mAudioQueue
  vq : s1.mVideoQueue = s.mVideoQueue
  bytes : bytesOf s1.out = bytesOf s.out

/-- The buffer of the `kWhatQueueBuffer` message an action hands to the
handler, if it hands one, is shorter than `2 ^ w`. -/
def deliveredSized (w : Nat) (s : Renderer) : Action → Bool
  | .deliver i =>
    match s.mailbox[i]? with
    | some (.queueBuffer _ buffer _, _) => decide (buffer.data.length < 2 ^ w)
    | _ => true
  | _ => true

/-- Along the run a `size_t` has `w` bits and every buffer handed to
`onQueueBuffer` is shorter than `2 ^ w`. -/
def sizedAlong (w : Nat) : Renderer → List (Env × Action) → Bool
  | _, [] => true
  | s, (env, a) :: rest =>
    decide (env.sizeBits = w) && deliveredSized w s a &&
      (match step env s a with
       | .ok s1 => sizedAlong w s1 rest
       | .fail _ => true)

/-- Whether a trace element is an EOS notification. -/
def isEOSEvent : Out → Bool
  | .eos _ _ => true
  | _ => false

/-- The EOS notifications posted so far, oldest first. -/
def eosEvents (s : Renderer) : List Out :=
  s.out.filter isEOSEvent

/-- Whether a trace element is a write to the audio sink. -/
def isSinkWrite : Out → Bool
  | .sinkWrite _ => true
  | _ => false

/-- The writes made to the audio sink so far, oldest first. -/
def sinkWrites (s : Renderer) : List Out :=
  s.out.filter isSinkWrite

/-- The tests the audio drain applies to a head buffer at offset 0 on a live
stream with video (source lines 428-474), taken together: the buffer waits
because video is to set the anchor first, is dropped because it is older than
the video sample received last, or waits by the early check after an anchor
refresh or on a buffer marked "disc". -/
def liveGuardHits (env : Env) (s : Renderer) (buffer : ABuffer) (mediaTimeUs : Int) : Prop :=
  (s.mIsLiveStream && s.mHasVideo) = true ∧
    ((s.mAnchorTimeRealUs < 0 ∧ s.mAnchorTimeMediaUs ≠ mediaTimeUs) ∨
      mediaTimeUs < s.mLastReceivedVideoSampleUs ∨
      ((s.mDiscFromAnchorRealTimeRefresh ∨ buffer.disc = some 1) ∧
        s.mAnchorTimeMediaUs > 0 ∧ s.mAnchorTimeRealUs > 0 ∧
        (mediaTimeUs - s.mAnchorTimeMediaUs) + s.mAnchorTimeRealUs - env.nowUs
          - ((env.latency * 1000 % 2 ^ 32 / 2 : Nat) : Int) > 0))

/-! ## The locks of the renderer -/

/-- The mutexes of the renderer: `mFlushLock`, `mDelayLock` and
`mRefreshAnchorTimeLock`. -/
inductive Lock
  | flush
  | delay
  | refreshAnchor
deriving DecidableEq, Repr

/-- What the thread running a piece of renderer code does as far as the locks
are concerned, in program order: it acquires a lock (a `Mutex::Autolock` is
constructed), releases it (the scope of the `Autolock` ends), or posts a
message (`post()` on a message to the renderer's own looper, on a callback of
the producer or on a notification to the control layer). -/
inductive LockEvent
  | acquire (l : Lock)
  | release (l : Lock)
  | post
deriving DecidableEq, Repr

/-- Whether a trace element is a posted message: a callback of the producer or
a notification to the control layer.  The calls made on the audio sink are
not. -/
def isPosted : Out → Bool
  | .consumed _ _ _ => true
  | .eos _ _ => true
  | .flushComplete _ => true
  | .position _ _ => true
  | _ => false

/-- The posts made by a stretch of code that takes no lock and leads from
state `s` to state `r`: one for each message added to the mailbox and one for
each callback or notification added to the trace. -/
def postsBetween (s r : Renderer) : List LockEvent :=
  List.replicate
    ((r.mailbox.length - s.mailbox.length) +
      ((r.out.filter isPosted).length - (s.out.filter isPosted).length))
    .post

/-- Lock events of `Renderer::queueDelay` (source lines 122-143): the
`Autolock` on `mDelayLock` spans the function; when no stall is pending the
`kWhatDelayQueued` message is posted inside its scope. -/
def queueDelayLocks (s : Renderer) : List LockEvent :=
  [.acquire .delay] ++ (if s.mDelayPending then [] else [.post]) ++ [.release .delay]

/-- Lock events of `Renderer::flush` (source lines 145-160): the flushing flag
is set in a block under `mFlushLock`; the `kWhatFlush` message is posted after
the block. -/
def flushLocks (s : Renderer) (audio : Bool) : Result (List LockEvent) :=
  (flush s audio).bind fun _ => .ok [.acquire .flush, .release .flush, .post]

/-- Lock events of `Renderer::signalRefreshAnchorRealTime` (source lines
190-213): the `Autolock` on `mRefreshAnchorTimeLock` spans the function, which
posts nothing. -/
def signalRefreshLocks : List LockEvent :=
  [.acquire .refreshAnchor, .release .refreshAnchor]

/-- Lock events of `Renderer::onDelayQueued` (source lines 324-354): the stall
flag and the cached stall are read in a block under `mDelayLock`; after the
block the function either calls `queueDelay` or starts the sink and posts the
drains. -/
def onDelayQueuedLocks (env : Env) (s : Renderer) : Result (List LockEvent) :=
  let s1 := { s with mDelayPending := false }
  let delayUs := s.mDelayToQueueUs - (env.nowUs - s.mDelayToQueueTimeRealUs)
  if s.mDelayToQueueUs > 0 ∧ delayUs > 0 then
    .ok ([.acquire .delay, .release .delay] ++ queueDelayLocks s1)
  else
    (onDelayQueued env s).bind fun r =>
      .ok ([.acquire .delay, .release .delay] ++ postsBetween s r)

/-- Lock events of `Renderer::onFlush` (source lines 836-872):
`syncQueuesDone` and `flushQueue` post without a lock; then the flushing flag,
the drain-pending flag and the generation are updated under `mFlushLock`, whose
`Autolock` ends with the block; `notifyFlushComplete` posts after it. -/
def onFlushLocks (env : Env) (s : Renderer) (audio : Bool) : Result (List LockEvent) :=
  (syncQueuesDone env s).bind fun s1 =>
    (flushQueue audio s1).bind fun s2 =>
      .ok (postsBetween s s2 ++ [.acquire .flush, .release .flush, .post])

/-- Lock events of `Renderer::onQueueBuffer` (source lines 669-772): the first
thing that posts or locks is `dropBufferWhileFlushing` (source lines 894-917),
which reads the flushing flag in a block under `mFlushLock` and posts the
callback after the block; the rest of the function takes no lock. -/
def onQueueBufferLocks (env : Env) (s : Renderer) (audio : Bool) (buffer : ABuffer)
    (notifyConsumed : Nat) : Result (List LockEvent) :=
  (onQueueBuffer env s audio buffer notifyConsumed).bind fun r =>
    .ok ([.acquire .flush, .release .flush] ++ postsBetween s r)

/-- Lock events of `Renderer::onQueueEOS` (source lines 812-834): as for
`onQueueBuffer`. -/
def onQueueEOSLocks (env : Env) (s : Renderer) (audio : Bool) (finalResult : Int) :
    Result (List LockEvent) :=
  (onQueueEOS env s audio finalResult).bind fun r =>
    .ok ([.acquire .flush, .release .flush] ++ postsBetween s r)

/-- Lock events of `Renderer::onResume` (source lines 994-1016): nothing when
not paused; otherwise the call of `signalRefreshAnchorRealTime` on a live
stream, then the posting of the drains. -/
def onResumeLocks (env : Env) (s : Renderer) : Result (List LockEvent) :=
  if !s.mPaused then .ok []
  else
    (onResume env s).bind fun r =>
      .ok ((if s.mIsLiveStream then signalRefreshLocks else []) ++ postsBetween s r)

/-- Lock events of `Renderer::onMessageReceived`: those of the handler of the
message; the handlers of the drain messages, of `kWhatAudioSinkChanged` and of
`kWhatPause` take no lock. -/
def onMessageReceivedLocks (env : Env) (s : Renderer) (msg : Msg) :
    Result (List LockEvent) :=
  match msg with
  | .queueBuffer audio buffer notifyConsumed =>
    onQueueBufferLocks env s audio buffer notifyConsumed
  | .queueEOS audio finalResult => onQueueEOSLocks env s audio finalResult
  | .flush audio => onFlushLocks env s audio
  | .resume => onResumeLocks env s
  | .delayQueued => onDelayQueuedLocks env s
  | _ => (onMessageReceived env s msg).bind fun r => .ok (postsBetween s r)

/-- Lock events of one action on the renderer: of the public entry points,
`queueDelay`, `flush` and `signalRefreshAnchorRealTime` take a lock. -/
def actionLocks (env : Env) (s : Renderer) : Action → Result (List LockEvent)
  | .queueDelay _ => .ok (queueDelayLocks s)
  | .flush audio => flushLocks s audio
  | .signalRefreshAnchorRealTime _ => .ok signalRefreshLocks
  | .deliver i =>
    match s.mailbox[i]? with
    | none => .fail .noMessage
    | some (msg, _) => onMessageReceivedLocks env { s with mailbox := s.mailbox.eraseIdx i } msg
  | a => (step env s a).bind fun r => .ok (postsBetween s r)

/-- The locks held after an event. -/
def heldAfter (held : List Lock) : LockEvent → List Lock
  | .acquire l => l :: held
  | .release l => held.erase l
  | .post => held

/-- Every event of a trace passes the test `ok`, which is given the locks held
when the event happens. -/
def lockCheck (ok : List Lock → LockEvent → Bool) : List Lock → List LockEvent → Bool
  | _, [] => true
  | held, e :: rest => ok held e && lockCheck ok (heldAfter held e) rest

/-- The test that acquiring a lock does not leave the flush lock and the delay
lock held together. -/
def notFlushWithDelay (held : List Lock) : LockEvent → Bool
  | .acquire l => !((l :: held).contains .flush && (l :: held).contains .delay)
  | _ => true

/-- The test that no lock is held when a message is posted. -/
def postUnlocked (held : List Lock) : LockEvent → Bool
  | .post => held.isEmpty
  | _ => true

/-- The test that no lock but the delay lock is held when a message is
posted. -/
def postUnderDelayOnly (held : List Lock) : LockEvent → Bool
  | .post => held.all fun l => decide (l = .delay)
  | _ => true

/-- A trace passes the test `ok` from no lock held and ends with no lock
held. -/
def Balanced (ok : List Lock → LockEvent → Bool) (t : List LockEvent) : Prop :=
  lockCheck ok [] t = true ∧ t.foldl heldAfter [] = []

/-- The actions that run `queueDelay`: a call of it and the handling of a
stall-expiry message. -/
def runsQueueDelay (s : Renderer) : Action → Bool
  | .queueDelay _ => true
  | .deliver i =>
    match s.mailbox[i]? with
    | some (.delayQueued, _) => true
    | _ => false
  | _ => false

/-! ## Sample data for the anchor, stall and offset examples -/

/-- Two audio buffers of six and two bytes fill the sink; then the EOS marker
and, behind it, a third audio buffer are queued and handled.  The audio drain
message posted for the marker is waiting and nothing has been played yet. -/
def sampleMarkerBeforeBuffer : Renderer :=
  runFrom sampleStart
    [ (sampleEnv, .queueBuffer true sampleBuffer1 1),
      (sampleEnv, .queueBuffer true sampleBuffer3 2),
      (sampleEnv, .deliver 0),
      (sampleEnv, .deliver 0),
      (sampleEnv, .deliver 0),
      (sampleEnv, .queueEOS true ERROR_END_OF_STREAM),
      (sampleEnv, .queueBuffer true sampleBuffer2 3),
      (sampleEnv, .deliver 0),
      (sampleEnv, .deliver 0) ]

/-- Both streams were present when a time discontinuity was signalled: the
queues are to be synchronised. -/
def sampleSyncing : Renderer :=
  runFrom sampleBothPresent [(sampleEnv, .signalTimeDiscontinuity)]

/-- The run that leads to `sampleHalfDrained`: two audio buffers of six and
four bytes are queued and handled, and one pass of the audio drain fills the
sink with the first buffer and two bytes of the second. -/
def sampleDrainedHalf : List (Env × Action) :=
  [ (sampleEnv, .queueBuffer true sampleBuffer1 1),
    (sampleEnv, .queueBuffer true sampleBuffer2 2),
    (sampleEnv, .deliver 0),
    (sampleEnv, .deliver 0),
    (sampleEnv, .deliver 0) ]

/-- A stall of 5000 us was requested on a fresh renderer. -/
def sampleStalled : Renderer :=
  runFrom sampleStart [(sampleEnv, .queueDelay 5000)]

/-- The renderer of `sampleVideoAnchored` (video only, not live, anchor
`(10, 1000)`, the frame with time stamp 20 queued and its drain scheduled
10 us ahead) after a pause was requested and handled. -/
def samplePausedVideo : Renderer :=
  runFrom sampleVideoAnchored
    [ (sampleEnv, .pause),
      (sampleEnv, .deliver 1) ]

/-- The renderer of `sampleHalfDrained` (audio anchored at media time 20, two
bytes of the second audio buffer still to be written) after a video frame with
time stamp 30 was queued, which schedules the video drain 10 us ahead, and a
pause was requested and handled before either drain message came due. -/
def samplePausedBoth : Renderer :=
  runFrom sampleHalfDrained
    [ (sampleEnv, .queueBuffer false sampleBuffer3 3),
      (sampleEnv, .deliver 1),
      (sampleEnv, .pause),
      (sampleEnv, .deliver 2) ]

/-- The state in which `onResume`, handling a resume of `samplePausedBoth`,
calls `postDrainVideoQueue`: the sink is started, the pause flag is cleared
and the audio drain is posted. -/
def sampleResumingBoth : Renderer :=
  postDrainAudioQueue (resumedState sampleEnv samplePausedBoth) 0

/-! ## The closed-caption decoder of `DashPlayerDecoder.cpp`

`DashPlayer::CCDecoder` reads the caption byte pairs out of the picture user
data of a video frame, keeps them in a map keyed by media time and hands the
pairs of the selected track on when the frame is displayed.  The embedding
keeps the member fields in a record `CCDecoder`; a caption buffer is the list
of the `CCData` records it holds, the map (`KeyedVector<int64_t, sp<ABuffer>>`)
is a list of pairs kept in ascending order of the key, and the picture user
data is the sequence of bits the bit reader delivers. -/

/-- A `CCData` record: the field type of a caption byte pair and its two
bytes. -/
structure CCData where
  mType : Nat
  mData1 : Nat
  mData2 : Nat
deriving DecidableEq, Repr

/-- Source function `CCData::getChannel` (source lines 636-647): the channel of
a control pair, nothing for any other pair. -/
def CCData.getChannel (cc : CCData) : Option Nat :=
  if cc.mData1 ≥ 0x10 ∧ cc.mData1 ≤ 0x1f then
    some ((if cc.mData1 ≥ 0x18 then 1 else 0) + (if cc.mType ≠ 0 then 2 else 0))
  else none

/-- Source function `isNullPad` (source lines 673-677). -/
def isNullPad (cc : CCData) : Bool :=
  decide (cc.mData1 < 0x10) && decide (cc.mData2 < 0x10)

/-- What the caption decoder posts through `mNotify`: `kWhatTrackAdded`, or
`kWhatClosedCaptionData` with the buffer and the "trackIndex" and "timeUs"
entries of its meta data. -/
inductive CCNote
  | trackAdded
  | closedCaptionData (buffer : List CCData) (trackIndex : Int) (timeUs : Int)
deriving DecidableEq, Repr

/-- The member fields of `DashPlayer::CCDecoder` and the trace of what it
posts.  `hasNotify` tells whether `mNotify` is not null. -/
structure CCDecoder where
  hasNotify : Bool
  mCurrentChannel : Nat
  mSelectedTrack : Int
  mTrackIndices : List Int
  mFoundChannels : List Nat
  mCCMap : List (Int × List CCData)
  posted : List CCNote
deriving DecidableEq, Repr

/-- The constructor (source lines 654-670).  `slots` is the number of elements
of the array `mTrackIndices`, which the class declaration fixes. -/
def CCDecoder.new (slots : Nat) (hasNotify : Bool) : CCDecoder :=
  { hasNotify := hasNotify
    mCurrentChannel := 0
    mSelectedTrack := -1
    mTrackIndices := List.replicate slots (-1)
    mFoundChannels := []
    mCCMap := []
    posted := [] }

/-- Library function `KeyedVector::indexOfKey`: the position of the key, nothing
when the key is absent (a negative result in the source). -/
def indexOfKey (m : List (Int × List CCData)) (key : Int) : Option Nat :=
  let i := m.findIdx fun p => p.1 == key
  if i < m.length then some i else none

/-- Library function `KeyedVector::add`: the item goes to its place in the
ascending order of the keys; an item with the same key is replaced. -/
def mapAdd (m : List (Int × List CCData)) (key : Int) (value : List CCData) :
    List (Int × List CCData) :=
  match m with
  | [] => [(key, value)]
  | (k, v) :: rest =>
    if key < k then (key, value) :: (k, v) :: rest
    else if key = k then (key, value) :: rest
    else (k, v) :: mapAdd rest key value

/-- Library function `KeyedVector::removeItemsAt(index, count)`. -/
def removeItemsAt (m : List (Int × List CCData)) (index count : Nat) :
    List (Int × List CCData) :=
  m.take index ++ m.drop (index + count)

/-- Conversion of a signed integer to `size_t` (`w` bits). -/
def toSize (w : Nat) (x : Int) : Nat :=
  (x % 2 ^ w).toNat

/-- Conversion of a `size_t` value to `int32_t`: the low 32 bits, read as a
signed number. -/
def toInt32 (n : Nat) : Int :=
  if n % 2 ^ 32 < 2 ^ 31 then ((n % 2 ^ 32 : Nat) : Int) else ((n % 2 ^ 32 : Nat) : Int) - 2 ^ 32

/-- Source function `CCDecoder::getTrackCount`. -/
def getTrackCount (d : CCDecoder) : Nat :=
  d.mFoundChannels.length

/-- Source function `CCDecoder::isTrackValid`. -/
def isTrackValid (d : CCDecoder) (index : Nat) : Bool :=
  decide (index < getTrackCount d)

/-- Source function `CCDecoder::getTrackIndex` (source lines 831-838). -/
def getTrackIndex (d : CCDecoder) (channel : Nat) : Int :=
  match d.mTrackIndices[channel]? with
  | some i => i
  | none => -1

/-- Source function `CCDecoder::selectTrack` (source lines 786-814); the first
component is whether the call returns `OK`. -/
def selectTrack (d : CCDecoder) (index : Nat) (select : Bool) : Bool × CCDecoder :=
  if !isTrackValid d index then (false, d)
  else if select then
    if d.mSelectedTrack = (index : Int) then (false, d)
    else (true, { d with mSelectedTrack := toInt32 index })
  else
    if d.mSelectedTrack ≠ (index : Int) then (false, d)
    else (true, { d with mSelectedTrack := -1 })

/-- Value of the bits read, most significant bit first. -/
def bitsValue (bits : List Bool) : Nat :=
  bits.foldl (fun acc b => 2 * acc + (if b then 1 else 0)) 0

/-- Library function `NALBitReader::getBits(n)` on the bits still to be read:
the value of the next `n` bits and the bits after them; reading past the end
of the data fails a `CHECK` of the reader. -/
def getBits (n : Nat) (br : List Bool) : Result (Nat × List Bool) :=
  if br.length < n then .fail .checkFailed
  else .ok (bitsValue (br.take n), br.drop n)

/-- Library function `NALBitReader::skipBits(n)`. -/
def skipBits (n : Nat) (br : List Bool) : Result (List Bool) :=
  (getBits n br).bind fun r => .ok r.2

/-- In `extractPictureUserData` (source lines 889-896): a control pair whose
channel has no track yet gets the next track.  Storing into `mTrackIndices`
outside the array does not return. -/
def addTrack (d : CCDecoder) (cc : CCData) : Result (Bool × CCDecoder) :=
  match cc.getChannel with
  | none => .ok (false, d)
  | some channel =>
    if getTrackIndex d channel < 0 then
      if channel < d.mTrackIndices.length then
        .ok (true,
          { d with mTrackIndices :=
                     d.mTrackIndices.set channel (toInt32 d.mFoundChannels.length)
                   mFoundChannels := d.mFoundChannels ++ [channel] })
      else .fail .nullDeref
    else .ok (false, d)

/-- The `for (size_t i = 0; i < cc_count; i++)` loop of
`extractPictureUserData` (source lines 870-910) with `count` passes to go:
`trackAdded` and `ccBuf` are the local variables of that name.  The map holds
the buffer itself, so the entry of `mediaTimeUs` follows every pair appended
to `ccBuf`. -/
def ccPackets (mediaTimeUs : Int) :
    Nat → List Bool → Bool → List CCData → CCDecoder → Result (Bool × List CCData × CCDecoder)
  | 0, _, trackAdded, ccBuf, d => .ok (trackAdded, ccBuf, d)
  | count + 1, br, trackAdded, ccBuf, d =>
    (getBits 5 br).bind fun (marker, br1) =>
    if marker ≠ 0x1f then .fail .checkFailed
    else
      (getBits 1 br1).bind fun (cc_valid, br2) =>
      (getBits 2 br2).bind fun (cc_type, br3) =>
      (getBits 8 br3).bind fun (byte1, br4) =>
      (getBits 8 br4).bind fun (byte2, br5) =>
      let cc_data_1 := byte1 % 0x80
      let cc_data_2 := byte2 % 0x80
      if cc_valid ≠ 0 ∧ (cc_type = 0 ∨ cc_type = 1) then
        let cc : CCData := { mType := cc_type, mData1 := cc_data_1, mData2 := cc_data_2 }
        if !isNullPad cc then
          (addTrack d cc).bind fun (added, d1) =>
            let ccBuf1 := ccBuf ++ [cc]
            ccPackets mediaTimeUs count br5 (trackAdded || added) ccBuf1
              { d1 with mCCMap := mapAdd d1.mCCMap mediaTimeUs ccBuf1 }
        else ccPackets mediaTimeUs count br5 trackAdded ccBuf d
      else ccPackets mediaTimeUs count br5 trackAdded ccBuf d

/-- Value of the multi-character constant `'GA94'`. -/
def userIdentifierGA94 : Nat := 0x47413934

/-- Source function `CCDecoder::extractPictureUserData` (source lines 840-920);
the result carries the return value, the local buffer `ccBuf` (empty when the
function does not get to make one) and the decoder. -/
def extractPictureUserData (d : CCDecoder) (pictureUserData : List Bool)
    (mediaTimeUs : Int) : Result (Bool × List CCData × CCDecoder) :=
  (getBits 8 pictureUserData).bind fun (itu_t_t35_country_code, br1) =>
  (getBits 16 br1).bind fun (itu_t_t35_provider_code, br2) =>
  (getBits 32 br2).bind fun (user_identifier, br3) =>
  (getBits 8 br3).bind fun (user_data_type_code, br4) =>
  if itu_t_t35_country_code = 0xB5 ∧ itu_t_t35_provider_code = 0x0031
      ∧ user_identifier = userIdentifierGA94 ∧ user_data_type_code = 0x3 then
    (skipBits 1 br4).bind fun br5 =>
    (getBits 1 br5).bind fun (process_cc_data_flag, br6) =>
    (skipBits 1 br6).bind fun br7 =>
    (getBits 5 br7).bind fun (cc_count, br8) =>
    (skipBits 8 br8).bind fun br9 =>
    if process_cc_data_flag ≠ 0 then ccPackets mediaTimeUs cc_count br9 false [] d
    else .ok (false, [], d)
  else .ok (false, [], d)

/-- Source function `CCDecoder::decode` (source lines 946-959). -/
def decode (d : CCDecoder) (pictureUserData : List Bool) (mediaTimeUs : Int) :
    Result CCDecoder :=
  (extractPictureUserData d pictureUserData mediaTimeUs).bind fun (trackAdded, _, d1) =>
    if trackAdded then
      .ok (if d1.hasNotify then { d1 with posted := d1.posted ++ [.trackAdded] } else d1)
    else .ok d1

/-- The `for (size_t i = 0; i < cc_count; ++i)` loop of `filterCCBuf` (source
lines 929-942) over the records still to be looked at; `filtered` is the
content of `filteredCCBuf`.  Reading `mFoundChannels[index]` outside the
vector does not return. -/
def filterLoop (index : Nat) : List CCData → List CCData → CCDecoder →
    Result (List CCData × CCDecoder)
  | [], filtered, d => .ok (filtered, d)
  | cc :: rest, filtered, d =>
    let d1 :=
      match cc.getChannel with
      | some channel => { d with mCurrentChannel := channel }
      | none => d
    match d1.mFoundChannels[index]? with
    | none => .fail .nullDeref
    | some channel =>
      filterLoop index rest (if d1.mCurrentChannel = channel then filtered ++ [cc] else filtered) d1

/-- Source function `CCDecoder::filterCCBuf` (source lines 922-944). -/
def filterCCBuf (d : CCDecoder) (ccBuf : List CCData) (index : Nat) :
    Result (List CCData × CCDecoder) :=
  filterLoop index ccBuf [] d

/-- Source function `CCDecoder::display` (source lines 961-999); `w` is the
width of `size_t` in bits. -/
def display (w : Nat) (d : CCDecoder) (timeUs : Int) : Result CCDecoder :=
  if !isTrackValid d (toSize w d.mSelectedTrack) then .ok d
  else
    match indexOfKey d.mCCMap timeUs with
    | none => .ok d
    | some index =>
      match d.mCCMap[index]? with
      | none => .fail .nullDeref
      | some (_, value) =>
        (filterCCBuf d value (toSize w d.mSelectedTrack)).bind fun (ccBuf, d1) =>
          let d2 :=
            if ccBuf.length > 0 then
              if d1.hasNotify then
                { d1 with posted :=
                    d1.posted ++ [.closedCaptionData ccBuf d1.mSelectedTrack timeUs] }
              else d1
            else d1
          .ok { d2 with mCCMap := removeItemsAt d2.mCCMap 0 (index + 1) }

/-- Source function `CCDecoder::flush`. -/
def ccFlush (d : CCDecoder) : CCDecoder :=
  { d with mCCMap := [] }

/-- The calls made on a caption decoder. -/
inductive CCAction
  | decode (pictureUserData : List Bool) (mediaTimeUs : Int)
  | display (timeUs : Int)
  | selectTrack (index : Nat) (select : Bool)
  | flush

/-- One call on the caption decoder. -/
def ccStep (w : Nat) (d : CCDecoder) : CCAction → Result CCDecoder
  | .decode pictureUserData mediaTimeUs => decode d pictureUserData mediaTimeUs
  | .display timeUs => display w d timeUs
  | .selectTrack index select => .ok (selectTrack d index select).2
  | .flush => .ok (ccFlush d)

/-- A sequence of calls on the caption decoder. -/
def ccRun (w : Nat) : CCDecoder → List CCAction → Result CCDecoder
  | d, [] => .ok d
  | d, a :: rest => (ccStep w d a).bind fun d1 => ccRun w d1 rest

/-! ### Vocabulary of the caption properties -/

/-- The keys of the caption map are in strictly ascending order. -/
def mapSorted (m : List (Int × List CCData)) : Prop :=
  (m.map Prod.fst).Pairwise (· < ·)

/-- The channel of the most recent control pair among the given records, or
the channel carried over when there is no control pair among them. -/
def lastChannel (carried : Nat) (records : List CCData) : Nat :=
  ((records.filterMap CCData.getChannel).getLast?).getD carried

/-- The effective channel of a record of a caption buffer: the channel of the
most recent control pair at or before the record (`before` are the records in
front of it), or the channel carried over when none precedes it. -/
def effectiveChannel (carried : Nat) (before : List CCData) (cc : CCData) : Nat :=
  lastChannel carried (before ++ [cc])

/-- The records of a caption buffer whose effective channel is the given one,
in the order of the buffer; `before` are the records of the buffer already
looked at. -/
def recordsOfChannel (channel carried : Nat) : List CCData → List CCData → List CCData
  | _, [] => []
  | before, cc :: rest =>
    (if effectiveChannel carried before cc = channel then [cc] else [])
      ++ recordsOfChannel channel carried (before ++ [cc]) rest

/-- The channel a control pair names: bit 0 is set when its first data byte
is 0x18 or more, bit 1 when its field type is not 0. -/
def controlChannel (cc : CCData) : Nat :=
  (if cc.mData1 ≥ 0x18 then 1 else 0) + (if cc.mType ≠ 0 then 2 else 0)

/-- The found channels and the table of track indices fit: no channel is
found twice, every found channel is at most 3 and is the channel of a control
pair of field type 0 or 1, the table maps each found channel to its position
and every other channel to -1, and at most four channels are found. -/
structure ChannelsOK (d : CCDecoder) : Prop where
  nodup : d.mFoundChannels.Nodup
  small : ∀ c ∈ d.mFoundChannels, c ≤ 3
  control : ∀ c ∈ d.mFoundChannels, ∃ cc : CCData,
    (cc.mType = 0 ∨ cc.mType = 1) ∧ 0x10 ≤ cc.mData1 ∧ cc.mData1 ≤ 0x1f ∧ c = controlChannel cc
  inverse : ∀ (i c : Nat), d.mFoundChannels[i]? = some c → getTrackIndex d c = (i : Int)
  absent : ∀ c, c ∉ d.mFoundChannels → getTrackIndex d c = -1
  count : getTrackCount d ≤ 4

/-! ### Sample data for the caption examples -/

/-- The bits of a number, `n` of them, most significant first. -/
def bitsOf : Nat → Nat → List Bool
  | 0, _ => []
  | n + 1, v => bitsOf n (v / 2) ++ [v % 2 == 1]

/-- The bits of one caption packet of the picture user data: marker, validity,
field type and the two bytes. -/
def packetBits (valid : Bool) (type data1 data2 : Nat) : List Bool :=
  bitsOf 5 0x1f ++ [valid] ++ bitsOf 2 type ++ bitsOf 8 data1 ++ bitsOf 8 data2

/-- The bits of a picture user data payload with caption packets: the header of
ATSC A/53 caption data with the process flag set and the packet count, then
the packets. -/
def captionBits (packets : List (List Bool)) : List Bool :=
  bitsOf 8 0xB5 ++ bitsOf 16 0x31 ++ bitsOf 32 userIdentifierGA94 ++ bitsOf 8 3
    ++ [false, true, false] ++ bitsOf 5 packets.length ++ bitsOf 8 0xff ++ packets.flatten

/-- A control pair of channel 0 (field 1, first byte 0x14). -/
def sampleControl0 : CCData := { mType := 0, mData1 := 0x14, mData2 := 0x2c }

/-- Two basic characters of field 1. -/
def sampleChars : CCData := { mType := 0, mData1 := 0x48, mData2 := 0x49 }

/-- A control pair of channel 1 (field 1, first byte 0x1c). -/
def sampleControl1 : CCData := { mType := 0, mData1 := 0x1c, mData2 := 0x2c }

/-- Two more basic characters of field 1. -/
def sampleChars2 : CCData := { mType := 0, mData1 := 0x4a, mData2 := 0x4b }

/-- A caption buffer that starts with characters of the channel carried over
and then switches to channel 1 and back to channel 0. -/
def sampleMixedBuffer : List CCData :=
  [sampleChars, sampleControl1, sampleChars2, sampleControl0]

/-- The picture user data of a frame with four caption packets: a control pair
of channel 0, two characters, a control pair of channel 1, two characters. -/
def samplePicture : List Bool :=
  captionBits
    [ packetBits true 0 0x14 0x2c, packetBits true 0 0x48 0x49,
      packetBits true 0 0x1c 0x2c, packetBits true 0 0x4a 0x4b ]

/-- The picture user data of a frame with one caption packet, two characters. -/
def samplePictureChars : List Bool :=
  captionBits [ packetBits true 0 0x48 0x49 ]

/-- The calls of a short caption session: three frames with media times 100,
200 and 300 are decoded and the first track (channel 0) is selected. -/
def sampleCaptionCalls : List CCAction :=
  [ .decode samplePicture 200, .decode samplePictureChars 100,
    .decode samplePicture 300, .selectTrack 0 true ]

/-- The caption decoder after the calls of `sampleCaptionCalls`: channels 0
and 1 are found, track 0 is selected and the map holds the three frames. -/
def sampleCaptions : CCDecoder :=
  { hasNotify := true
    mCurrentChannel := 0
    mSelectedTrack := 0
    mTrackIndices := [0, 1, -1, -1]
    mFoundChannels := [0, 1]
    mCCMap :=
      [ (100, [sampleChars]),
        (200, [sampleControl0, sampleChars, sampleControl1, sampleChars2]),
        (300, [sampleControl0, sampleChars, sampleControl1, sampleChars2]) ]
    posted := [.trackAdded] }

/-- The caption decoder of `sampleCaptions` after the frame of media time 200
was displayed and the decoder was flushed. -/
def runCaptions (d : CCDecoder) : CCDecoder :=
  match ccRun 64 d [.display 200, .flush] with
  | .ok r => r
  | .fail _ => d

/-! ## Vocabulary and sample data of the remaining renderer properties -/

/-- The test of the synchronisation step under which the head of the audio
queue is dropped: both heads carry a payload with a time stamp and the video
head is more than 100000 us later than the audio head. -/
def audioHeadEarly (aentry ventry : QueueEntry) : Prop :=
  ∃ ab vb ta tv, aentry.mBuffer = some ab ∧ ventry.mBuffer = some vb ∧
    ab.timeUs = some ta ∧ vb.timeUs = some tv ∧ tv - ta > 100000

/-- A payload entry carries a time stamp. -/
def entryTimed (e : QueueEntry) : Prop :=
  ∀ b, e.mBuffer = some b → b.timeUs ≠ none

/-- After a time discontinuity with both streams present, an audio buffer
with time stamp 10 and two video frames with time stamps 1000000 and 1033000
are queued and handled: the start gate sets the anchor media time, the queues
are still to be synchronised and no drain is posted. -/
def sampleSyncReached : Renderer :=
  runFrom sampleSyncing
    [ (sampleEnv, .queueBuffer true sampleBuffer1 1),
      (sampleEnv, .queueBuffer false sampleVideoStart1 2),
      (sampleEnv, .queueBuffer false sampleVideoStart2 3),
      (sampleEnv, .deliver 0),
      (sampleEnv, .deliver 0),
      (sampleEnv, .deliver 0) ]

/-- The state of `sampleSyncReached` in which `onQueueBuffer`, handling a
third video frame, comes to the synchronisation step. -/
def sampleSyncStep : Renderer :=
  { sampleSyncReached with
    mVideoQueue := sampleSyncReached.mVideoQueue ++ [bufferEntry sampleVideo2 4] }

/-- Between the two states at most `k` bytes were written to the sink, and
nothing already written was changed. -/
def Wrote (k : Nat) (s r : Renderer) : Prop :=
  ∃ w, bytesOf r.out = bytesOf s.out ++ w ∧ w.length ≤ k

/-- A pass through the loop body of the audio drain that started with room
for `n` bytes: a pass that returns wrote nothing; a pass that goes on has not
more room left than before and wrote no more than the room it used up. -/
def roomKept (n : Nat) (s : Renderer) : Ctl → Prop
  | .ret _ s1 => Wrote 0 s s1
  | .next n1 s1 => n1 ≤ n ∧ Wrote (n - n1) s s1

/-- The free capacity of the sink in frames as a signed number:
`frameCount - (framesWritten - framesPlayed)`, the difference of the frame
counters taken in `uint32_t` arithmetic. -/
def freeFrames (env : Env) (s : Renderer) : Int :=
  env.frameCount - (numFramesPendingPlayout env s : Int)

/-- The sink of `sampleEnv` after it was reconfigured to hold two frames only,
nothing played yet. -/
def sampleEnvSmall : Env := { sampleEnv with frameCount := 2 }

/-- What the audio drain returns on `sampleHalfDrained` once the four frames
written so far have been played. -/
def sampleDrainedPlayed : Bool × Renderer :=
  match onDrainAudioQueue sampleEnvPlayed sampleHalfDrained with
  | .ok p => p
  | .fail _ => (false, sampleHalfDrained)

/-! ### Drain messages in the mailbox -/

/-- The generation a message carries when it is a drain message of the given
stream. -/
def drainGeneration (audio : Bool) : Msg → Option Int
  | .drainAudioQueue generation => if audio then some generation else none
  | .drainVideoQueue generation => if audio then none else some generation
  | _ => none

/-- What the scheduling of the drains is about: the mailbox, the two
drain-pending flags, the two generation counters and the pause flag. -/
structure DrainView where
  mailbox : List (Msg × Int)
  pendA : Bool
  pendV : Bool
  genA : Int
  genV : Int
  paused : Bool

/-- The drain scheduling of a renderer. -/
def Renderer.drains (s : Renderer) : DrainView :=
  { mailbox := s.mailbox, pendA := s.mDrainAudioQueuePending,
    pendV := s.mDrainVideoQueuePending, genA := s.mAudioQueueGeneration,
    genV := s.mVideoQueueGeneration, paused := s.mPaused }

/-- Generations of the drain messages of one stream waiting in the mailbox,
in posting order. -/
def DrainView.generations (audio : Bool) (v : DrainView) : List Int :=
  v.mailbox.filterMap fun m => drainGeneration audio m.1

/-- The drain-pending flag of one stream. -/
def DrainView.pending (audio : Bool) (v : DrainView) : Bool :=
  if audio then v.pendA else v.pendV

/-- The generation counter of one stream. -/
def DrainView.generation (audio : Bool) (v : DrainView) : Int :=
  if audio then v.genA else v.genV

/-- For one stream, nothing changes, or one drain message of the current
generation is posted, which takes the flag from clear to set on a renderer
that is not paused. -/
def DrainStep (audio : Bool) (v v1 : DrainView) : Prop :=
  (v1.generations audio = v.generations audio ∧ v1.pending audio = v.pending audio) ∨
  (v1.generations audio = v.generations audio ++ [v.generation audio] ∧
    v.pending audio = false ∧ v1.pending audio = true ∧ v.paused = false)

/-- What the handlers do to the drain scheduling apart from taking a message
out of the mailbox, clearing a flag and bumping a generation: the pause flag
and the generations are kept and each stream makes a `DrainStep`. -/
structure DrainPosts (v v1 : DrainView) : Prop where
  paused : v1.paused = v.paused
  genA : v1.genA = v.genA
  genV : v1.genV = v.genV
  audio : DrainStep true v v1
  video : DrainStep false v v1

/-- The drain scheduling once the message at position `i` is taken out of
the mailbox. -/
def DrainView.take (i : Nat) (v : DrainView) : DrainView :=
  { v with mailbox := v.mailbox.eraseIdx i }

/-- The drain scheduling once the drain-pending flag of a stream is cleared. -/
def DrainView.clear (audio : Bool) (v : DrainView) : DrainView :=
  if audio then { v with pendA := false } else { v with pendV := false }

/-- The drain scheduling once the drain-pending flag of a stream is cleared
and its generation is incremented. -/
def DrainView.bump (audio : Bool) (v : DrainView) : DrainView :=
  if audio then { v with pendA := false, genA := v.genA + 1 }
  else { v with pendV := false, genV := v.genV + 1 }

/-- What one action does to the drain scheduling.  A drain message is taken
out of the mailbox and the flag of its stream is cleared before anything is
posted; a flush posts first and then clears the flag and increments the
generation of its stream; a pause (on a renderer that is not paused) clears
both flags and increments both generations; a resume clears the pause flag
before it posts; every other action only posts. -/
def DrainMove (s : Renderer) (a : Action) (r : Renderer) : Prop :=
  match a with
  | .deliver i =>
    match s.mailbox[i]? with
    | some (.drainAudioQueue _, _) => DrainPosts ((s.drains.take i).clear true) r.drains
    | some (.drainVideoQueue _, _) => DrainPosts ((s.drains.take i).clear false) r.drains
    | some (.flush audio, _) => ∃ v, DrainPosts (s.drains.take i) v ∧ r.drains = v.bump audio
    | some (.pause, _) =>
      s.mPaused = false ∧
        r.drains = { ((s.drains.take i).bump true).bump false with paused := true }
    | some (.resume, _) => DrainPosts { s.drains.take i with paused := false } r.drains
    | some _ => DrainPosts (s.drains.take i) r.drains
    | none => False
  | _ => DrainPosts s.drains r.drains

/-- Generations of the drain messages of one stream waiting in the mailbox of
a renderer. -/
def drainGenerations (audio : Bool) (s : Renderer) : List Int :=
  s.drains.generations audio

/-- Number of drain messages of the stream in the mailbox that carry the
current generation of the stream. -/
def currentDrains (audio : Bool) (s : Renderer) : Nat :=
  (drainGenerations audio s).count (queueGeneration audio s)

/-- No drain message carries a generation above the current one, and a stream
whose drain-pending flag is set has a drain message of its current generation
in the mailbox. -/
def DrainsSound (v : DrainView) : Prop :=
  ∀ audio, (∀ g ∈ v.generations audio, g ≤ v.generation audio) ∧
    (v.pending audio = true → v.generation audio ∈ v.generations audio)

/-- For each stream the number of drain messages of the current generation is
one when the drain-pending flag is set and zero when it is clear. -/
def DrainsExact (v : DrainView) : Prop :=
  ∀ audio, (v.generations audio).count (v.generation audio) = if v.pending audio then 1 else 0

/-- Every drain message in the mailbox is stale: its generation is below the
current one of its stream. -/
def AllStale (v : DrainView) : Prop :=
  ∀ audio, ∀ g ∈ v.generations audio, g < v.generation audio

/-- The action hands to the handler a stale drain message of a stream whose
drain-pending flag is set. -/
def staleWhilePending (s : Renderer) : Action → Bool
  | .deliver i =>
    match s.mailbox[i]? with
    | some (.drainAudioQueue generation, _) =>
      decide (generation ≠ s.mAudioQueueGeneration) && s.mDrainAudioQueuePending
    | some (.drainVideoQueue generation, _) =>
      decide (generation ≠ s.mVideoQueueGeneration) && s.mDrainVideoQueuePending
    | _ => false
  | _ => false

/-- Along the run, no stale drain message is handled while the drain-pending
flag of its stream is set. -/
def noStaleWhilePending : Renderer → List (Env × Action) → Bool
  | _, [] => true
  | s, (env, a) :: rest =>
    !staleWhilePending s a &&
      (match step env s a with
       | .ok s1 => noStaleWhilePending s1 rest
       | .fail _ => true)

/-- The action hands a `kWhatResume` message to the handler. -/
def deliversResume (s : Renderer) : Action → Bool
  | .deliver i =>
    match s.mailbox[i]? with
    | some (.resume, _) => true
    | _ => false
  | _ => false

/-- Along the run, no `kWhatResume` message is handled. -/
def noResumeDelivered : Renderer → List (Env × Action) → Bool
  | _, [] => true
  | s, (env, a) :: rest =>
    !deliversResume s a &&
      (match step env s a with
       | .ok s1 => noResumeDelivered s1 rest
       | .fail _ => true)

/-- The action hands to the handler a drain message that carries the current
generation of its stream, so that the drain runs. -/
def firesCurrentDrain (s : Renderer) : Action → Bool
  | .deliver i =>
    match s.mailbox[i]? with
    | some (.drainAudioQueue generation, _) => decide (generation = s.mAudioQueueGeneration)
    | some (.drainVideoQueue generation, _) => decide (generation = s.mVideoQueueGeneration)
    | _ => false
  | _ => false

/-- Along the run, every drain message that is handled is stale. -/
def firedDrainsStale : Renderer → List (Env × Action) → Bool
  | _, [] => true
  | s, (env, a) :: rest =>
    !firesCurrentDrain s a &&
      (match step env s a with
       | .ok s1 => firedDrainsStale s1 rest
       | .fail _ => true)

/-- Whether a trace element hands a video entry back with a render decision:
a callback of the video stream with the "render" field set. -/
def isRendered : Out → Bool
  | .consumed audio _ (some _) => !audio
  | _ => false

/-- The video entries handed back with a render decision so far. -/
def renderedFrames (s : Renderer) : List Out :=
  s.out.filter isRendered

/-- The bytes written to the sink and the video entries handed back with a
render decision so far. -/
def Renderer.played (s : Renderer) : List Nat × List Out :=
  (bytesOf s.out, renderedFrames s)

/-- Between the two states no byte was written to the sink and no video entry
was handed back with a render decision. -/
def Idle (s r : Renderer) : Prop :=
  r.played = s.played

/-- The run from a fresh renderer to the state in which the pause message of
`samplePausedBoth` waits in the mailbox behind the two drain messages. -/
def samplePauseRequestedRun : List (Env × Action) :=
  sampleDrainedHalf ++
    [ (sampleEnv, .queueBuffer false sampleBuffer3 3),
      (sampleEnv, .deliver 1),
      (sampleEnv, .pause) ]

/-- The renderer after `samplePauseRequestedRun`. -/
def samplePauseRequested : Renderer :=
  runFrom sampleStart samplePauseRequestedRun

/-- While `samplePausedBoth` is paused both drain messages come due and one
more audio buffer is queued and handled. -/
def samplePausedActs : List (Env × Action) :=
  [ (sampleEnvPlayed, .deliver 0),
    (sampleEnvPlayed, .deliver 0),
    (sampleEnvPlayed, .queueBuffer true sampleBuffer1 4),
    (sampleEnvPlayed, .deliver 0) ]

/-- The renderer of `samplePausedBoth` after `samplePausedActs`. -/
def samplePausedLater : Renderer :=
  runFrom samplePausedBoth samplePausedActs

/-- The renderer of `sampleStaleDrain` after the stale drain message of
generation 0 came due and was handled: the drain-pending flag is clear while
the drain message of generation 1 still waits. -/
def sampleStaleHandled : Renderer :=
  runFrom sampleStaleDrain [(sampleEnv, .deliver 0)]

/-- The renderer of `sampleStaleHandled` after one more audio buffer was queued
and handled: a second drain message of generation 1 is posted. -/
def sampleTwoDrains : Renderer :=
  runFrom sampleStaleHandled
    [ (sampleEnv, .queueBuffer true sampleBuffer1 4),
      (sampleEnv, .deliver 1) ]

/-- The run from a fresh renderer to `sampleTwoDrains`. -/
def sampleTwoDrainsRun : List (Env × Action) :=
  sampleDrainedHalf ++
    [ (sampleEnv, .flush true),
      (sampleEnv, .deliver 1),
      (sampleEnv, .queueBuffer true sampleBuffer3 3),
      (sampleEnv, .deliver 1),
      (sampleEnv, .deliver 1),
      (sampleEnv, .deliver 0),
      (sampleEnv, .queueBuffer true sampleBuffer1 4),
      (sampleEnv, .deliver 1) ]

/-- Audio is declared present; the producers call `queueEOS(audio)` (the
audio stream ends before its first buffer) and queue two video frames before
the looper runs; the looper then handles the three messages in posting order.
The audio drain message posted for the marker waits behind the two
`kWhatQueueBuffer` messages. -/
def sampleEOSBeforeVideo : List (Env × Action) :=
  [ (sampleEnv, .setMediaPresence true true),
    (sampleEnv, .queueEOS true ERROR_END_OF_STREAM),
    (sampleEnv, .queueBuffer false sampleVideo1 1),
    (sampleEnv, .queueBuffer false sampleVideo2 2),
    (sampleEnv, .deliver 0),
    (sampleEnv, .deliver 0),
    (sampleEnv, .deliver 0) ]

/-- The renderer after all of `sampleEOSBeforeVideo` but the handling of the
second video frame. -/
def sampleMarkerAtStart : Renderer :=
  runFrom sampleStart (sampleEOSBeforeVideo.take 6)

/-! ## Vocabulary and sample data: the live drop rule, the video-only anchor and the write offsets -/

/-- A video frame with the given time stamp. -/
def sampleFrame (timeUs : Int) : ABuffer := { data := [1], timeUs := some timeUs, disc := none }

/-- An audio buffer of two bytes with time stamp 100000. -/
def sampleAudioLate : ABuffer := { data := [5, 6], timeUs := some 100000, disc := none }

/-- A live stream.  The frames of time stamps 10 and 50010 are queued; the
first is rendered at once and the drain of the second is posted for wall time
51000.  The video stream is flushed and the frame 50020 is queued, its drain
posted for wall time 51010.  At 51000 the stale drain message comes due and
clears the drain-pending flag, so the frame 50030 queued at 51005 posts a second
drain message of the current generation.  The first of the two renders the
frame 50020 and posts the drain of the frame 50030 for wall time 51020, the
second renders the frame 50030: the video queue is empty and a drain message of
the current generation still waits. -/
def sampleSpareDrainRun : List (Env × Action) :=
  [ (sampleEnvAt 1000, .setLiveStream true),
    (sampleEnvAt 1000, .queueBuffer false (sampleFrame 10) 1),
    (sampleEnvAt 1000, .queueBuffer false (sampleFrame 50010) 2),
    (sampleEnvAt 1000, .deliver 0),
    (sampleEnvAt 1000, .deliver 0),
    (sampleEnvAt 1001, .deliver 0),
    (sampleEnvAt 2000, .flush false),
    (sampleEnvAt 2000, .deliver 1),
    (sampleEnvAt 2100, .queueBuffer false (sampleFrame 50020) 3),
    (sampleEnvAt 2100, .deliver 1),
    (sampleEnvAt 51000, .deliver 0),
    (sampleEnvAt 51005, .queueBuffer false (sampleFrame 50030) 4),
    (sampleEnvAt 51005, .deliver 1),
    (sampleEnvAt 51010, .deliver 0),
    (sampleEnvAt 51011, .deliver 0) ]

/-- After `sampleSpareDrainRun`: audio is declared present and a time
discontinuity is signalled, which arms the queue synchronisation.  The frame
200000 is queued at 51013 and waits for audio; at 51020 the drain message still
waiting comes due and renders it, without an anchor real time being set.  The
audio buffer 100000 is queued at 51030 and `queueEOS(video)` at 51040 ends the
synchronisation and posts the audio drain. -/
def sampleOlderAudioRun : List (Env × Action) :=
  sampleSpareDrainRun ++
    [ (sampleEnvAt 51012, .setMediaPresence true true),
      (sampleEnvAt 51012, .signalTimeDiscontinuity),
      (sampleEnvAt 51013, .queueBuffer false (sampleFrame 200000) 5),
      (sampleEnvAt 51013, .deliver 1),
      (sampleEnvAt 51020, .deliver 0),
      (sampleEnvAt 51030, .queueBuffer true sampleAudioLate 6),
      (sampleEnvAt 51030, .deliver 0),
      (sampleEnvAt 51040, .queueEOS false ERROR_END_OF_STREAM) ]

/-- The renderer after `sampleOlderAudioRun`: live, video present, the frame
200000 received last, no anchor set, the audio buffer 100000 at the head of the
audio queue and its drain message first in the mailbox. -/
def sampleOlderAudio : Renderer :=
  runFrom sampleStart sampleOlderAudioRun

/-- The audio drain gets to the entry at the head of the audio queue: no stall
is pending, the sink tells its position and has room for at least one byte. -/
def drainReaches (env : Env) (s : Renderer) : Bool :=
  !s.mDelayPending && env.positionOK && decide (0 < numBytesAvailableToWrite env s)

/-- The first live-stream test of the audio drain on a sample of media time `t`
(source lines 429-437): no anchor real time is set and the anchor media time
is not `t`; the drain then returns and waits for the video drain to set the
anchor real time. -/
def awaitsVideoAnchor (s : Renderer) (t : Int) : Bool :=
  decide (s.mAnchorTimeRealUs < 0) && decide (s.mAnchorTimeMediaUs ≠ t)

/-- How one trace element changes the record of the bytes written to the sink
from the entry now at the head of the audio queue: a write to the sink adds its
bytes; a callback posted for an audio entry and an audio EOS notification mean
that the head entry left the queue, and the record starts again empty. -/
def trackHead (g : List Nat) : Out → List Nat
  | .sinkWrite bytes => g ++ bytes
  | .consumed true _ _ => []
  | .eos true _ => []
  | _ => g

/-- Trace elements that are neither a write to the sink nor tell that an
entry left the audio queue. -/
def neutralOut : Out → Bool
  | .sinkWrite _ => false
  | .consumed true _ _ => false
  | .eos true _ => false
  | _ => true

/-- The action hands an audio buffer to the handler while the audio stream is
flushing: the buffer is not queued and its callback is posted at once
(`dropBufferWhileFlushing`), so that callback tells nothing about the queue. -/
def rejectsAudio (s : Renderer) (a : Action) : Bool :=
  match deliveredBuffer s a with
  | some (true, _) => s.mFlushingAudio
  | _ => false

/-- The record of the bytes written from the head audio entry after one
operation that took the renderer from `s` to `r`: the trace elements the
operation added are followed with `trackHead`, unless the operation is the
rejection of an audio buffer. -/
def headWrittenStep (g : List Nat) (s : Renderer) (a : Action) (r : Renderer) : List Nat :=
  if rejectsAudio s a then g else (r.out.drop s.out.length).foldl trackHead g

/-- The bytes written to the sink from the entry at the head of the audio
queue, counted along a run: `g` is the record at the start of the run. -/
def headWritten (g : List Nat) : Renderer → List (Env × Action) → List Nat
  | _, [] => g
  | s, (env, a) :: rest =>
    match step env s a with
    | .ok r => headWritten (headWrittenStep g s a r) r rest
    | .fail _ => g

/-- The record `g` is the payload of the head audio entry up to its offset;
with the audio queue empty the record is empty. -/
def HeadExact (g : List Nat) : List QueueEntry → Prop
  | [] => g = []
  | e :: _ => (entryData e).take e.mOffset = g

/-- From `s` to `r` the trace grew by elements along which the record of the
head audio entry, exact for `s`, stays exact. -/
def Tracks (s r : Renderer) : Prop :=
  ∃ added, r.out = s.out ++ added ∧
    ∀ g, HeadExact g s.mAudioQueue → HeadExact (added.foldl trackHead g) r.mAudioQueue

/-- The audio queue is kept and the trace grew by neutral elements only. -/
def AudioKept (s r : Renderer) : Prop :=
  r.mAudioQueue = s.mAudioQueue ∧
    ∃ added, r.out = s.out ++ added ∧ ∀ o ∈ added, neutralOut o = true

/-! ## Effect of the handlers on queues, callbacks and flags -/

theorem stable_refl (s : Renderer) : Stable s s :=
  ⟨rfl, rfl, rfl, rfl, rfl, rfl, rfl, rfl, rfl, rfl⟩

theorem stable_trans {s s1 s2 : Renderer} (h1 : Stable s s1) (h2 : Stable s1 s2) :
    Stable s s2 :=
  ⟨h2.aq.trans h1.aq, h2.vq.trans h1.vq, h2.out.trans h1.out, h2.genA.trans h1.genA,
    h2.genV.trans h1.genV, h2.flushA.trans h1.flushA, h2.flushV.trans h1.flushV,
    h2.eos.trans h1.eos, h2.settings.trans h1.settings, h2.lastPos.trans h1.lastPos⟩

theorem stable_view {s s1 : Renderer} (h : Stable s s1) : s1.view = s.view := by
  simp [Renderer.view, postedCallbacks, h.aq, h.vq, h.out, h.eos, h.flushA, h.flushV]

theorem postDrainAudioQueue_stable (s : Renderer) (d : Int) :
    Stable s (postDrainAudioQueue s d) := by
  unfold postDrainAudioQueue
  split
  · exact stable_refl s
  · split
    · exact stable_refl s
    · constructor <;> first | rfl | simp [post, eosResults, eosResult, List.filterMap_append]

theorem postVideoDrainMsg_stable (s : Renderer) (d : Int) :
    Stable s (postVideoDrainMsg s d) := by
  constructor <;> first
    | rfl
    | simp [postVideoDrainMsg, post, eosResults, eosResult, List.filterMap_append]

theorem postDrainVideoQueue_stable {env : Env} {s s1 : Renderer}
    (h : postDrainVideoQueue env s = .ok s1) : Stable s s1 := by
  unfold postDrainVideoQueue at h
  split at h
  · cases h; exact stable_refl s
  · split at h
    · cases h; exact stable_refl s
    · split at h
      · cases h; exact postVideoDrainMsg_stable s 0
      · split at h
        · cases h
        · split at h
          · cases h
            exact stable_trans (by constructor <;> rfl) (postVideoDrainMsg_stable _ 0)
          · split at h
            · simp only at h
              split at h
              · cases h
                exact stable_trans (by constructor <;> rfl) (postVideoDrainMsg_stable _ _)
              · split at h
                · cases h
                  split <;> constructor <;> rfl
                · cases h
                  exact stable_trans (by constructor <;> rfl) (postVideoDrainMsg_stable _ _)
            · cases h
              exact postVideoDrainMsg_stable _ _

theorem syncQueuesDone_stable {env : Env} {s s1 : Renderer}
    (h : syncQueuesDone env s = .ok s1) : Stable s s1 := by
  unfold syncQueuesDone at h
  by_cases hq : (!s.mSyncQueues) = true
  · rw [if_pos hq] at h; cases h; exact stable_refl s
  · rw [if_neg hq] at h
    have h0 : Stable s { s with mSyncQueues := false } := by constructor <;> rfl
    have key : ∀ s2 : Renderer, Stable s s2 →
        (if (!s2.mVideoQueue.isEmpty) = true then postDrainVideoQueue env s2 else .ok s2)
          = .ok s1 → Stable s s1 := by
      intro s2 h2 h
      split at h
      · exact stable_trans h2 (postDrainVideoQueue_stable h)
      · cases h; exact h2
    refine key _ ?_ h
    split
    · exact stable_trans h0 (postDrainAudioQueue_stable _ _)
    · exact h0

theorem Result.bind_eq_ok {α β : Type} {r : Result α} {k : α → Result β} {b : β}
    (h : r.bind k = .ok b) : ∃ a, r = .ok a ∧ k a = .ok b := by
  cases r with
  | ok a => exact ⟨a, rfl, h⟩
  | fail f => cases h

theorem pops_trans {v v1 v2 : QView} (h1 : Pops v v1) (h2 : Pops v1 v2) : Pops v v2 := by
  induction h2 with
  | refl => exact h1
  | payloadA _ hq hb hc ih => exact Pops.payloadA ih hq hb hc
  | payloadV _ hq hb hc ih => exact Pops.payloadV ih hq hb hc
  | eosA _ hq hb ih => exact Pops.eosA ih hq hb
  | eosV _ hq hb ih => exact Pops.eosV ih hq hb
  | touchA _ hq hk ih => exact Pops.touchA ih hq hk

theorem pops_of_eq {v v1 : QView} (h : v1 = v) : Pops v v1 := by
  subst h; exact Pops.refl _

theorem view_emit_other (s : Renderer) (o : Out) (ha : consumedOf true o = none)
    (hv : consumedOf false o = none) : (emit s o).view = s.view := by
  simp [Renderer.view, emit, postedCallbacks, eosResults, List.filterMap_append, ha, hv]

theorem view_notifyPosition (env : Env) (s : Renderer) (b : Bool) :
    (notifyPosition env s b).view = s.view := by
  unfold notifyPosition
  split
  · rfl
  · split
    · rfl
    · exact view_emit_other _ _ rfl rfl

theorem view_emit_sinkWrite (s : Renderer) (bytes : List Nat) :
    (emit s (.sinkWrite bytes)).view = s.view :=
  view_emit_other _ _ rfl rfl

theorem view_notifyEOS (s : Renderer) (audio : Bool) (r : Int) :
    (notifyEOS s audio r).view = s.view :=
  view_emit_other _ _ rfl rfl

theorem view_postConsumed {s s1 : Renderer} {audio : Bool} {e : QueueEntry} {r : Option Int}
    (h : postConsumed s audio e r = .ok s1) :
    ∃ cb, e.mNotifyConsumed = some cb ∧
      s1.view = (if audio then { s.view with pa := s.view.pa ++ [cb] }
                 else { s.view with pv := s.view.pv ++ [cb] }) := by
  unfold postConsumed at h
  split at h
  · cases h
  · next cb hcb =>
    cases h
    refine ⟨cb, hcb, ?_⟩
    cases audio <;>
      simp [Renderer.view, emit, postedCallbacks, eosResults, List.filterMap_append, consumedOf]


theorem view_measureStartUpLatency (env : Env) (s : Renderer) :
    (measureStartUpLatency env s).view = s.view := by
  unfold measureStartUpLatency
  split <;> rfl

theorem vq_measureStartUpLatency (env : Env) (s : Renderer) :
    (measureStartUpLatency env s).mVideoQueue = s.mVideoQueue := by
  unfold measureStartUpLatency
  split <;> rfl

theorem view_videoRenderDecision (env : Env) (s : Renderer) (m : Int) :
    (videoRenderDecision env s m).2.view = s.view := by
  unfold videoRenderDecision
  dsimp only
  split <;> split <;> rfl

theorem drainVideoHead_pops {env : Env} {s s1 : Renderer}
    (h : drainVideoHead env s = .ok s1) : Pops s.view s1.view := by
  unfold drainVideoHead at h
  split at h
  · cases h; exact Pops.refl _
  · next entry rest hq =>
    have hvq : s.view.vq = entry :: rest := hq
    split at h
    · next hb =>
      cases h
      refine pops_trans (Pops.eosV (Pops.refl s.view) hvq hb) (pops_of_eq ?_)
      show ({ (notifyEOS (notifyPosition env s true) false entry.mFinalResult).view with
        vq := rest } : QView) = _
      rw [view_notifyEOS, view_notifyPosition]
    · next buffer hb =>
      split at h
      · cases h
      · next mediaTimeUs ht =>
        have hv := view_videoRenderDecision env s mediaTimeUs
        generalize videoRenderDecision env s mediaTimeUs = d at h hv
        obtain ⟨tooLate, s5⟩ := d
        dsimp only at h hv
        obtain ⟨s6, h6, h7⟩ := Result.bind_eq_ok h
        cases h7
        obtain ⟨cb, hcb, hview⟩ := view_postConsumed h6
        have hb1 : entry.mBuffer ≠ none := by rw [hb]; simp
        refine pops_trans (Pops.payloadV (Pops.refl s.view) hvq hb1 hcb) (pops_of_eq ?_)
        rw [view_notifyPosition]
        simp only [Bool.false_eq_true, if_false] at hview
        rw [hv] at hview
        have : ({ s6 with mVideoQueue := rest } : Renderer).view = { s6.view with vq := rest } := rfl
        rw [this, hview]

theorem onDrainVideoQueue_pops {env : Env} {s s1 : Renderer}
    (h : onDrainVideoQueue env s = .ok s1) : Pops s.view s1.view := by
  unfold onDrainVideoQueue at h
  split at h
  · cases h; exact Pops.refl _
  · have := drainVideoHead_pops h
    rwa [view_measureStartUpLatency] at this

theorem audioWrite_pops {env : Env} {n : Nat} {s : Renderer} {entry : QueueEntry}
    {buffer : ABuffer} {rest : List QueueEntry} {c : Ctl}
    (hq : s.mAudioQueue = entry :: rest) (hb : entry.mBuffer = some buffer)
    (h : audioWrite env n s entry buffer rest = .ok c) : Pops s.view c.state.view := by
  unfold audioWrite at h
  dsimp only at h
  split at h
  · cases h
  · obtain ⟨s3, h3, h4⟩ := Result.bind_eq_ok h
    cases h4
    have haq : s.view.aq = entry :: rest := hq
    have hb1 : entry.mBuffer ≠ none := by rw [hb]; simp
    split at h3
    · obtain ⟨s2, h2, h5⟩ := Result.bind_eq_ok h3
      cases h5
      obtain ⟨cb, hcb, hview⟩ := view_postConsumed h2
      simp only [if_true] at hview
      rw [view_emit_sinkWrite] at hview
      refine pops_trans (Pops.payloadA (Pops.refl s.view) haq hb1 hcb) (pops_of_eq ?_)
      show ({ s2.view with aq := rest } : QView) = _
      rw [hview]
    · cases h3
      refine pops_trans (@Pops.touchA s.view s.view entry { entry with
        mOffset := (entry.mOffset + copySize env n entry buffer) % 2 ^ env.sizeBits } rest
        (Pops.refl s.view) haq ?_) (pops_of_eq ?_)
      · rfl
      · show ({ (emit s (Out.sinkWrite _)).view with aq := _ } : QView) = _
        rw [view_emit_sinkWrite]
        rfl

theorem audioAnchor_pops {env : Env} {n : Nat} {s : Renderer} {entry : QueueEntry}
    {buffer : ABuffer} {rest : List QueueEntry} {m : Int} {c : Ctl}
    (hq : s.mAudioQueue = entry :: rest) (hb : entry.mBuffer = some buffer)
    (h : audioAnchor env n s entry buffer rest m = .ok c) : Pops s.view c.state.view := by
  unfold audioAnchor at h
  dsimp only at h
  split at h
  · cases h
  · exact audioWrite_pops (s := { s with
        mAnchorTimeMediaUs := m, mLastRenderedTimeMediaUs := m,
        mRealTimeOffsetUs := _, mAnchorTimeRealUs := _ }) hq hb h

theorem audioBody_pops {env : Env} {n : Nat} {s : Renderer} {c : Ctl}
    (h : audioBody env n s = .ok c) : Pops s.view c.state.view := by
  unfold audioBody at h
  split at h
  · cases h
  · next entry rest hq =>
    have haq : s.view.aq = entry :: rest := hq
    split at h
    · next hb =>
      cases h
      refine pops_trans (Pops.eosA (Pops.refl s.view) haq hb) (pops_of_eq ?_)
      show ({ (notifyEOS s true entry.mFinalResult).view with aq := rest } : QView) = _
      rw [view_notifyEOS]
    · next buffer hb =>
      have hb1 : entry.mBuffer ≠ none := by rw [hb]; simp
      split at h
      · split at h
        · cases h
        · next mediaTimeUs ht =>
          split at h
          · split at h
            · cases h; exact Pops.refl _
            · split at h
              · obtain ⟨s1, h1, h2⟩ := Result.bind_eq_ok h
                cases h2
                obtain ⟨cb, hcb, hview⟩ := view_postConsumed h1
                simp only [if_true] at hview
                refine pops_trans (Pops.payloadA (Pops.refl s.view) haq hb1 hcb) (pops_of_eq ?_)
                show ({ s1.view with aq := rest } : QView) = _
                rw [hview]
              · split at h
                · dsimp only at h
                  split at h
                  · cases h
                    refine pops_trans (@Pops.touchA s.view s.view entry { entry with
                      mBuffer := some { buffer with disc := some 0 } } rest
                      (Pops.refl s.view) haq ?_) (pops_of_eq ?_)
                    · simp [entryKey, hb]
                    · show (postDrainAudioQueue _ _).view = _
                      rw [(stable_view (postDrainAudioQueue_stable _ _))]
                      rfl
                  · exact audioAnchor_pops (s := { s with
                      mDiscFromAnchorRealTimeRefresh := false }) hq hb h
                · exact audioAnchor_pops hq hb h
          · exact audioAnchor_pops hq hb h
      · exact audioWrite_pops hq hb h

theorem audioLoop_pops {env : Env} (fuel : Nat) : ∀ {n : Nat} {s : Renderer}
    {r : Bool × Renderer}, audioLoop env fuel n s = .ok r → Pops s.view r.2.view := by
  induction fuel with
  | zero =>
    intro n s r h
    unfold audioLoop at h
    split at h
    · cases h
    · cases h
      exact pops_of_eq (view_notifyPosition env s false)
  | succ fuel ih =>
    intro n s r h
    unfold audioLoop at h
    split at h
    · split at h
      · cases h
      · next b s1 hbody => cases h; exact audioBody_pops hbody
      · next n1 s1 hbody => exact pops_trans (audioBody_pops hbody) (ih h)
    · cases h
      exact pops_of_eq (view_notifyPosition env s false)

theorem drainAudioSink_pops {env : Env} {s : Renderer} {r : Bool × Renderer}
    (h : drainAudioSink env s = .ok r) : Pops s.view r.2.view := by
  unfold drainAudioSink at h
  split at h
  · cases h; exact Pops.refl _
  · exact audioLoop_pops _ h

theorem drainAudioFirst_pops {env : Env} {s : Renderer} {r : Bool × Renderer}
    (h : drainAudioFirst env s = .ok r) : Pops s.view r.2.view := by
  unfold drainAudioFirst at h
  split at h
  · exact drainAudioSink_pops h
  · next entry rest hq =>
    have haq : s.view.aq = entry :: rest := hq
    split at h
    · next hc =>
      cases h
      refine pops_trans (Pops.eosA (Pops.refl s.view) haq hc.2) (pops_of_eq ?_)
      show ({ (notifyEOS s true entry.mFinalResult).view with aq := rest } : QView) = _
      rw [view_notifyEOS]
    · exact drainAudioSink_pops h

theorem onDrainAudioQueue_pops {env : Env} {s : Renderer} {r : Bool × Renderer}
    (h : onDrainAudioQueue env s = .ok r) : Pops s.view r.2.view := by
  unfold onDrainAudioQueue at h
  split at h
  · cases h; exact Pops.refl _
  · have := drainAudioFirst_pops h
    rwa [view_measureStartUpLatency] at this

theorem view_setQueue (audio : Bool) (s : Renderer) (q : List QueueEntry) :
    (setQueue audio s q).view =
      (if audio then { s.view with aq := q } else { s.view with vq := q }) := by
  cases audio <;> rfl

theorem getQueue_setQueue (audio : Bool) (s : Renderer) (q : List QueueEntry) :
    getQueue audio (setQueue audio s q) = q := by
  cases audio <;> rfl

theorem flushLoop_pops (audio : Bool) : ∀ (q : List QueueEntry) {s s1 : Renderer},
    getQueue audio s = q → flushLoop audio q s = .ok s1 →
    Pops s.view s1.view ∧ getQueue audio s1 = [] := by
  intro q
  induction q with
  | nil =>
    intro s s1 hq h
    cases h
    exact ⟨Pops.refl _, hq⟩
  | cons entry rest ih =>
    intro s s1 hq h
    unfold flushLoop at h
    obtain ⟨s2, h2, h3⟩ := Result.bind_eq_ok h
    obtain ⟨hp, hr⟩ := ih (getQueue_setQueue audio s2 rest) h3
    refine ⟨pops_trans ?_ hp, hr⟩
    rw [view_setQueue]
    split at h2
    · next hb =>
      obtain ⟨cb, hcb, hview⟩ := view_postConsumed h2
      cases audio
      · have hvq : s.view.vq = entry :: rest := hq
        refine pops_trans (Pops.payloadV (Pops.refl s.view) hvq hb hcb) (pops_of_eq ?_)
        simp only [Bool.false_eq_true, if_false] at hview ⊢
        rw [hview]
      · have haq : s.view.aq = entry :: rest := hq
        refine pops_trans (Pops.payloadA (Pops.refl s.view) haq hb hcb) (pops_of_eq ?_)
        simp only [if_true] at hview ⊢
        rw [hview]
    · next hb =>
      cases h2
      have hb0 : entry.mBuffer = none := by simpa using hb
      cases audio
      · have hvq : s.view.vq = entry :: rest := hq
        exact Pops.eosV (Pops.refl s.view) hvq hb0
      · have haq : s.view.aq = entry :: rest := hq
        exact Pops.eosA (Pops.refl s.view) haq hb0

theorem flushQueue_pops {audio : Bool} {s s1 : Renderer} (h : flushQueue audio s = .ok s1) :
    Pops s.view s1.view ∧ getQueue audio s1 = [] :=
  flushLoop_pops audio _ rfl h

theorem setStartAnchor_stable {s s1 : Renderer}
    (h : setStartAnchorMediaAndPostDrainQueue s = .ok s1) : Stable s s1 := by
  unfold setStartAnchorMediaAndPostDrainQueue at h
  split at h
  · split at h
    · cases h
      refine stable_trans ?_ (postDrainAudioQueue_stable _ _)
      dsimp only
      split
      · constructor <;> rfl
      · split
        · constructor <;> rfl
        · split <;> constructor <;> rfl
    · cases h
  · cases h

theorem syncQueuesStep_pops {env : Env} {s s1 : Renderer}
    (h : syncQueuesStep env s = .ok s1) : Pops s.view s1.view := by
  unfold syncQueuesStep at h
  split at h
  · cases h; exact Pops.refl _
  · split at h
    · next aentry arest ventry vrest hqa hqv =>
      split at h
      · next firstAudioBuffer firstVideoBuffer hba hbv =>
        split at h
        · dsimp only at h
          split at h
          · obtain ⟨s2, h2, h3⟩ := Result.bind_eq_ok h
            cases h3
            obtain ⟨cb, hcb, hview⟩ := view_postConsumed h2
            have haq : s.view.aq = aentry :: arest := hqa
            have hb1 : aentry.mBuffer ≠ none := by rw [hba]; simp
            refine pops_trans (Pops.payloadA (Pops.refl s.view) haq hb1 hcb) (pops_of_eq ?_)
            show ({ s2.view with aq := arest } : QView) = _
            simp only [if_true] at hview
            rw [hview]
          · exact pops_of_eq (stable_view (syncQueuesDone_stable h))
        · cases h
      · exact pops_of_eq (stable_view (syncQueuesDone_stable h))
    · cases h; exact Pops.refl _

theorem enqueueBuffer_pops {env : Env} {s s1 : Renderer} {audio : Bool} {entry : QueueEntry}
    (h : enqueueBuffer env s audio entry = .ok s1) :
    Pops (s.view.push audio entry) s1.view := by
  unfold enqueueBuffer at h
  split at h
  · next ha =>
    subst ha
    dsimp only at h
    have hv : ({ s with mAudioQueue := s.mAudioQueue ++ [entry] } : Renderer).view
        = s.view.push true entry := rfl
    rw [← hv]
    split at h
    · split at h
      · cases h; exact Pops.refl _
      · exact pops_of_eq (stable_view (setStartAnchor_stable h))
    · cases h
      exact pops_of_eq (stable_view (postDrainAudioQueue_stable _ _))
  · next ha =>
    have ha : audio = false := by simpa using ha
    subst ha
    dsimp only at h
    have hv : ({ s with mVideoQueue := s.mVideoQueue ++ [entry] } : Renderer).view
        = s.view.push false entry := rfl
    rw [← hv]
    split at h
    · split at h
      · cases h; exact Pops.refl _
      · split at h
        · cases h; exact Pops.refl _
        · exact pops_of_eq (stable_view (setStartAnchor_stable h))
    · obtain ⟨s4, h4, h5⟩ := Result.bind_eq_ok h
      have := syncQueuesStep_pops h5
      rwa [(stable_view (postDrainVideoQueue_stable h4))] at this

theorem view_markPresent (s : Renderer) (audio : Bool) : (markPresent s audio).view = s.view := by
  unfold markPresent; split <;> rfl

theorem flushingFlag_markPresent (s : Renderer) (audio a : Bool) :
    flushingFlag a (markPresent s audio) = flushingFlag a s := by
  unfold markPresent; split <;> rfl

theorem view_beginStartUpLatency (env : Env) (s : Renderer) :
    (beginStartUpLatency env s).view = s.view := by
  unfold beginStartUpLatency; split <;> rfl

theorem dropBufferWhileFlushing_eq (s : Renderer) (audio : Bool) (cb : Option Nat) :
    dropBufferWhileFlushing s audio cb =
      if flushingFlag audio s then
        (true, match cb with
               | some c => emit s (.consumed audio c none)
               | none => s)
      else (false, s) := by
  cases audio
  · cases hf : s.mFlushingVideo <;> cases cb <;>
      simp [dropBufferWhileFlushing, flushingFlag, hf]
  · cases hf : s.mFlushingAudio <;> cases cb <;>
      simp [dropBufferWhileFlushing, flushingFlag, hf]

theorem view_emit_consumed (s : Renderer) (audio : Bool) (cb : Nat) (r : Option Int) :
    (emit s (.consumed audio cb r)).view = s.view.reject audio cb := by
  cases audio <;>
    simp [Renderer.view, emit, postedCallbacks, eosResults, List.filterMap_append, consumedOf,
      QView.reject]

theorem onQueueBuffer_view {env : Env} {s s1 : Renderer} {audio : Bool} {buffer : ABuffer}
    {cb : Nat} (h : onQueueBuffer env s audio buffer cb = .ok s1) :
    (flushingFlag audio s = true ∧ s1.view = s.view.reject audio cb) ∨
    (flushingFlag audio s = false ∧
      Pops (s.view.push audio (bufferEntry buffer cb)) s1.view) := by
  unfold onQueueBuffer at h
  rw [dropBufferWhileFlushing_eq, flushingFlag_markPresent] at h
  cases hf : flushingFlag audio s
  · right
    rw [hf] at h
    simp only [Bool.false_eq_true, if_false] at h
    refine ⟨rfl, ?_⟩
    have := enqueueBuffer_pops h
    rwa [view_beginStartUpLatency, view_markPresent] at this
  · left
    rw [hf] at h
    simp only [if_true] at h
    cases h
    refine ⟨rfl, ?_⟩
    rw [view_emit_consumed, view_markPresent]

theorem onQueueEOS_view {env : Env} {s s1 : Renderer} {audio : Bool} {finalResult : Int}
    (h : onQueueEOS env s audio finalResult = .ok s1) :
    (flushingFlag audio s = true ∧ s1 = s) ∨
    (flushingFlag audio s = false ∧ s1.view = s.view.push audio (eosEntry finalResult)) := by
  unfold onQueueEOS at h
  rw [dropBufferWhileFlushing_eq] at h
  cases hf : flushingFlag audio s
  · right
    rw [hf] at h
    simp only [Bool.false_eq_true, if_false] at h
    refine ⟨rfl, ?_⟩
    split at h
    · next ha =>
      subst ha
      cases h
      rw [(stable_view (postDrainAudioQueue_stable _ _))]
      rfl
    · next ha =>
      have ha : audio = false := by simpa using ha
      subst ha
      rw [(stable_view (postDrainVideoQueue_stable h))]
      rfl
  · left
    rw [hf] at h
    simp only [if_true] at h
    cases h
    exact ⟨rfl, rfl⟩

theorem pops_setFlushing {v v1 : QView} (h : Pops v v1) (audio b : Bool) :
    Pops (v.setFlushing audio b) (v1.setFlushing audio b) := by
  induction h with
  | refl => exact Pops.refl _
  | payloadA _ hq hb hc ih =>
    cases audio
    · exact Pops.payloadA ih hq hb hc
    · exact Pops.payloadA ih hq hb hc
  | payloadV _ hq hb hc ih =>
    cases audio
    · exact Pops.payloadV ih hq hb hc
    · exact Pops.payloadV ih hq hb hc
  | eosA _ hq hb ih =>
    cases audio
    · exact Pops.eosA ih hq hb
    · exact Pops.eosA ih hq hb
  | eosV _ hq hb ih =>
    cases audio
    · exact Pops.eosV ih hq hb
    · exact Pops.eosV ih hq hb
  | touchA _ hq hk ih =>
    cases audio
    · exact Pops.touchA ih hq hk
    · exact Pops.touchA ih hq hk

theorem view_notifyFlushComplete (s : Renderer) (audio : Bool) :
    (notifyFlushComplete s audio).view = s.view :=
  view_emit_other _ _ rfl rfl

theorem onFlush_pops {env : Env} {s s1 : Renderer} {audio : Bool}
    (h : onFlush env s audio = .ok s1) :
    Pops (s.view.setFlushing audio false) s1.view ∧ getQueue audio s1 = [] := by
  unfold onFlush at h
  obtain ⟨s2, h2, h3⟩ := Result.bind_eq_ok h
  rw [← (stable_view (syncQueuesDone_stable h2))]
  split at h3
  · next ha =>
    subst ha
    obtain ⟨s3, h4, h5⟩ := Result.bind_eq_ok h3
    cases h5
    obtain ⟨hp, hq⟩ := flushQueue_pops h4
    refine ⟨pops_trans (pops_setFlushing hp true false) (pops_of_eq ?_), hq⟩
    rw [view_notifyFlushComplete]
    rfl
  · next ha =>
    have ha : audio = false := by simpa using ha
    subst ha
    obtain ⟨s3, h4, h5⟩ := Result.bind_eq_ok h3
    cases h5
    obtain ⟨hp, hq⟩ := flushQueue_pops h4
    refine ⟨pops_trans (pops_setFlushing hp false false) (pops_of_eq ?_), hq⟩
    rw [view_notifyFlushComplete]
    rfl

theorem view_emit_sinkPause (s : Renderer) : (emit s .sinkPause).view = s.view :=
  view_emit_other _ _ rfl rfl

theorem view_emit_sinkStart (s : Renderer) : (emit s .sinkStart).view = s.view :=
  view_emit_other _ _ rfl rfl

theorem view_post (s : Renderer) (m : Msg) (d : Int) (hm : eosResult (m, d) = none) :
    (post s m d).view = s.view := by
  simp [Renderer.view, post, postedCallbacks, eosResults, List.filterMap_append, hm]

theorem view_eq_iff (s s1 : Renderer) :
    s1.view = s.view ↔ s1.mAudioQueue = s.mAudioQueue ∧ s1.mVideoQueue = s.mVideoQueue ∧
      s1.out.filterMap (consumedOf true) = s.out.filterMap (consumedOf true) ∧
      s1.out.filterMap (consumedOf false) = s.out.filterMap (consumedOf false) ∧
      s1.mailbox.filterMap eosResult = s.mailbox.filterMap eosResult ∧
      s1.mFlushingAudio = s.mFlushingAudio ∧ s1.mFlushingVideo = s.mFlushingVideo := by
  simp [Renderer.view, postedCallbacks, eosResults]

theorem view_queueDelay (env : Env) (s : Renderer) (d : Int) :
    (queueDelay env s d).view = s.view := by
  unfold queueDelay
  split
  · rfl
  · split <;>
      simp [view_eq_iff, emit, post, List.filterMap_append, consumedOf, eosResult]

theorem view_onPause {s s1 : Renderer} (h : onPause s = .ok s1) : s1.view = s.view := by
  unfold onPause at h
  split at h
  · cases h
  · cases h
    split <;> simp [view_eq_iff, emit, List.filterMap_append, consumedOf]

theorem view_signalRefreshAnchorRealTime (env : Env) (s : Renderer) (b : Bool) :
    (signalRefreshAnchorRealTime env s b).view = s.view := by
  unfold signalRefreshAnchorRealTime
  split
  · dsimp only
    split <;> rfl
  · rfl

theorem view_onResume {env : Env} {s s1 : Renderer} (h : onResume env s = .ok s1) :
    s1.view = s.view := by
  unfold onResume at h
  split at h
  · cases h; rfl
  · have key : ∀ s4 : Renderer, s4.view = s.view →
        (if (!s4.mVideoQueue.isEmpty) = true then postDrainVideoQueue env s4 else .ok s4)
          = .ok s1 → s1.view = s.view := by
      intro s4 h4 h
      split at h
      · rw [(stable_view (postDrainVideoQueue_stable h)), h4]
      · cases h; exact h4
    refine key _ ?_ h
    have key2 : ∀ s3 : Renderer, s3.view = s.view →
        (if (!s3.mAudioQueue.isEmpty) = true then postDrainAudioQueue s3 0 else s3).view
          = s.view := by
      intro s3 h3
      split
      · rw [(stable_view (postDrainAudioQueue_stable _ _)), h3]
      · exact h3
    refine key2 _ ?_
    have key3 : ∀ s2 : Renderer, s2.view = s.view →
        (if s2.mIsLiveStream = true then signalRefreshAnchorRealTime env s2 false else s2).view
          = s.view := by
      intro s2 h2
      split
      · rw [view_signalRefreshAnchorRealTime, h2]
      · exact h2
    refine key3 _ ?_
    show (if (s.mHasAudio && !s.mDelayPending) = true then emit s Out.sinkStart else s).view = _
    split
    · exact view_emit_sinkStart s
    · rfl

theorem view_onAudioSinkChanged {env : Env} {s s1 : Renderer}
    (h : onAudioSinkChanged env s = .ok s1) : s1.view = s.view := by
  unfold onAudioSinkChanged at h
  split at h
  · cases h
  · cases h
    dsimp only
    split <;> rfl

theorem view_onDelayQueued {env : Env} {s s1 : Renderer} (h : onDelayQueued env s = .ok s1) :
    s1.view = s.view := by
  unfold onDelayQueued at h
  dsimp only at h
  split at h
  · cases h
    rw [view_queueDelay]
    rfl
  · rw [(stable_view (postDrainVideoQueue_stable h)), (stable_view (postDrainAudioQueue_stable _ _))]
    split <;> simp [view_eq_iff, emit, List.filterMap_append, consumedOf]

theorem onMessageReceived_pops {env : Env} {s s1 : Renderer} {m : Msg}
    (h : onMessageReceived env s m = .ok s1) : Pops (ingest s m) s1.view := by
  cases m with
  | drainAudioQueue g =>
    unfold onMessageReceived at h
    dsimp only at h
    show Pops s.view s1.view
    split at h
    · cases h; exact Pops.refl _
    · obtain ⟨⟨postAudio, s2⟩, h2, h3⟩ := Result.bind_eq_ok h
      have hp := onDrainAudioQueue_pops h2
      dsimp only at h3 hp
      obtain ⟨s3, h4, h5⟩ := Result.bind_eq_ok h3
      have h23 : s3.view = s2.view := by
        split at h4
        · have hst := stable_view (postDrainVideoQueue_stable h4)
          exact hst
        · cases h4; rfl
      refine pops_trans hp (pops_of_eq ?_)
      split at h5
      · split at h5
        · cases h5
        · cases h5
          rw [(stable_view (postDrainAudioQueue_stable _ _)), h23]
      · cases h5; exact h23
  | drainVideoQueue g =>
    unfold onMessageReceived at h
    dsimp only at h
    show Pops s.view s1.view
    split at h
    · cases h; exact Pops.refl _
    · obtain ⟨s2, h2, h3⟩ := Result.bind_eq_ok h
      have hp := onDrainVideoQueue_pops h2
      refine pops_trans hp (pops_of_eq ?_)
      exact (stable_view (postDrainVideoQueue_stable h3))
  | queueBuffer audio buffer cb =>
    have h : onQueueBuffer env s audio buffer cb = .ok s1 := h
    rcases onQueueBuffer_view h with ⟨hf, hv⟩ | ⟨hf, hv⟩
    · simp only [ingest, hf, if_true]; exact pops_of_eq hv
    · simp only [ingest, hf, Bool.false_eq_true, if_false]; exact hv
  | queueEOS audio finalResult =>
    have h : onQueueEOS env s audio finalResult = .ok s1 := h
    rcases onQueueEOS_view h with ⟨hf, hv⟩ | ⟨hf, hv⟩
    · simp only [ingest, hf, if_true]; rw [hv]; exact Pops.refl _
    · simp only [ingest, hf, Bool.false_eq_true, if_false]; exact pops_of_eq hv
  | flush audio => exact (onFlush_pops (show onFlush env s audio = .ok s1 from h)).1
  | audioSinkChanged =>
    exact pops_of_eq (view_onAudioSinkChanged (show onAudioSinkChanged env s = .ok s1 from h))
  | pause => exact pops_of_eq (view_onPause (show onPause s = .ok s1 from h))
  | resume => exact pops_of_eq (view_onResume (show onResume env s = .ok s1 from h))
  | delayQueued => exact pops_of_eq (view_onDelayQueued (show onDelayQueued env s = .ok s1 from h))

theorem step_pops {env : Env} {s s1 : Renderer} {a : Action}
    (h : step env s a = .ok s1) : Pops (stepIngest s a) s1.view := by
  cases a with
  | queueBuffer audio buffer cb =>
    cases h
    exact pops_of_eq (view_post _ _ _ rfl)
  | queueEOS audio finalResult =>
    have h : queueEOS env s audio finalResult = .ok s1 := h
    unfold queueEOS at h
    split at h
    · cases h
    · obtain ⟨s2, h2, h3⟩ := Result.bind_eq_ok h
      cases h3
      have h2v : s2.view = s.view := by
        split at h2
        · exact (stable_view (syncQueuesDone_stable h2))
        · cases h2; rfl
      refine pops_of_eq ?_
      show _ = ({ s.view with eos := s.view.eos ++ [finalResult] } : QView)
      rw [← h2v]
      simp [Renderer.view, post, postedCallbacks, eosResults, List.filterMap_append, eosResult]
  | queueDelay d =>
    cases h
    exact pops_of_eq (view_queueDelay _ _ _)
  | flush audio =>
    have h : flush s audio = .ok s1 := h
    unfold flush at h
    split at h
    · next ha =>
      subst ha
      split at h
      · cases h
      · cases h
        refine pops_of_eq ?_
        simp [stepIngest, QView.setFlushing, Renderer.view, postedCallbacks, eosResults, post,
          List.filterMap_append, eosResult]
    · next ha =>
      have ha : audio = false := by simpa using ha
      subst ha
      split at h
      · cases h
      · cases h
        refine pops_of_eq ?_
        simp [stepIngest, QView.setFlushing, Renderer.view, postedCallbacks, eosResults, post,
          List.filterMap_append, eosResult]
  | signalTimeDiscontinuity =>
    have h : signalTimeDiscontinuity s = .ok s1 := h
    unfold signalTimeDiscontinuity at h
    split at h
    · cases h
    · split at h
      · cases h
      · cases h; exact Pops.refl _
  | pause => cases h; exact pops_of_eq (view_post _ _ _ rfl)
  | resume => cases h; exact pops_of_eq (view_post _ _ _ rfl)
  | signalRefreshAnchorRealTime b =>
    cases h; exact pops_of_eq (view_signalRefreshAnchorRealTime _ _ _)
  | signalAudioSinkChanged => cases h; exact pops_of_eq (view_post _ _ _ rfl)
  | notifySeekPosition t =>
    cases h
    refine pops_of_eq ?_
    show _ = s.view
    simp [view_eq_iff, notifySeekPosition, emit, List.filterMap_append, consumedOf]
  | setMediaPresence audio b =>
    cases h
    refine pops_of_eq ?_
    show (setMediaPresence s audio b).view = s.view
    unfold setMediaPresence
    split <;> rfl
  | setLiveStream b => cases h; exact Pops.refl _
  | deliver i =>
    have h : (match s.mailbox[i]? with
      | none => Result.fail Fault.noMessage
      | some (msg, _) =>
        onMessageReceived env { s with mailbox := s.mailbox.eraseIdx i } msg) = .ok s1 := h
    split at h
    · cases h
    · next msg d hm =>
      simp only [stepIngest, hm]
      exact onMessageReceived_pops h

theorem keyCallback_entryKey (e : QueueEntry) : keyCallback (entryKey e) = owedCallback e := by
  unfold keyCallback entryKey owedCallback
  cases e.mBuffer <;> simp

theorem drop_cons_step {α : Type} {l : List α} {k : Nat} {x : α} {xs : List α}
    (h : l.drop k = x :: xs) : l.drop (k + 1) = xs ∧ l.take (k + 1) = l.take k ++ [x] := by
  induction l generalizing k with
  | nil => simp at h
  | cons y ys ih =>
    cases k with
    | zero =>
      simp only [List.drop_zero, List.cons.injEq] at h
      obtain ⟨rfl, rfl⟩ := h
      simp
    | succ k =>
      simp only [List.drop_succ_cons] at h
      obtain ⟨h1, h2⟩ := ih h
      exact ⟨by simpa using h1, by simp [List.take_succ_cons, h2]⟩

theorem pops_adv {v v1 : QView} (h : Pops v v1) (audio : Bool) :
    ∃ k, (v1.queue audio).map entryKey = ((v.queue audio).map entryKey).drop k ∧
      v1.posted audio = v.posted audio ++
        (((v.queue audio).map entryKey).take k).filterMap keyCallback := by
  induction h with
  | refl => exact ⟨0, by simp, by simp⟩
  | @payloadA v1 e rest cb _ hq hb hc ih =>
    obtain ⟨k, hk, hp⟩ := ih
    cases audio
    · exact ⟨k, hk, hp⟩
    · simp only [QView.queue, QView.posted, if_true] at hk hp ⊢
      rw [hq, List.map_cons] at hk
      obtain ⟨h1, h2⟩ := drop_cons_step hk.symm
      refine ⟨k + 1, h1.symm, ?_⟩
      rw [h2, hp, List.filterMap_append, List.append_assoc]
      congr 1
      simp [keyCallback_entryKey, owedCallback, hb, hc]
  | @payloadV v1 e rest cb _ hq hb hc ih =>
    obtain ⟨k, hk, hp⟩ := ih
    cases audio
    · simp only [QView.queue, QView.posted, Bool.false_eq_true, if_false] at hk hp ⊢
      rw [hq, List.map_cons] at hk
      obtain ⟨h1, h2⟩ := drop_cons_step hk.symm
      refine ⟨k + 1, h1.symm, ?_⟩
      rw [h2, hp, List.filterMap_append, List.append_assoc]
      congr 1
      simp [keyCallback_entryKey, owedCallback, hb, hc]
    · exact ⟨k, hk, hp⟩
  | @eosA v1 e rest _ hq hb ih =>
    obtain ⟨k, hk, hp⟩ := ih
    cases audio
    · exact ⟨k, hk, hp⟩
    · simp only [QView.queue, QView.posted, if_true] at hk hp ⊢
      rw [hq, List.map_cons] at hk
      obtain ⟨h1, h2⟩ := drop_cons_step hk.symm
      refine ⟨k + 1, h1.symm, ?_⟩
      rw [h2, hp, List.filterMap_append]
      simp [keyCallback_entryKey, owedCallback, hb]
  | @eosV v1 e rest _ hq hb ih =>
    obtain ⟨k, hk, hp⟩ := ih
    cases audio
    · simp only [QView.queue, QView.posted, Bool.false_eq_true, if_false] at hk hp ⊢
      rw [hq, List.map_cons] at hk
      obtain ⟨h1, h2⟩ := drop_cons_step hk.symm
      refine ⟨k + 1, h1.symm, ?_⟩
      rw [h2, hp, List.filterMap_append]
      simp [keyCallback_entryKey, owedCallback, hb]
    · exact ⟨k, hk, hp⟩
  | @touchA v1 e e1 rest _ hq hkey ih =>
    obtain ⟨k, hk, hp⟩ := ih
    cases audio
    · exact ⟨k, hk, hp⟩
    · simp only [QView.queue, QView.posted, if_true] at hk hp ⊢
      rw [hq, List.map_cons] at hk
      exact ⟨k, by rw [List.map_cons, hkey]; exact hk, hp⟩

theorem pops_eos_eq {v v1 : QView} (h : Pops v v1) : v1.eos = v.eos := by
  induction h with
  | refl => rfl
  | payloadA _ _ _ _ ih => exact ih
  | payloadV _ _ _ _ ih => exact ih
  | eosA _ _ _ ih => exact ih
  | eosV _ _ _ ih => exact ih
  | touchA _ _ _ ih => exact ih

theorem filterMap_keyCallback_map (q : List QueueEntry) :
    (q.map entryKey).filterMap keyCallback = q.filterMap owedCallback := by
  induction q with
  | nil => rfl
  | cons e rest ih => simp [List.filterMap_cons, keyCallback_entryKey, ih]

theorem pops_ledger {v v1 : QView} (h : Pops v v1) (audio : Bool) :
    v1.posted audio ++ (v1.queue audio).filterMap owedCallback =
      v.posted audio ++ (v.queue audio).filterMap owedCallback := by
  obtain ⟨k, hk, hp⟩ := pops_adv h audio
  rw [← filterMap_keyCallback_map, ← filterMap_keyCallback_map, hk, hp, List.append_assoc,
    ← List.filterMap_append, List.take_append_drop]

theorem view_queue (audio : Bool) (s : Renderer) : s.view.queue audio = getQueue audio s := by
  cases audio <;> rfl

theorem view_posted (audio : Bool) (s : Renderer) :
    s.view.posted audio = postedCallbacks audio s := by
  cases audio <;> rfl

theorem posted_setFlushing (audio au b : Bool) (v : QView) :
    (v.setFlushing au b).posted audio = v.posted audio := by
  cases au <;> cases audio <;> rfl

theorem queue_setFlushing (audio au b : Bool) (v : QView) :
    (v.setFlushing au b).queue audio = v.queue audio := by
  cases au <;> cases audio <;> rfl

theorem stepIngest_ledger (audio : Bool) (s : Renderer) (a : Action)
    (hnf : queuedNow audio s a = [] ∨ flushingFlag audio s = false) :
    (stepIngest s a).posted audio ++ ((stepIngest s a).queue audio).filterMap owedCallback =
      postedCallbacks audio s ++ pendingCallbacks audio s ++ queuedNow audio s a := by
  have base : s.view.posted audio ++ (s.view.queue audio).filterMap owedCallback =
      postedCallbacks audio s ++ pendingCallbacks audio s := by
    rw [view_queue, view_posted]; rfl
  cases a with
  | deliver i =>
    cases hm : s.mailbox[i]? with
    | none => simp [stepIngest, queuedNow, deliveredBuffer, hm, base]
    | some md =>
      obtain ⟨msg, d⟩ := md
      have hv : ({ s with mailbox := s.mailbox.eraseIdx i } : Renderer).view.posted audio ++
          (({ s with mailbox := s.mailbox.eraseIdx i } : Renderer).view.queue audio).filterMap
            owedCallback = postedCallbacks audio s ++ pendingCallbacks audio s := by
        rw [view_queue, view_posted]; rfl
      cases msg with
      | queueBuffer au buffer cb =>
        have hflag : flushingFlag au { s with mailbox := s.mailbox.eraseIdx i }
            = flushingFlag au s := rfl
        simp only [queuedNow, deliveredBuffer, hm] at hnf ⊢
        simp only [stepIngest, hm, ingest, hflag]
        by_cases hau : au = audio
        · subst hau
          simp only [if_true] at hnf ⊢
          have hf : flushingFlag au s = false := by
            rcases hnf with h | h
            · simp at h
            · exact h
          rw [hf]
          simp only [Bool.false_eq_true, if_false]
          rw [← hv]
          cases au <;>
            simp [QView.push, QView.posted, QView.queue, List.filterMap_append, owedCallback,
              bufferEntry]
        · simp only [hau, if_false, List.append_nil]
          rw [← hv]
          cases au <;> cases audio <;> simp at hau <;>
            split <;> simp [QView.push, QView.reject, QView.posted, QView.queue]
      | queueEOS au finalResult =>
        simp only [queuedNow, deliveredBuffer, hm, List.append_nil]
        simp only [stepIngest, hm, ingest]
        rw [← hv]
        cases au <;> cases audio <;>
          split <;> simp [QView.push, QView.posted, QView.queue, List.filterMap_append,
            owedCallback, eosEntry]
      | drainAudioQueue g =>
        simpa [stepIngest, hm, ingest, queuedNow, deliveredBuffer] using hv
      | drainVideoQueue g =>
        simpa [stepIngest, hm, ingest, queuedNow, deliveredBuffer] using hv
      | flush au =>
        simpa [stepIngest, hm, ingest, queuedNow, deliveredBuffer, posted_setFlushing,
          queue_setFlushing] using hv
      | audioSinkChanged => simpa [stepIngest, hm, ingest, queuedNow, deliveredBuffer] using hv
      | pause => simpa [stepIngest, hm, ingest, queuedNow, deliveredBuffer] using hv
      | resume => simpa [stepIngest, hm, ingest, queuedNow, deliveredBuffer] using hv
      | delayQueued => simpa [stepIngest, hm, ingest, queuedNow, deliveredBuffer] using hv
  | queueEOS au finalResult =>
    simp only [stepIngest, queuedNow, deliveredBuffer, List.append_nil]
    rw [← base]
    cases audio <;> rfl
  | queueBuffer au buffer cb => simpa [stepIngest, queuedNow, deliveredBuffer] using base
  | queueDelay d => simpa [stepIngest, queuedNow, deliveredBuffer] using base
  | flush au =>
    simpa [stepIngest, queuedNow, deliveredBuffer, posted_setFlushing, queue_setFlushing]
      using base
  | signalTimeDiscontinuity => simpa [stepIngest, queuedNow, deliveredBuffer] using base
  | pause => simpa [stepIngest, queuedNow, deliveredBuffer] using base
  | resume => simpa [stepIngest, queuedNow, deliveredBuffer] using base
  | signalRefreshAnchorRealTime b => simpa [stepIngest, queuedNow, deliveredBuffer] using base
  | signalAudioSinkChanged => simpa [stepIngest, queuedNow, deliveredBuffer] using base
  | notifySeekPosition t => simpa [stepIngest, queuedNow, deliveredBuffer] using base
  | setMediaPresence au b => simpa [stepIngest, queuedNow, deliveredBuffer] using base
  | setLiveStream b => simpa [stepIngest, queuedNow, deliveredBuffer] using base

theorem step_ledger {env : Env} {s s1 : Renderer} {a : Action} (audio : Bool)
    (h : step env s a = .ok s1)
    (hnf : queuedNow audio s a = [] ∨ flushingFlag audio s = false) :
    postedCallbacks audio s1 ++ pendingCallbacks audio s1 =
      postedCallbacks audio s ++ pendingCallbacks audio s ++ queuedNow audio s a := by
  have h1 := pops_ledger (step_pops h) audio
  rw [stepIngest_ledger audio s a hnf, view_queue, view_posted] at h1
  exact h1

theorem run_ledger (audio : Bool) : ∀ (acts : List (Env × Action)) (s0 s : Renderer),
    run s0 acts = .ok s → notFlushingWhenQueued audio s0 acts = true →
    postedCallbacks audio s ++ pendingCallbacks audio s =
      postedCallbacks audio s0 ++ pendingCallbacks audio s0 ++ queuedCallbacks audio s0 acts := by
  intro acts
  induction acts with
  | nil =>
    intro s0 s h _
    cases h
    simp [queuedCallbacks]
  | cons ea rest ih =>
    intro s0 s h hnf
    obtain ⟨env, a⟩ := ea
    unfold run at h
    obtain ⟨s1, h1, h2⟩ := Result.bind_eq_ok h
    unfold notFlushingWhenQueued at hnf
    rw [h1] at hnf
    simp only [Bool.and_eq_true, Bool.or_eq_true, beq_iff_eq, Bool.not_eq_true'] at hnf
    have hstep := step_ledger audio h1 hnf.1
    have hrest := ih s1 s h2 hnf.2
    unfold queuedCallbacks
    rw [h1]
    simp only
    rw [hrest, hstep]
    simp [List.append_assoc]
theorem copySize_le (env : Env) (n : Nat) (entry : QueueEntry) (buffer : ABuffer) :
    copySize env n entry buffer ≤ n := by
  unfold copySize
  dsimp only
  split <;> omega

theorem copySize_full (env : Env) (n : Nat) (entry : QueueEntry) (buffer : ABuffer)
    (h : copySize env n entry buffer < n) :
    (entry.mOffset + copySize env n entry buffer) % 2 ^ env.sizeBits = buffer.size env := by
  have hw : 0 < 2 ^ env.sizeBits := Nat.two_pow_pos env.sizeBits
  generalize hW : 2 ^ env.sizeBits = w at hw
  have hsz : buffer.size env < w := by
    unfold ABuffer.size; rw [hW]; exact Nat.mod_lt _ hw
  have hc : copySize env n entry buffer = (buffer.size env + w - entry.mOffset % w) % w := by
    unfold copySize at h ⊢
    dsimp only at h ⊢
    rw [hW] at h ⊢
    split
    · next hgt => rw [if_pos hgt] at h; omega
    · rfl
  rw [hc, Nat.add_mod_mod]
  have hr : entry.mOffset % w < w := Nat.mod_lt _ hw
  have hd := Nat.mod_add_div entry.mOffset w
  have : entry.mOffset + (buffer.size env + w - entry.mOffset % w)
      = buffer.size env + w * (entry.mOffset / w + 1) := by
    rw [Nat.mul_succ]; omega
  rw [this, Nat.add_mul_mod_self_left, Nat.mod_eq_of_lt hsz]

theorem audioWrite_next {env : Env} {n n1 : Nat} {s s1 : Renderer} {entry : QueueEntry}
    {buffer : ABuffer} {rest : List QueueEntry}
    (h : audioWrite env n s entry buffer rest = .ok (.next n1 s1)) :
    s1.mAudioQueue = rest ∨ n1 = 0 := by
  unfold audioWrite at h
  dsimp only at h
  split at h
  · cases h
  · obtain ⟨s3, h3, h4⟩ := Result.bind_eq_ok h
    simp only [Result.ok.injEq, Ctl.next.injEq] at h4
    obtain ⟨hn, hs⟩ := h4
    subst hs
    split at h3
    · obtain ⟨s2, h2, h5⟩ := Result.bind_eq_ok h3
      cases h5
      left; rfl
    · next hne =>
      right
      have hle := copySize_le env n entry buffer
      by_contra hn1
      have hlt : copySize env n entry buffer < n := by omega
      exact hne (copySize_full env n entry buffer hlt)

theorem audioAnchor_next {env : Env} {n n1 : Nat} {s s1 : Renderer} {entry : QueueEntry}
    {buffer : ABuffer} {rest : List QueueEntry} {m : Int}
    (h : audioAnchor env n s entry buffer rest m = .ok (.next n1 s1)) :
    s1.mAudioQueue = rest ∨ n1 = 0 := by
  unfold audioAnchor at h
  dsimp only at h
  split at h
  · cases h
  · exact audioWrite_next h

theorem audioBody_next {env : Env} {n n1 : Nat} {s s1 : Renderer}
    (h : audioBody env n s = .ok (.next n1 s1)) :
    s1.mAudioQueue.length + 1 = s.mAudioQueue.length ∨ n1 = 0 := by
  unfold audioBody at h
  split at h
  · cases h
  · next entry rest hq =>
    rw [hq]
    have key : ∀ {q : List QueueEntry}, (q = rest ∨ n1 = 0) →
        q.length + 1 = (entry :: rest).length ∨ n1 = 0 := by
      intro q hq
      rcases hq with rfl | h0
      · left; rfl
      · right; exact h0
    split at h
    · cases h
    · split at h
      · split at h
        · cases h
        · split at h
          · split at h
            · cases h
            · split at h
              · obtain ⟨s2, h2, h3⟩ := Result.bind_eq_ok h
                simp only [Result.ok.injEq, Ctl.next.injEq] at h3
                obtain ⟨_, hs⟩ := h3
                subst hs
                left; rfl
              · split at h
                · dsimp only at h
                  split at h
                  · cases h
                  · exact key (audioAnchor_next h)
                · exact key (audioAnchor_next h)
          · exact key (audioAnchor_next h)
      · exact key (audioWrite_next h)

theorem bind_fuel {α β : Type} {r : Result α} {k : α → Result β}
    (hr : r ≠ .fail .outOfFuel) (hk : ∀ a, k a ≠ .fail .outOfFuel) :
    r.bind k ≠ .fail .outOfFuel := by
  cases r with
  | ok a => exact hk a
  | fail f => simpa [Result.bind] using hr

theorem postConsumed_fuel (s : Renderer) (audio : Bool) (e : QueueEntry) (r : Option Int) :
    postConsumed s audio e r ≠ .fail .outOfFuel := by
  unfold postConsumed
  split <;> simp

theorem audioWrite_fuel (env : Env) (n : Nat) (s : Renderer) (entry : QueueEntry)
    (buffer : ABuffer) (rest : List QueueEntry) :
    audioWrite env n s entry buffer rest ≠ .fail .outOfFuel := by
  unfold audioWrite
  dsimp only
  split
  · simp
  · refine bind_fuel ?_ (fun _ => by simp)
    split
    · exact bind_fuel (postConsumed_fuel _ _ _ _) (fun _ => by simp)
    · simp

theorem audioAnchor_fuel (env : Env) (n : Nat) (s : Renderer) (entry : QueueEntry)
    (buffer : ABuffer) (rest : List QueueEntry) (m : Int) :
    audioAnchor env n s entry buffer rest m ≠ .fail .outOfFuel := by
  unfold audioAnchor
  dsimp only
  split
  · simp
  · exact audioWrite_fuel _ _ _ _ _ _

theorem audioBody_fuel (env : Env) (n : Nat) (s : Renderer) :
    audioBody env n s ≠ .fail .outOfFuel := by
  unfold audioBody
  split
  · simp
  · split
    · simp
    · split
      · split
        · simp
        · split
          · split
            · simp
            · split
              · exact bind_fuel (postConsumed_fuel _ _ _ _) (fun _ => by simp)
              · split
                · dsimp only
                  split
                  · simp
                  · exact audioAnchor_fuel _ _ _ _ _ _ _
                · exact audioAnchor_fuel _ _ _ _ _ _ _
          · exact audioAnchor_fuel _ _ _ _ _ _ _
      · exact audioWrite_fuel _ _ _ _ _ _

theorem audioLoop_fuel (env : Env) : ∀ (fuel n : Nat) (s : Renderer),
    (n = 0 ∨ s.mAudioQueue.length ≤ fuel) → audioLoop env fuel n s ≠ .fail .outOfFuel := by
  intro fuel
  induction fuel with
  | zero =>
    intro n s hf h
    unfold audioLoop at h
    split at h
    · next hc =>
      rcases hf with h0 | hl
      · omega
      · have : s.mAudioQueue = [] := List.length_eq_zero.mp (by omega)
        simp [this] at hc
    · cases h
  | succ fuel ih =>
    intro n s hf h
    unfold audioLoop at h
    split at h
    · next hc =>
      split at h
      · next f hbody =>
        simp only [Result.fail.injEq] at h
        subst h
        exact audioBody_fuel env n s hbody
      · cases h
      · next n1 s1 hbody =>
        refine ih n1 s1 ?_ h
        rcases audioBody_next hbody with hl | h0
        · right
          rcases hf with h0 | hl2
          · omega
          · omega
        · left; exact h0
    · cases h

theorem onDrainAudioQueue_fuel (env : Env) (s : Renderer) :
    onDrainAudioQueue env s ≠ .fail .outOfFuel := by
  have hsink : ∀ s : Renderer, drainAudioSink env s ≠ .fail .outOfFuel := by
    intro s
    unfold drainAudioSink
    split
    · simp
    · exact audioLoop_fuel env _ _ _ (Or.inr (Nat.le_refl _))
  unfold onDrainAudioQueue
  split
  · simp
  · unfold drainAudioFirst
    split
    · exact hsink _
    · split
      · simp
      · exact hsink _

/-! ## The bound on the audio drain loop is never used up -/

theorem postDrainVideoQueue_fuel (env : Env) (s : Renderer) :
    postDrainVideoQueue env s ≠ .fail .outOfFuel := by
  unfold postDrainVideoQueue
  split
  · simp
  · split
    · simp
    · split
      · simp
      · split
        · simp
        · split
          · simp
          · split
            · dsimp only
              split
              · simp
              · split <;> simp
            · simp

theorem syncQueuesDone_fuel (env : Env) (s : Renderer) :
    syncQueuesDone env s ≠ .fail .outOfFuel := by
  unfold syncQueuesDone
  split
  · simp
  · have key : ∀ s2 : Renderer,
        (if (!s2.mVideoQueue.isEmpty) = true then postDrainVideoQueue env s2 else .ok s2)
          ≠ .fail .outOfFuel := by
      intro s2
      split
      · exact postDrainVideoQueue_fuel env s2
      · simp
    exact key _

theorem drainVideoHead_fuel (env : Env) (s : Renderer) :
    drainVideoHead env s ≠ .fail .outOfFuel := by
  unfold drainVideoHead
  split
  · simp
  · split
    · simp
    · split
      · simp
      · exact bind_fuel (postConsumed_fuel _ _ _ _) (fun _ => by simp)

theorem setStartAnchor_fuel (s : Renderer) :
    setStartAnchorMediaAndPostDrainQueue s ≠ .fail .outOfFuel := by
  unfold setStartAnchorMediaAndPostDrainQueue
  split
  · split <;> simp
  · simp

theorem syncQueuesStep_fuel (env : Env) (s : Renderer) :
    syncQueuesStep env s ≠ .fail .outOfFuel := by
  unfold syncQueuesStep
  split
  · simp
  · split
    · split
      · split
        · dsimp only
          split
          · exact bind_fuel (postConsumed_fuel _ _ _ _) (fun _ => by simp)
          · exact syncQueuesDone_fuel env s
        · simp
      · exact syncQueuesDone_fuel env s
    · simp

theorem enqueueBuffer_fuel (env : Env) (s : Renderer) (audio : Bool) (entry : QueueEntry) :
    enqueueBuffer env s audio entry ≠ .fail .outOfFuel := by
  unfold enqueueBuffer
  split
  · dsimp only
    split
    · split
      · simp
      · exact setStartAnchor_fuel _
    · simp
  · dsimp only
    split
    · split
      · simp
      · split
        · simp
        · exact setStartAnchor_fuel _
    · exact bind_fuel (postDrainVideoQueue_fuel _ _) (fun _ => syncQueuesStep_fuel _ _)

theorem flushLoop_fuel (audio : Bool) : ∀ (q : List QueueEntry) (s : Renderer),
    flushLoop audio q s ≠ .fail .outOfFuel := by
  intro q
  induction q with
  | nil => intro s; simp [flushLoop]
  | cons e rest ih =>
    intro s
    unfold flushLoop
    refine bind_fuel ?_ (fun _ => ih _)
    split
    · exact postConsumed_fuel _ _ _ _
    · simp

theorem onFlush_fuel (env : Env) (s : Renderer) (audio : Bool) :
    onFlush env s audio ≠ .fail .outOfFuel := by
  unfold onFlush
  refine bind_fuel (syncQueuesDone_fuel _ _) (fun s1 => ?_)
  split
  · exact bind_fuel (flushLoop_fuel _ _ _) (fun _ => by simp)
  · exact bind_fuel (flushLoop_fuel _ _ _) (fun _ => by simp)

theorem onResume_fuel (env : Env) (s : Renderer) : onResume env s ≠ .fail .outOfFuel := by
  unfold onResume
  split
  · simp
  · have key : ∀ s4 : Renderer,
        (if (!s4.mVideoQueue.isEmpty) = true then postDrainVideoQueue env s4 else .ok s4)
          ≠ .fail .outOfFuel := by
      intro s4
      split
      · exact postDrainVideoQueue_fuel env s4
      · simp
    exact key _

theorem onMessageReceived_fuel (env : Env) (s : Renderer) (msg : Msg) :
    onMessageReceived env s msg ≠ .fail .outOfFuel := by
  cases msg with
  | drainAudioQueue g =>
    unfold onMessageReceived
    dsimp only
    split
    · simp
    · refine bind_fuel (onDrainAudioQueue_fuel _ _) (fun r => ?_)
      obtain ⟨postAudio, s2⟩ := r
      dsimp only
      refine bind_fuel ?_ (fun s3 => ?_)
      · split
        · exact postDrainVideoQueue_fuel _ _
        · simp
      · split
        · split <;> simp
        · simp
  | drainVideoQueue g =>
    unfold onMessageReceived
    dsimp only
    split
    · simp
    · refine bind_fuel ?_ (fun _ => postDrainVideoQueue_fuel _ _)
      unfold onDrainVideoQueue
      split
      · simp
      · exact drainVideoHead_fuel _ _
  | queueBuffer audio buffer cb =>
    show onQueueBuffer env s audio buffer cb ≠ _
    unfold onQueueBuffer
    rw [dropBufferWhileFlushing_eq]
    split
    · simp
    · exact enqueueBuffer_fuel _ _ _ _
  | queueEOS audio r =>
    show onQueueEOS env s audio r ≠ _
    unfold onQueueEOS
    rw [dropBufferWhileFlushing_eq]
    split
    · simp
    · split
      · simp
      · exact postDrainVideoQueue_fuel _ _
  | flush audio => exact onFlush_fuel env s audio
  | audioSinkChanged =>
    show onAudioSinkChanged env s ≠ _
    unfold onAudioSinkChanged
    split <;> simp
  | pause =>
    show onPause s ≠ _
    unfold onPause
    split <;> simp
  | resume => exact onResume_fuel env s
  | delayQueued =>
    show onDelayQueued env s ≠ _
    unfold onDelayQueued
    dsimp only
    split
    · simp
    · exact postDrainVideoQueue_fuel _ _

/-- The bound on the passes of the audio drain loop is never used up: no
action of the renderer ends with `outOfFuel`. -/
theorem step_fuel (env : Env) (s : Renderer) (a : Action) :
    step env s a ≠ .fail .outOfFuel := by
  cases a with
  | queueEOS audio r =>
    show queueEOS env s audio r ≠ _
    unfold queueEOS
    split
    · simp
    · refine bind_fuel ?_ (fun _ => by simp)
      split
      · exact syncQueuesDone_fuel _ _
      · simp
  | flush audio =>
    show flush s audio ≠ _
    unfold flush
    split <;> split <;> simp
  | signalTimeDiscontinuity =>
    show signalTimeDiscontinuity s ≠ _
    unfold signalTimeDiscontinuity
    split
    · simp
    · split <;> simp
  | deliver i =>
    show (match s.mailbox[i]? with
      | none => Result.fail Fault.noMessage
      | some (msg, _) =>
        onMessageReceived env { s with mailbox := s.mailbox.eraseIdx i } msg) ≠ _
    split
    · simp
    · exact onMessageReceived_fuel _ _ _
  | queueBuffer audio buffer cb => simp [step]
  | queueDelay d => simp [step]
  | pause => simp [step]
  | resume => simp [step]
  | signalRefreshAnchorRealTime b => simp [step]
  | signalAudioSinkChanged => simp [step]
  | notifySeekPosition t => simp [step]
  | setMediaPresence audio b => simp [step]
  | setLiveStream b => simp [step]

/-! ## Callbacks are posted once and in order (C1) -/

/-- C1: along every run of the renderer in which no buffer of the stream is
queued while the stream is flushing, the callbacks posted for the stream
followed by the callbacks still owed by its queue are, in order, the callbacks
that were there at the start followed by those of the buffers queued during
the run; so once the queue has been emptied (by drains or a flush) of a
renderer that started empty, the posted callbacks are exactly the queued ones,
each once and in the order of queueing. -/
theorem C1_callbacks_once_in_queue_order (audio : Bool) (s0 s : Renderer)
    (acts : List (Env × Action)) (hrun : run s0 acts = .ok s)
    (hnf : notFlushingWhenQueued audio s0 acts = true) :
    postedCallbacks audio s ++ pendingCallbacks audio s =
        postedCallbacks audio s0 ++ pendingCallbacks audio s0 ++ queuedCallbacks audio s0 acts ∧
      (postedCallbacks audio s0 = [] → getQueue audio s0 = [] → getQueue audio s = [] →
        postedCallbacks audio s = queuedCallbacks audio s0 acts) := by
  have h := run_ledger audio acts s0 s hrun hnf
  refine ⟨h, ?_⟩
  intro hp hq0 hq
  simpa [pendingCallbacks, hp, hq0, hq] using h

/-- C1, worked example: two audio buffers are queued, one is written in full and
the other in part, then the stream is flushed; the callbacks 1 and 2 are posted
once each, in that order. -/
theorem C1_callbacks_once_in_queue_order_witness :
    run sampleStart sampleDrainThenFlush = .ok (runFrom sampleStart sampleDrainThenFlush) ∧
      getQueue true (runFrom sampleStart sampleDrainThenFlush) = [] ∧
      queuedCallbacks true sampleStart sampleDrainThenFlush = [1, 2] ∧
      postedCallbacks true (runFrom sampleStart sampleDrainThenFlush)
        = queuedCallbacks true sampleStart sampleDrainThenFlush :=
  ⟨by rfl, by rfl, by rfl,
    (C1_callbacks_once_in_queue_order true sampleStart
      (runFrom sampleStart sampleDrainThenFlush) sampleDrainThenFlush (by rfl) (by rfl)).2
      (by rfl) (by rfl) (by rfl)⟩

/-! ## Flush: exact effect of `onFlush` (C2, C3, C4, C5, C6) -/

theorem flushEvents_cons (audio : Bool) (e : QueueEntry) (rest : List QueueEntry) :
    flushEvents audio (e :: rest) =
      (if e.mBuffer ≠ none then
          (match e.mNotifyConsumed with
           | some cb => [Out.consumed audio cb none]
           | none => [])
        else []) ++ flushEvents audio rest := by
  cases hb : e.mBuffer <;> cases hc : e.mNotifyConsumed <;>
    simp [flushEvents, List.filterMap_cons, hb, hc]

theorem setQueue_out (audio : Bool) (s : Renderer) (q : List QueueEntry) :
    (setQueue audio s q).out = s.out := by
  cases audio <;> rfl

theorem flushLoop_eq (audio : Bool) : ∀ (q : List QueueEntry) {s s1 : Renderer},
    getQueue audio s = q → flushLoop audio q s = .ok s1 →
    s1 = setQueue audio { s with out := s.out ++ flushEvents audio q } [] ∧
      callbacksPresent q := by
  intro q
  induction q with
  | nil =>
    intro s s1 hq h
    cases h
    refine ⟨?_, by intro e he; cases he⟩
    cases audio
    · have hq : s.mVideoQueue = [] := hq
      cases s
      simp_all [setQueue, flushEvents]
    · have hq : s.mAudioQueue = [] := hq
      cases s
      simp_all [setQueue, flushEvents]
  | cons entry rest ih =>
    intro s s1 hq h
    unfold flushLoop at h
    obtain ⟨s2, h2, h3⟩ := Result.bind_eq_ok h
    obtain ⟨heq, hcp⟩ := ih (getQueue_setQueue audio s2 rest) h3
    split at h2
    · next hb =>
      unfold postConsumed at h2
      split at h2
      · cases h2
      · next cb hcb =>
        cases h2
        constructor
        · rw [heq, flushEvents_cons, if_pos hb, hcb]
          cases audio <;> simp [setQueue, emit]
        · intro e he hbe
          rcases List.mem_cons.mp he with rfl | he
          · rw [hcb]; simp
          · exact hcp e he hbe
    · next hb =>
      cases h2
      constructor
      · rw [heq, flushEvents_cons, if_neg hb]
        cases audio <;> simp [setQueue]
      · intro e he hbe
        rcases List.mem_cons.mp he with rfl | he
        · exact absurd hbe hb
        · exact hcp e he hbe

theorem flushLoop_total (audio : Bool) : ∀ (q : List QueueEntry) (s : Renderer),
    callbacksPresent q → ∃ s1, flushLoop audio q s = .ok s1 := by
  intro q
  induction q with
  | nil => intro s _; exact ⟨s, rfl⟩
  | cons entry rest ih =>
    intro s hcp
    have hrest : callbacksPresent rest := fun e he => hcp e (List.mem_cons_of_mem _ he)
    unfold flushLoop
    by_cases hb : entry.mBuffer ≠ none
    · rw [if_pos hb]
      have hc := hcp entry (List.mem_cons_self _ _) hb
      obtain ⟨cb, hcb⟩ := Option.ne_none_iff_exists'.mp hc
      unfold postConsumed
      rw [hcb]
      exact ih _ hrest
    · rw [if_neg hb]
      exact ih _ hrest

theorem postDrainVideoQueue_total (env : Env) (s : Renderer) (ht : videoHeadTimed s) :
    ∃ s1, postDrainVideoQueue env s = .ok s1 := by
  unfold postDrainVideoQueue
  split
  · exact ⟨_, rfl⟩
  · split
    · exact ⟨_, rfl⟩
    · next entry rest hq =>
      split
      · exact ⟨_, rfl⟩
      · next buffer hb =>
        split
        · next hnone =>
          exact absurd hnone (ht entry buffer (by rw [hq]; rfl) hb)
        · split
          · exact ⟨_, rfl⟩
          · split
            · dsimp only
              split
              · exact ⟨_, rfl⟩
              · split <;> exact ⟨_, rfl⟩
            · exact ⟨_, rfl⟩

theorem syncQueuesDone_total (env : Env) (s : Renderer) (ht : videoHeadTimed s) :
    ∃ s1, syncQueuesDone env s = .ok s1 := by
  unfold syncQueuesDone
  split
  · exact ⟨_, rfl⟩
  · dsimp only
    have key : ∀ s2 : Renderer, videoHeadTimed s2 →
        ∃ s1, (if (!s2.mVideoQueue.isEmpty) = true then postDrainVideoQueue env s2
          else .ok s2) = .ok s1 := by
      intro s2 h2
      split
      · exact postDrainVideoQueue_total env s2 h2
      · exact ⟨_, rfl⟩
    refine key _ ?_
    split
    · have hst := postDrainAudioQueue_stable { s with mSyncQueues := false } 0
      intro e b he hb
      rw [hst.vq] at he
      exact ht e b he hb
    · exact ht

/-- What `onFlush` does, field by field. -/
theorem onFlush_effect {env : Env} {s s1 : Renderer} {audio : Bool}
    (h : onFlush env s audio = .ok s1) :
    s1.out = s.out ++ flushEvents audio (getQueue audio s) ++ [.flushComplete audio] ∧
      callbacksPresent (getQueue audio s) ∧
      getQueue audio s1 = [] ∧ getQueue (!audio) s1 = getQueue (!audio) s ∧
      queueGeneration audio s1 = queueGeneration audio s + 1 ∧
      queueGeneration (!audio) s1 = queueGeneration (!audio) s ∧
      flushingFlag audio s1 = false ∧ flushingFlag (!audio) s1 = flushingFlag (!audio) s ∧
      drainPending audio s1 = false := by
  unfold onFlush at h
  obtain ⟨s2, h2, h3⟩ := Result.bind_eq_ok h
  have hst := syncQueuesDone_stable h2
  split at h3
  · next ha =>
    subst ha
    obtain ⟨s3, h4, h5⟩ := Result.bind_eq_ok h3
    cases h5
    obtain ⟨heq, hcp⟩ := flushLoop_eq true _ rfl h4
    subst heq
    have hq : getQueue true s2 = getQueue true s := hst.aq
    rw [hq] at hcp
    refine ⟨?_, hcp, rfl, hst.vq, ?_, hst.genV, rfl, hst.flushV, rfl⟩
    · simp [notifyFlushComplete, emit, setQueue, hst.out, hq]
    · simp [notifyFlushComplete, emit, setQueue, queueGeneration, hst.genA]
  · next ha =>
    have ha : audio = false := by simpa using ha
    subst ha
    obtain ⟨s3, h4, h5⟩ := Result.bind_eq_ok h3
    cases h5
    obtain ⟨heq, hcp⟩ := flushLoop_eq false _ rfl h4
    subst heq
    have hq : getQueue false s2 = getQueue false s := hst.vq
    rw [hq] at hcp
    refine ⟨?_, hcp, rfl, hst.aq, ?_, hst.genA, rfl, hst.flushA, rfl⟩
    · simp [notifyFlushComplete, emit, setQueue, hst.out, hq]
    · simp [notifyFlushComplete, emit, setQueue, queueGeneration, hst.genV]

theorem onFlush_total (env : Env) (s : Renderer) (audio : Bool)
    (hcp : callbacksPresent (getQueue audio s)) (ht : videoHeadTimed s) :
    ∃ s1, onFlush env s audio = .ok s1 := by
  obtain ⟨s2, h2⟩ := syncQueuesDone_total env s ht
  have hst := syncQueuesDone_stable h2
  unfold onFlush
  rw [h2]
  cases audio
  · have hq : getQueue false s2 = getQueue false s := hst.vq
    obtain ⟨s3, h3⟩ := flushLoop_total false (getQueue false s2) s2 (by rw [hq]; exact hcp)
    simp only [Result.bind, flushQueue, h3, Bool.false_eq_true, if_false]
    exact ⟨_, rfl⟩
  · have hq : getQueue true s2 = getQueue true s := hst.aq
    obtain ⟨s3, h3⟩ := flushLoop_total true (getQueue true s2) s2 (by rw [hq]; exact hcp)
    simp only [Result.bind, flushQueue, h3, if_true]
    exact ⟨_, rfl⟩


theorem flushEvents_eq (audio : Bool) (q : List QueueEntry) :
    flushEvents audio q =
      (q.filterMap owedCallback).map (fun cb => Out.consumed audio cb none) := by
  induction q with
  | nil => rfl
  | cons e rest ih =>
    rw [flushEvents_cons, ih]
    cases hb : e.mBuffer <;> cases hc : e.mNotifyConsumed <;>
      simp [List.filterMap_cons, owedCallback, hb, hc]

theorem payload_callbacks (q : List QueueEntry) (hcp : callbacksPresent q) :
    (q.filter (fun e => e.mBuffer.isSome)).map (fun e => e.mNotifyConsumed) =
      (q.filterMap owedCallback).map some := by
  induction q with
  | nil => rfl
  | cons e rest ih =>
    have hrest : callbacksPresent rest := fun x hx => hcp x (List.mem_cons_of_mem _ hx)
    have he := hcp e (List.mem_cons_self _ _)
    cases hb : e.mBuffer with
    | none => simp [List.filter_cons, List.filterMap_cons, owedCallback, hb, ih hrest]
    | some b =>
      obtain ⟨cb, hcb⟩ := Option.ne_none_iff_exists'.mp (he (by rw [hb]; simp))
      simp [List.filter_cons, List.filterMap_cons, owedCallback, hb, hcb, ih hrest]

/-- C2: when `onFlush` returns, the queue of the flushed stream is empty and the
trace has grown by exactly the callbacks of the payload entries that were in
the queue, one `consumed` element each, in queue order and with no "render"
field, followed by the flush-complete notification; nothing is written to the
sink.  It returns whenever every payload entry has a callback and the head of
the video queue carries a time stamp. -/
theorem C2_flush_drops_queue_unrendered (env : Env) (s : Renderer) (audio : Bool) :
    (∀ s1, onFlush env s audio = .ok s1 →
      getQueue audio s1 = [] ∧
      s1.out = s.out ++ (pendingCallbacks audio s).map (fun cb => Out.consumed audio cb none)
        ++ [.flushComplete audio] ∧
      ((getQueue audio s).filter (fun e => e.mBuffer.isSome)).map (fun e => e.mNotifyConsumed)
        = (pendingCallbacks audio s).map some) ∧
    (callbacksPresent (getQueue audio s) → videoHeadTimed s →
      ∃ s1, onFlush env s audio = .ok s1) := by
  refine ⟨?_, onFlush_total env s audio⟩
  intro s1 h
  obtain ⟨hout, hcp, hq, _⟩ := onFlush_effect h
  refine ⟨hq, ?_, payload_callbacks _ hcp⟩
  rw [hout, flushEvents_eq]
  rfl

/-- C2, worked example: flushing the half-drained audio queue empties it and
posts callback 2 once, unrendered, before the flush-complete notification. -/
theorem C2_flush_drops_queue_unrendered_witness :
    ∃ s1, onFlush sampleEnv sampleFlushing true = .ok s1 ∧
      pendingCallbacks true sampleFlushing = [2] ∧
      getQueue true s1 = [] ∧
      s1.out = sampleFlushing.out ++ [Out.consumed true 2 none, Out.flushComplete true] := by
  obtain ⟨s1, h1⟩ := (C2_flush_drops_queue_unrendered sampleEnv sampleFlushing true).2
    (by unfold callbacksPresent; decide) (by intro e b he; cases he)
  obtain ⟨hq, hout, _⟩ := (C2_flush_drops_queue_unrendered sampleEnv sampleFlushing true).1 s1 h1
  have hp : pendingCallbacks true sampleFlushing = [2] := by rfl
  refine ⟨s1, h1, hp, hq, ?_⟩
  rw [hout, hp]
  rfl

/-- C3, as stated, fails: in a state reached by queueing, draining, flushing and
queueing again, the drain message of generation 0 scheduled before the flush
is handled while the generation is 1 and a drain of generation 1 is pending;
the handler clears `mDrainAudioQueuePending`, so the state is not left
unchanged. -/
theorem C3_stale_drain_counterexample :
    sampleStaleDrain.mailbox[0]? = some (Msg.drainAudioQueue 0, 20000) ∧
      sampleStaleDrain.mAudioQueueGeneration = 1 ∧
      sampleStaleDrain.mDrainAudioQueuePending = true ∧
      onMessageReceived sampleEnvPlayed sampleStaleDrain (.drainAudioQueue 0)
        ≠ .ok sampleStaleDrain ∧
      (runFrom sampleStaleDrain [(sampleEnvPlayed, .deliver 0)]).mDrainAudioQueuePending = false ∧
      (runFrom sampleStaleDrain [(sampleEnvPlayed, .deliver 0)]).mailbox
        = [(Msg.drainAudioQueue 1, 20000)] := by
  refine ⟨by rfl, by rfl, by rfl, ?_, by rfl, by rfl⟩
  intro h
  have h2 : (match onMessageReceived sampleEnvPlayed sampleStaleDrain (.drainAudioQueue 0) with
      | .ok s => s.mDrainAudioQueuePending
      | .fail _ => true) = sampleStaleDrain.mDrainAudioQueuePending := by rw [h]
  exact absurd h2 (by decide)

/-- C3, amended: a drain message whose generation differs from the current
generation of its stream changes nothing but the drain-pending flag of that
stream, which it clears: queues, trace, mailbox, generations, anchor and every
other field are as before, and nothing is written, dequeued or posted. -/
theorem C3_stale_drain_clears_only_pending (env : Env) (s : Renderer) (generation : Int) :
    (generation ≠ s.mAudioQueueGeneration →
      onMessageReceived env s (.drainAudioQueue generation)
        = .ok { s with mDrainAudioQueuePending := false }) ∧
    (generation ≠ s.mVideoQueueGeneration →
      onMessageReceived env s (.drainVideoQueue generation)
        = .ok { s with mDrainVideoQueuePending := false }) := by
  constructor
  · intro h
    unfold onMessageReceived
    dsimp only
    rw [if_pos h]
  · intro h
    unfold onMessageReceived
    dsimp only
    rw [if_pos h]

/-- C3, worked example: the stale audio drain of `sampleStaleDrain`. -/
theorem C3_stale_drain_clears_only_pending_witness :
    onMessageReceived sampleEnvPlayed sampleStaleDrain (.drainAudioQueue 0)
      = .ok { sampleStaleDrain with mDrainAudioQueuePending := false } :=
  (C3_stale_drain_clears_only_pending sampleEnvPlayed sampleStaleDrain 0).1 (by decide)

/-- C4: when `onFlush` returns, the generation counter of the flushed stream is
one more than before, its flushing flag and its drain-pending flag are clear,
the trace has grown by elements none of which is a flush-complete notification
followed by exactly one flush-complete notification carrying the stream, and
the queue and the generation counter of the other stream are as before. -/
theorem C4_flush_bumps_generation (env : Env) (s s1 : Renderer) (audio : Bool)
    (h : onFlush env s audio = .ok s1) :
    queueGeneration audio s1 = queueGeneration audio s + 1 ∧
      flushingFlag audio s1 = false ∧ drainPending audio s1 = false ∧
      (∃ evs, s1.out = s.out ++ evs ++ [.flushComplete audio] ∧
        ∀ o ∈ evs, ∀ a, o ≠ Out.flushComplete a) ∧
      getQueue (!audio) s1 = getQueue (!audio) s ∧
      queueGeneration (!audio) s1 = queueGeneration (!audio) s := by
  obtain ⟨hout, _, _, hoq, hgen, hogen, hfl, _, hpend⟩ := onFlush_effect h
  refine ⟨hgen, hfl, hpend, ⟨_, hout, ?_⟩, hoq, hogen⟩
  intro o ho a
  rw [flushEvents_eq] at ho
  obtain ⟨cb, _, rfl⟩ := List.mem_map.mp ho
  simp

/-- C4, worked example: handling the flush message of the audio stream takes
its generation from 0 to 1 and leaves the video generation at 0. -/
theorem C4_flush_bumps_generation_witness :
    queueGeneration true sampleFlushing = 0 ∧
      queueGeneration true (runFrom sampleFlushing [(sampleEnv, .deliver 1)]) = 0 + 1 ∧
      queueGeneration false (runFrom sampleFlushing [(sampleEnv, .deliver 1)]) = 0 :=
  ⟨by rfl,
    (C4_flush_bumps_generation sampleEnv
      { sampleFlushing with mailbox := sampleFlushing.mailbox.eraseIdx 1 }
      (runFrom sampleFlushing [(sampleEnv, .deliver 1)]) true (by rfl)).1,
    by rfl⟩


/-- The flushing flags are among what removal from the queue heads leaves alone. -/
theorem pops_flags {v v1 : QView} (h : Pops v v1) : v1.fa = v.fa ∧ v1.fv = v.fv := by
  induction h with
  | refl => exact ⟨rfl, rfl⟩
  | payloadA _ _ _ _ ih => exact ih
  | payloadV _ _ _ _ ih => exact ih
  | eosA _ _ _ ih => exact ih
  | eosV _ _ _ ih => exact ih
  | touchA _ _ _ ih => exact ih

theorem pops_flushing {v v1 : QView} (h : Pops v v1) (audio : Bool) :
    v1.flushing audio = v.flushing audio := by
  obtain ⟨h1, h2⟩ := pops_flags h
  cases audio
  · exact h2
  · exact h1

theorem view_flushing (audio : Bool) (s : Renderer) :
    s.view.flushing audio = flushingFlag audio s := by
  cases audio <;> rfl

theorem queue_push (audio au : Bool) (e : QueueEntry) (v : QView) :
    (v.push au e).queue audio = if au = audio then v.queue audio ++ [e] else v.queue audio := by
  cases au <;> cases audio <;> rfl

theorem queue_reject (audio au : Bool) (cb : Nat) (v : QView) :
    (v.reject au cb).queue audio = v.queue audio := by
  cases au <;> cases audio <;> rfl

theorem flushing_push (audio au : Bool) (e : QueueEntry) (v : QView) :
    (v.push au e).flushing audio = v.flushing audio := by
  cases au <;> cases audio <;> rfl

theorem flushing_reject (audio au : Bool) (cb : Nat) (v : QView) :
    (v.reject au cb).flushing audio = v.flushing audio := by
  cases au <;> cases audio <;> rfl

theorem flushing_setFlushing (audio au b : Bool) (v : QView) :
    (v.setFlushing au b).flushing audio = if au = audio then b else v.flushing audio := by
  cases au <;> cases audio <;> rfl

/-- While the flushing flag of a stream is set, what an action other than the
delivery of its flush message brings in leaves the flag set and the queue of
the stream as it is. -/
theorem stepIngest_while_flushing (audio : Bool) (s : Renderer) (a : Action)
    (hf : flushingFlag audio s = true) (hnd : deliversFlush audio s a = false) :
    (stepIngest s a).flushing audio = true ∧
      (stepIngest s a).queue audio = getQueue audio s := by
  have base : s.view.flushing audio = true ∧ s.view.queue audio = getQueue audio s :=
    ⟨(view_flushing audio s).trans hf, view_queue audio s⟩
  cases a with
  | deliver i =>
    cases hm : s.mailbox[i]? with
    | none => simp only [stepIngest, hm]; exact base
    | some md =>
      obtain ⟨msg, d⟩ := md
      have hb : ({ s with mailbox := s.mailbox.eraseIdx i } : Renderer).view.flushing audio = true ∧
          ({ s with mailbox := s.mailbox.eraseIdx i } : Renderer).view.queue audio
            = getQueue audio s := by
        refine ⟨(view_flushing audio _).trans hf, (view_queue audio _).trans rfl⟩
      cases msg with
      | queueBuffer au buffer cb =>
        simp only [stepIngest, hm, ingest]
        by_cases hau : au = audio
        · subst hau
          have hf1 : flushingFlag au { s with mailbox := s.mailbox.eraseIdx i } = true := hf
          rw [hf1, if_pos rfl, flushing_reject, queue_reject]
          exact hb
        · split
          · rw [flushing_reject, queue_reject]; exact hb
          · rw [flushing_push, queue_push, if_neg hau]; exact hb
      | queueEOS au finalResult =>
        simp only [stepIngest, hm, ingest]
        by_cases hau : au = audio
        · subst hau
          have hf1 : flushingFlag au { s with mailbox := s.mailbox.eraseIdx i } = true := hf
          rw [hf1, if_pos rfl]
          exact hb
        · split
          · exact hb
          · rw [flushing_push, queue_push, if_neg hau]; exact hb
      | flush au =>
        simp only [deliversFlush, hm, beq_eq_false_iff_ne, ne_eq] at hnd
        simp only [stepIngest, hm, ingest]
        rw [flushing_setFlushing, if_neg hnd, queue_setFlushing]
        exact hb
      | drainAudioQueue g => simp only [stepIngest, hm, ingest]; exact hb
      | drainVideoQueue g => simp only [stepIngest, hm, ingest]; exact hb
      | audioSinkChanged => simp only [stepIngest, hm, ingest]; exact hb
      | pause => simp only [stepIngest, hm, ingest]; exact hb
      | resume => simp only [stepIngest, hm, ingest]; exact hb
      | delayQueued => simp only [stepIngest, hm, ingest]; exact hb
  | flush au =>
    simp only [stepIngest]
    rw [flushing_setFlushing, queue_setFlushing]
    refine ⟨?_, base.2⟩
    split
    · rfl
    · exact base.1
  | queueEOS au finalResult =>
    simp only [stepIngest]
    cases audio <;> exact base
  | queueBuffer au buffer cb => exact base
  | queueDelay d => exact base
  | signalTimeDiscontinuity => exact base
  | pause => exact base
  | resume => exact base
  | signalRefreshAnchorRealTime b => exact base
  | signalAudioSinkChanged => exact base
  | notifySeekPosition t => exact base
  | setMediaPresence au b => exact base
  | setLiveStream b => exact base

/-- While the flushing flag of a stream is set, an action other than the
delivery of its flush message keeps the flag set and lets nothing into its
queue. -/
theorem step_while_flushing {env : Env} {s s1 : Renderer} {a : Action} (audio : Bool)
    (hf : flushingFlag audio s = true) (h : step env s a = .ok s1)
    (hnd : deliversFlush audio s a = false) :
    flushingFlag audio s1 = true ∧
      ∃ k, queueKeys audio s1 = (queueKeys audio s).drop k := by
  have hp := step_pops h
  obtain ⟨hfl, hq⟩ := stepIngest_while_flushing audio s a hf hnd
  obtain ⟨k, hk, _⟩ := pops_adv hp audio
  constructor
  · rw [← view_flushing, pops_flushing hp, hfl]
  · refine ⟨k, ?_⟩
    rw [hq, view_queue] at hk
    exact hk

/-- C5: a `kWhatQueueBuffer` message handled while the flushing flag of its
stream is set only marks the stream present and posts the callback of the
buffer, with no "render" field: both queues and the mailbox are as before (no
drain is scheduled) and the trace grows by that one element.  Consequently,
along every run that starts with the flag set and does not handle the flush
message of the stream, the flag stays set and the queue of the stream only
loses entries from its head: no buffer is accepted into it. -/
theorem C5_queueBuffer_rejected_while_flushing (env : Env) (s : Renderer) (audio : Bool)
    (buffer : ABuffer) (cb : Nat) (hf : flushingFlag audio s = true) :
    (∃ s1, onQueueBuffer env s audio buffer cb = .ok s1 ∧
      s1 = emit (markPresent s audio) (.consumed audio cb none) ∧
      s1.mAudioQueue = s.mAudioQueue ∧ s1.mVideoQueue = s.mVideoQueue ∧
      s1.mailbox = s.mailbox ∧ s1.out = s.out ++ [.consumed audio cb none]) ∧
    (∀ (acts : List (Env × Action)) (s2 : Renderer), run s acts = .ok s2 →
      noFlushDelivered audio s acts = true →
      flushingFlag audio s2 = true ∧
        ∃ k, queueKeys audio s2 = (queueKeys audio s).drop k) := by
  constructor
  · refine ⟨emit (markPresent s audio) (.consumed audio cb none), ?_, rfl, ?_, ?_, ?_, ?_⟩
    · unfold onQueueBuffer
      rw [dropBufferWhileFlushing_eq, flushingFlag_markPresent, hf]
      rfl
    all_goals (unfold markPresent; split <;> rfl)
  · intro acts
    induction acts generalizing s with
    | nil =>
      intro s2 h _
      cases h
      exact ⟨hf, 0, by simp⟩
    | cons ea rest ih =>
      intro s2 h hnd
      obtain ⟨env1, a⟩ := ea
      unfold run at h
      obtain ⟨s1, h1, h2⟩ := Result.bind_eq_ok h
      unfold noFlushDelivered at hnd
      rw [h1] at hnd
      simp only [Bool.and_eq_true, Bool.not_eq_true'] at hnd
      obtain ⟨hf1, k1, hk1⟩ := step_while_flushing audio hf h1 hnd.1
      obtain ⟨hf2, k2, hk2⟩ := ih s1 hf1 s2 h2 hnd.2
      refine ⟨hf2, k1 + k2, ?_⟩
      rw [hk2, hk1, List.drop_drop, Nat.add_comm]

/-- C5, worked example: after `flush(audio)` the third audio buffer is turned
away: its callback 3 is posted at once and the queue still holds one entry. -/
theorem C5_queueBuffer_rejected_while_flushing_witness :
    ∃ s1, onQueueBuffer sampleEnv sampleFlushing true sampleBuffer3 3 = .ok s1 ∧
      s1.mAudioQueue = sampleFlushing.mAudioQueue ∧
      s1.mailbox = sampleFlushing.mailbox ∧
      s1.out = sampleFlushing.out ++ [.consumed true 3 none] := by
  obtain ⟨s1, h1, _, h2, _, h3, h4⟩ :=
    (C5_queueBuffer_rejected_while_flushing sampleEnv sampleFlushing true sampleBuffer3 3
      (by rfl)).1
  exact ⟨s1, h1, h2, h3, h4⟩

/-- C6: `flush(audio)` aborts exactly when the flushing flag of the stream is
already set; otherwise it returns, having set that flag, left the flag of the
other stream, the queues and the trace as they were, and posted exactly one
flush message for the stream. -/
theorem C6_flush_call (s : Renderer) (audio : Bool) :
    ((∃ f, flush s audio = .fail f) ↔ flushingFlag audio s = true) ∧
    (flush s audio = .fail .checkFailed ↔ flushingFlag audio s = true) ∧
    (flushingFlag audio s = false →
      ∃ s1, flush s audio = .ok s1 ∧ flushingFlag audio s1 = true ∧
        flushingFlag (!audio) s1 = flushingFlag (!audio) s ∧
        s1.mailbox = s.mailbox ++ [(.flush audio, 0)] ∧
        s1.mAudioQueue = s.mAudioQueue ∧ s1.mVideoQueue = s.mVideoQueue ∧ s1.out = s.out) := by
  cases audio
  · cases hf : s.mFlushingVideo <;>
      simp [flush, flushingFlag, hf, post]
  · cases hf : s.mFlushingAudio <;>
      simp [flush, flushingFlag, hf, post]

/-- C6, worked example: the first `flush(audio)` on the half-drained renderer
returns and posts the flush message; a second one aborts. -/
theorem C6_flush_call_witness :
    (∃ s1, flush sampleHalfDrained true = .ok s1 ∧ flushingFlag true s1 = true ∧
        s1.mailbox = sampleHalfDrained.mailbox ++ [(.flush true, 0)]) ∧
      flush sampleFlushing true = .fail .checkFailed := by
  obtain ⟨s1, h1, h2, _, h3, _⟩ := (C6_flush_call sampleHalfDrained true).2.2 (by rfl)
  exact ⟨⟨s1, h1, h2, h3⟩, (C6_flush_call sampleFlushing true).2.1.mpr (by rfl)⟩

/-! ## Final results of queue entries (C7) -/

theorem entryResultOK_of_key {e e1 : QueueEntry} (h : entryKey e1 = entryKey e)
    (he : entryResultOK e) : entryResultOK e1 := by
  unfold entryKey at h
  simp only [EntryKey.mk.injEq] at h
  obtain ⟨hp, _, hr⟩ := h
  unfold entryResultOK at he ⊢
  rw [hr]
  have hb : e1.mBuffer = none ↔ e.mBuffer = none := by
    cases h1 : e1.mBuffer <;> cases h2 : e.mBuffer <;> simp_all
  exact ⟨fun h1 => he.1 (hb.mp h1), fun h1 => he.2 (fun h2 => h1 (hb.mpr h2))⟩

theorem pops_resultsWellFormed {v v1 : QView} (h : Pops v v1) (hv : ResultsWellFormed v) :
    ResultsWellFormed v1 := by
  induction h with
  | refl => exact hv
  | payloadA _ hq _ _ ih =>
    obtain ⟨ha, hvq, he⟩ := ih
    exact ⟨fun e he1 => ha e (by rw [hq]; exact List.mem_cons_of_mem _ he1), hvq, he⟩
  | payloadV _ hq _ _ ih =>
    obtain ⟨ha, hvq, he⟩ := ih
    exact ⟨ha, fun e he1 => hvq e (by rw [hq]; exact List.mem_cons_of_mem _ he1), he⟩
  | eosA _ hq _ ih =>
    obtain ⟨ha, hvq, he⟩ := ih
    exact ⟨fun e he1 => ha e (by rw [hq]; exact List.mem_cons_of_mem _ he1), hvq, he⟩
  | eosV _ hq _ ih =>
    obtain ⟨ha, hvq, he⟩ := ih
    exact ⟨ha, fun e he1 => hvq e (by rw [hq]; exact List.mem_cons_of_mem _ he1), he⟩
  | touchA _ hq hk ih =>
    obtain ⟨ha, hvq, he⟩ := ih
    refine ⟨fun e he1 => ?_, hvq, he⟩
    rcases List.mem_cons.mp he1 with rfl | hmem
    · exact entryResultOK_of_key hk (ha _ (by rw [hq]; exact List.mem_cons_self _ _))
    · exact ha e (by rw [hq]; exact List.mem_cons_of_mem _ hmem)

theorem resultsWellFormed_push (audio : Bool) (e : QueueEntry) (v : QView)
    (hv : ResultsWellFormed v) (he : entryResultOK e) : ResultsWellFormed (v.push audio e) := by
  obtain ⟨ha, hvq, hr⟩ := hv
  cases audio
  · refine ⟨ha, fun x hx => ?_, hr⟩
    rcases List.mem_append.mp hx with h | h
    · exact hvq x h
    · rw [List.mem_singleton.mp h]; exact he
  · refine ⟨fun x hx => ?_, hvq, hr⟩
    rcases List.mem_append.mp hx with h | h
    · exact ha x h
    · rw [List.mem_singleton.mp h]; exact he

theorem resultsWellFormed_reject (audio : Bool) (cb : Nat) (v : QView)
    (hv : ResultsWellFormed v) : ResultsWellFormed (v.reject audio cb) := by
  cases audio <;> exact hv

theorem resultsWellFormed_setFlushing (audio b : Bool) (v : QView)
    (hv : ResultsWellFormed v) : ResultsWellFormed (v.setFlushing audio b) := by
  cases audio <;> exact hv

theorem mem_eosResults_of_get {s : Renderer} {i : Nat} {au : Bool} {r d : Int}
    (hm : s.mailbox[i]? = some (Msg.queueEOS au r, d)) : r ∈ eosResults s := by
  unfold eosResults
  rw [List.mem_filterMap]
  exact ⟨_, List.getElem?_mem hm, rfl⟩

theorem resultsWellFormed_erase (s : Renderer) (i : Nat) (hv : ResultsWellFormed s.view) :
    ResultsWellFormed ({ s with mailbox := s.mailbox.eraseIdx i } : Renderer).view := by
  obtain ⟨ha, hvq, hr⟩ := hv
  refine ⟨ha, hvq, fun r hmem => hr r ?_⟩
  have hmem : r ∈ (s.mailbox.eraseIdx i).filterMap eosResult := hmem
  show r ∈ s.mailbox.filterMap eosResult
  rw [List.mem_filterMap] at hmem ⊢
  obtain ⟨m, hm, hmr⟩ := hmem
  exact ⟨m, List.mem_of_mem_eraseIdx hm, hmr⟩

theorem stepIngest_resultsWellFormed {env : Env} {s s1 : Renderer} {a : Action}
    (h : step env s a = .ok s1) (hv : ResultsWellFormed s.view) :
    ResultsWellFormed (stepIngest s a) := by
  cases a with
  | deliver i =>
    cases hm : s.mailbox[i]? with
    | none => simp only [stepIngest, hm]; exact hv
    | some md =>
      obtain ⟨msg, d⟩ := md
      have hv1 := resultsWellFormed_erase s i hv
      cases msg with
      | queueBuffer au buffer cb =>
        simp only [stepIngest, hm, ingest]
        split
        · exact resultsWellFormed_reject _ _ _ hv1
        · refine resultsWellFormed_push _ _ _ hv1 ?_
          constructor
          · intro hb; cases hb
          · intro _; rfl
      | queueEOS au r =>
        simp only [stepIngest, hm, ingest]
        split
        · exact hv1
        · refine resultsWellFormed_push _ _ _ hv1 ?_
          constructor
          · intro _; exact hv.2.2 r (mem_eosResults_of_get hm)
          · intro hb; exact absurd rfl hb
      | flush au =>
        simp only [stepIngest, hm, ingest]
        exact resultsWellFormed_setFlushing _ _ _ hv1
      | drainAudioQueue g => simp only [stepIngest, hm, ingest]; exact hv1
      | drainVideoQueue g => simp only [stepIngest, hm, ingest]; exact hv1
      | audioSinkChanged => simp only [stepIngest, hm, ingest]; exact hv1
      | pause => simp only [stepIngest, hm, ingest]; exact hv1
      | resume => simp only [stepIngest, hm, ingest]; exact hv1
      | delayQueued => simp only [stepIngest, hm, ingest]; exact hv1
  | queueEOS au r =>
    have h : queueEOS env s au r = .ok s1 := h
    have hr : r ≠ OK := by
      intro hr
      unfold queueEOS at h
      rw [if_pos hr] at h
      cases h
    obtain ⟨ha, hvq, he⟩ := hv
    refine ⟨ha, hvq, fun x hx => ?_⟩
    rcases List.mem_append.mp hx with hx | hx
    · exact he x hx
    · rw [List.mem_singleton.mp hx]; exact hr
  | flush au => exact resultsWellFormed_setFlushing _ _ _ hv
  | queueBuffer au buffer cb => exact hv
  | queueDelay d => exact hv
  | signalTimeDiscontinuity => exact hv
  | pause => exact hv
  | resume => exact hv
  | signalRefreshAnchorRealTime b => exact hv
  | signalAudioSinkChanged => exact hv
  | notifySeekPosition t => exact hv
  | setMediaPresence au b => exact hv
  | setLiveStream b => exact hv

theorem run_resultsWellFormed : ∀ (acts : List (Env × Action)) (s0 s : Renderer),
    ResultsWellFormed s0.view → run s0 acts = .ok s → ResultsWellFormed s.view := by
  intro acts
  induction acts with
  | nil => intro s0 s hv h; cases h; exact hv
  | cons ea rest ih =>
    intro s0 s hv h
    obtain ⟨env, a⟩ := ea
    unfold run at h
    obtain ⟨s1, h1, h2⟩ := Result.bind_eq_ok h
    exact ih s1 s (pops_resultsWellFormed (step_pops h1) (stepIngest_resultsWellFormed h1 hv)) h2

theorem postDrainVideoQueue_noCheck (env : Env) (s : Renderer) :
    postDrainVideoQueue env s ≠ .fail .checkFailed := by
  unfold postDrainVideoQueue
  split
  · simp
  · split
    · simp
    · split
      · simp
      · split
        · simp
        · split
          · simp
          · split
            · dsimp only
              split
              · simp
              · split <;> simp
            · simp

theorem syncQueuesDone_noCheck (env : Env) (s : Renderer) :
    syncQueuesDone env s ≠ .fail .checkFailed := by
  unfold syncQueuesDone
  split
  · simp
  · have key : ∀ s2 : Renderer,
        (if (!s2.mVideoQueue.isEmpty) = true then postDrainVideoQueue env s2 else .ok s2)
          ≠ .fail .checkFailed := by
      intro s2
      split
      · exact postDrainVideoQueue_noCheck env s2
      · simp
    exact key _

theorem head_push_timed (s : Renderer) (r : Int) (ht : videoHeadTimed s) :
    videoHeadTimed { s with mVideoQueue := s.mVideoQueue ++ [eosEntry r] } := by
  intro e b he hb
  cases hq : s.mVideoQueue with
  | nil =>
    have he : (s.mVideoQueue ++ [eosEntry r]).head? = some e := he
    rw [hq] at he
    simp only [List.nil_append, List.head?_cons, Option.some.injEq] at he
    subst he
    cases hb
  | cons x xs =>
    have he : (s.mVideoQueue ++ [eosEntry r]).head? = some e := he
    rw [hq] at he
    exact ht e b (by rw [hq]; exact he) hb

/-- C7: `queueEOS(audio, finalResult)` fails a `CHECK` on its arguments exactly
when `finalResult == OK`, and on a renderer whose video queue head carries a
time stamp it aborts in any way exactly then (the only other way it can abort
is a queued video buffer without time stamp, met when it ends the cross-queue
synchronisation); in every state reached from a fresh renderer every EOS
marker (entry without payload) in either queue carries a final result other
than `OK` and every payload entry carries `OK`. -/
theorem C7_eos_final_result_never_ok :
    (∀ (env : Env) (s : Renderer) (audio : Bool) (finalResult : Int),
      queueEOS env s audio finalResult = .fail .checkFailed ↔ finalResult = OK) ∧
    (∀ (env : Env) (s : Renderer) (audio : Bool) (finalResult : Int), videoHeadTimed s →
      ((∃ f, queueEOS env s audio finalResult = .fail f) ↔ finalResult = OK)) ∧
    (∀ s, Reachable s → ∀ (audio : Bool), ∀ e ∈ getQueue audio s,
      (e.mBuffer = none → e.mFinalResult ≠ OK) ∧ (e.mBuffer ≠ none → e.mFinalResult = OK)) := by
  refine ⟨?_, ?_, ?_⟩
  · intro env s audio r
    constructor
    · intro hf
      by_contra hne
      unfold queueEOS at hf
      rw [if_neg hne] at hf
      have hs : (if s.mSyncQueues = true then syncQueuesDone env s else .ok s)
          ≠ .fail .checkFailed := by
        split
        · exact syncQueuesDone_noCheck env s
        · simp
      cases hr : (if s.mSyncQueues = true then syncQueuesDone env s else Result.ok s) with
      | ok s1 => rw [hr] at hf; cases hf
      | fail f =>
        rw [hr] at hf
        simp only [Result.bind, Result.fail.injEq] at hf
        subst hf
        exact hs hr
    · intro hr
      subst hr
      unfold queueEOS
      rw [if_pos rfl]
  · intro env s audio r ht
    constructor
    · rintro ⟨f, hf⟩
      by_contra hne
      unfold queueEOS at hf
      rw [if_neg hne] at hf
      have hs : ∃ s1, (if s.mSyncQueues = true then syncQueuesDone env s else .ok s)
          = .ok s1 := by
        split
        · exact syncQueuesDone_total env s ht
        · exact ⟨s, rfl⟩
      obtain ⟨s1, hs1⟩ := hs
      rw [hs1] at hf
      cases hf
    · intro hr
      subst hr
      exact ⟨_, by unfold queueEOS; rw [if_pos rfl]⟩
  · rintro s ⟨msec, u1, u2, acts, hrun⟩ audio e he
    have h0 : ResultsWellFormed (Renderer.new msec u1 u2).view := by
      refine ⟨?_, ?_, ?_⟩ <;> intro x hx <;> cases hx
    obtain ⟨ha, hv, _⟩ := run_resultsWellFormed acts _ s h0 hrun
    cases audio
    · exact hv e he
    · exact ha e he

/-- C7, worked example: an EOS marker queued with `ERROR_END_OF_STREAM` sits in
the audio queue ahead of a payload entry; the marker carries that result and
the payload entry carries `OK`. -/
theorem C7_eos_final_result_never_ok_witness :
    getQueue true (runFrom sampleStart sampleBufferAfterEOS)
        = [eosEntry ERROR_END_OF_STREAM, bufferEntry sampleBuffer1 1] ∧
      (eosEntry ERROR_END_OF_STREAM).mFinalResult ≠ OK ∧
      (bufferEntry sampleBuffer1 1).mFinalResult = OK :=
  ⟨by rfl,
    (C7_eos_final_result_never_ok.2.2 (runFrom sampleStart sampleBufferAfterEOS)
      ⟨none, 0, 0, sampleBufferAfterEOS, by rfl⟩ true (eosEntry ERROR_END_OF_STREAM)
      (by decide)).1 rfl,
    (C7_eos_final_result_never_ok.2.2 (runFrom sampleStart sampleBufferAfterEOS)
      ⟨none, 0, 0, sampleBufferAfterEOS, by rfl⟩ true (bufferEntry sampleBuffer1 1)
      (by decide)).2 (by decide)⟩

/-! ## EOS ingestion (C8) -/

theorem getQueue_not (audio : Bool) (s : Renderer) :
    getQueue (!audio) s = if audio then s.mVideoQueue else s.mAudioQueue := by
  cases audio <;> rfl

/-- C8: handled while its stream is not flushing, a `kWhatQueueEOS` message
appends one entry without payload, with offset 0 and the given final result, at
the tail of the queue of the stream and hands the state to
`postDrainAudioQueue` / `postDrainVideoQueue`; when that returns, the queue of
the stream is the old one followed by the marker and the other queue is as
before, and it returns whenever the head of the video queue carries a time
stamp.  Handled while the stream is flushing, the message changes nothing. -/
theorem C8_queueEOS_appends_marker (env : Env) (s : Renderer) (audio : Bool)
    (finalResult : Int) :
    (flushingFlag audio s = false →
      onQueueEOS env s audio finalResult =
        (if audio then
          .ok (postDrainAudioQueue
            { s with mAudioQueue := s.mAudioQueue ++ [eosEntry finalResult] } 0)
        else
          postDrainVideoQueue env
            { s with mVideoQueue := s.mVideoQueue ++ [eosEntry finalResult] }) ∧
      (∀ s1, onQueueEOS env s audio finalResult = .ok s1 →
        getQueue audio s1 = getQueue audio s ++ [eosEntry finalResult] ∧
        getQueue (!audio) s1 = getQueue (!audio) s) ∧
      (videoHeadTimed s → ∃ s1, onQueueEOS env s audio finalResult = .ok s1)) ∧
    (flushingFlag audio s = true → onQueueEOS env s audio finalResult = .ok s) ∧
    eosEntry finalResult =
      { mBuffer := none, mNotifyConsumed := none, mOffset := 0, mFinalResult := finalResult } := by
  refine ⟨?_, ?_, rfl⟩
  · intro hf
    have heq : onQueueEOS env s audio finalResult =
        (if audio then
          .ok (postDrainAudioQueue
            { s with mAudioQueue := s.mAudioQueue ++ [eosEntry finalResult] } 0)
        else
          postDrainVideoQueue env
            { s with mVideoQueue := s.mVideoQueue ++ [eosEntry finalResult] }) := by
      unfold onQueueEOS
      rw [dropBufferWhileFlushing_eq, hf]
      rfl
    refine ⟨heq, ?_, ?_⟩
    · intro s1 h1
      rw [heq] at h1
      cases audio
      · simp only [Bool.false_eq_true, if_false] at h1
        have hst := postDrainVideoQueue_stable h1
        exact ⟨hst.vq, hst.aq⟩
      · simp only [if_true, Result.ok.injEq] at h1
        subst h1
        have hst := postDrainAudioQueue_stable
          { s with mAudioQueue := s.mAudioQueue ++ [eosEntry finalResult] } 0
        exact ⟨hst.aq, hst.vq⟩
    · intro ht
      rw [heq]
      cases audio
      · simp only [Bool.false_eq_true, if_false]
        exact postDrainVideoQueue_total env _ (head_push_timed s finalResult ht)
      · exact ⟨_, rfl⟩
  · intro hf
    unfold onQueueEOS
    rw [dropBufferWhileFlushing_eq, hf]
    rfl

/-- C8, worked example: an EOS message for the audio stream of a fresh renderer
puts the marker in the audio queue and leaves the video queue empty. -/
theorem C8_queueEOS_appends_marker_witness :
    ∃ s1, onQueueEOS sampleEnv sampleStart true ERROR_END_OF_STREAM = .ok s1 ∧
      getQueue true s1 = [eosEntry ERROR_END_OF_STREAM] ∧ getQueue false s1 = [] := by
  obtain ⟨_, h2, h3⟩ :=
    (C8_queueEOS_appends_marker sampleEnv sampleStart true ERROR_END_OF_STREAM).1 (by rfl)
  obtain ⟨s1, h1⟩ := h3 (by intro e b he; cases he)
  exact ⟨s1, h1, (h2 s1 h1).1, (h2 s1 h1).2⟩

/-! ## FIFO queues and the place of the EOS marker (C9) -/

theorem stepIngest_queue (audio : Bool) (s : Renderer) (a : Action) :
    (stepIngest s a).queue audio = getQueue audio s ++ pushedNow audio s a := by
  have base : s.view.queue audio = getQueue audio s ++ [] := by
    rw [List.append_nil]; exact view_queue audio s
  cases a with
  | deliver i =>
    cases hm : s.mailbox[i]? with
    | none => simp only [stepIngest, pushedNow, hm]; exact base
    | some md =>
      obtain ⟨msg, d⟩ := md
      have hb : ({ s with mailbox := s.mailbox.eraseIdx i } : Renderer).view.queue audio
          = getQueue audio s := (view_queue audio _).trans rfl
      have hfl : ∀ au, flushingFlag au { s with mailbox := s.mailbox.eraseIdx i }
          = flushingFlag au s := fun _ => rfl
      cases msg with
      | queueBuffer au buffer cb =>
        simp only [stepIngest, pushedNow, hm, ingest, hfl]
        by_cases hau : au = audio
        · subst hau
          cases hf : flushingFlag au s
          · simp [queue_push, hb]
          · simp [queue_reject, hb]
        · have hne : (au == audio) = false := by simpa using hau
          simp only [hne, Bool.false_and, Bool.false_eq_true, if_false, List.append_nil]
          split
          · rw [queue_reject]; exact hb
          · rw [queue_push, if_neg hau]; exact hb
      | queueEOS au finalResult =>
        simp only [stepIngest, pushedNow, hm, ingest, hfl]
        by_cases hau : au = audio
        · subst hau
          cases hf : flushingFlag au s
          · simp [queue_push, hb]
          · simp [hb]
        · have hne : (au == audio) = false := by simpa using hau
          simp only [hne, Bool.false_and, Bool.false_eq_true, if_false, List.append_nil]
          split
          · exact hb
          · rw [queue_push, if_neg hau]; exact hb
      | flush au =>
        simp only [stepIngest, pushedNow, hm, ingest, List.append_nil]
        rw [queue_setFlushing]; exact hb
      | drainAudioQueue g =>
        simp only [stepIngest, pushedNow, hm, ingest, List.append_nil]; exact hb
      | drainVideoQueue g =>
        simp only [stepIngest, pushedNow, hm, ingest, List.append_nil]; exact hb
      | audioSinkChanged =>
        simp only [stepIngest, pushedNow, hm, ingest, List.append_nil]; exact hb
      | pause => simp only [stepIngest, pushedNow, hm, ingest, List.append_nil]; exact hb
      | resume => simp only [stepIngest, pushedNow, hm, ingest, List.append_nil]; exact hb
      | delayQueued =>
        simp only [stepIngest, pushedNow, hm, ingest, List.append_nil]; exact hb
  | flush au =>
    simp only [stepIngest, pushedNow]
    rw [queue_setFlushing]; exact base
  | queueEOS au finalResult =>
    simp only [stepIngest, pushedNow]
    cases audio <;> exact base
  | queueBuffer au buffer cb => exact base
  | queueDelay d => exact base
  | signalTimeDiscontinuity => exact base
  | pause => exact base
  | resume => exact base
  | signalRefreshAnchorRealTime b => exact base
  | signalAudioSinkChanged => exact base
  | notifySeekPosition t => exact base
  | setMediaPresence au b => exact base
  | setLiveStream b => exact base

theorem pushedNow_length (audio : Bool) (s : Renderer) (a : Action) :
    (pushedNow audio s a).length ≤ 1 := by
  cases a with
  | deliver i =>
    cases hm : s.mailbox[i]? with
    | none => simp [pushedNow, hm]
    | some md =>
      obtain ⟨msg, d⟩ := md
      cases msg <;> simp only [pushedNow, hm] <;> (try split) <;> simp
  | _ => simp [pushedNow]

/-- One action pops entries from the head of a queue and appends at most one
at its tail. -/
theorem step_fifo {env : Env} {s s1 : Renderer} {a : Action} (audio : Bool)
    (h : step env s a = .ok s1) :
    ∃ k, queueKeys audio s1 =
      (queueKeys audio s ++ (pushedNow audio s a).map entryKey).drop k := by
  obtain ⟨k, hk, _⟩ := pops_adv (step_pops h) audio
  refine ⟨k, ?_⟩
  rw [stepIngest_queue, view_queue, List.map_append] at hk
  exact hk

theorem eosLast_tail (k : EntryKey) (ks : List EntryKey) (h : eosLast (k :: ks) = true) :
    eosLast ks = true := by
  cases ks with
  | nil => rfl
  | cons k1 rest =>
    unfold eosLast at h
    simp only [Bool.and_eq_true] at h
    exact h.2

theorem eosLast_drop (n : Nat) : ∀ (ks : List EntryKey), eosLast ks = true →
    eosLast (ks.drop n) = true := by
  induction n with
  | zero => intro ks h; simpa using h
  | succ n ih =>
    intro ks h
    cases ks with
    | nil => rfl
    | cons k rest =>
      rw [List.drop_succ_cons]
      exact ih rest (eosLast_tail k rest h)

theorem eosLast_snoc : ∀ (ks : List EntryKey) (x : EntryKey), noMarker ks = true →
    eosLast (ks ++ [x]) = true := by
  intro ks
  induction ks with
  | nil => intro x _; rfl
  | cons k rest ih =>
    intro x h
    unfold noMarker at h
    simp only [List.all_cons, Bool.and_eq_true] at h
    have hrest := ih x (by unfold noMarker; exact h.2)
    cases rest with
    | nil =>
      show eosLast [k, x] = true
      unfold eosLast
      simp [h.1, eosLast]
    | cons k1 rest1 =>
      show eosLast (k :: k1 :: (rest1 ++ [x])) = true
      unfold eosLast
      simp only [Bool.and_eq_true]
      exact ⟨h.1, hrest⟩

/-- One action keeps the EOS marker last when it appends nothing behind one. -/
theorem step_eosLast {env : Env} {s s1 : Renderer} {a : Action} (audio : Bool)
    (h : step env s a = .ok s1) (hl : eosLast (queueKeys audio s) = true)
    (hd : (pushedNow audio s a).isEmpty = true ∨ noMarker (queueKeys audio s) = true) :
    eosLast (queueKeys audio s1) = true := by
  obtain ⟨k, hk⟩ := step_fifo audio h
  rw [hk]
  apply eosLast_drop
  have hlen := pushedNow_length audio s a
  cases hp : pushedNow audio s a with
  | nil => simpa using hl
  | cons e rest =>
    rw [hp] at hlen hd
    have hrest : rest = [] := List.length_eq_zero.mp (by simpa using hlen)
    subst hrest
    rcases hd with hd | hd
    · simp at hd
    · exact eosLast_snoc _ _ hd

/-- C9, as stated, fails: the producer queues the EOS marker and then a buffer
on the audio stream, with no flush in between and nothing drained; both are
accepted, and the payload entry follows the EOS marker in the audio queue. -/
theorem C9_entry_follows_eos_counterexample :
    run sampleStart sampleBufferAfterEOS = .ok (runFrom sampleStart sampleBufferAfterEOS) ∧
      (runFrom sampleStart sampleBufferAfterEOS).mAudioQueue
        = [eosEntry ERROR_END_OF_STREAM, bufferEntry sampleBuffer1 1] ∧
      eosLast (queueKeys true (runFrom sampleStart sampleBufferAfterEOS)) = false := by
  refine ⟨by rfl, by rfl, by rfl⟩

/-- C9, amended: every action pops entries from the head of a queue and
appends at most one at its tail (the queues are FIFO), and along every run in
which nothing is appended to a queue while that queue holds an EOS marker, no
entry but the last is an EOS marker; the renderer itself accepts buffers and
markers behind a marker. -/
theorem C9_fifo_and_eos_last_unless_queued_behind (audio : Bool) :
    (∀ (env : Env) (s s1 : Renderer) (a : Action), step env s a = .ok s1 →
      (pushedNow audio s a).length ≤ 1 ∧
      ∃ k, queueKeys audio s1 =
        (queueKeys audio s ++ (pushedNow audio s a).map entryKey).drop k) ∧
    (∀ (acts : List (Env × Action)) (s0 s : Renderer), eosLast (queueKeys audio s0) = true →
      run s0 acts = .ok s → noIngestBehindEOS audio s0 acts = true →
      eosLast (queueKeys audio s) = true) := by
  constructor
  · intro env s s1 a h
    exact ⟨pushedNow_length audio s a, step_fifo audio h⟩
  · intro acts
    induction acts with
    | nil => intro s0 s hl h _; cases h; exact hl
    | cons ea rest ih =>
      intro s0 s hl h hd
      obtain ⟨env, a⟩ := ea
      unfold run at h
      obtain ⟨s1, h1, h2⟩ := Result.bind_eq_ok h
      unfold noIngestBehindEOS at hd
      rw [h1] at hd
      simp only [Bool.and_eq_true, Bool.or_eq_true] at hd
      exact ih s1 s (step_eosLast audio h1 hl hd.1) h2 hd.2

/-- C9, worked example: a buffer and then the EOS marker are queued on the
audio stream; the marker is the last entry of the queue. -/
theorem C9_fifo_and_eos_last_unless_queued_behind_witness :
    (runFrom sampleStart sampleEOSAfterBuffer).mAudioQueue
        = [bufferEntry sampleBuffer1 1, eosEntry ERROR_END_OF_STREAM] ∧
      eosLast (queueKeys true (runFrom sampleStart sampleEOSAfterBuffer)) = true :=
  ⟨by rfl,
    (C9_fifo_and_eos_last_unless_queued_behind true).2 sampleEOSAfterBuffer sampleStart
      (runFrom sampleStart sampleEOSAfterBuffer) (by rfl) (by rfl) (by rfl)⟩

/-! ## Start anchor (C10) -/

theorem postDrainAudioQueue_anchor (s : Renderer) (d : Int) :
    (postDrainAudioQueue s d).mAnchorTimeMediaUs = s.mAnchorTimeMediaUs := by
  unfold postDrainAudioQueue
  split
  · rfl
  · split <;> rfl

/-- C10, as stated, fails: with both streams present and no anchor, audio with
time stamp -5 arrives after two video frames with time stamps 10 and 20; the
start anchor becomes 10, not the earlier of the two head time stamps, -5. -/
theorem C10_start_anchor_counterexample :
    sampleAwaitingAudio.mHasAudio = true ∧ sampleAwaitingAudio.mHasVideo = true ∧
      sampleAwaitingAudio.mAnchorTimeMediaUs = -1 ∧
      (sampleAwaitingAudio.mVideoQueue.head?.bind fun e => e.mBuffer.bind fun b => b.timeUs)
        = some 10 ∧
      (runFrom sampleAwaitingAudio
        [(sampleEnv, .queueBuffer true sampleAudioEarly 3), (sampleEnv, .deliver 0)]).mAudioQueue
        = [bufferEntry sampleAudioEarly 3] ∧
      (runFrom sampleAwaitingAudio
        [(sampleEnv, .queueBuffer true sampleAudioEarly 3),
          (sampleEnv, .deliver 0)]).mAnchorTimeMediaUs = 10 ∧
      (10 : Int) ≠ min (-5) 10 := by
  refine ⟨by rfl, by rfl, by rfl, by rfl, by rfl, by rfl, by decide⟩

/-- C10, amended: when both queues have a payload entry at their head,
`setStartAnchorMediaAndPostDrainQueue` returns and sets `mAnchorTimeMediaUs` to
the earlier of the two head time stamps if both are non-negative; a negative
or missing time stamp counts as absent: the anchor is then the other head time
stamp if that one is non-negative, and is left as it was otherwise. -/
theorem C10_start_anchor_is_earlier_nonnegative (s : Renderer) (ventry aentry : QueueEntry)
    (vrest arest : List QueueEntry) (vbuf abuf : ABuffer)
    (hv : s.mVideoQueue = ventry :: vrest) (ha : s.mAudioQueue = aentry :: arest)
    (hvb : ventry.mBuffer = some vbuf) (hab : aentry.mBuffer = some abuf) :
    ∃ s1, setStartAnchorMediaAndPostDrainQueue s = .ok s1 ∧
      s1.mAnchorTimeMediaUs =
        (if 0 ≤ abuf.timeUs.getD (-1) ∧ 0 ≤ vbuf.timeUs.getD (-1) then
          min (abuf.timeUs.getD (-1)) (vbuf.timeUs.getD (-1))
        else if 0 ≤ abuf.timeUs.getD (-1) then abuf.timeUs.getD (-1)
        else if 0 ≤ vbuf.timeUs.getD (-1) then vbuf.timeUs.getD (-1)
        else s.mAnchorTimeMediaUs) ∧
      (∀ ta tv : Int, abuf.timeUs = some ta → vbuf.timeUs = some tv → 0 ≤ ta → 0 ≤ tv →
        s1.mAnchorTimeMediaUs = min ta tv) := by
  have hval : ∀ s1, setStartAnchorMediaAndPostDrainQueue s = .ok s1 →
      s1.mAnchorTimeMediaUs =
        (if 0 ≤ abuf.timeUs.getD (-1) ∧ 0 ≤ vbuf.timeUs.getD (-1) then
          min (abuf.timeUs.getD (-1)) (vbuf.timeUs.getD (-1))
        else if 0 ≤ abuf.timeUs.getD (-1) then abuf.timeUs.getD (-1)
        else if 0 ≤ vbuf.timeUs.getD (-1) then vbuf.timeUs.getD (-1)
        else s.mAnchorTimeMediaUs) := by
    intro s1 h1
    unfold setStartAnchorMediaAndPostDrainQueue at h1
    rw [hv, ha] at h1
    simp only [hvb, hab] at h1
    cases h1
    rw [postDrainAudioQueue_anchor]
    by_cases h1 : 0 ≤ abuf.timeUs.getD (-1) <;> by_cases h2 : 0 ≤ vbuf.timeUs.getD (-1) <;>
      simp [h1, h2, min_def]
  have hex : ∃ s1, setStartAnchorMediaAndPostDrainQueue s = .ok s1 := by
    unfold setStartAnchorMediaAndPostDrainQueue
    rw [hv, ha]
    simp only [hvb, hab]
    exact ⟨_, rfl⟩
  obtain ⟨s1, h1⟩ := hex
  refine ⟨s1, h1, hval s1 h1, ?_⟩
  intro ta tv hta htv h0a h0v
  rw [hval s1 h1, hta, htv]
  simp [h0a, h0v]

/-- C10, worked example: audio with time stamp 10 and video with time stamp 20
at the heads give the start anchor 10. -/
theorem C10_start_anchor_is_earlier_nonnegative_witness :
    ∃ s1, setStartAnchorMediaAndPostDrainQueue
        { sampleStart with mAudioQueue := [bufferEntry sampleBuffer1 1],
                           mVideoQueue := [bufferEntry sampleVideo2 2] } = .ok s1 ∧
      s1.mAnchorTimeMediaUs = min 10 20 := by
  obtain ⟨s1, h1, _, h3⟩ := C10_start_anchor_is_earlier_nonnegative
    { sampleStart with mAudioQueue := [bufferEntry sampleBuffer1 1],
                       mVideoQueue := [bufferEntry sampleVideo2 2] }
    (bufferEntry sampleVideo2 2) (bufferEntry sampleBuffer1 1) [] [] sampleVideo2 sampleBuffer1
    rfl rfl rfl rfl
  exact ⟨s1, h1, h3 10 20 rfl rfl (by decide) (by decide)⟩

/-! ## Time discontinuity -/

/-- C18: `signalTimeDiscontinuity` fails its `CHECK` exactly when the audio
queue or the video queue is non-empty, and returns exactly when both are
empty.  When it returns, the anchor pair is `(-1, -1)`, has-audio and has-video
are cleared, the last received video time stamp is `-1`, the start-up latency
is reset (`begin = -1`, value `0`), the wait-for-first-audio gate is open, and
cross-queue sync is active exactly when both streams were present before the
call; queues, mailbox and trace are untouched. -/
theorem C18_signalTimeDiscontinuity_effect (s : Renderer) :
    (signalTimeDiscontinuity s = .fail .checkFailed ↔
        (s.mAudioQueue ≠ [] ∨ s.mVideoQueue ≠ [])) ∧
    ((∃ s1, signalTimeDiscontinuity s = .ok s1) ↔
        (s.mAudioQueue = [] ∧ s.mVideoQueue = [])) ∧
    ∀ s1, signalTimeDiscontinuity s = .ok s1 →
      s1.mAnchorTimeMediaUs = -1 ∧ s1.mAnchorTimeRealUs = -1 ∧
      s1.mHasAudio = false ∧ s1.mHasVideo = false ∧
      s1.mLastReceivedVideoSampleUs = -1 ∧
      s1.mStartUpLatencyBeginUs = -1 ∧ s1.mStartUpLatencyUs = 0 ∧
      s1.mDrainVideoQueuePendingUntilFirstAudio = false ∧
      (s1.mSyncQueues = true ↔ (s.mHasAudio = true ∧ s.mHasVideo = true)) ∧
      s1.mAudioQueue = [] ∧ s1.mVideoQueue = [] ∧
      s1.mailbox = s.mailbox ∧ s1.out = s.out := by
  unfold signalTimeDiscontinuity
  cases ha : s.mAudioQueue with
  | cons a as => simp
  | nil =>
    cases hv : s.mVideoQueue with
    | cons v vs => simp
    | nil =>
      simp only [List.isEmpty_nil, Bool.not_true, Bool.false_eq_true, if_false]
      refine ⟨by simp, by simp, ?_⟩
      intro s1 h
      cases h
      simp [ha, hv]

/-- C18, worked example: with both streams present and empty queues the call
returns and activates cross-queue sync. -/
theorem C18_signalTimeDiscontinuity_effect_witness :
    ∃ s1, signalTimeDiscontinuity sampleBothPresent = .ok s1 ∧
      s1.mAnchorTimeMediaUs = -1 ∧ s1.mAnchorTimeRealUs = -1 ∧
      s1.mHasAudio = false ∧ s1.mHasVideo = false ∧ s1.mSyncQueues = true := by
  obtain ⟨s1, h1⟩ := (C18_signalTimeDiscontinuity_effect sampleBothPresent).2.1.mpr
    ⟨by rfl, by rfl⟩
  obtain ⟨a, b, c, d, _, _, _, _, e, _⟩ :=
    (C18_signalTimeDiscontinuity_effect sampleBothPresent).2.2 s1 h1
  exact ⟨s1, h1, a, b, c, d, e.mpr ⟨by rfl, by rfl⟩⟩

/-! ## Video deadline -/

theorem measure_vq (env : Env) (s : Renderer) :
    (measureStartUpLatency env s).mVideoQueue = s.mVideoQueue := by
  unfold measureStartUpLatency; split <;> rfl

theorem notifyPosition_late (env : Env) (s : Renderer) (b : Bool) :
    (notifyPosition env s b).mVideoLateByUs = s.mVideoLateByUs := by
  unfold notifyPosition; split
  · rfl
  · split <;> rfl

theorem videoRenderDecision_late (env : Env) (s : Renderer) (t : Int) :
    (videoRenderDecision env s t).2.mVideoLateByUs = env.nowUs - realTimeOf s t := by
  unfold videoRenderDecision realTimeOf
  simp only
  split <;> split <;> rfl

/-- C20: with `wallDeadline = (mediaTimeUs - anchorMediaTimeUs) + anchorRealTimeUs`
(`realTimeOf`) for the payload frame at the head of the video queue:
when `postDrainVideoQueue` is not held back by its entry test, both anchor
components are non-negative and no post-pause re-anchoring applies (the
renderer was not paused since the last post, or audio is present with an empty
audio queue), it posts the drain message of the current generation with delay
exactly `wallDeadline - now` and leaves the anchor alone; when an anchor
component is negative it sets the anchor to `(mediaTimeUs, now)` and posts with
delay 0; and `onDrainVideoQueue` (no stall pending) records
`mVideoLateByUs = now - wallDeadline`. -/
theorem C20_video_deadline (env : Env) (s : Renderer) (entry : QueueEntry)
    (rest : List QueueEntry) (buffer : ABuffer) (mediaTimeUs : Int)
    (hq : s.mVideoQueue = entry :: rest) (hb : entry.mBuffer = some buffer)
    (ht : buffer.timeUs = some mediaTimeUs) :
    (videoDrainGated s = false → 0 ≤ s.mAnchorTimeMediaUs → 0 ≤ s.mAnchorTimeRealUs →
      (s.mWasPaused = false ∨ (s.mHasAudio = true ∧ s.mAudioQueue = [])) →
      ∃ s1, postDrainVideoQueue env s = .ok s1 ∧
        s1.mailbox = s.mailbox ++
          [(.drainVideoQueue s.mVideoQueueGeneration, realTimeOf s mediaTimeUs - env.nowUs)] ∧
        s1.mDrainVideoQueuePending = true ∧
        s1.mAnchorTimeMediaUs = s.mAnchorTimeMediaUs ∧
        s1.mAnchorTimeRealUs = s.mAnchorTimeRealUs) ∧
    (videoDrainGated s = false → (s.mAnchorTimeMediaUs < 0 ∨ s.mAnchorTimeRealUs < 0) →
      ∃ s1, postDrainVideoQueue env s = .ok s1 ∧
        s1.mailbox = s.mailbox ++ [(.drainVideoQueue s.mVideoQueueGeneration, 0)] ∧
        s1.mDrainVideoQueuePending = true ∧
        s1.mAnchorTimeMediaUs = mediaTimeUs ∧ s1.mAnchorTimeRealUs = env.nowUs) ∧
    (s.mDelayPending = false → ∀ cb, entry.mNotifyConsumed = some cb →
      ∃ s1, onDrainVideoQueue env s = .ok s1 ∧
        s1.mVideoLateByUs = env.nowUs - realTimeOf s mediaTimeUs) := by
  refine ⟨?_, ?_, ?_⟩
  · intro hg hm hr hp
    have hg1 : (s.mDelayPending || s.mDrainVideoQueuePending || s.mSyncQueues || s.mPaused
      || s.mDrainVideoQueuePendingUntilFirstAudio) = false := hg
    have hv : ¬ (s.mAnchorTimeMediaUs < 0 ∨ s.mAnchorTimeRealUs < 0) := by omega
    unfold postDrainVideoQueue
    rw [hg1, hq]
    simp only [Bool.false_eq_true, if_false, hb, ht, hv]
    cases hw : s.mWasPaused with
    | false =>
      simp only [Bool.false_eq_true, if_false]
      exact ⟨_, rfl, rfl, rfl, rfl, rfl⟩
    | true =>
      rcases hp with hp | ⟨ha, haq⟩
      · rw [hw] at hp; cases hp
      · simp only [if_true, ha, haq, Bool.not_true, Bool.false_eq_true, if_false,
          List.isEmpty_nil]
        exact ⟨_, rfl, rfl, rfl, rfl, rfl⟩
  · intro hg hv
    have hg1 : (s.mDelayPending || s.mDrainVideoQueuePending || s.mSyncQueues || s.mPaused
      || s.mDrainVideoQueuePendingUntilFirstAudio) = false := hg
    unfold postDrainVideoQueue
    rw [hg1, hq]
    simp only [Bool.false_eq_true, if_false, hb, ht, hv, if_true]
    exact ⟨_, rfl, rfl, rfl, rfl, rfl⟩
  · intro hd cb hcb
    unfold onDrainVideoQueue
    rw [hd]
    simp only [Bool.false_eq_true, if_false]
    unfold drainVideoHead
    rw [measure_vq, hq]
    simp only [hb, ht, postConsumed, hcb, Result.bind]
    refine ⟨_, rfl, ?_⟩
    rw [notifyPosition_late]
    show (videoRenderDecision env (measureStartUpLatency env s) mediaTimeUs).2.mVideoLateByUs = _
    rw [videoRenderDecision_late]
    unfold realTimeOf measureStartUpLatency
    split <;> rfl

/-- C20, worked example: with anchor `(10, 1000)` the frame of time stamp 20 is
posted at wall time 1000 with delay `(20 - 10) + 1000 - 1000 = 10`; drained at
wall time 50000 it is late by `50000 - 1010`; and the first frame of a fresh
renderer sets the anchor to `(10, 1000)` and is posted with delay 0. -/
theorem C20_video_deadline_witness :
    (∃ s1, postDrainVideoQueue sampleEnv sampleVideoDue = .ok s1 ∧
      s1.mailbox = [(.drainVideoQueue 0, 10)]) ∧
    (∃ s1, onDrainVideoQueue sampleEnvPlayed sampleVideoDue = .ok s1 ∧
      s1.mVideoLateByUs = 48990) ∧
    (∃ s1, postDrainVideoQueue sampleEnv sampleVideoFirst = .ok s1 ∧
      s1.mailbox = [(.drainVideoQueue 0, 0)] ∧
      s1.mAnchorTimeMediaUs = 10 ∧ s1.mAnchorTimeRealUs = 1000) := by
  refine ⟨?_, ?_, ?_⟩
  · obtain ⟨s1, h1, h2, _⟩ :=
      (C20_video_deadline sampleEnv sampleVideoDue (bufferEntry sampleVideo2 2) []
        sampleVideo2 20 rfl rfl rfl).1 (by rfl) (by decide) (by decide) (Or.inl (by rfl))
    exact ⟨s1, h1, h2⟩
  · obtain ⟨s1, h1, h2⟩ :=
      (C20_video_deadline sampleEnvPlayed sampleVideoDue (bufferEntry sampleVideo2 2) []
        sampleVideo2 20 rfl rfl rfl).2.2 (by rfl) 2 rfl
    exact ⟨s1, h1, h2⟩
  · obtain ⟨s1, h1, h2, _, h3, h4⟩ :=
      (C20_video_deadline sampleEnv sampleVideoFirst (bufferEntry sampleVideo1 1) []
        sampleVideo1 10 rfl rfl rfl).2.1 (by rfl) (Or.inl (by decide))
    exact ⟨s1, h1, h2, h3, h4⟩

/-! ## Back-to-back stalls -/

theorem getElem?_length_snoc {α : Type} (l : List α) (a : α) :
    (l ++ [a])[l.length]? = some a := by
  simp

theorem eraseIdx_length_snoc {α : Type} (l : List α) (a : α) :
    (l ++ [a]).eraseIdx l.length = l := by
  induction l with
  | nil => rfl
  | cons x xs ih => simp [List.eraseIdx, ih]

theorem queueDelay_fresh (env : Env) (s : Renderer) (d : Int) (hp : s.mDelayPending = false) :
    queueDelay env s d =
      { (post (if s.mHasAudio then emit s .sinkPause else s) .delayQueued d) with
        mDelayPending := true, mDelayToQueueUs := 0 } := by
  unfold queueDelay
  rw [hp]
  rfl

theorem queueDelay_pending (env : Env) (s : Renderer) (d : Int) (hp : s.mDelayPending = true) :
    queueDelay env s d =
      { s with mDelayToQueueUs := d, mDelayToQueueTimeRealUs := env.nowUs } := by
  unfold queueDelay
  rw [hp]
  rfl

theorem queueDelay_twice (env1 env2 : Env) (s0 : Renderer) (d1 d2 : Int)
    (hp : s0.mDelayPending = false) :
    queueDelay env2 (queueDelay env1 s0 d1) d2 =
      { s0 with mailbox := s0.mailbox ++ [(.delayQueued, d1)],
                out := s0.out ++ (if s0.mHasAudio then [.sinkPause] else []),
                mDelayPending := true, mDelayToQueueUs := d2,
                mDelayToQueueTimeRealUs := env2.nowUs } := by
  rw [queueDelay_fresh env1 s0 d1 hp, queueDelay_pending env2 _ d2 rfl]
  cases h : s0.mHasAudio <;> simp [post, emit, h]

/-- C14: `queueDelay(d1)` is called with no stall pending and then
`queueDelay(d2)` at wall time `t2`; the second call posts nothing.  When the
expiry message of the first stall is handled at a later wall time `t`, with
`remaining = d2 - (t - t2)`: if `remaining > 0` the handler posts exactly one
further expiry message, with delay `remaining`, keeps the stall pending, posts
no drain message and does not start the sink (it pauses it again when audio
is present); if `remaining <= 0` it clears the stall, starts the sink when
audio is present and the renderer is not paused, and calls
`postDrainAudioQueue()` and `postDrainVideoQueue()`.  The follow-up delay is
neither `d1 + d2` nor `d2`. -/
theorem C14_back_to_back_delay (env1 env2 env : Env) (s0 : Renderer) (d1 d2 : Int)
    (hp : s0.mDelayPending = false) (hd1 : 0 ≤ d1) (ht : env2.nowUs < env.nowUs) :
    (queueDelay env2 (queueDelay env1 s0 d1) d2).mailbox = s0.mailbox ++ [(.delayQueued, d1)] ∧
    (0 < d2 - (env.nowUs - env2.nowUs) →
      ∃ s3, step env (queueDelay env2 (queueDelay env1 s0 d1) d2) (.deliver s0.mailbox.length)
          = .ok s3 ∧
        s3.mailbox = s0.mailbox ++ [(.delayQueued, d2 - (env.nowUs - env2.nowUs))] ∧
        s3.mDelayPending = true ∧ s3.mDelayToQueueUs = 0 ∧
        s3.out = (queueDelay env2 (queueDelay env1 s0 d1) d2).out ++
          (if s0.mHasAudio then [.sinkPause] else []) ∧
        s3.mDrainAudioQueuePending = s0.mDrainAudioQueuePending ∧
        s3.mDrainVideoQueuePending = s0.mDrainVideoQueuePending) ∧
    (d2 - (env.nowUs - env2.nowUs) ≤ 0 →
      step env (queueDelay env2 (queueDelay env1 s0 d1) d2) (.deliver s0.mailbox.length) =
        postDrainVideoQueue env (postDrainAudioQueue
          (if s0.mHasAudio && !s0.mPaused then
            emit { queueDelay env2 (queueDelay env1 s0 d1) d2 with
                   mailbox := s0.mailbox, mDelayPending := false } .sinkStart
           else { queueDelay env2 (queueDelay env1 s0 d1) d2 with
                  mailbox := s0.mailbox, mDelayPending := false }) 0) ∧
      ∀ s3, step env (queueDelay env2 (queueDelay env1 s0 d1) d2) (.deliver s0.mailbox.length)
          = .ok s3 → s3.mDelayPending = false) ∧
    d2 - (env.nowUs - env2.nowUs) ≠ d1 + d2 ∧ d2 - (env.nowUs - env2.nowUs) ≠ d2 := by
  have key := queueDelay_twice env1 env2 s0 d1 d2 hp
  have hA : (queueDelay env2 (queueDelay env1 s0 d1) d2).mHasAudio = s0.mHasAudio := by
    rw [key]
  have hP : (queueDelay env2 (queueDelay env1 s0 d1) d2).mPaused = s0.mPaused := by
    rw [key]
  have hout : (queueDelay env2 (queueDelay env1 s0 d1) d2).out
      = s0.out ++ (if s0.mHasAudio then [.sinkPause] else []) := by rw [key]
  have hDA : (queueDelay env2 (queueDelay env1 s0 d1) d2).mDrainAudioQueuePending
      = s0.mDrainAudioQueuePending := by rw [key]
  have hDV : (queueDelay env2 (queueDelay env1 s0 d1) d2).mDrainVideoQueuePending
      = s0.mDrainVideoQueuePending := by rw [key]
  have e1 : (queueDelay env2 (queueDelay env1 s0 d1) d2).mDelayToQueueUs = d2 := by rw [key]
  have e2 : (queueDelay env2 (queueDelay env1 s0 d1) d2).mDelayToQueueTimeRealUs
      = env2.nowUs := by rw [key]
  have hm : (queueDelay env2 (queueDelay env1 s0 d1) d2).mailbox
      = s0.mailbox ++ [(.delayQueued, d1)] := by rw [key]
  generalize queueDelay env2 (queueDelay env1 s0 d1) d2 = s2 at hA hP hout hDA hDV e1 e2 hm ⊢
  have hstep : step env s2 (.deliver s0.mailbox.length)
      = onDelayQueued env { s2 with mailbox := s0.mailbox } := by
    simp only [step, hm, getElem?_length_snoc, eraseIdx_length_snoc, onMessageReceived]
  refine ⟨hm, ?_, ?_, by omega, by omega⟩
  · intro hr
    have hd2 : 0 < d2 := by omega
    rw [hstep]
    unfold onDelayQueued
    simp only [e1, e2]
    rw [if_pos ⟨hd2, hr⟩, queueDelay_fresh _ _ _ rfl]
    refine ⟨_, rfl, ?_, rfl, rfl, ?_, ?_, ?_⟩
    · simp only [hA]; cases s0.mHasAudio <;> rfl
    · simp only [hA]; cases s0.mHasAudio <;> simp [post, emit]
    · simp only [hA, ← hDA]; cases s0.mHasAudio <;> rfl
    · simp only [hA, ← hDV]; cases s0.mHasAudio <;> rfl
  · intro hr
    have hne : ¬ (d2 > 0 ∧ d2 - (env.nowUs - env2.nowUs) > 0) := by omega
    have hval : onDelayQueued env { s2 with mailbox := s0.mailbox } =
        postDrainVideoQueue env (postDrainAudioQueue
          (if s0.mHasAudio && !s0.mPaused then
            emit { s2 with mailbox := s0.mailbox, mDelayPending := false } .sinkStart
           else { s2 with mailbox := s0.mailbox, mDelayPending := false }) 0) := by
      unfold onDelayQueued
      simp only [e1, e2]
      rw [if_neg hne]
      simp only [hA, hP]
    rw [hstep, hval]
    refine ⟨rfl, ?_⟩
    intro s3 h3
    have hs := (stable_trans (postDrainAudioQueue_stable _ 0)
      (postDrainVideoQueue_stable h3)).settings
    have h4 := congrArg Settings.delayPending hs
    simp only [Renderer.settings] at h4
    rw [h4]
    split <;> rfl

/-- C14, worked example: a stall of 30000 is requested at wall time 1000 and
one of 45000 at wall time 11000; when the first expiry message is handled at
wall time 31000 the follow-up stall lasts `45000 - (31000 - 11000) = 25000`. -/
theorem C14_back_to_back_delay_witness :
    ∃ s3, step (sampleEnvAt 31000)
        (queueDelay (sampleEnvAt 11000) (queueDelay sampleEnv sampleHalfDrained 30000) 45000)
        (.deliver sampleHalfDrained.mailbox.length) = .ok s3 ∧
      s3.mailbox = sampleHalfDrained.mailbox ++ [(.delayQueued, 25000)] ∧
      s3.mDelayPending = true := by
  obtain ⟨s3, h1, h2, h3, _⟩ :=
    (C14_back_to_back_delay sampleEnv (sampleEnvAt 11000) (sampleEnvAt 31000)
      sampleHalfDrained 30000 45000 (by rfl) (by decide) (by decide)).2.1 (by decide)
  exact ⟨s3, h1, h2, h3⟩

/-! ## Pause and resume -/

theorem postDrainAudioQueue_cases (s : Renderer) (d : Int) :
    postDrainAudioQueue s d = s ∨
    (audioDrainGated s = false ∧ s.mAudioQueue ≠ [] ∧
      postDrainAudioQueue s d =
        post { s with mDrainAudioQueuePending := true }
          (.drainAudioQueue s.mAudioQueueGeneration) d) := by
  unfold postDrainAudioQueue audioDrainGated
  split
  · exact Or.inl rfl
  · rename_i hg
    split
    · exact Or.inl rfl
    · rename_i hq
      refine Or.inr ⟨by simpa using hg, ?_, rfl⟩
      intro h; rw [h] at hq; exact hq rfl

theorem postDrainVideoQueue_cases {env : Env} {s r : Renderer}
    (h : postDrainVideoQueue env s = .ok r) :
    r.mDrainAudioQueuePending = s.mDrainAudioQueuePending ∧
    ((r.mailbox = s.mailbox ∧ r.mDrainVideoQueuePending = s.mDrainVideoQueuePending) ∨
     (videoDrainGated s = false ∧ r.mDrainVideoQueuePending = true ∧
       ∃ d, r.mailbox = s.mailbox ++ [(.drainVideoQueue s.mVideoQueueGeneration, d)])) := by
  unfold postDrainVideoQueue at h
  split at h
  · cases h; exact ⟨rfl, Or.inl ⟨rfl, rfl⟩⟩
  · rename_i hg
    have hg1 : videoDrainGated s = false := by
      unfold videoDrainGated; simpa using hg
    split at h
    · cases h; exact ⟨rfl, Or.inl ⟨rfl, rfl⟩⟩
    · split at h
      · cases h; exact ⟨rfl, Or.inr ⟨hg1, rfl, _, rfl⟩⟩
      · split at h
        · cases h
        · split at h
          · cases h; exact ⟨rfl, Or.inr ⟨hg1, rfl, _, rfl⟩⟩
          · split at h
            · simp only at h
              split at h
              · cases h; exact ⟨rfl, Or.inr ⟨hg1, rfl, _, rfl⟩⟩
              · split at h
                · cases h
                  split <;> exact ⟨rfl, Or.inl ⟨rfl, rfl⟩⟩
                · cases h; exact ⟨rfl, Or.inr ⟨hg1, rfl, _, rfl⟩⟩
            · cases h; exact ⟨rfl, Or.inr ⟨hg1, rfl, _, rfl⟩⟩

theorem onPause_eq (s : Renderer) (hp : s.mPaused = false) :
    onPause s = .ok (pausedState s) := by
  unfold onPause pausedState
  rw [hp]
  rfl

theorem onResume_eq (env : Env) (s : Renderer) (hp : s.mPaused = true) :
    onResume env s =
      (if !(if !(resumedState env s).mAudioQueue.isEmpty
              then postDrainAudioQueue (resumedState env s) 0
              else resumedState env s).mVideoQueue.isEmpty
        then postDrainVideoQueue env
          (if !(resumedState env s).mAudioQueue.isEmpty
            then postDrainAudioQueue (resumedState env s) 0 else resumedState env s)
        else .ok (if !(resumedState env s).mAudioQueue.isEmpty
            then postDrainAudioQueue (resumedState env s) 0 else resumedState env s)) := by
  unfold onResume resumedState
  rw [hp]
  rfl

theorem pausedState_effect (s : Renderer) : PauseEffect s (pausedState s) := by
  unfold pausedState
  cases h : s.mHasAudio <;> constructor <;> simp [emit, h]

theorem resumedState_effect (env : Env) (s : Renderer) : ResumeEffect s (resumedState env s) := by
  unfold resumedState signalRefreshAnchorRealTime
  cases h : (s.mHasAudio && !s.mDelayPending) <;> simp only [Bool.false_eq_true, if_false, if_true]
  · split
    · split <;> constructor <;> simp [h]
    · constructor <;> simp [h]
  · split
    · split <;> constructor <;> simp [emit, h]
    · constructor <;> simp [emit, h]

theorem onQueueBuffer_open (env : Env) (s : Renderer) (audio : Bool) (buffer : ABuffer)
    (cb : Nat) (hf : flushingFlag audio s = false) :
    onQueueBuffer env s audio buffer cb =
      enqueueBuffer env (beginStartUpLatency env (markPresent s audio)) audio
        (bufferEntry buffer cb) := by
  unfold onQueueBuffer
  rw [dropBufferWhileFlushing_eq, flushingFlag_markPresent, hf]
  rfl

theorem postDrainVideoQueue_sync {env : Env} {s r : Renderer}
    (h : postDrainVideoQueue env s = .ok r) : r.mSyncQueues = s.mSyncQueues := by
  unfold postDrainVideoQueue at h
  split at h
  · cases h; rfl
  · split at h
    · cases h; rfl
    · split at h
      · cases h; rfl
      · split at h
        · cases h
        · split at h
          · cases h; rfl
          · split at h
            · simp only at h
              split at h
              · cases h; rfl
              · split at h
                · cases h
                  split <;> rfl
                · cases h; rfl
            · cases h; rfl

theorem prologue_eq (env : Env) (t : Renderer) (audio : Bool) :
    beginStartUpLatency env (markPresent t audio) =
      { t with mHasAudio := t.mHasAudio || audio, mHasVideo := t.mHasVideo || !audio,
               mStartUpLatencyBeginUs :=
                 if t.mStartUpLatencyBeginUs < 0 then env.nowUs else t.mStartUpLatencyBeginUs } := by
  cases audio <;> unfold beginStartUpLatency markPresent <;>
    simp only [Bool.false_eq_true, if_false, if_true] <;> split <;> simp [*]

theorem enqueueBuffer_video_open (env : Env) (U : Renderer) (entry : QueueEntry)
    (hg : (U.mHasAudio && decide (U.mAnchorTimeMediaUs < 0)) = false) :
    enqueueBuffer env U false entry =
      (postDrainVideoQueue env { U with mVideoQueue := U.mVideoQueue ++ [entry] }).bind
        fun s4 => syncQueuesStep env s4 := by
  have hn : ¬ ((U.mHasAudio && decide (U.mAnchorTimeMediaUs < 0)) = true) := by rw [hg]; simp
  unfold enqueueBuffer
  simp only [Bool.false_eq_true, if_false]
  rw [if_neg hn]

theorem quiet_refl (s : Renderer) : Quiet s s := ⟨rfl, rfl, rfl⟩

theorem quiet_trans {s s1 s2 : Renderer} (h1 : Quiet s s1) (h2 : Quiet s1 s2) : Quiet s s2 :=
  ⟨h2.settings.trans h1.settings, h2.positions.trans h1.positions, h2.lastPos.trans h1.lastPos⟩

theorem stable_quiet {s s1 : Renderer} (h : Stable s s1) : Quiet s s1 :=
  ⟨h.settings, by simp [positionEvents, h.out], h.lastPos⟩

theorem quiet_noted {s s1 : Renderer} (b : Bool) (now : Int) (h : Quiet s s1) :
    Noted b now s s1 :=
  ⟨h.settings, Or.inl ⟨h.positions, h.lastPos⟩⟩

theorem noted_weaken {s s1 : Renderer} {now : Int} (b : Bool) (h : Noted true now s s1) :
    Noted b now s s1 :=
  ⟨h.settings, h.pos.imp id fun ⟨h1, h2, h3⟩ => ⟨h1, h2, fun _ => h3 rfl⟩⟩

theorem quiet_then_noted {s s1 s2 : Renderer} {b : Bool} {now : Int} (h1 : Quiet s s1)
    (h2 : Noted b now s1 s2) : Noted b now s s2 := by
  refine ⟨h2.settings.trans h1.settings, ?_⟩
  rcases h2.pos with ⟨hp, hl⟩ | ⟨⟨p, l, hp⟩, hl, hr⟩
  · exact Or.inl ⟨hp.trans h1.positions, hl.trans h1.lastPos⟩
  · refine Or.inr ⟨⟨p, l, by rw [hp, h1.positions]⟩, hl, fun hb => ?_⟩
    have := hr hb
    unfold rateOK at this ⊢
    rwa [h1.lastPos] at this

theorem noted_then_quiet {s s1 s2 : Renderer} {b : Bool} {now : Int} (h1 : Noted b now s s1)
    (h2 : Quiet s1 s2) : Noted b now s s2 := by
  refine ⟨h2.settings.trans h1.settings, ?_⟩
  rcases h1.pos with ⟨hp, hl⟩ | ⟨⟨p, l, hp⟩, hl, hr⟩
  · exact Or.inl ⟨h2.positions.trans hp, h2.lastPos.trans hl⟩
  · exact Or.inr ⟨⟨p, l, by rw [h2.positions, hp]⟩, h2.lastPos.trans hl, hr⟩

theorem quiet_emit (s : Renderer) (o : Out) (h : isPosition o = false) : Quiet s (emit s o) :=
  ⟨rfl, by simp [positionEvents, emit, List.filter_append, h], rfl⟩

theorem quiet_postConsumed {s s1 : Renderer} {audio : Bool} {e : QueueEntry} {r : Option Int}
    (h : postConsumed s audio e r = .ok s1) : Quiet s s1 := by
  unfold postConsumed at h
  split at h
  · cases h
  · cases h; exact quiet_emit _ _ rfl

theorem noted_notifyPosition (env : Env) (s : Renderer) (isEOS : Bool) :
    Noted (!isEOS) env.nowUs s (notifyPosition env s isEOS) := by
  unfold notifyPosition
  split
  · exact quiet_noted _ _ (quiet_refl s)
  · split
    · exact quiet_noted _ _ (quiet_refl s)
    · next hlim =>
      refine ⟨rfl, Or.inr ⟨⟨(if s.mSeekTimeUs ≠ 0 then s.mSeekTimeUs
          else (env.nowUs - s.mAnchorTimeRealUs) + s.mAnchorTimeMediaUs), s.mVideoLateByUs, ?_⟩,
        rfl, fun hb => ?_⟩⟩
      · simp [positionEvents, emit, List.filter_append, isPosition]
      · unfold rateOK
        by_contra hc
        apply hlim
        exact ⟨hb, by omega, by omega⟩

theorem quiet_measureStartUpLatency (env : Env) (s : Renderer) :
    Quiet s (measureStartUpLatency env s) := by
  unfold measureStartUpLatency
  split
  · exact ⟨rfl, rfl, rfl⟩
  · exact quiet_refl s

theorem audioWrite_quiet {env : Env} {n : Nat} {s : Renderer} {entry : QueueEntry}
    {buffer : ABuffer} {rest : List QueueEntry} {c : Ctl}
    (h : audioWrite env n s entry buffer rest = .ok c) : Quiet s c.state := by
  unfold audioWrite at h
  dsimp only at h
  split at h
  · cases h
  · obtain ⟨s3, h3, h4⟩ := Result.bind_eq_ok h
    cases h4
    have hw : Quiet s (emit s (.sinkWrite
        ((buffer.data.drop entry.mOffset).take (copySize env n entry buffer)))) :=
      quiet_emit _ _ rfl
    have h5 : Quiet s s3 := by
      split at h3
      · obtain ⟨s2, h2, h6⟩ := Result.bind_eq_ok h3
        cases h6
        have h7 := quiet_trans hw (quiet_postConsumed h2)
        exact ⟨h7.settings, h7.positions, h7.lastPos⟩
      · cases h3
        exact ⟨hw.settings, hw.positions, hw.lastPos⟩
    exact ⟨h5.settings, h5.positions, h5.lastPos⟩

theorem audioAnchor_quiet {env : Env} {n : Nat} {s : Renderer} {entry : QueueEntry}
    {buffer : ABuffer} {rest : List QueueEntry} {m : Int} {c : Ctl}
    (h : audioAnchor env n s entry buffer rest m = .ok c) : Quiet s c.state := by
  unfold audioAnchor at h
  dsimp only at h
  split at h
  · cases h
  · have h1 := audioWrite_quiet h
    exact ⟨h1.settings, h1.positions, h1.lastPos⟩

theorem audioBody_quiet {env : Env} {n : Nat} {s : Renderer} {c : Ctl}
    (h : audioBody env n s = .ok c) : Quiet s c.state := by
  unfold audioBody at h
  split at h
  · cases h
  · next entry rest hq =>
    split at h
    · cases h
      have h1 : Quiet s (notifyEOS s true entry.mFinalResult) := quiet_emit _ _ rfl
      exact ⟨h1.settings, h1.positions, h1.lastPos⟩
    · next buffer hb =>
      split at h
      · split at h
        · cases h
        · next mediaTimeUs ht =>
          split at h
          · split at h
            · cases h; exact quiet_refl _
            · split at h
              · obtain ⟨s1, h1, h2⟩ := Result.bind_eq_ok h
                cases h2
                have h3 := quiet_postConsumed h1
                exact ⟨h3.settings, h3.positions, h3.lastPos⟩
              · split at h
                · dsimp only at h
                  split at h
                  · cases h
                    show Quiet s (postDrainAudioQueue _ _)
                    refine quiet_trans ?_ (stable_quiet (postDrainAudioQueue_stable _ _))
                    exact ⟨rfl, rfl, rfl⟩
                  · have h1 := audioAnchor_quiet h
                    exact ⟨h1.settings, h1.positions, h1.lastPos⟩
                · exact audioAnchor_quiet h
          · exact audioAnchor_quiet h
      · exact audioWrite_quiet h

theorem audioLoop_noted {env : Env} (fuel : Nat) : ∀ {n : Nat} {s : Renderer}
    {r : Bool × Renderer}, audioLoop env fuel n s = .ok r → Noted true env.nowUs s r.2 := by
  induction fuel with
  | zero =>
    intro n s r h
    unfold audioLoop at h
    split at h
    · cases h
    · cases h
      exact noted_notifyPosition env s false
  | succ fuel ih =>
    intro n s r h
    unfold audioLoop at h
    split at h
    · split at h
      · cases h
      · next b s1 hbody => cases h; exact quiet_noted _ _ (audioBody_quiet hbody)
      · next n1 s1 hbody => exact quiet_then_noted (audioBody_quiet hbody) (ih h)
    · cases h
      exact noted_notifyPosition env s false

theorem drainAudioSink_noted {env : Env} {s : Renderer} {r : Bool × Renderer}
    (h : drainAudioSink env s = .ok r) : Noted true env.nowUs s r.2 := by
  unfold drainAudioSink at h
  split at h
  · cases h; exact quiet_noted _ _ (quiet_refl _)
  · exact audioLoop_noted _ h

theorem drainAudioFirst_noted {env : Env} {s : Renderer} {r : Bool × Renderer}
    (h : drainAudioFirst env s = .ok r) : Noted true env.nowUs s r.2 := by
  unfold drainAudioFirst at h
  split at h
  · exact drainAudioSink_noted h
  · next entry rest hq =>
    split at h
    · cases h
      have h1 : Quiet s (notifyEOS s true entry.mFinalResult) := quiet_emit _ _ rfl
      exact quiet_noted _ _ ⟨h1.settings, h1.positions, h1.lastPos⟩
    · exact drainAudioSink_noted h

theorem onDrainAudioQueue_noted {env : Env} {s : Renderer} {r : Bool × Renderer}
    (h : onDrainAudioQueue env s = .ok r) : Noted true env.nowUs s r.2 := by
  unfold onDrainAudioQueue at h
  split at h
  · cases h; exact quiet_noted _ _ (quiet_refl _)
  · exact quiet_then_noted (quiet_measureStartUpLatency env s) (drainAudioFirst_noted h)

theorem videoRenderDecision_quiet (env : Env) (s : Renderer) (m : Int) :
    Quiet s (videoRenderDecision env s m).2 := by
  unfold videoRenderDecision
  dsimp only
  split <;> split <;> exact ⟨rfl, rfl, rfl⟩

theorem drainVideoHead_noted {env : Env} {s s1 : Renderer}
    (h : drainVideoHead env s = .ok s1) : Noted (!videoHeadEOS s) env.nowUs s s1 := by
  unfold drainVideoHead at h
  split at h
  · cases h; exact quiet_noted _ _ (quiet_refl _)
  · next entry rest hq =>
    split at h
    · next hb =>
      cases h
      have h1 := noted_notifyPosition env s true
      have h0 : Quiet (notifyPosition env s true)
          (notifyEOS (notifyPosition env s true) false entry.mFinalResult) :=
        quiet_emit _ _ rfl
      have h2 : Quiet (notifyPosition env s true)
          { notifyEOS (notifyPosition env s true) false entry.mFinalResult with
            mVideoQueue := rest, mVideoLateByUs := 0 } :=
        ⟨h0.settings, h0.positions, h0.lastPos⟩
      have hflag : videoHeadEOS s = true := by simp [videoHeadEOS, hq, hb]
      rw [hflag]
      exact noted_then_quiet h1 h2
    · next buffer hb =>
      split at h
      · cases h
      · next mediaTimeUs ht =>
        have hv := videoRenderDecision_quiet env s mediaTimeUs
        generalize videoRenderDecision env s mediaTimeUs = d at h hv
        obtain ⟨tooLate, s5⟩ := d
        dsimp only at h hv
        obtain ⟨s6, h6, h7⟩ := Result.bind_eq_ok h
        cases h7
        have h80 := quiet_trans hv (quiet_postConsumed h6)
        have h8 : Quiet s { s6 with mVideoQueue := rest } :=
          ⟨h80.settings, h80.positions, h80.lastPos⟩
        have hflag : videoHeadEOS s = false := by simp [videoHeadEOS, hq, hb]
        rw [hflag]
        exact quiet_then_noted h8 (noted_notifyPosition env _ false)

theorem onDrainVideoQueue_noted {env : Env} {s s1 : Renderer}
    (h : onDrainVideoQueue env s = .ok s1) : Noted (!videoHeadEOS s) env.nowUs s s1 := by
  unfold onDrainVideoQueue at h
  split at h
  · cases h; exact quiet_noted _ _ (quiet_refl _)
  · have h1 := drainVideoHead_noted h
    have h2 : videoHeadEOS (measureStartUpLatency env s) = videoHeadEOS s := by
      unfold videoHeadEOS
      rw [vq_measureStartUpLatency]
    rw [h2] at h1
    exact quiet_then_noted (quiet_measureStartUpLatency env s) h1

theorem quiet_setQueue (audio : Bool) (s : Renderer) (q : List QueueEntry) :
    Quiet s (setQueue audio s q) := by
  unfold setQueue
  split <;> exact ⟨rfl, rfl, rfl⟩

theorem flushLoop_quiet (audio : Bool) : ∀ (q : List QueueEntry) {s s1 : Renderer},
    flushLoop audio q s = .ok s1 → Quiet s s1 := by
  intro q
  induction q with
  | nil => intro s s1 h; cases h; exact quiet_refl _
  | cons e rest ih =>
    intro s s1 h
    unfold flushLoop at h
    obtain ⟨s2, h2, h3⟩ := Result.bind_eq_ok h
    have h4 : Quiet s s2 := by
      split at h2
      · exact quiet_postConsumed h2
      · cases h2; exact quiet_refl _
    exact quiet_trans (quiet_trans h4 (quiet_setQueue audio s2 rest)) (ih h3)

theorem onFlush_quiet {env : Env} {s s1 : Renderer} {audio : Bool}
    (h : onFlush env s audio = .ok s1) : Quiet s s1 := by
  unfold onFlush at h
  obtain ⟨s2, h2, h3⟩ := Result.bind_eq_ok h
  have q2 := stable_quiet (syncQueuesDone_stable h2)
  split at h3
  · obtain ⟨s3, h4, h5⟩ := Result.bind_eq_ok h3
    cases h5
    have q3 := quiet_trans q2 (flushLoop_quiet true _ h4)
    have q4 : Quiet s { s3 with
        mFlushingAudio := false, mDrainAudioQueuePending := false,
        mAudioQueueGeneration := s3.mAudioQueueGeneration + 1 } :=
      ⟨q3.settings, q3.positions, q3.lastPos⟩
    exact quiet_trans q4 (quiet_emit _ _ rfl)
  · obtain ⟨s3, h4, h5⟩ := Result.bind_eq_ok h3
    cases h5
    have q3 := quiet_trans q2 (flushLoop_quiet false _ h4)
    have q4 : Quiet s { s3 with
        mFlushingVideo := false, mDrainVideoQueuePending := false,
        mVideoQueueGeneration := s3.mVideoQueueGeneration + 1 } :=
      ⟨q3.settings, q3.positions, q3.lastPos⟩
    exact quiet_trans q4 (quiet_emit _ _ rfl)

theorem setStartAnchor_quiet {s s1 : Renderer}
    (h : setStartAnchorMediaAndPostDrainQueue s = .ok s1) : Quiet s s1 :=
  stable_quiet (setStartAnchor_stable h)

theorem syncQueuesStep_quiet {env : Env} {s s1 : Renderer}
    (h : syncQueuesStep env s = .ok s1) : Quiet s s1 := by
  unfold syncQueuesStep at h
  split at h
  · cases h; exact quiet_refl _
  · split at h
    · split at h
      · split at h
        · dsimp only at h
          split at h
          · obtain ⟨s2, h2, h3⟩ := Result.bind_eq_ok h
            cases h3
            have q := quiet_postConsumed h2
            exact ⟨q.settings, q.positions, q.lastPos⟩
          · exact stable_quiet (syncQueuesDone_stable h)
        · cases h
      · exact stable_quiet (syncQueuesDone_stable h)
    · cases h; exact quiet_refl _

theorem enqueueBuffer_quiet {env : Env} {s s1 : Renderer} {audio : Bool} {entry : QueueEntry}
    (h : enqueueBuffer env s audio entry = .ok s1) : Quiet s s1 := by
  unfold enqueueBuffer at h
  split at h
  · dsimp only at h
    split at h
    · split at h
      · cases h; exact ⟨rfl, rfl, rfl⟩
      · have q := setStartAnchor_quiet h
        exact ⟨q.settings, q.positions, q.lastPos⟩
    · cases h
      have q := stable_quiet (postDrainAudioQueue_stable
        { s with mAudioQueue := s.mAudioQueue ++ [entry] } 0)
      exact ⟨q.settings, q.positions, q.lastPos⟩
  · dsimp only at h
    split at h
    · split at h
      · cases h; exact ⟨rfl, rfl, rfl⟩
      · split at h
        · cases h; exact ⟨rfl, rfl, rfl⟩
        · have q := setStartAnchor_quiet h
          exact ⟨q.settings, q.positions, q.lastPos⟩
    · obtain ⟨s4, h4, h5⟩ := Result.bind_eq_ok h
      have q := quiet_trans (stable_quiet (postDrainVideoQueue_stable h4))
        (syncQueuesStep_quiet h5)
      exact ⟨q.settings, q.positions, q.lastPos⟩

theorem onQueueEOS_quiet {env : Env} {s s1 : Renderer} {audio : Bool} {r : Int}
    (h : onQueueEOS env s audio r = .ok s1) : Quiet s s1 := by
  unfold onQueueEOS at h
  rw [dropBufferWhileFlushing_eq] at h
  cases hf : flushingFlag audio s
  case true =>
    rw [hf] at h
    simp only [if_true] at h
    cases h; exact quiet_refl _
  case false =>
    rw [hf] at h
    simp only [Bool.false_eq_true, if_false] at h
    split at h
    · cases h
      have q := stable_quiet (postDrainAudioQueue_stable
        { s with mAudioQueue := s.mAudioQueue ++ [eosEntry r] } 0)
      exact ⟨q.settings, q.positions, q.lastPos⟩
    · have q := stable_quiet (postDrainVideoQueue_stable h)
      exact ⟨q.settings, q.positions, q.lastPos⟩

theorem onAudioSinkChanged_quiet {env : Env} {s s1 : Renderer}
    (h : onAudioSinkChanged env s = .ok s1) : Quiet s s1 := by
  unfold onAudioSinkChanged at h
  split at h
  · cases h
  · cases h
    dsimp only
    split <;> exact ⟨rfl, rfl, rfl⟩

theorem quiet_silent {s s1 : Renderer} (h : Quiet s s1) : Silent s s1 :=
  ⟨h.positions, h.lastPos, congrArg Settings.hasAudio h.settings⟩

theorem silent_trans {s s1 s2 : Renderer} (h1 : Silent s s1) (h2 : Silent s1 s2) :
    Silent s s2 :=
  ⟨h2.positions.trans h1.positions, h2.lastPos.trans h1.lastPos,
    h2.hasAudio.trans h1.hasAudio⟩

/-- Handling a `kWhatQueueBuffer` message posts no position notification and
changes has-audio only by setting it for an audio buffer. -/
theorem onQueueBuffer_presence {env : Env} {s s1 : Renderer} {audio : Bool}
    {buffer : ABuffer} {cb : Nat} (h : onQueueBuffer env s audio buffer cb = .ok s1) :
    positionEvents s1 = positionEvents s ∧
    s1.mLastPositionUpdateUs = s.mLastPositionUpdateUs ∧
    s1.mHasAudio = (s.mHasAudio || audio) := by
  unfold onQueueBuffer at h
  rw [dropBufferWhileFlushing_eq, flushingFlag_markPresent] at h
  have hm : positionEvents (markPresent s audio) = positionEvents s ∧
      (markPresent s audio).mLastPositionUpdateUs = s.mLastPositionUpdateUs ∧
      (markPresent s audio).mHasAudio = (s.mHasAudio || audio) := by
    unfold markPresent
    cases audio <;> simp [positionEvents]
  cases hf : flushingFlag audio s
  case true =>
    rw [hf] at h
    simp only [if_true] at h
    cases h
    have q := quiet_silent (quiet_emit (markPresent s audio) (.consumed audio cb none) rfl)
    exact ⟨q.positions.trans hm.1, q.lastPos.trans hm.2.1, q.hasAudio.trans hm.2.2⟩
  case false =>
    rw [hf] at h
    simp only [Bool.false_eq_true, if_false] at h
    have q := quiet_silent (enqueueBuffer_quiet h)
    have hb : Silent (markPresent s audio) (beginStartUpLatency env (markPresent s audio)) := by
      unfold beginStartUpLatency
      split
      · exact ⟨rfl, rfl, rfl⟩
      · exact ⟨rfl, rfl, rfl⟩
    have q2 := silent_trans hb q
    exact ⟨q2.positions.trans hm.1, q2.lastPos.trans hm.2.1, q2.hasAudio.trans hm.2.2⟩

theorem silent_emit (s : Renderer) (o : Out) (h : isPosition o = false) :
    Silent s (emit s o) :=
  quiet_silent (quiet_emit s o h)

theorem onPause_silent {s s1 : Renderer} (h : onPause s = .ok s1) : Silent s s1 := by
  unfold onPause at h
  split at h
  · cases h
  · cases h
    have h1 : Silent s { s with
        mDrainAudioQueuePending := false,
        mAudioQueueGeneration := s.mAudioQueueGeneration + 1,
        mDrainVideoQueuePending := false,
        mVideoQueueGeneration := s.mVideoQueueGeneration + 1 } := ⟨rfl, rfl, rfl⟩
    dsimp only
    split
    · have h2 := silent_trans h1 (silent_emit _ .sinkPause rfl)
      exact ⟨h2.positions, h2.lastPos, h2.hasAudio⟩
    · exact ⟨h1.positions, h1.lastPos, h1.hasAudio⟩

theorem queueDelay_silent (env : Env) (s : Renderer) (d : Int) :
    Silent s (queueDelay env s d) := by
  unfold queueDelay
  split
  · exact ⟨rfl, rfl, rfl⟩
  · dsimp only
    split
    · have h2 := silent_emit s .sinkPause rfl
      exact ⟨h2.positions, h2.lastPos, h2.hasAudio⟩
    · exact ⟨rfl, rfl, rfl⟩

theorem onDelayQueued_silent {env : Env} {s s1 : Renderer}
    (h : onDelayQueued env s = .ok s1) : Silent s s1 := by
  unfold onDelayQueued at h
  dsimp only at h
  split at h
  · cases h
    have q := queueDelay_silent env { s with mDelayPending := false }
      (s.mDelayToQueueUs - (env.nowUs - s.mDelayToQueueTimeRealUs))
    exact ⟨q.positions, q.lastPos, q.hasAudio⟩
  · have q1 := quiet_silent (stable_quiet
      (stable_trans (postDrainAudioQueue_stable _ 0) (postDrainVideoQueue_stable h)))
    refine silent_trans ?_ q1
    split
    · have h2 := silent_emit { s with mDelayPending := false } .sinkStart rfl
      exact ⟨h2.positions, h2.lastPos, h2.hasAudio⟩
    · exact ⟨rfl, rfl, rfl⟩

theorem signalRefresh_silent (env : Env) (s : Renderer) (b : Bool) :
    Silent s (signalRefreshAnchorRealTime env s b) := by
  unfold signalRefreshAnchorRealTime
  split
  · dsimp only
    split <;> exact ⟨rfl, rfl, rfl⟩
  · exact ⟨rfl, rfl, rfl⟩

theorem resumedState_silent (env : Env) (s : Renderer) : Silent s (resumedState env s) := by
  unfold resumedState
  cases h : (s.mHasAudio && !s.mDelayPending) <;>
    simp only [Bool.false_eq_true, if_false, if_true]
  · have h2 : Silent s { s with mPaused := false } := ⟨rfl, rfl, rfl⟩
    split
    · exact silent_trans h2 (signalRefresh_silent env _ false)
    · exact h2
  · have h1 := silent_emit s .sinkStart rfl
    have h2 : Silent s { emit s .sinkStart with mPaused := false } :=
      ⟨h1.positions, h1.lastPos, h1.hasAudio⟩
    split
    · exact silent_trans h2 (signalRefresh_silent env _ false)
    · exact h2

theorem onResume_silent {env : Env} {s s1 : Renderer} (h : onResume env s = .ok s1) :
    Silent s s1 := by
  cases hp : s.mPaused with
  | false =>
    unfold onResume at h
    rw [hp] at h
    cases h
    exact ⟨rfl, rfl, rfl⟩
  | true =>
    rw [onResume_eq env s hp] at h
    have hT := resumedState_silent env s
    generalize resumedState env s = T at h hT
    have hA : Silent T (if !T.mAudioQueue.isEmpty then postDrainAudioQueue T 0 else T) := by
      split
      · exact quiet_silent (stable_quiet (postDrainAudioQueue_stable _ _))
      · exact ⟨rfl, rfl, rfl⟩
    generalize (if !T.mAudioQueue.isEmpty then postDrainAudioQueue T 0 else T) = A at h hA
    split at h
    · exact silent_trans hT (silent_trans hA
        (quiet_silent (stable_quiet (postDrainVideoQueue_stable h))))
    · cases h
      exact silent_trans hT hA

theorem noted_posStep {b : Bool} {now : Int} {s s1 : Renderer} (h : Noted b now s s1) :
    PosStep b now s s1 := h.pos

theorem noted_hasAudio {b : Bool} {now : Int} {s s1 : Renderer} (h : Noted b now s s1) :
    s1.mHasAudio = s.mHasAudio := congrArg Settings.hasAudio h.settings

theorem silent_posStep {s s1 : Renderer} (b : Bool) (now : Int) (h : Silent s s1) :
    PosStep b now s s1 := Or.inl ⟨h.positions, h.lastPos⟩

/-- Position notifications and has-audio across the handling of one message. -/
theorem onMessageReceived_track {env : Env} {s s1 : Renderer} {msg : Msg}
    (h : onMessageReceived env s msg = .ok s1) :
    PosStep (match msg with
             | .drainVideoQueue _ => !videoHeadEOS s
             | _ => true) env.nowUs s s1 ∧
    s1.mHasAudio = (match msg with
                    | .queueBuffer audio _ _ => s.mHasAudio || audio
                    | _ => s.mHasAudio) := by
  cases msg with
  | drainAudioQueue generation =>
    have key : Noted true env.nowUs s s1 := by
      simp only [onMessageReceived] at h
      split at h
      · cases h; exact quiet_noted _ _ ⟨rfl, rfl, rfl⟩
      · obtain ⟨⟨postAudio, s2⟩, h2, h3⟩ := Result.bind_eq_ok h
        have n2 : Noted true env.nowUs s s2 := by
          have := onDrainAudioQueue_noted h2
          exact ⟨this.settings, this.pos⟩
        obtain ⟨s3, h4, h5⟩ := Result.bind_eq_ok h3
        have q3 : Quiet s2 s3 := by
          split at h4
          · have q := stable_quiet (postDrainVideoQueue_stable h4)
            exact ⟨q.settings, q.positions, q.lastPos⟩
          · cases h4; exact quiet_refl _
        have n3 := noted_then_quiet n2 q3
        split at h5
        · split at h5
          · cases h5
          · cases h5
            exact noted_then_quiet n3 (stable_quiet (postDrainAudioQueue_stable _ _))
        · cases h5; exact n3
    exact ⟨noted_posStep key, noted_hasAudio key⟩
  | drainVideoQueue generation =>
    have key : Noted (!videoHeadEOS s) env.nowUs s s1 := by
      simp only [onMessageReceived] at h
      split at h
      · cases h; exact quiet_noted _ _ ⟨rfl, rfl, rfl⟩
      · obtain ⟨s2, h2, h3⟩ := Result.bind_eq_ok h
        have n2 : Noted (!videoHeadEOS s) env.nowUs s s2 := by
          have := onDrainVideoQueue_noted h2
          exact ⟨this.settings, this.pos⟩
        exact noted_then_quiet n2 (stable_quiet (postDrainVideoQueue_stable h3))
    exact ⟨noted_posStep key, noted_hasAudio key⟩
  | queueBuffer audio buffer cb =>
    obtain ⟨h1, h2, h3⟩ := onQueueBuffer_presence h
    exact ⟨Or.inl ⟨h1, h2⟩, h3⟩
  | queueEOS audio finalResult =>
    have q := quiet_silent (onQueueEOS_quiet h)
    exact ⟨silent_posStep _ _ q, q.hasAudio⟩
  | flush audio =>
    have q := quiet_silent (onFlush_quiet h)
    exact ⟨silent_posStep _ _ q, q.hasAudio⟩
  | audioSinkChanged =>
    have q := quiet_silent (onAudioSinkChanged_quiet h)
    exact ⟨silent_posStep _ _ q, q.hasAudio⟩
  | pause =>
    have q := onPause_silent h
    exact ⟨silent_posStep _ _ q, q.hasAudio⟩
  | resume =>
    have q := onResume_silent h
    exact ⟨silent_posStep _ _ q, q.hasAudio⟩
  | delayQueued =>
    have q := onDelayQueued_silent h
    exact ⟨silent_posStep _ _ q, q.hasAudio⟩

/-- Position notifications across one action. -/
theorem step_posStep {env : Env} {s s1 : Renderer} {a : Action}
    (h : step env s a = .ok s1) : PosStep (!unlimited s a) env.nowUs s s1 := by
  cases a with
  | queueBuffer audio buffer cb => cases h; exact Or.inl ⟨rfl, rfl⟩
  | queueEOS audio finalResult =>
    simp only [step, queueEOS] at h
    split at h
    · cases h
    · obtain ⟨s2, h2, h3⟩ := Result.bind_eq_ok h
      cases h3
      have q2 : Quiet s s2 := by
        split at h2
        · exact stable_quiet (syncQueuesDone_stable h2)
        · cases h2; exact quiet_refl _
      exact Or.inl ⟨q2.positions, q2.lastPos⟩
  | queueDelay d =>
    cases h
    exact silent_posStep _ _ (queueDelay_silent env s d)
  | flush audio =>
    simp only [step, flush] at h
    split at h
    · split at h
      · cases h
      · cases h; exact Or.inl ⟨rfl, rfl⟩
    · split at h
      · cases h
      · cases h; exact Or.inl ⟨rfl, rfl⟩
  | signalTimeDiscontinuity =>
    simp only [step, signalTimeDiscontinuity] at h
    split at h
    · cases h
    · split at h
      · cases h
      · cases h; exact Or.inl ⟨rfl, rfl⟩
  | pause => cases h; exact Or.inl ⟨rfl, rfl⟩
  | resume => cases h; exact Or.inl ⟨rfl, rfl⟩
  | signalRefreshAnchorRealTime b =>
    cases h
    exact silent_posStep _ _ (signalRefresh_silent env s b)
  | signalAudioSinkChanged => cases h; exact Or.inl ⟨rfl, rfl⟩
  | notifySeekPosition seekTime =>
    cases h
    refine Or.inr ⟨⟨seekTime, s.mVideoLateByUs, ?_⟩, rfl, fun hb => ?_⟩
    · simp [positionEvents, notifySeekPosition, emit, List.filter_append, isPosition]
    · simp [unlimited] at hb
  | setMediaPresence audio b =>
    cases h
    unfold setMediaPresence
    split <;> exact Or.inl ⟨rfl, rfl⟩
  | setLiveStream b => cases h; exact Or.inl ⟨rfl, rfl⟩
  | deliver i =>
    simp only [step] at h
    cases hm : s.mailbox[i]? with
    | none => rw [hm] at h; cases h
    | some m =>
      obtain ⟨msg, d⟩ := m
      rw [hm] at h
      simp only at h
      cases msg with
      | drainVideoQueue g =>
        have hu : unlimited s (.deliver i) = videoHeadEOS s := by simp [unlimited, hm]
        rw [hu]
        exact (onMessageReceived_track h).1
      | _ =>
        have hu : unlimited s (.deliver i) = false := by simp [unlimited, hm]
        rw [hu]
        exact (onMessageReceived_track h).1

/-- Has-audio across one action. -/
theorem step_hasAudio {env : Env} {s s1 : Renderer} {a : Action}
    (h : step env s a = .ok s1) (ha : setsAudioPresence s a = false)
    (hs : s.mHasAudio = false) : s1.mHasAudio = false := by
  cases a with
  | queueBuffer audio buffer cb => cases h; exact hs
  | queueEOS audio finalResult =>
    simp only [step, queueEOS] at h
    split at h
    · cases h
    · obtain ⟨s2, h2, h3⟩ := Result.bind_eq_ok h
      cases h3
      have q2 : Quiet s s2 := by
        split at h2
        · exact stable_quiet (syncQueuesDone_stable h2)
        · cases h2; exact quiet_refl _
      exact ((quiet_silent q2).hasAudio).trans hs
  | queueDelay d =>
    cases h
    exact ((queueDelay_silent env s d).hasAudio).trans hs
  | flush audio =>
    simp only [step, flush] at h
    split at h
    · split at h
      · cases h
      · cases h; exact hs
    · split at h
      · cases h
      · cases h; exact hs
  | signalTimeDiscontinuity =>
    simp only [step, signalTimeDiscontinuity] at h
    split at h
    · cases h
    · split at h
      · cases h
      · cases h; rfl
  | pause => cases h; exact hs
  | resume => cases h; exact hs
  | signalRefreshAnchorRealTime b =>
    cases h
    exact ((signalRefresh_silent env s b).hasAudio).trans hs
  | signalAudioSinkChanged => cases h; exact hs
  | notifySeekPosition seekTime => cases h; exact hs
  | setMediaPresence audio b =>
    cases h
    cases audio
    · exact hs
    · cases b
      · rfl
      · simp [setsAudioPresence] at ha
  | setLiveStream b => cases h; exact hs
  | deliver i =>
    simp only [step] at h
    cases hm : s.mailbox[i]? with
    | none => rw [hm] at h; cases h
    | some m =>
      obtain ⟨msg, d⟩ := m
      rw [hm] at h
      simp only at h
      have ht := (onMessageReceived_track h).2
      rw [ht]
      cases msg with
      | queueBuffer audio buffer cb =>
        simp only [setsAudioPresence, hm] at ha
        simp [ha, hs]
      | _ => exact hs

/-- Has-audio stays clear along a run none of whose actions can set it. -/
theorem run_hasAudio : ∀ (acts : List (Env × Action)) {s s1 : Renderer},
    run s acts = .ok s1 → noAudioPresence s acts = true → s.mHasAudio = false →
    s1.mHasAudio = false := by
  intro acts
  induction acts with
  | nil => intro s s1 h _ hs; cases h; exact hs
  | cons x rest ih =>
    intro s s1 h hn hs
    obtain ⟨env, a⟩ := x
    simp only [run] at h
    obtain ⟨s2, h2, h3⟩ := Result.bind_eq_ok h
    simp only [noAudioPresence, h2, Bool.and_eq_true, Bool.not_eq_true'] at hn
    exact ih h3 hn.2 (step_hasAudio h2 hn.1 hs)

/-! ## The render decision of the video drain -/

/-- The decision of `videoRenderDecision`: too late exactly when the lateness
exceeds the window, audio is present and the frame does not lead the anchor;
the anchor pair is reset to `(mediaTimeUs, now)` exactly when the lateness
exceeds the window and the frame is not dropped. -/
theorem videoRenderDecision_spec (env : Env) (s : Renderer) (t : Int) :
    ((videoRenderDecision env s t).1 = true ↔
      (env.nowUs - realTimeOf s t > s.mAVSyncDelayWindowUs ∧ s.mHasAudio = true ∧
        t ≤ s.mAnchorTimeMediaUs)) ∧
    ((videoRenderDecision env s t).1 = true ∨
        env.nowUs - realTimeOf s t ≤ s.mAVSyncDelayWindowUs →
      (videoRenderDecision env s t).2.mAnchorTimeMediaUs = s.mAnchorTimeMediaUs ∧
      (videoRenderDecision env s t).2.mAnchorTimeRealUs = s.mAnchorTimeRealUs) ∧
    ((videoRenderDecision env s t).1 = false →
        env.nowUs - realTimeOf s t > s.mAVSyncDelayWindowUs →
      (videoRenderDecision env s t).2.mAnchorTimeMediaUs = t ∧
      (videoRenderDecision env s t).2.mAnchorTimeRealUs = env.nowUs) ∧
    (videoRenderDecision env s t).2.out = s.out ∧
    (videoRenderDecision env s t).2.mVideoQueue = s.mVideoQueue ∧
    (videoRenderDecision env s t).2.mAudioQueue = s.mAudioQueue := by
  unfold videoRenderDecision realTimeOf
  by_cases h1 : env.nowUs - (t - s.mAnchorTimeMediaUs + s.mAnchorTimeRealUs)
      > s.mAVSyncDelayWindowUs
  · cases h2 : s.mHasAudio
    · simp [h1, h2]
      intro h; omega
    · by_cases h3 : t > s.mAnchorTimeMediaUs
      · simp [h1, h2, h3]
        intro h; omega
      · simp [h1, h2, h3]
        omega
  · simp [h1]

theorem measureStartUpLatency_fields (env : Env) (s : Renderer) :
    (measureStartUpLatency env s).mVideoQueue = s.mVideoQueue ∧
    (measureStartUpLatency env s).mAudioQueue = s.mAudioQueue ∧
    (measureStartUpLatency env s).out = s.out ∧
    (measureStartUpLatency env s).mAnchorTimeMediaUs = s.mAnchorTimeMediaUs ∧
    (measureStartUpLatency env s).mAnchorTimeRealUs = s.mAnchorTimeRealUs ∧
    (measureStartUpLatency env s).mHasAudio = s.mHasAudio ∧
    (measureStartUpLatency env s).mAVSyncDelayWindowUs = s.mAVSyncDelayWindowUs := by
  unfold measureStartUpLatency
  split <;> exact ⟨rfl, rfl, rfl, rfl, rfl, rfl, rfl⟩

theorem notifyPosition_fields (env : Env) (s : Renderer) (b : Bool) :
    (notifyPosition env s b).mVideoQueue = s.mVideoQueue ∧
    (notifyPosition env s b).mAudioQueue = s.mAudioQueue ∧
    (notifyPosition env s b).mAnchorTimeMediaUs = s.mAnchorTimeMediaUs ∧
    (notifyPosition env s b).mAnchorTimeRealUs = s.mAnchorTimeRealUs ∧
    renderDecisions (notifyPosition env s b) = renderDecisions s := by
  unfold notifyPosition
  split
  · exact ⟨rfl, rfl, rfl, rfl, rfl⟩
  · split
    · exact ⟨rfl, rfl, rfl, rfl, rfl⟩
    · refine ⟨rfl, rfl, rfl, rfl, ?_⟩
      simp [renderDecisions, emit, List.filterMap_append, renderOf]

/-- The video drain on a payload entry, as a function of the render decision. -/
theorem onDrainVideoQueue_payload (env : Env) (s : Renderer) (entry : QueueEntry)
    (rest : List QueueEntry) (buffer : ABuffer) (t : Int) (cb : Nat)
    (hd : s.mDelayPending = false) (hq : s.mVideoQueue = entry :: rest)
    (hb : entry.mBuffer = some buffer) (ht : buffer.timeUs = some t)
    (hc : entry.mNotifyConsumed = some cb) :
    onDrainVideoQueue env s = .ok (notifyPosition env
      { emit (videoRenderDecision env (measureStartUpLatency env s) t).2
          (.consumed false cb
            (some (if !(videoRenderDecision env (measureStartUpLatency env s) t).1
              then 1 else 0))) with mVideoQueue := rest } false) := by
  unfold onDrainVideoQueue
  rw [hd]
  simp only [Bool.false_eq_true, if_false]
  unfold drainVideoHead
  rw [(measureStartUpLatency_fields env s).1, hq]
  simp only [hb, ht, postConsumed, hc, Result.bind]

/-- The video drain on a payload entry: outcome in terms of the state before. -/
theorem onDrainVideoQueue_decision (env : Env) (s : Renderer) (entry : QueueEntry)
    (rest : List QueueEntry) (buffer : ABuffer) (t : Int) (cb : Nat)
    (hd : s.mDelayPending = false) (hq : s.mVideoQueue = entry :: rest)
    (hb : entry.mBuffer = some buffer) (ht : buffer.timeUs = some t)
    (hc : entry.mNotifyConsumed = some cb) :
    ∃ s1 tooLate, onDrainVideoQueue env s = .ok s1 ∧
      renderDecisions s1 = renderDecisions s ++ [(cb, some (if !tooLate then 1 else 0))] ∧
      (tooLate = true ↔
        (env.nowUs - realTimeOf s t > s.mAVSyncDelayWindowUs ∧ s.mHasAudio = true ∧
          t ≤ s.mAnchorTimeMediaUs)) ∧
      (tooLate = true ∨ env.nowUs - realTimeOf s t ≤ s.mAVSyncDelayWindowUs →
        s1.mAnchorTimeMediaUs = s.mAnchorTimeMediaUs ∧
        s1.mAnchorTimeRealUs = s.mAnchorTimeRealUs) ∧
      (tooLate = false → env.nowUs - realTimeOf s t > s.mAVSyncDelayWindowUs →
        s1.mAnchorTimeMediaUs = t ∧ s1.mAnchorTimeRealUs = env.nowUs) ∧
      s1.mVideoQueue = rest ∧ s1.mAudioQueue = s.mAudioQueue := by
  have heq := onDrainVideoQueue_payload env s entry rest buffer t cb hd hq hb ht hc
  obtain ⟨m1, m2, m3, m4, m5, m6, m7⟩ := measureStartUpLatency_fields env s
  have hr : realTimeOf (measureStartUpLatency env s) t = realTimeOf s t := by
    unfold realTimeOf; rw [m4, m5]
  obtain ⟨d1, d2, d3, d4, d5, d6⟩ := videoRenderDecision_spec env (measureStartUpLatency env s) t
  rw [hr, m7, m6, m4] at d1
  rw [hr, m7, m4, m5] at d2
  rw [hr, m7] at d3
  rw [m3] at d4
  rw [m2] at d6
  generalize videoRenderDecision env (measureStartUpLatency env s) t = d at heq d1 d2 d3 d4 d5 d6
  obtain ⟨tooLate, s5⟩ := d
  simp only at heq d1 d2 d3 d4 d5 d6
  obtain ⟨n1, n2, n3, n4, n5⟩ := notifyPosition_fields env
    { emit s5 (.consumed false cb (some (if !tooLate then 1 else 0))) with mVideoQueue := rest }
    false
  refine ⟨_, tooLate, heq, ?_, d1, ?_, ?_, n1, ?_⟩
  · rw [n5]
    simp [renderDecisions, emit, List.filterMap_append, renderOf, d4]
  · intro h
    rw [n3, n4]
    exact d2 h
  · intro h1 h2
    rw [n3, n4]
    exact d3 h1 h2
  · rw [n2]
    exact d6

/-- C12 as stated fails: after a time discontinuity an audio buffer is written
at wall time 1000, which anchors media time 10 there; the first video frame
queued after the discontinuity (time stamp 10, callback 2) is drained at wall
time 50000, late by 49000 against a window of 40000.  It is the first frame
after the discontinuity, and it is handed back with render = 0. -/
theorem C12_first_frame_after_discontinuity_dropped :
    run sampleStart sampleLateFirstFrame = .ok (runFrom sampleStart sampleLateFirstFrame) ∧
    renderDecisions (runFrom sampleStart (sampleLateFirstFrame.take 6)) = [] ∧
    renderDecisions (runFrom sampleStart sampleLateFirstFrame) = [(2, some 0)] ∧
    (runFrom sampleStart sampleLateFirstFrame).mVideoLateByUs = 49000 ∧
    (runFrom sampleStart sampleLateFirstFrame).mAVSyncDelayWindowUs = 40000 := by
  refine ⟨by rfl, by rfl, by rfl, by rfl, by rfl⟩

/-- C12, amended: for every video drain of a payload entry with no stall
pending, the render decision `r` written into the callback is 0 or 1; it is 0
(drop) exactly when `lateByUs = now - ((mediaTimeUs - anchorMediaTimeUs) +
anchorRealTimeUs)` strictly exceeds the sync window, audio is present and the
frame does not lead the anchor (`mediaTimeUs <= anchorMediaTimeUs`); a frame
with `lateByUs` within the window is rendered, and whenever the frame is
dropped or within the window the anchor pair is unchanged; in all cases the
callback of exactly that head entry is posted and that entry is dequeued. -/
theorem C12_drop_iff_late_behind_anchor_with_audio (env : Env) (s : Renderer)
    (entry : QueueEntry) (rest : List QueueEntry) (buffer : ABuffer) (t : Int) (cb : Nat)
    (hd : s.mDelayPending = false) (hq : s.mVideoQueue = entry :: rest)
    (hb : entry.mBuffer = some buffer) (ht : buffer.timeUs = some t)
    (hc : entry.mNotifyConsumed = some cb) :
    ∃ s1 r, onDrainVideoQueue env s = .ok s1 ∧
      renderDecisions s1 = renderDecisions s ++ [(cb, some r)] ∧
      (r = 0 ∨ r = 1) ∧
      (r = 0 ↔
        (env.nowUs - realTimeOf s t > s.mAVSyncDelayWindowUs ∧ s.mHasAudio = true ∧
          t ≤ s.mAnchorTimeMediaUs)) ∧
      (env.nowUs - realTimeOf s t ≤ s.mAVSyncDelayWindowUs → r = 1) ∧
      (r = 0 ∨ env.nowUs - realTimeOf s t ≤ s.mAVSyncDelayWindowUs →
        s1.mAnchorTimeMediaUs = s.mAnchorTimeMediaUs ∧
        s1.mAnchorTimeRealUs = s.mAnchorTimeRealUs) ∧
      s1.mVideoQueue = rest ∧ s1.mAudioQueue = s.mAudioQueue := by
  obtain ⟨s1, tooLate, h1, h2, h3, h4, _, h6, h7⟩ :=
    onDrainVideoQueue_decision env s entry rest buffer t cb hd hq hb ht hc
  cases tooLate with
  | true =>
    refine ⟨s1, 0, h1, h2, Or.inl rfl, ?_, ?_, ?_, h6, h7⟩
    · exact ⟨fun _ => h3.mp rfl, fun _ => rfl⟩
    · intro hle
      have := (h3.mp rfl).1
      omega
    · intro _
      exact h4 (Or.inl rfl)
  | false =>
    refine ⟨s1, 1, h1, h2, Or.inr rfl, ?_, ?_, ?_, h6, h7⟩
    · constructor
      · intro h; cases h
      · intro h
        have := h3.mpr h
        cases this
    · intro _; rfl
    · intro h
      rcases h with h | h
      · cases h
      · exact h4 (Or.inr h)

/-- C12, worked example: the frame of time stamp 20 against the anchor
`(10, 1000)` of a video-only renderer, drained at wall time 1000, is 10 early
and is rendered with the anchor unchanged. -/
theorem C12_drop_iff_late_behind_anchor_with_audio_witness :
    ∃ s1, onDrainVideoQueue sampleEnv sampleVideoDue = .ok s1 ∧
      renderDecisions s1 = renderDecisions sampleVideoDue ++ [(2, some 1)] ∧
      s1.mAnchorTimeMediaUs = 10 ∧ s1.mAnchorTimeRealUs = 1000 ∧ s1.mVideoQueue = [] := by
  obtain ⟨s1, r, h1, h2, _, _, h5, h6, h7, _⟩ :=
    C12_drop_iff_late_behind_anchor_with_audio sampleEnv sampleVideoDue
      (bufferEntry sampleVideo2 2) [] sampleVideo2 20 2 (by rfl) rfl rfl rfl rfl
  have hle : sampleEnv.nowUs - realTimeOf sampleVideoDue 20
      ≤ sampleVideoDue.mAVSyncDelayWindowUs := by decide
  have hr := h5 hle
  subst hr
  obtain ⟨a1, a2⟩ := h6 (Or.inr hle)
  exact ⟨s1, h1, h2, a1, a2, h7⟩

/-! ## A late frame after a time discontinuity -/

theorem signalTimeDiscontinuity_hasAudio {s s1 : Renderer}
    (h : signalTimeDiscontinuity s = .ok s1) : s1.mHasAudio = false := by
  unfold signalTimeDiscontinuity at h
  split at h
  · cases h
  · split at h
    · cases h
    · cases h; rfl


/-- C13 as stated fails: after a time discontinuity a video frame and an audio
buffer are queued, the video frame anchors media time 10 at wall time 1000, and
the frame, the first one drained after the discontinuity, is drained at wall
time 50000, late by 49000 against a window of 40000: it is handed back with
render = 0 and the anchor pair stays `(10, 1000)`. -/
theorem C13_late_first_frame_dropped_with_audio_queued :
    run sampleStart (sampleVideoThenAudioQueued ++ [(sampleEnvPlayed, .deliver 0)])
      = .ok (runFrom sampleStart
          (sampleVideoThenAudioQueued ++ [(sampleEnvPlayed, .deliver 0)])) ∧
    renderDecisions (runFrom sampleStart sampleVideoThenAudioQueued) = [] ∧
    sampleEnvPlayed.nowUs - realTimeOf (runFrom sampleStart sampleVideoThenAudioQueued) 10
      > (runFrom sampleStart sampleVideoThenAudioQueued).mAVSyncDelayWindowUs ∧
    renderDecisions (runFrom sampleStart
      (sampleVideoThenAudioQueued ++ [(sampleEnvPlayed, .deliver 0)])) = [(1, some 0)] ∧
    (runFrom sampleStart
      (sampleVideoThenAudioQueued ++ [(sampleEnvPlayed, .deliver 0)])).mAnchorTimeMediaUs = 10 ∧
    (runFrom sampleStart
      (sampleVideoThenAudioQueued ++ [(sampleEnvPlayed, .deliver 0)])).mAnchorTimeRealUs = 1000 := by
  refine ⟨by rfl, by rfl, by decide, by rfl, by rfl, by rfl⟩

/-- C13, amended: a payload frame at the head of the video queue is drained
(no stall pending) with `lateByUs` above the sync window.  If has-audio is
clear, which is the case in every state reached from a time discontinuity by
actions none of which handles an audio buffer or declares audio present, or if
the frame leads the anchor (`mediaTimeUs > anchorMediaTimeUs`), the frame is
rendered (render = 1) and the anchor pair becomes `(mediaTimeUs, now)`.  If
audio is present and the frame does not lead the anchor, the frame is dropped
(render = 0) and the anchor pair is unchanged. -/
theorem C13_late_frame_rendered_without_audio (env : Env) (s : Renderer)
    (entry : QueueEntry) (rest : List QueueEntry) (buffer : ABuffer) (t : Int) (cb : Nat)
    (hd : s.mDelayPending = false) (hq : s.mVideoQueue = entry :: rest)
    (hb : entry.mBuffer = some buffer) (ht : buffer.timeUs = some t)
    (hc : entry.mNotifyConsumed = some cb)
    (hlate : env.nowUs - realTimeOf s t > s.mAVSyncDelayWindowUs) :
    (((∃ s0 sd acts, signalTimeDiscontinuity s0 = .ok sd ∧ run sd acts = .ok s ∧
          noAudioPresence sd acts = true) ∨
        s.mHasAudio = false ∨ t > s.mAnchorTimeMediaUs) →
      ∃ s1, onDrainVideoQueue env s = .ok s1 ∧
        renderDecisions s1 = renderDecisions s ++ [(cb, some 1)] ∧
        s1.mAnchorTimeMediaUs = t ∧ s1.mAnchorTimeRealUs = env.nowUs) ∧
    ((s.mHasAudio = true ∧ t ≤ s.mAnchorTimeMediaUs) →
      ∃ s1, onDrainVideoQueue env s = .ok s1 ∧
        renderDecisions s1 = renderDecisions s ++ [(cb, some 0)] ∧
        s1.mAnchorTimeMediaUs = s.mAnchorTimeMediaUs ∧
        s1.mAnchorTimeRealUs = s.mAnchorTimeRealUs) := by
  obtain ⟨s1, tooLate, h1, h2, h3, h4, h5, _, _⟩ :=
    onDrainVideoQueue_decision env s entry rest buffer t cb hd hq hb ht hc
  constructor
  · intro hcase
    have hcond : s.mHasAudio = false ∨ t > s.mAnchorTimeMediaUs := by
      rcases hcase with ⟨s0, sd, acts, h0, hrun, hna⟩ | h | h
      · left
        refine run_hasAudio acts hrun hna ?_
        exact signalTimeDiscontinuity_hasAudio h0
      · exact Or.inl h
      · exact Or.inr h
    have hf : tooLate = false := by
      cases htl : tooLate with
      | false => rfl
      | true =>
        have := h3.mp htl
        rcases hcond with h | h
        · rw [h] at this; cases this.2.1
        · omega
    subst hf
    obtain ⟨a1, a2⟩ := h5 rfl hlate
    exact ⟨s1, h1, h2, a1, a2⟩
  · intro hcase
    have htl : tooLate = true := h3.mpr ⟨hlate, hcase.1, hcase.2⟩
    subst htl
    obtain ⟨a1, a2⟩ := h4 (Or.inl rfl)
    exact ⟨s1, h1, h2, a1, a2⟩

/-- C13, worked example: after a time discontinuity on a video-only renderer
the frame of time stamp 10 anchors media time 10 at wall time 1000; drained at
wall time 50000 it is late by 49000, is rendered, and the anchor pair becomes
`(10, 50000)`. -/
theorem C13_late_frame_rendered_without_audio_witness :
    ∃ s1, onDrainVideoQueue sampleEnvPlayed (runFrom sampleStart sampleVideoOnlyQueued)
        = .ok s1 ∧
      renderDecisions s1 = [(1, some 1)] ∧
      s1.mAnchorTimeMediaUs = 10 ∧ s1.mAnchorTimeRealUs = 50000 := by
  obtain ⟨s1, h1, h2, h3, h4⟩ :=
    (C13_late_frame_rendered_without_audio sampleEnvPlayed
      (runFrom sampleStart sampleVideoOnlyQueued)
      (bufferEntry sampleVideo1 1) [] sampleVideo1 10 1 (by rfl) (by rfl) rfl rfl rfl
      (by decide)).1
      (Or.inl ⟨sampleStart, sampleStart, sampleVideoOnlyQueued, by rfl, by rfl, by rfl⟩)
  exact ⟨s1, h1, h2, h3, h4⟩

/-! ## Position notifications -/

/-- C17 as stated fails: on a video-only renderer the frame of time stamp 10 is
rendered at wall time 1000, which posts a position notification and records
wall time 1000; the drain that finds the EOS marker at wall time 1001 posts a
second position notification, 1 microsecond after the first. -/
theorem C17_eos_position_notification_not_rate_limited :
    positionEvents sampleVideoBeforeEOS = [.position 10 0] ∧
    sampleVideoBeforeEOS.mLastPositionUpdateUs = 1000 ∧
    (∃ s1, step (sampleEnvAt 1001) sampleVideoBeforeEOS (.deliver 0) = .ok s1 ∧
      positionEvents s1 = [.position 10 0, .position 11 0] ∧
      s1.mLastPositionUpdateUs = 1001) ∧
    (1001 : Int) - 1000 < kMinPositionUpdateDelayUs :=
  ⟨by rfl, by rfl,
    ⟨runFrom sampleVideoBeforeEOS [(sampleEnvAt 1001, .deliver 0)], by rfl, by rfl, by rfl⟩,
    by decide⟩

/-- C17, amended: every action of the renderer posts at most one position
notification; `mLastPositionUpdateUs` changes exactly when one is posted, to
the wall time of that action, so it always holds the wall time of the latest
position notification; and unless the action is `notifySeekPosition` or the
handling of a video drain message that finds an EOS marker at the head of the
video queue, a notification is posted only if none was recorded before
(`mLastPositionUpdateUs < 0`) or at least 100000 microseconds of wall time have
passed since the recorded one. -/
theorem C17_position_rate_limit_except_eos_and_seek (env : Env) (s s1 : Renderer)
    (a : Action) (h : step env s a = .ok s1) :
    (positionEvents s1 = positionEvents s ∧
      s1.mLastPositionUpdateUs = s.mLastPositionUpdateUs) ∨
    ((∃ p l, positionEvents s1 = positionEvents s ++ [.position p l]) ∧
      s1.mLastPositionUpdateUs = env.nowUs ∧
      (unlimited s a = false →
        s.mLastPositionUpdateUs < 0 ∨
          env.nowUs ≥ s.mLastPositionUpdateUs + kMinPositionUpdateDelayUs)) := by
  rcases step_posStep h with h1 | ⟨h1, h2, h3⟩
  · exact Or.inl h1
  · refine Or.inr ⟨h1, h2, fun hu => ?_⟩
    exact h3 (by rw [hu]; rfl)

/-- C17, worked example: the video drain at wall time 120000 that follows the
one of `sampleVideoAnchored` at wall time 1000 posts the second position
notification, 119000 microseconds after the first. -/
theorem C17_position_rate_limit_except_eos_and_seek_witness :
    positionEvents sampleVideoAnchored = [.position 10 0] ∧
    sampleVideoAnchored.mLastPositionUpdateUs = 1000 ∧
    positionEvents (runFrom sampleVideoAnchored [(sampleEnvAt 120000, .deliver 0)])
      = [.position 10 0, .position 20 118990] ∧
    ((positionEvents (runFrom sampleVideoAnchored [(sampleEnvAt 120000, .deliver 0)])
        = positionEvents sampleVideoAnchored ∧
      (runFrom sampleVideoAnchored [(sampleEnvAt 120000, .deliver 0)]).mLastPositionUpdateUs
        = sampleVideoAnchored.mLastPositionUpdateUs) ∨
    ((∃ p l, positionEvents (runFrom sampleVideoAnchored [(sampleEnvAt 120000, .deliver 0)])
        = positionEvents sampleVideoAnchored ++ [.position p l]) ∧
      (runFrom sampleVideoAnchored [(sampleEnvAt 120000, .deliver 0)]).mLastPositionUpdateUs
        = (sampleEnvAt 120000).nowUs ∧
      (unlimited sampleVideoAnchored (.deliver 0) = false →
        sampleVideoAnchored.mLastPositionUpdateUs < 0 ∨
          (sampleEnvAt 120000).nowUs
            ≥ sampleVideoAnchored.mLastPositionUpdateUs + kMinPositionUpdateDelayUs))) :=
  ⟨by rfl, by rfl, by rfl,
    C17_position_rate_limit_except_eos_and_seek (sampleEnvAt 120000) sampleVideoAnchored
      (runFrom sampleVideoAnchored [(sampleEnvAt 120000, .deliver 0)]) (.deliver 0) (by rfl)⟩

/-! ## The start gate of `onQueueBuffer` -/

/-- What `setStartAnchorMediaAndPostDrainQueue` does when both head entries
carry a payload. -/
theorem setStartAnchor_spec (s : Renderer) (ventry aentry : QueueEntry)
    (vrest arest : List QueueEntry) (vbuf abuf : ABuffer)
    (hv : s.mVideoQueue = ventry :: vrest) (ha : s.mAudioQueue = aentry :: arest)
    (hvb : ventry.mBuffer = some vbuf) (hab : aentry.mBuffer = some abuf) :
    ∃ s1, setStartAnchorMediaAndPostDrainQueue s = .ok s1 ∧
      s1.mAnchorTimeMediaUs =
        (if 0 ≤ abuf.timeUs.getD (-1) ∧ 0 ≤ vbuf.timeUs.getD (-1) then
          min (abuf.timeUs.getD (-1)) (vbuf.timeUs.getD (-1))
        else if 0 ≤ abuf.timeUs.getD (-1) then abuf.timeUs.getD (-1)
        else if 0 ≤ vbuf.timeUs.getD (-1) then vbuf.timeUs.getD (-1)
        else s.mAnchorTimeMediaUs) ∧
      (s1.mailbox = s.mailbox ∨
        s1.mailbox = s.mailbox ++ [(.drainAudioQueue s.mAudioQueueGeneration, 0)]) := by
  unfold setStartAnchorMediaAndPostDrainQueue
  rw [hv, ha]
  simp only [hvb, hab]
  refine ⟨_, rfl, ?_, ?_⟩
  · rw [postDrainAudioQueue_anchor]
    by_cases h1 : 0 ≤ abuf.timeUs.getD (-1) <;> by_cases h2 : 0 ≤ vbuf.timeUs.getD (-1) <;>
      simp [h1, h2, min_def]
  · have key : ∀ X : Renderer, X.mailbox = s.mailbox →
        X.mAudioQueueGeneration = s.mAudioQueueGeneration →
        ((postDrainAudioQueue X 0).mailbox = s.mailbox ∨
          (postDrainAudioQueue X 0).mailbox
            = s.mailbox ++ [(.drainAudioQueue s.mAudioQueueGeneration, 0)]) := by
      intro X hm hg
      rcases postDrainAudioQueue_cases X 0 with h | ⟨_, _, h⟩
      · left; rw [h, hm]
      · right; rw [h]; simp [post, hm, hg]
    apply key
    · dsimp only
      split
      · rfl
      · split
        · rfl
        · split <;> rfl
    · dsimp only
      split
      · rfl
      · split
        · rfl
        · split <;> rfl

/-- The start gate on the state the prologue of `onQueueBuffer` leaves. -/
theorem enqueueBuffer_startGate (env : Env) (U : Renderer) (audio : Bool) (e : QueueEntry)
    (hA : U.mHasAudio = true) (hV : U.mHasVideo = true) (hanchor : U.mAnchorTimeMediaUs < 0) :
    (¬ (1 ≤ (U.view.push audio e).aq.length ∧ 2 ≤ (U.view.push audio e).vq.length) →
      ∃ s1, enqueueBuffer env U audio e = .ok s1 ∧
        s1.mailbox = U.mailbox ∧ s1.mAnchorTimeMediaUs = U.mAnchorTimeMediaUs ∧
        s1.mAudioQueue = (U.view.push audio e).aq ∧
        s1.mVideoQueue = (U.view.push audio e).vq ∧ s1.out = U.out) ∧
    ((1 ≤ (U.view.push audio e).aq.length ∧ 2 ≤ (U.view.push audio e).vq.length) →
      ∀ ae arest ve vrest ab vb, (U.view.push audio e).aq = ae :: arest →
        (U.view.push audio e).vq = ve :: vrest →
        ae.mBuffer = some ab → ve.mBuffer = some vb →
        ∃ s1, enqueueBuffer env U audio e = .ok s1 ∧
          s1.mAudioQueue = (U.view.push audio e).aq ∧
          s1.mVideoQueue = (U.view.push audio e).vq ∧ s1.out = U.out ∧
          s1.mAnchorTimeMediaUs =
            (if 0 ≤ ab.timeUs.getD (-1) ∧ 0 ≤ vb.timeUs.getD (-1) then
              min (ab.timeUs.getD (-1)) (vb.timeUs.getD (-1))
            else if 0 ≤ ab.timeUs.getD (-1) then ab.timeUs.getD (-1)
            else if 0 ≤ vb.timeUs.getD (-1) then vb.timeUs.getD (-1)
            else U.mAnchorTimeMediaUs) ∧
          (s1.mailbox = U.mailbox ∨
            s1.mailbox = U.mailbox ++ [(.drainAudioQueue U.mAudioQueueGeneration, 0)])) := by
  have hdec : decide (U.mAnchorTimeMediaUs < 0) = true := by simpa using hanchor
  cases audio with
  | true =>
    have hpa : (U.view.push true e).aq = U.mAudioQueue ++ [e] := rfl
    have hpv : (U.view.push true e).vq = U.mVideoQueue := rfl
    rw [hpa, hpv]
    have hunf : enqueueBuffer env U true e =
        (if U.mVideoQueue.length < 2 then .ok { U with mAudioQueue := U.mAudioQueue ++ [e] }
         else setStartAnchorMediaAndPostDrainQueue
           { U with mAudioQueue := U.mAudioQueue ++ [e] }) := by
      unfold enqueueBuffer
      simp only [if_true, hV, hdec, Bool.and_self]
    rw [hunf]
    constructor
    · intro hn
      have hlt : U.mVideoQueue.length < 2 := by
        simp only [List.length_append, List.length_singleton] at hn
        omega
      rw [if_pos hlt]
      exact ⟨_, rfl, rfl, rfl, rfl, rfl, rfl⟩
    · intro hc ae arest ve vrest ab vb hae hve hab hvb
      have hge : ¬ U.mVideoQueue.length < 2 := by omega
      rw [if_neg hge]
      obtain ⟨s1, h1, h2, h3⟩ := setStartAnchor_spec
        { U with mAudioQueue := U.mAudioQueue ++ [e] } ve ae vrest arest vb ab hve hae hvb hab
      have hst := setStartAnchor_stable h1
      exact ⟨s1, h1, hst.aq, hst.vq, hst.out, h2, h3⟩
  | false =>
    have hpa : (U.view.push false e).aq = U.mAudioQueue := rfl
    have hpv : (U.view.push false e).vq = U.mVideoQueue ++ [e] := rfl
    rw [hpa, hpv]
    have hunf : enqueueBuffer env U false e =
        (if U.mAudioQueue.length = 0 then .ok { U with mVideoQueue := U.mVideoQueue ++ [e] }
         else if (U.mVideoQueue ++ [e]).length < 2 then
           .ok { U with mVideoQueue := U.mVideoQueue ++ [e] }
         else setStartAnchorMediaAndPostDrainQueue
           { U with mVideoQueue := U.mVideoQueue ++ [e] }) := by
      unfold enqueueBuffer
      simp only [Bool.false_eq_true, if_false, hA, hdec, Bool.and_self, if_true]
    rw [hunf]
    constructor
    · intro hn
      by_cases h0 : U.mAudioQueue.length = 0
      · rw [if_pos h0]
        exact ⟨_, rfl, rfl, rfl, rfl, rfl, rfl⟩
      · rw [if_neg h0]
        have hlt : (U.mVideoQueue ++ [e]).length < 2 := by omega
        rw [if_pos hlt]
        exact ⟨_, rfl, rfl, rfl, rfl, rfl, rfl⟩
    · intro hc ae arest ve vrest ab vb hae hve hab hvb
      have h0 : ¬ U.mAudioQueue.length = 0 := by omega
      have hge : ¬ (U.mVideoQueue ++ [e]).length < 2 := by omega
      rw [if_neg h0, if_neg hge]
      obtain ⟨s1, h1, h2, h3⟩ := setStartAnchor_spec
        { U with mVideoQueue := U.mVideoQueue ++ [e] } ve ae vrest arest vb ab hve hae hvb hab
      have hst := setStartAnchor_stable h1
      exact ⟨s1, h1, hst.aq, hst.vq, hst.out, h2, h3⟩

/-- C11 as stated fails: both streams are present, no anchor is set, and two
video frames with time stamps -3 and -2 wait; when the audio buffer with time
stamp -5 is handled, the audio queue holds one entry and the video queue two,
an audio drain message is posted, and the anchor media time is still unset. -/
theorem C11_anchor_not_established_counterexample :
    sampleAwaitingAudioNeg.mHasAudio = true ∧ sampleAwaitingAudioNeg.mHasVideo = true ∧
    sampleAwaitingAudioNeg.mAnchorTimeMediaUs = -1 ∧
    ∃ s1, onQueueBuffer sampleEnv sampleAwaitingAudioNeg true sampleAudioEarly 3 = .ok s1 ∧
      s1.mAudioQueue.length = 1 ∧ s1.mVideoQueue.length = 2 ∧
      s1.mailbox = [(.drainAudioQueue 0, 0)] ∧ s1.mAnchorTimeMediaUs = -1 :=
  ⟨by rfl, by rfl, by rfl,
    runFrom sampleAwaitingAudioNeg
      [(sampleEnv, .queueBuffer true sampleAudioEarly 3), (sampleEnv, .deliver 0)],
    by rfl, by rfl, by rfl, by rfl, by rfl⟩

/-- C11, amended: with has-audio and has-video both set and no anchor media
time (`< 0`), handling a `kWhatQueueBuffer` message of a stream that is not
flushing appends the entry and, unless the audio queue then holds at least one
entry and the video queue at least two, posts no message and leaves the anchor
unset.  When that holds and the head entries of both queues carry payloads, the
anchor media time becomes the earlier of the two head time stamps if both are
non-negative, the non-negative one if only one is, and stays unset if neither
is (a missing time stamp counting as negative); at most one message is posted,
an audio drain message.  In both cases the queues hold exactly what they held
plus the new entry and no callback is posted: ingestion drops nothing.  While
the stream is flushing the buffer is handed back at once, nothing is posted
and the anchor stays unset. -/
theorem C11_start_gate_until_one_audio_two_video (env : Env) (s : Renderer) (audio : Bool)
    (buffer : ABuffer) (cb : Nat) (hA : s.mHasAudio = true) (hV : s.mHasVideo = true)
    (hanchor : s.mAnchorTimeMediaUs < 0) :
    (flushingFlag audio s = true →
      ∃ s1, onQueueBuffer env s audio buffer cb = .ok s1 ∧
        s1.mailbox = s.mailbox ∧ s1.mAnchorTimeMediaUs = s.mAnchorTimeMediaUs ∧
        s1.mAudioQueue = s.mAudioQueue ∧ s1.mVideoQueue = s.mVideoQueue) ∧
    (flushingFlag audio s = false →
      ¬ (1 ≤ (s.view.push audio (bufferEntry buffer cb)).aq.length ∧
          2 ≤ (s.view.push audio (bufferEntry buffer cb)).vq.length) →
      ∃ s1, onQueueBuffer env s audio buffer cb = .ok s1 ∧
        s1.mailbox = s.mailbox ∧ s1.mAnchorTimeMediaUs = s.mAnchorTimeMediaUs ∧
        s1.mAudioQueue = (s.view.push audio (bufferEntry buffer cb)).aq ∧
        s1.mVideoQueue = (s.view.push audio (bufferEntry buffer cb)).vq ∧ s1.out = s.out) ∧
    (flushingFlag audio s = false →
      (1 ≤ (s.view.push audio (bufferEntry buffer cb)).aq.length ∧
        2 ≤ (s.view.push audio (bufferEntry buffer cb)).vq.length) →
      ∀ ae arest ve vrest ab vb,
        (s.view.push audio (bufferEntry buffer cb)).aq = ae :: arest →
        (s.view.push audio (bufferEntry buffer cb)).vq = ve :: vrest →
        ae.mBuffer = some ab → ve.mBuffer = some vb →
        ∃ s1, onQueueBuffer env s audio buffer cb = .ok s1 ∧
          s1.mAudioQueue = (s.view.push audio (bufferEntry buffer cb)).aq ∧
          s1.mVideoQueue = (s.view.push audio (bufferEntry buffer cb)).vq ∧ s1.out = s.out ∧
          s1.mAnchorTimeMediaUs =
            (if 0 ≤ ab.timeUs.getD (-1) ∧ 0 ≤ vb.timeUs.getD (-1) then
              min (ab.timeUs.getD (-1)) (vb.timeUs.getD (-1))
            else if 0 ≤ ab.timeUs.getD (-1) then ab.timeUs.getD (-1)
            else if 0 ≤ vb.timeUs.getD (-1) then vb.timeUs.getD (-1)
            else s.mAnchorTimeMediaUs) ∧
          (s1.mailbox = s.mailbox ∨
            s1.mailbox = s.mailbox ++ [(.drainAudioQueue s.mAudioQueueGeneration, 0)])) := by
  have hUview : (beginStartUpLatency env (markPresent s audio)).view = s.view := by
    rw [view_beginStartUpLatency, view_markPresent]
  have hU := prologue_eq env s audio
  have hUA : (beginStartUpLatency env (markPresent s audio)).mHasAudio = true := by
    rw [hU]; simp [hA]
  have hUV : (beginStartUpLatency env (markPresent s audio)).mHasVideo = true := by
    rw [hU]; simp [hV]
  have hUan : (beginStartUpLatency env (markPresent s audio)).mAnchorTimeMediaUs
      = s.mAnchorTimeMediaUs := by rw [hU]
  have hUm : (beginStartUpLatency env (markPresent s audio)).mailbox = s.mailbox := by rw [hU]
  have hUo : (beginStartUpLatency env (markPresent s audio)).out = s.out := by rw [hU]
  have hUg : (beginStartUpLatency env (markPresent s audio)).mAudioQueueGeneration
      = s.mAudioQueueGeneration := by rw [hU]
  obtain ⟨g1, g2⟩ := enqueueBuffer_startGate env (beginStartUpLatency env (markPresent s audio))
    audio (bufferEntry buffer cb) hUA hUV (by rw [hUan]; exact hanchor)
  rw [hUview, hUan, hUm, hUo] at g1
  rw [hUview, hUan, hUm, hUo, hUg] at g2
  refine ⟨?_, ?_, ?_⟩
  · intro hf
    unfold onQueueBuffer
    rw [dropBufferWhileFlushing_eq, flushingFlag_markPresent, hf]
    simp only [if_true]
    refine ⟨_, rfl, ?_, ?_, ?_, ?_⟩ <;> (unfold markPresent; cases audio <;> rfl)
  · intro hf hn
    rw [onQueueBuffer_open env s audio buffer cb hf]
    exact g1 hn
  · intro hf hc
    rw [onQueueBuffer_open env s audio buffer cb hf]
    exact g2 hc

/-- C11, worked example: with the first audio buffer and the first video
frame queued, both with time stamp 1000000, the anchor is unset and nothing is
posted; handling the second video frame sets the anchor media time to 1000000
and keeps all three entries. -/
theorem C11_start_gate_until_one_audio_two_video_witness :
    sampleOneEach.mAnchorTimeMediaUs = -1 ∧ sampleOneEach.mailbox = [] ∧
    ∃ s1, onQueueBuffer sampleEnv sampleOneEach false sampleVideoStart2 3 = .ok s1 ∧
      s1.mAnchorTimeMediaUs = 1000000 ∧
      s1.mAudioQueue = [bufferEntry sampleAudioStart 1] ∧
      s1.mVideoQueue = [bufferEntry sampleVideoStart1 2, bufferEntry sampleVideoStart2 3] := by
  refine ⟨by rfl, by rfl, ?_⟩
  obtain ⟨s1, h1, h2, h3, _, h5, _⟩ :=
    (C11_start_gate_until_one_audio_two_video sampleEnv sampleOneEach false sampleVideoStart2 3
      (by rfl) (by rfl) (by decide)).2.2 (by rfl) (by decide)
      (bufferEntry sampleAudioStart 1) [] (bufferEntry sampleVideoStart1 2)
      [bufferEntry sampleVideoStart2 3] sampleAudioStart sampleVideoStart1
      (by rfl) (by rfl) rfl rfl
  exact ⟨s1, h1, h5, h2, h3⟩

/-! ## Live streams: audio older than the video received -/

theorem videoRenderDecision_received (env : Env) (s : Renderer) (t : Int) :
    (videoRenderDecision env s t).2.mLastReceivedVideoSampleUs = t ∧
    ((videoRenderDecision env s t).1 = true →
      (videoRenderDecision env s t).2.mLastRenderedTimeMediaUs = s.mLastRenderedTimeMediaUs) ∧
    ((videoRenderDecision env s t).1 = false →
      (videoRenderDecision env s t).2.mLastRenderedTimeMediaUs = t) := by
  unfold videoRenderDecision
  dsimp only
  split <;> split <;> simp_all

theorem notifyPosition_received (env : Env) (s : Renderer) (b : Bool) :
    (notifyPosition env s b).mLastReceivedVideoSampleUs = s.mLastReceivedVideoSampleUs ∧
    (notifyPosition env s b).mLastRenderedTimeMediaUs = s.mLastRenderedTimeMediaUs := by
  unfold notifyPosition
  split
  · exact ⟨rfl, rfl⟩
  · split <;> exact ⟨rfl, rfl⟩

/-- The video drain records the time stamp of every payload frame it takes
from the queue as the last received one, whether the frame is rendered or
dropped; the last rendered time stamp moves only when the frame is rendered. -/
theorem onDrainVideoQueue_received (env : Env) (s : Renderer) (entry : QueueEntry)
    (rest : List QueueEntry) (buffer : ABuffer) (t : Int) (cb : Nat)
    (hd : s.mDelayPending = false) (hq : s.mVideoQueue = entry :: rest)
    (hb : entry.mBuffer = some buffer) (ht : buffer.timeUs = some t)
    (hc : entry.mNotifyConsumed = some cb) :
    ∃ s1 r, onDrainVideoQueue env s = .ok s1 ∧
      renderDecisions s1 = renderDecisions s ++ [(cb, some r)] ∧
      s1.mLastReceivedVideoSampleUs = t ∧
      (r = 0 → s1.mLastRenderedTimeMediaUs = s.mLastRenderedTimeMediaUs) ∧
      (r = 1 → s1.mLastRenderedTimeMediaUs = t) := by
  have heq := onDrainVideoQueue_payload env s entry rest buffer t cb hd hq hb ht hc
  have hm : (measureStartUpLatency env s).mLastRenderedTimeMediaUs
      = s.mLastRenderedTimeMediaUs := by
    unfold measureStartUpLatency; split <;> rfl
  obtain ⟨m1, m2, m3, _⟩ := measureStartUpLatency_fields env s
  obtain ⟨d1, d2, d3⟩ := videoRenderDecision_received env (measureStartUpLatency env s) t
  obtain ⟨_, _, _, d4, _, _⟩ := videoRenderDecision_spec env (measureStartUpLatency env s) t
  rw [hm] at d2
  rw [m3] at d4
  generalize videoRenderDecision env (measureStartUpLatency env s) t = d at heq d1 d2 d3 d4
  obtain ⟨tooLate, s5⟩ := d
  simp only at heq d1 d2 d3 d4
  obtain ⟨n1, n2⟩ := notifyPosition_received env
    { emit s5 (.consumed false cb (some (if !tooLate then 1 else 0))) with mVideoQueue := rest }
    false
  obtain ⟨_, _, _, _, n5⟩ := notifyPosition_fields env
    { emit s5 (.consumed false cb (some (if !tooLate then 1 else 0))) with mVideoQueue := rest }
    false
  refine ⟨_, (if !tooLate then 1 else 0), heq, ?_, ?_, ?_, ?_⟩
  · rw [n5]
    simp [renderDecisions, emit, List.filterMap_append, renderOf, d4]
  · rw [n1]; exact d1
  · intro hr
    rw [n2]
    cases tooLate with
    | true => exact d2 rfl
    | false => simp at hr
  · intro hr
    rw [n2]
    cases tooLate with
    | true => simp at hr
    | false => exact d3 rfl

theorem postConsumed_out {s s1 : Renderer} {audio : Bool} {e : QueueEntry} {r : Option Int}
    (h : postConsumed s audio e r = .ok s1) :
    ∃ cb, e.mNotifyConsumed = some cb ∧ s1 = emit s (.consumed audio cb r) := by
  unfold postConsumed at h
  split at h
  · cases h
  · next cb hcb => cases h; exact ⟨cb, hcb, rfl⟩

/-- Whatever `audioWrite` does, it first writes to the sink. -/
theorem audioWrite_out {env : Env} {n : Nat} {s : Renderer} {entry : QueueEntry}
    {buffer : ABuffer} {rest : List QueueEntry} {c : Ctl}
    (h : audioWrite env n s entry buffer rest = .ok c) :
    ∃ tail, c.state.out = s.out ++
      Out.sinkWrite ((buffer.data.drop entry.mOffset).take (copySize env n entry buffer))
        :: tail := by
  unfold audioWrite at h
  dsimp only at h
  split at h
  · cases h
  · obtain ⟨s3, h3, h4⟩ := Result.bind_eq_ok h
    cases h4
    split at h3
    · obtain ⟨s2, h2, h5⟩ := Result.bind_eq_ok h3
      cases h5
      obtain ⟨cb, _, h6⟩ := postConsumed_out h2
      subst h6
      exact ⟨[.consumed true cb none], by simp [Ctl.state, emit]⟩
    · cases h3
      exact ⟨[], by simp [Ctl.state, emit]⟩

theorem audioAnchor_out {env : Env} {n : Nat} {s : Renderer} {entry : QueueEntry}
    {buffer : ABuffer} {rest : List QueueEntry} {m : Int} {c : Ctl}
    (h : audioAnchor env n s entry buffer rest m = .ok c) :
    ∃ tail, c.state.out = s.out ++
      Out.sinkWrite ((buffer.data.drop entry.mOffset).take (copySize env n entry buffer))
        :: tail := by
  unfold audioAnchor at h
  dsimp only at h
  split at h
  · cases h
  · obtain ⟨tail, h1⟩ := audioWrite_out h
    exact ⟨tail, h1⟩

/-! ## Bytes written by the audio drain -/

theorem bytesOf_append (a b : List Out) : bytesOf (a ++ b) = bytesOf a ++ bytesOf b := by
  induction a with
  | nil => rfl
  | cons o rest ih => simp [bytesOf, ih, List.append_assoc]

/-- With the size of the buffer within `size_t` and the offset within the
buffer, `copy` is what is left of the buffer, cut down to the room in the sink. -/
theorem copySize_min (env : Env) (n : Nat) (entry : QueueEntry) (buffer : ABuffer)
    (hlen : buffer.data.length < 2 ^ env.sizeBits) (ho : entry.mOffset ≤ buffer.data.length) :
    copySize env n entry buffer = min (buffer.data.length - entry.mOffset) n := by
  unfold copySize ABuffer.size
  dsimp only
  generalize 2 ^ env.sizeBits = w at hlen
  have h1 : buffer.data.length % w = buffer.data.length := Nat.mod_eq_of_lt hlen
  have h2 : entry.mOffset % w = entry.mOffset := Nat.mod_eq_of_lt (by omega)
  rw [h1, h2]
  have h3 : buffer.data.length + w - entry.mOffset = (buffer.data.length - entry.mOffset) + w := by
    omega
  rw [h3, Nat.add_mod_right, Nat.mod_eq_of_lt (by omega)]
  split <;> omega

theorem take_remaining (data rest : List Nat) (off c : Nat) (hc : c ≤ data.length - off) :
    (data.drop off ++ rest).take c = (data.drop off).take c :=
  List.take_append_of_le_length (by simp; omega)

theorem drop_remaining (data rest : List Nat) (off c : Nat) (hc : c ≤ data.length - off) :
    (data.drop off ++ rest).drop c = data.drop (off + c) ++ rest := by
  rw [List.drop_append_of_le_length (by simp; omega), List.drop_drop]

/-- One write of the head entry: the bytes written are the next bytes of the
queue, as many as fit, and the queue keeps the rest. -/
theorem audioWrite_bytes (env : Env) (n : Nat) (s : Renderer) (entry : QueueEntry)
    (buffer : ABuffer) (rest : List QueueEntry) (cb : Nat)
    (hw : env.writeOK = true) (hb : entry.mBuffer = some buffer)
    (hc : entry.mNotifyConsumed = some cb) (ht : ∃ t, buffer.timeUs = some t)
    (hlen : buffer.data.length < 2 ^ env.sizeBits) (ho : entry.mOffset < buffer.data.length)
    (hrest : ∀ e ∈ rest, audioEntryOK env.sizeBits e) :
    ∃ s1, audioWrite env n s entry buffer rest =
        .ok (.next (n - min (buffer.data.length - entry.mOffset) n) s1) ∧
      bytesOf s1.out = bytesOf s.out ++
        (queueRemaining (entry :: rest)).take (min (buffer.data.length - entry.mOffset) n) ∧
      queueRemaining s1.mAudioQueue =
        (queueRemaining (entry :: rest)).drop (min (buffer.data.length - entry.mOffset) n) ∧
      (∀ e ∈ s1.mAudioQueue, audioEntryOK env.sizeBits e) ∧
      (s1.mAudioQueue.length < (entry :: rest).length ∨
        n - min (buffer.data.length - entry.mOffset) n = 0) := by
  have hcopy := copySize_min env n entry buffer hlen (by omega)
  have hcle : min (buffer.data.length - entry.mOffset) n ≤ buffer.data.length - entry.mOffset :=
    Nat.min_le_left _ _
  generalize hcdef : min (buffer.data.length - entry.mOffset) n = c at hcopy hcle
  have hsize : buffer.size env = buffer.data.length := by
    unfold ABuffer.size; exact Nat.mod_eq_of_lt hlen
  have hmod : (entry.mOffset + c) % 2 ^ env.sizeBits = entry.mOffset + c :=
    Nat.mod_eq_of_lt (by omega)
  have hQR : queueRemaining (entry :: rest)
      = buffer.data.drop entry.mOffset ++ queueRemaining rest := by
    simp [queueRemaining, entryRemaining, hb]
  unfold audioWrite
  simp only [hw, Bool.not_true, Bool.false_eq_true, if_false, hcopy, hmod, hsize]
  by_cases hcomp : entry.mOffset + c = buffer.data.length
  · rw [if_pos hcomp]
    simp only [postConsumed, hc, Result.bind]
    refine ⟨_, rfl, ?_, ?_, ?_, ?_⟩
    · simp [emit, bytesOf_append, bytesOf, writtenOf, hQR, take_remaining _ _ _ _ hcle]
    · show queueRemaining rest = _
      rw [hQR, drop_remaining _ _ _ _ hcle, hcomp]
      simp
    · exact hrest
    · left
      show rest.length < (entry :: rest).length
      simp
  · rw [if_neg hcomp]
    simp only [Result.bind]
    have hcn : c = n := by omega
    refine ⟨_, rfl, ?_, ?_, ?_, ?_⟩
    · simp [emit, bytesOf_append, bytesOf, writtenOf, hQR, take_remaining _ _ _ _ hcle]
    · show queueRemaining ({ entry with mOffset := entry.mOffset + c } :: rest) = _
      rw [hQR, drop_remaining _ _ _ _ hcle]
      simp [queueRemaining, entryRemaining, hb]
    · intro e he
      simp only [List.mem_cons] at he
      rcases he with he | he
      · subst he
        obtain ⟨t, ht⟩ := ht
        exact ⟨buffer, cb, t, hb, hc, ht, hlen, by simp; omega⟩
      · exact hrest e he
    · right
      omega

theorem nonLive_of_settings {s s1 : Renderer} (h : s1.settings = s.settings)
    (hn : nonLive s) : nonLive s1 := by
  have h1 : s1.mIsLiveStream = s.mIsLiveStream := congrArg Settings.live h
  have h2 : s1.mHasVideo = s.mHasVideo := congrArg Settings.hasVideo h
  unfold nonLive at hn ⊢
  rw [h1, h2]
  exact hn

/-- One pass of the loop body away from the live-stream guards. -/
theorem audioBody_bytes (env : Env) (n : Nat) (s : Renderer) (entry : QueueEntry)
    (rest : List QueueEntry) (hpos : env.positionOK = true) (hw : env.writeOK = true)
    (hnl : nonLive s) (hq : s.mAudioQueue = entry :: rest)
    (hall : ∀ e ∈ s.mAudioQueue, audioEntryOK env.sizeBits e) :
    ∃ c s1, audioBody env n s = .ok (.next (n - c) s1) ∧ c ≤ n ∧
      bytesOf s1.out = bytesOf s.out ++ (queueRemaining s.mAudioQueue).take c ∧
      queueRemaining s1.mAudioQueue = (queueRemaining s.mAudioQueue).drop c ∧
      (∀ e ∈ s1.mAudioQueue, audioEntryOK env.sizeBits e) ∧
      (s1.mAudioQueue.length < s.mAudioQueue.length ∨ n - c = 0) ∧ nonLive s1 := by
  obtain ⟨b, cb, t, hb, hc, ht, hlen, ho⟩ := hall entry (by rw [hq]; simp)
  have hrest : ∀ e ∈ rest, audioEntryOK env.sizeBits e := by
    intro e he
    exact hall e (by rw [hq]; simp [he])
  have hnl1 : (s.mIsLiveStream && s.mHasVideo) = false := hnl
  have key : ∀ s3 : Renderer, s3.out = s.out → s3.settings = s.settings →
      audioBody env n s = audioWrite env n s3 entry b rest →
      ∃ c s1, audioBody env n s = .ok (.next (n - c) s1) ∧ c ≤ n ∧
        bytesOf s1.out = bytesOf s.out ++ (queueRemaining s.mAudioQueue).take c ∧
        queueRemaining s1.mAudioQueue = (queueRemaining s.mAudioQueue).drop c ∧
        (∀ e ∈ s1.mAudioQueue, audioEntryOK env.sizeBits e) ∧
        (s1.mAudioQueue.length < s.mAudioQueue.length ∨ n - c = 0) ∧ nonLive s1 := by
    intro s3 hout hset heq
    obtain ⟨s1, h1, h2, h3, h4, h5⟩ :=
      audioWrite_bytes env n s3 entry b rest cb hw hb hc ⟨t, ht⟩ hlen ho hrest
    refine ⟨_, s1, heq.trans h1, Nat.min_le_right _ _, ?_, ?_, h4, ?_, ?_⟩
    · rw [h2, hout, hq]
    · rw [h3, hq]
    · rw [hq]; exact h5
    · have hqt := audioWrite_quiet h1
      exact nonLive_of_settings (hqt.settings.trans hset) hnl
  have heq : ∃ s3 : Renderer, s3.out = s.out ∧ s3.settings = s.settings ∧
      audioBody env n s = audioWrite env n s3 entry b rest := by
    by_cases ho0 : entry.mOffset = 0
    · unfold audioBody
      rw [hq]
      simp only [hb, ho0, ht, hnl1, if_true, Bool.false_eq_true, if_false]
      unfold audioAnchor
      simp only [hpos, Bool.not_true, Bool.false_eq_true, if_false]
      refine ⟨_, ?_, ?_, rfl⟩ <;> rfl
    · unfold audioBody
      rw [hq]
      simp only [hb, ho0, if_false]
      exact ⟨s, rfl, rfl, rfl⟩
  obtain ⟨s3, e1, e2, e3⟩ := heq
  exact key s3 e1 e2 e3

theorem notifyPosition_bytes (env : Env) (s : Renderer) (b : Bool) :
    bytesOf (notifyPosition env s b).out = bytesOf s.out ∧
    (notifyPosition env s b).mAudioQueue = s.mAudioQueue := by
  unfold notifyPosition
  split
  · exact ⟨rfl, rfl⟩
  · split
    · exact ⟨rfl, rfl⟩
    · exact ⟨by simp [emit, bytesOf_append, bytesOf, writtenOf], rfl⟩

/-- The loop of the audio drain away from the live-stream guards: it returns,
having written the next `n` bytes of the queue (all of them if there are
fewer), and the queue keeps the rest. -/
theorem audioLoop_bytes (env : Env) (hpos : env.positionOK = true)
    (hw : env.writeOK = true) : ∀ (fuel n : Nat) (s : Renderer),
    (s.mAudioQueue.length ≤ fuel ∨ n = 0) → nonLive s →
    (∀ e ∈ s.mAudioQueue, audioEntryOK env.sizeBits e) →
    ∃ r, audioLoop env fuel n s = .ok r ∧
      bytesOf r.2.out = bytesOf s.out ++ (queueRemaining s.mAudioQueue).take n ∧
      queueRemaining r.2.mAudioQueue = (queueRemaining s.mAudioQueue).drop n ∧
      (∀ e ∈ r.2.mAudioQueue, audioEntryOK env.sizeBits e) ∧
      r.1 = !r.2.mAudioQueue.isEmpty ∧ r.2.settings = s.settings := by
  have hexit : ∀ (n : Nat) (s : Renderer), ¬ (n > 0 ∧ (!s.mAudioQueue.isEmpty) = true) →
      (∀ e ∈ s.mAudioQueue, audioEntryOK env.sizeBits e) →
      bytesOf (afterAudioLoop env s).2.out
        = bytesOf s.out ++ (queueRemaining s.mAudioQueue).take n ∧
      queueRemaining (afterAudioLoop env s).2.mAudioQueue
        = (queueRemaining s.mAudioQueue).drop n ∧
      (∀ e ∈ (afterAudioLoop env s).2.mAudioQueue, audioEntryOK env.sizeBits e) ∧
      (afterAudioLoop env s).1 = !(afterAudioLoop env s).2.mAudioQueue.isEmpty ∧
      (afterAudioLoop env s).2.settings = s.settings := by
    intro n s hc hall
    obtain ⟨hb1, hb2⟩ := notifyPosition_bytes env s false
    have hz : (queueRemaining s.mAudioQueue).take n = [] ∧
        (queueRemaining s.mAudioQueue).drop n = queueRemaining s.mAudioQueue := by
      by_cases hn : n = 0
      · subst hn; simp
      · have hq : s.mAudioQueue = [] := by
          cases hs : s.mAudioQueue with
          | nil => rfl
          | cons e rest =>
            exfalso
            apply hc
            exact ⟨by omega, by simp [hs]⟩
        rw [hq]
        simp [queueRemaining]
    unfold afterAudioLoop
    dsimp only
    rw [hb1, hb2, hz.1, hz.2]
    refine ⟨by simp, rfl, hall, rfl, ?_⟩
    exact (noted_notifyPosition env s false).settings
  intro fuel
  induction fuel with
  | zero =>
    intro n s hf hnl hall
    have hc : ¬ (n > 0 ∧ (!s.mAudioQueue.isEmpty) = true) := by
      intro ⟨h1, h2⟩
      rcases hf with hf | hf
      · have : s.mAudioQueue = [] := List.length_eq_zero.mp (by omega)
        rw [this] at h2
        simp at h2
      · omega
    unfold audioLoop
    rw [if_neg hc]
    exact ⟨_, rfl, hexit n s hc hall⟩
  | succ fuel ih =>
    intro n s hf hnl hall
    unfold audioLoop
    by_cases hc : n > 0 ∧ (!s.mAudioQueue.isEmpty) = true
    · rw [if_pos hc]
      cases hq : s.mAudioQueue with
      | nil => rw [hq] at hc; simp at hc
      | cons entry rest =>
        obtain ⟨c, s1, h1, hcn, h2, h3, h4, h5, h6⟩ :=
          audioBody_bytes env n s entry rest hpos hw hnl hq hall
        rw [h1]
        simp only
        have hf1 : s1.mAudioQueue.length ≤ fuel ∨ n - c = 0 := by
          rcases h5 with h5 | h5
          · rcases hf with hf | hf
            · left; omega
            · omega
          · exact Or.inr h5
        obtain ⟨r, hr, r1, r2, r3, r4, r5⟩ := ih (n - c) s1 hf1 h6 h4
        refine ⟨r, hr, ?_, ?_, r3, r4, ?_⟩
        · rw [r1, h2, h3, List.append_assoc, ← hq]
          congr 1
          have : n = c + (n - c) := by omega
          conv_rhs => rw [this]
          rw [List.take_add]
        · rw [r2, h3, List.drop_drop, ← hq]
          congr 1
          omega
        · rw [r5]
          exact (audioBody_quiet h1).settings
    · rw [if_neg hc]
      exact ⟨_, rfl, hexit n s hc hall⟩

/-- One call of the audio drain away from the live-stream guards, no stall
pending: it returns, having written the next bytes of the queue, as many as
the sink has room for, and the queue keeps the rest. -/
theorem onDrainAudioQueue_bytes (env : Env) (s : Renderer) (hpos : env.positionOK = true)
    (hw : env.writeOK = true) (hd : s.mDelayPending = false) (hnl : nonLive s)
    (hall : ∀ e ∈ s.mAudioQueue, audioEntryOK env.sizeBits e) :
    ∃ r, onDrainAudioQueue env s = .ok r ∧
      bytesOf r.2.out = bytesOf s.out ++
        (queueRemaining s.mAudioQueue).take (numBytesAvailableToWrite env s) ∧
      queueRemaining r.2.mAudioQueue =
        (queueRemaining s.mAudioQueue).drop (numBytesAvailableToWrite env s) ∧
      (∀ e ∈ r.2.mAudioQueue, audioEntryOK env.sizeBits e) ∧
      r.1 = !r.2.mAudioQueue.isEmpty ∧ r.2.settings = s.settings := by
  have key : ∀ M : Renderer, M.mAudioQueue = s.mAudioQueue → M.out = s.out →
      M.settings = s.settings → M.mNumFramesWritten = s.mNumFramesWritten →
      ∃ r, drainAudioFirst env M = .ok r ∧
        bytesOf r.2.out = bytesOf s.out ++
          (queueRemaining s.mAudioQueue).take (numBytesAvailableToWrite env s) ∧
        queueRemaining r.2.mAudioQueue =
          (queueRemaining s.mAudioQueue).drop (numBytesAvailableToWrite env s) ∧
        (∀ e ∈ r.2.mAudioQueue, audioEntryOK env.sizeBits e) ∧
        r.1 = !r.2.mAudioQueue.isEmpty ∧ r.2.settings = s.settings := by
    intro M hq hout hset hnum
    have hn : numBytesAvailableToWrite env M = numBytesAvailableToWrite env s := by
      unfold numBytesAvailableToWrite numFramesPendingPlayout
      rw [hnum]
    have hallM : ∀ e ∈ M.mAudioQueue, audioEntryOK env.sizeBits e := by rw [hq]; exact hall
    have hsink : drainAudioFirst env M =
        audioLoop env M.mAudioQueue.length (numBytesAvailableToWrite env M) M := by
      unfold drainAudioFirst
      cases hMq : M.mAudioQueue with
      | nil =>
        simp only
        unfold drainAudioSink
        simp [hpos, hMq]
      | cons entry rest =>
        simp only
        obtain ⟨b, _, _, hb, _⟩ := hallM entry (by rw [hMq]; simp)
        have hne : ¬ ((entry :: rest).length = 1 ∧ entry.mBuffer = none) := by
          rw [hb]; simp
        rw [if_neg hne]
        unfold drainAudioSink
        simp [hpos, hMq]
    obtain ⟨r, hr, r1, r2, r3, r4, r5⟩ := audioLoop_bytes env hpos hw M.mAudioQueue.length
      (numBytesAvailableToWrite env M) M (Or.inl (Nat.le_refl _))
      (nonLive_of_settings hset hnl) hallM
    rw [hn] at r1 r2
    rw [hout, hq] at r1
    rw [hq] at r2
    exact ⟨r, hsink.trans (by rw [hn] at hr; rw [hn]; exact hr), r1, r2, r3, r4, r5.trans hset⟩
  unfold onDrainAudioQueue
  rw [hd]
  simp only [Bool.false_eq_true, if_false]
  apply key
  · exact (measureStartUpLatency_fields env s).2.1
  · exact (measureStartUpLatency_fields env s).2.2.1
  · exact (quiet_measureStartUpLatency env s).settings
  · unfold measureStartUpLatency; split <;> rfl

theorem drainAudioRepeatedly_pops : ∀ (envs : List Env) {s s1 : Renderer},
    drainAudioRepeatedly s envs = .ok s1 → Pops s.view s1.view := by
  intro envs
  induction envs with
  | nil => intro s s1 h; cases h; exact Pops.refl _
  | cons env rest ih =>
    intro s s1 h
    simp only [drainAudioRepeatedly] at h
    obtain ⟨r, h1, h2⟩ := Result.bind_eq_ok h
    exact pops_trans (onDrainAudioQueue_pops h1) (ih h2)

/-- Repeated calls of the audio drain away from the live-stream guards, no
stall pending: what has been written is a prefix of the bytes that were
queued, and the queue keeps the rest. -/
theorem drainAudioRepeatedly_bytes (w : Nat) : ∀ (envs : List Env) (s : Renderer),
    (∀ env ∈ envs, env.positionOK = true ∧ env.writeOK = true ∧ env.sizeBits = w) →
    s.mDelayPending = false → nonLive s → (∀ e ∈ s.mAudioQueue, audioEntryOK w e) →
    ∃ s1, drainAudioRepeatedly s envs = .ok s1 ∧
      (∃ m, bytesOf s1.out = bytesOf s.out ++ (queueRemaining s.mAudioQueue).take m ∧
        queueRemaining s1.mAudioQueue = (queueRemaining s.mAudioQueue).drop m) ∧
      (∀ e ∈ s1.mAudioQueue, audioEntryOK w e) := by
  intro envs
  induction envs with
  | nil =>
    intro s _ _ _ hall
    exact ⟨s, rfl, ⟨0, by simp, by simp⟩, hall⟩
  | cons env rest ih =>
    intro s henv hd hnl hall
    obtain ⟨hpos, hw, hbits⟩ := henv env (by simp)
    subst hbits
    obtain ⟨r, hr, r1, r2, r3, _, r5⟩ := onDrainAudioQueue_bytes env s hpos hw hd hnl hall
    have hd1 : r.2.mDelayPending = false := by
      have := congrArg Settings.delayPending r5
      simp only [Renderer.settings] at this
      rw [this, hd]
    obtain ⟨s1, h1, ⟨m, m1, m2⟩, h3⟩ := ih r.2
      (fun e he => henv e (by simp [he])) hd1 (nonLive_of_settings r5 hnl) r3
    refine ⟨s1, ?_, ⟨numBytesAvailableToWrite env s + m, ?_, ?_⟩, h3⟩
    · simp only [drainAudioRepeatedly, hr, Result.bind]
      exact h1
    · rw [m1, r1, r2, List.append_assoc, List.take_add]
    · rw [m2, r2, List.drop_drop]

/-- C16: non-live playback, no stall pending, a sink whose position query and
writes succeed, and an audio queue of payload entries (time stamp, callback,
size within `size_t`, bytes left to write).  With `R` the bytes of the queue
not yet written, in queue order (`queueRemaining`, the head entry counted from
its offset), and `n` the free bytes of the sink (`numBytesAvailableToWrite`):
one call of the audio drain returns, the bytes it writes are exactly the first
`min n |R|` bytes of `R`, and the queue afterwards holds exactly the other
bytes of `R`; the entries it removes are a front part of the queue, their
callbacks are the ones posted, in queue order, and every entry still queued
has bytes left to write, so a callback is posted in the call that writes the
last byte of its entry and not before.  Hence for repeated calls what has been
written in total is always a prefix of `R`, no byte skipped or repeated, and
once the queue is empty it is all of `R`. -/
theorem C16_audio_drain_writes_queue_bytes_in_order (w : Nat) (s : Renderer)
    (hd : s.mDelayPending = false) (hnl : nonLive s)
    (hall : ∀ e ∈ s.mAudioQueue, audioEntryOK w e) :
    (∀ env : Env, env.positionOK = true → env.writeOK = true → env.sizeBits = w →
      ∃ b s1, onDrainAudioQueue env s = .ok (b, s1) ∧
        bytesOf s1.out = bytesOf s.out ++
          (queueRemaining s.mAudioQueue).take (numBytesAvailableToWrite env s) ∧
        (bytesOf s1.out).length = (bytesOf s.out).length +
          min (numBytesAvailableToWrite env s) (queueRemaining s.mAudioQueue).length ∧
        queueRemaining s1.mAudioQueue =
          (queueRemaining s.mAudioQueue).drop (numBytesAvailableToWrite env s) ∧
        (∀ e ∈ s1.mAudioQueue, audioEntryOK w e) ∧
        (∃ k, s1.mAudioQueue.map entryKey = (s.mAudioQueue.map entryKey).drop k ∧
          postedCallbacks true s1 = postedCallbacks true s ++
            ((s.mAudioQueue.map entryKey).take k).filterMap keyCallback) ∧
        b = !s1.mAudioQueue.isEmpty) ∧
    (∀ envs : List Env,
      (∀ env ∈ envs, env.positionOK = true ∧ env.writeOK = true ∧ env.sizeBits = w) →
      ∃ s1, drainAudioRepeatedly s envs = .ok s1 ∧
        (∃ m, bytesOf s1.out = bytesOf s.out ++ (queueRemaining s.mAudioQueue).take m ∧
          queueRemaining s1.mAudioQueue = (queueRemaining s.mAudioQueue).drop m) ∧
        (s1.mAudioQueue = [] →
          bytesOf s1.out = bytesOf s.out ++ queueRemaining s.mAudioQueue) ∧
        (∀ e ∈ s1.mAudioQueue, audioEntryOK w e) ∧
        postedCallbacks true s1 ++ pendingCallbacks true s1 =
          postedCallbacks true s ++ pendingCallbacks true s) := by
  constructor
  · intro env hpos hw hbits
    subst hbits
    obtain ⟨r, hr, r1, r2, r3, r4, _⟩ := onDrainAudioQueue_bytes env s hpos hw hd hnl hall
    obtain ⟨k, hk, hp⟩ := pops_adv (onDrainAudioQueue_pops hr) true
    refine ⟨r.1, r.2, hr, r1, ?_, r2, r3, ⟨k, hk, hp⟩, r4⟩
    rw [r1, List.length_append, List.length_take]
  · intro envs henv
    obtain ⟨s1, h1, ⟨m, m1, m2⟩, h3⟩ := drainAudioRepeatedly_bytes w envs s henv hd hnl hall
    refine ⟨s1, h1, ⟨m, m1, m2⟩, ?_, h3, ?_⟩
    · intro hq
      rw [hq] at m2
      have hdrop : (queueRemaining s.mAudioQueue).drop m = [] := by
        rw [← m2]; rfl
      have := List.take_append_drop m (queueRemaining s.mAudioQueue)
      rw [hdrop, List.append_nil] at this
      rw [m1, this]
    · have := pops_ledger (drainAudioRepeatedly_pops envs h1) true
      simpa [view_posted, view_queue, pendingCallbacks] using this

/-- C16, worked example: six and four bytes are queued and the sink has room
for eight.  The first call writes bytes 1 to 8 and posts callback 1; the second,
once the sink has played them, writes bytes 9 and 10 and posts callback 2: ten
bytes in all, in order. -/
theorem C16_audio_drain_writes_queue_bytes_in_order_witness :
    queueRemaining sampleTwoQueued.mAudioQueue = [1, 2, 3, 4, 5, 6, 7, 8, 9, 10] ∧
    numBytesAvailableToWrite sampleEnv sampleTwoQueued = 8 ∧
    (∃ b s1, onDrainAudioQueue sampleEnv sampleTwoQueued = .ok (b, s1) ∧
      bytesOf s1.out = [1, 2, 3, 4, 5, 6, 7, 8] ∧ postedCallbacks true s1 = [1]) ∧
    (∃ s1, drainAudioRepeatedly sampleTwoQueued [sampleEnv, sampleEnvPlayed] = .ok s1 ∧
      bytesOf s1.out = [1, 2, 3, 4, 5, 6, 7, 8, 9, 10] ∧ postedCallbacks true s1 = [1, 2]) := by
  have hall : ∀ e ∈ sampleTwoQueued.mAudioQueue, audioEntryOK 32 e := by
    intro e he
    have hq : sampleTwoQueued.mAudioQueue
        = [bufferEntry sampleBuffer1 1, bufferEntry sampleBuffer2 2] := by rfl
    rw [hq] at he
    simp only [List.mem_cons, List.mem_singleton, List.not_mem_nil, or_false] at he
    rcases he with he | he
    · subst he
      exact ⟨sampleBuffer1, 1, 10, rfl, rfl, rfl, by decide, by decide⟩
    · subst he
      exact ⟨sampleBuffer2, 2, 20, rfl, rfl, rfl, by decide, by decide⟩
  have hthm := C16_audio_drain_writes_queue_bytes_in_order 32 sampleTwoQueued
    (by rfl) (by rfl) hall
  refine ⟨by rfl, by rfl, ?_, ?_⟩
  · obtain ⟨b, s1, h1, h2, _, _, _, _, _⟩ := hthm.1 sampleEnv (by rfl) (by rfl) (by rfl)
    have hrun : onDrainAudioQueue sampleEnv sampleTwoQueued
        = .ok (true, (match onDrainAudioQueue sampleEnv sampleTwoQueued with
            | .ok r => r.2
            | .fail _ => sampleTwoQueued)) := by rfl
    rw [hrun] at h1
    cases h1
    exact ⟨_, _, hrun, by rfl, by rfl⟩
  · obtain ⟨s1, h1, _, h3, _, _⟩ := hthm.2 [sampleEnv, sampleEnvPlayed]
      (by
        intro env he
        simp only [List.mem_cons, List.mem_singleton, List.not_mem_nil, or_false] at he
        rcases he with he | he <;> subst he <;> exact ⟨by rfl, by rfl, by rfl⟩)
    have hrun : drainAudioRepeatedly sampleTwoQueued [sampleEnv, sampleEnvPlayed]
        = .ok (match drainAudioRepeatedly sampleTwoQueued [sampleEnv, sampleEnvPlayed] with
            | .ok r => r
            | .fail _ => sampleTwoQueued) := by rfl
    rw [hrun] at h1
    cases h1
    exact ⟨_, hrun, by rfl, by rfl⟩

/-! ## The decoder's `dpb-size` (C30) -/

theorem dpbDifference_of_nonneg (w c : Nat) (m : Int) (h0 : 0 ≤ (c : Int) - m - 5)
    (h1 : (c : Int) - m - 5 < 2 ^ w) :
    (dpbDifference w c m : Int) = (c : Int) - m - 5 := by
  unfold dpbDifference
  rw [Int.toNat_of_nonneg (Int.emod_nonneg _ (by positivity))]
  exact Int.emod_eq_of_lt h0 h1

theorem dpbDifference_of_neg (w c : Nat) (m : Int) (h0 : (c : Int) - m - 5 < 0)
    (h1 : -(2 ^ w) ≤ (c : Int) - m - 5) :
    (dpbDifference w c m : Int) = (c : Int) - m - 5 + 2 ^ w := by
  unfold dpbDifference
  rw [Int.toNat_of_nonneg (Int.emod_nonneg _ (by positivity))]
  rw [← Int.add_emod_self]
  exact Int.emod_eq_of_lt (by omega) (by omega)

/-- Where the difference is not negative the reported value is the difference. -/
theorem dpbSize_of_nonneg (w c : Nat) (m : Int) (hw : 32 ≤ w) (h0 : 0 ≤ (c : Int) - m - 5)
    (h1 : (c : Int) - m - 5 < 2 ^ 31) :
    dpbSize w c (some (some m)) = (c : Int) - m - 5 := by
  have hpow : (2 : Int) ^ 31 < 2 ^ w :=
    lt_of_lt_of_le (by norm_num) (pow_le_pow_right₀ (by norm_num) hw)
  have hd := dpbDifference_of_nonneg w c m h0 (by omega)
  unfold dpbSize
  simp only
  split
  · rw [hd]
    unfold wrapSigned
    norm_num
    rw [Int.emod_eq_of_lt (by omega) (by omega)]
    omega
  · rename_i hz
    have : (dpbDifference w c m : Int) = 0 := by omega
    omega

/-- Where the difference is negative the reported value is the difference as
well: the comparison with zero is made on the `size_t` value. -/
theorem dpbSize_of_neg (w c : Nat) (m : Int) (hw : 32 ≤ w) (h0 : (c : Int) - m - 5 < 0)
    (h1 : -(2 ^ 31) ≤ (c : Int) - m - 5) :
    dpbSize w c (some (some m)) = (c : Int) - m - 5 := by
  have hpow : (2 : Int) ^ 32 ≤ 2 ^ w := pow_le_pow_right₀ (by norm_num) hw
  have hd := dpbDifference_of_neg w c m h0 (by omega)
  obtain ⟨k, hk⟩ : ∃ k : Nat, w = 32 + k := ⟨w - 32, by omega⟩
  have hsplit : (2 : Int) ^ w = 4294967296 * 2 ^ k := by rw [hk, pow_add]; norm_num
  unfold dpbSize
  simp only
  have hpos : dpbDifference w c m > 0 := by
    have : (0 : Int) < (dpbDifference w c m : Int) := by rw [hd]; omega
    exact_mod_cast this
  rw [if_pos hpos, hd]
  unfold wrapSigned
  norm_num
  rw [hsplit]
  have e : (c : Int) - m - 5 + 4294967296 * 2 ^ k + 2147483648
      = ((c : Int) - m - 5 + 2147483648) + 4294967296 * 2 ^ k := by ring
  rw [e, Int.add_mul_emod_self_left, Int.emod_eq_of_lt (by omega) (by omega)]
  omega

/-- C30: with six output buffers and `minUndequeuedBufs = 2` the difference
`6 - 2 - 5` is negative; on a 64-bit and on a 32-bit `size_t` the decoder
reports a dpb-size of `-1`, where the clamped value `max 0 (6 - 2 - 5)` is `0`. -/
theorem C30_dpbSize_negative_below_five_spare_buffers :
    dpbSize 64 6 (some (some 2)) = -1 ∧ dpbSize 32 6 (some (some 2)) = -1 ∧
      max 0 ((6 : Int) - 2 - 5) = 0 := by
  decide

/-! ## Posting the drain messages (C23) -/

theorem videoHeadTimeUs_cons (s : Renderer) (entry : QueueEntry) (rest : List QueueEntry)
    (hq : s.mVideoQueue = entry :: rest) :
    videoHeadTimeUs s = entry.mBuffer.bind fun b => b.timeUs := by
  unfold videoHeadTimeUs
  rw [hq]
  dsimp only
  cases entry.mBuffer <;> rfl

theorem postDrainVideoQueue_gated (env : Env) (s : Renderer)
    (h : videoDrainGated s = true ∨ s.mVideoQueue = []) :
    postDrainVideoQueue env s = .ok s := by
  unfold postDrainVideoQueue
  rcases h with h | h
  · have h1 : (s.mDelayPending || s.mDrainVideoQueuePending || s.mSyncQueues || s.mPaused
      || s.mDrainVideoQueuePendingUntilFirstAudio) = true := h
    rw [if_pos h1]
  · split
    · rfl
    · rw [h]

theorem postDrainVideoQueue_waits (env : Env) (s : Renderer)
    (h : videoWaitsForAudio s = true) :
    postDrainVideoQueue env s =
      .ok { s with mWasPaused := false, mDrainVideoQueuePendingUntilFirstAudio := true } := by
  unfold videoWaitsForAudio at h
  simp only [Bool.and_eq_true, Bool.not_eq_true', Bool.or_eq_false_iff, decide_eq_false_iff_not,
    not_lt] at h
  obtain ⟨⟨⟨⟨⟨hg, ht⟩, ha1, ha2⟩, hw⟩, hha⟩, haq⟩ := h
  have hg1 : (s.mDelayPending || s.mDrainVideoQueuePending || s.mSyncQueues || s.mPaused
    || s.mDrainVideoQueuePendingUntilFirstAudio) = false := hg
  have hgate : s.mDrainVideoQueuePendingUntilFirstAudio = false := by
    cases hx : s.mDrainVideoQueuePendingUntilFirstAudio
    · rfl
    · rw [hx] at hg1; simp at hg1
  unfold postDrainVideoQueue
  rw [hg1]
  simp only [Bool.false_eq_true, if_false]
  cases hv : s.mVideoQueue with
  | nil => unfold videoHeadTimeUs at ht; rw [hv] at ht; cases ht
  | cons entry rest =>
    rw [videoHeadTimeUs_cons s entry rest hv] at ht
    simp only
    cases hb : entry.mBuffer with
    | none => rw [hb] at ht; cases ht
    | some buffer =>
      rw [hb] at ht
      simp only
      cases htm : buffer.timeUs with
      | none => simp [htm] at ht
      | some mediaTimeUs =>
        simp only
        rw [if_neg (by omega), if_pos hw]
        simp only [hha, haq, hgate, Bool.not_true, Bool.not_false, Bool.false_eq_true, if_false,
          if_true]

theorem postDrainVideoQueue_posted (env : Env) (s : Renderer)
    (hg : videoDrainGated s = false) (hq : s.mVideoQueue ≠ []) (ht : videoHeadTimed s)
    (hw : videoWaitsForAudio s = false) :
    ∃ r d, postDrainVideoQueue env s = .ok r ∧
      r.mailbox = s.mailbox ++ [(.drainVideoQueue s.mVideoQueueGeneration, d)] ∧
      r.mDrainVideoQueuePending = true := by
  have hg1 : (s.mDelayPending || s.mDrainVideoQueuePending || s.mSyncQueues || s.mPaused
    || s.mDrainVideoQueuePendingUntilFirstAudio) = false := hg
  unfold videoWaitsForAudio at hw
  rw [hg] at hw
  unfold postDrainVideoQueue
  rw [hg1]
  simp only [Bool.false_eq_true, if_false]
  cases hv : s.mVideoQueue with
  | nil => exact absurd hv hq
  | cons entry rest =>
    rw [videoHeadTimeUs_cons s entry rest hv] at hw
    simp only
    cases hb : entry.mBuffer with
    | none => exact ⟨_, _, rfl, rfl, rfl⟩
    | some buffer =>
      rw [hb] at hw
      simp only
      cases htm : buffer.timeUs with
      | none => exact absurd htm (ht entry buffer (by rw [hv]; rfl) hb)
      | some mediaTimeUs =>
        simp only
        split
        · exact ⟨_, _, rfl, rfl, rfl⟩
        · rename_i hav
          split
          · rename_i hwp
            split
            · exact ⟨_, _, rfl, rfl, rfl⟩
            · rename_i hha
              split
              · rename_i haq
                exfalso
                have e1 : (decide (s.mAnchorTimeMediaUs < 0) || decide (s.mAnchorTimeRealUs < 0))
                    = false := by
                  simpa using hav
                simp [htm, e1, hwp] at hw
                simp at hha haq
                rw [hw hha] at haq
                exact absurd haq (by simp)
              · exact ⟨_, _, rfl, rfl, rfl⟩
          · exact ⟨_, _, rfl, rfl, rfl⟩

/-- C23, as stated, fails for the video stream: in the state in which
`onResume` calls `postDrainVideoQueue` after a pause with both streams queued,
no stall is pending, no video drain is pending, sync is off, playback is not
paused, the video queue is not empty and the wait-for-first-audio gate is not
set; yet no message is posted and the drain-pending flag stays clear: the call
sets the gate instead. -/
theorem C23_video_drain_withheld_after_pause_counterexample :
    videoDrainGated sampleResumingBoth = false ∧ sampleResumingBoth.mVideoQueue ≠ [] ∧
      ∃ r, postDrainVideoQueue sampleEnv sampleResumingBoth = .ok r ∧
        r.mailbox = sampleResumingBoth.mailbox ∧ r.mDrainVideoQueuePending = false ∧
        r.mDrainVideoQueuePendingUntilFirstAudio = true := by
  refine ⟨by decide, by decide, _, rfl, ?_, ?_, ?_⟩ <;> rfl

/-- C23, amended: `postDrainAudioQueue` returns the state as it is when a stall
or an audio drain is pending, sync is active, playback is paused or the audio
queue is empty, and otherwise posts one audio drain message of the current
generation and sets the audio drain-pending flag.  `postDrainVideoQueue`
returns the state as it is when a stall or a video drain is pending, sync is
active, playback is paused, the wait-for-first-audio gate is set or the video
queue is empty.  Otherwise, the head buffer being time-stamped, it returns;
when the renderer was paused with the anchor set, audio present and audio
queued, it posts nothing, clears was-paused and sets the gate; in every other
case it posts one video drain message of the current generation and sets the
video drain-pending flag, keeping queues, generations and trace. -/
theorem C23_postDrain_noop_or_one_drain_message (env : Env) (s : Renderer) (delayUs : Int) :
    (audioDrainGated s = true ∨ s.mAudioQueue = [] → postDrainAudioQueue s delayUs = s) ∧
    (audioDrainGated s = false → s.mAudioQueue ≠ [] →
      postDrainAudioQueue s delayUs =
        post { s with mDrainAudioQueuePending := true }
          (.drainAudioQueue s.mAudioQueueGeneration) delayUs) ∧
    (videoDrainGated s = true ∨ s.mVideoQueue = [] → postDrainVideoQueue env s = .ok s) ∧
    (videoDrainGated s = false → s.mVideoQueue ≠ [] → videoHeadTimed s →
      ∃ r, postDrainVideoQueue env s = .ok r ∧
        (videoWaitsForAudio s = true →
          r = { s with mWasPaused := false, mDrainVideoQueuePendingUntilFirstAudio := true }) ∧
        (videoWaitsForAudio s = false →
          (∃ d, r.mailbox = s.mailbox ++ [(.drainVideoQueue s.mVideoQueueGeneration, d)]) ∧
          r.mDrainVideoQueuePending = true ∧ Stable s r)) := by
  refine ⟨?_, ?_, postDrainVideoQueue_gated env s, ?_⟩
  · intro h
    unfold postDrainAudioQueue
    rcases h with h | h
    · have h1 : (s.mDelayPending || s.mDrainAudioQueuePending || s.mSyncQueues || s.mPaused)
        = true := h
      rw [if_pos h1]
    · split
      · rfl
      · rw [h]; rfl
  · intro hg hq
    rcases postDrainAudioQueue_cases s delayUs with h | ⟨_, _, h⟩
    · exfalso
      have h1 : (s.mDelayPending || s.mDrainAudioQueuePending || s.mSyncQueues || s.mPaused)
        = false := hg
      unfold postDrainAudioQueue at h
      rw [h1] at h
      simp only [Bool.false_eq_true, if_false] at h
      cases hq1 : s.mAudioQueue with
      | nil => exact hq hq1
      | cons e rest =>
        rw [hq1] at h
        simp only [List.isEmpty_cons, Bool.false_eq_true, if_false] at h
        have := congrArg Renderer.mailbox h
        simp [post] at this
    · exact h
  · intro hg hq ht
    cases hw : videoWaitsForAudio s with
    | true =>
      exact ⟨_, postDrainVideoQueue_waits env s hw, fun _ => rfl,
        fun h => Bool.noConfusion h⟩
    | false =>
      obtain ⟨r, d, hr, hm, hp⟩ := postDrainVideoQueue_posted env s hg hq ht hw
      exact ⟨r, hr, fun h => Bool.noConfusion h,
        fun _ => ⟨⟨d, hm⟩, hp, postDrainVideoQueue_stable hr⟩⟩

theorem C23_postDrain_noop_or_one_drain_message_witness :
    videoDrainGated sampleVideoDue = false ∧ sampleVideoDue.mVideoQueue ≠ [] ∧
      videoHeadTimed sampleVideoDue ∧ audioDrainGated sampleTwoQueued = true ∧
      postDrainAudioQueue sampleTwoQueued 0 = sampleTwoQueued ∧
      ∃ r, postDrainVideoQueue sampleEnv sampleVideoDue = .ok r ∧
        (videoWaitsForAudio sampleVideoDue = true →
          r = { sampleVideoDue with
                  mWasPaused := false, mDrainVideoQueuePendingUntilFirstAudio := true }) ∧
        (videoWaitsForAudio sampleVideoDue = false →
          (∃ d, r.mailbox = sampleVideoDue.mailbox ++
              [(.drainVideoQueue sampleVideoDue.mVideoQueueGeneration, d)]) ∧
          r.mDrainVideoQueuePending = true ∧ Stable sampleVideoDue r) := by
  have ht : videoHeadTimed sampleVideoDue := by
    intro e b he hb
    have he1 : e = bufferEntry sampleVideo2 2 := by
      have : sampleVideoDue.mVideoQueue.head? = some (bufferEntry sampleVideo2 2) := rfl
      rw [this] at he
      exact (Option.some.inj he).symm
    subst he1
    cases hb
    decide
  have hg : videoDrainGated sampleVideoDue = false := by decide
  have hq : sampleVideoDue.mVideoQueue ≠ [] := by decide
  have ha : audioDrainGated sampleTwoQueued = true := by decide
  exact ⟨hg, hq, ht, ha,
    (C23_postDrain_noop_or_one_drain_message sampleEnv sampleTwoQueued 0).1 (Or.inl ha),
    (C23_postDrain_noop_or_one_drain_message sampleEnv sampleVideoDue 0).2.2.2 hg hq ht⟩

/-! ## Synchronisation ends at a flush and at an EOS (C26) -/

theorem postDrainAudioQueue_sync (s : Renderer) (d : Int) :
    (postDrainAudioQueue s d).mSyncQueues = s.mSyncQueues := by
  unfold postDrainAudioQueue
  split
  · rfl
  · split <;> rfl

theorem syncQueuesDone_off {env : Env} {s r : Renderer} (h : syncQueuesDone env s = .ok r) :
    r.mSyncQueues = false := by
  unfold syncQueuesDone at h
  split at h
  · rename_i hs
    cases h
    simpa using hs
  · have key : ∀ s2 : Renderer, s2.mSyncQueues = false →
        (if (!s2.mVideoQueue.isEmpty) = true then postDrainVideoQueue env s2 else .ok s2)
          = .ok r → r.mSyncQueues = false := by
      intro s2 h2 h
      split at h
      · rw [postDrainVideoQueue_sync h]; exact h2
      · cases h; exact h2
    refine key _ ?_ h
    split
    · rw [postDrainAudioQueue_sync]
    · rfl

theorem setQueue_sync (audio : Bool) (s : Renderer) (q : List QueueEntry) :
    (setQueue audio s q).mSyncQueues = s.mSyncQueues := by
  cases audio <;> rfl

theorem onFlush_sync {env : Env} {s r : Renderer} {audio : Bool}
    (h : onFlush env s audio = .ok r) : r.mSyncQueues = false := by
  unfold onFlush at h
  obtain ⟨s2, h2, h3⟩ := Result.bind_eq_ok h
  have hoff := syncQueuesDone_off h2
  split at h3
  · obtain ⟨s3, h4, h5⟩ := Result.bind_eq_ok h3
    cases h5
    obtain ⟨heq, _⟩ := flushLoop_eq true _ rfl h4
    subst heq
    exact hoff
  · obtain ⟨s3, h4, h5⟩ := Result.bind_eq_ok h3
    cases h5
    obtain ⟨heq, _⟩ := flushLoop_eq false _ rfl h4
    subst heq
    exact hoff

theorem queueEOS_sync {env : Env} {s r : Renderer} {audio : Bool} {finalResult : Int}
    (h : queueEOS env s audio finalResult = .ok r) : r.mSyncQueues = false := by
  unfold queueEOS at h
  split at h
  · cases h
  · obtain ⟨s1, h1, h2⟩ := Result.bind_eq_ok h
    cases h2
    show s1.mSyncQueues = false
    split at h1
    · exact syncQueuesDone_off h1
    · rename_i hs
      cases h1
      simpa using hs

theorem queueEOS_total (env : Env) (s : Renderer) (audio : Bool) (finalResult : Int)
    (hr : finalResult ≠ OK) (ht : videoHeadTimed s) :
    ∃ r, queueEOS env s audio finalResult = .ok r := by
  unfold queueEOS
  rw [if_neg hr]
  split
  · obtain ⟨s1, h1⟩ := syncQueuesDone_total env s ht
    rw [h1]
    exact ⟨_, rfl⟩
  · exact ⟨_, rfl⟩

/-- C26: for every renderer state, whenever the handling of a flush message of
either stream returns, and whenever a call of `queueEOS` for either stream
returns, the sync-queues flag is false afterwards.  The handling of the flush
message returns when every payload entry of the flushed queue has its callback
and the head of the video queue carries a time stamp; the call of `queueEOS`
returns when the final result is not `OK` and the head of the video queue
carries a time stamp. -/
theorem C26_sync_ends_at_flush_and_eos (env : Env) (s : Renderer) (audio : Bool)
    (finalResult : Int) :
    (∀ r, onMessageReceived env s (.flush audio) = .ok r → r.mSyncQueues = false) ∧
    (∀ r, queueEOS env s audio finalResult = .ok r → r.mSyncQueues = false) ∧
    (callbacksPresent (getQueue audio s) → videoHeadTimed s →
      ∃ r, onMessageReceived env s (.flush audio) = .ok r ∧ r.mSyncQueues = false) ∧
    (finalResult ≠ OK → videoHeadTimed s →
      ∃ r, queueEOS env s audio finalResult = .ok r ∧ r.mSyncQueues = false) := by
  refine ⟨fun r h => onFlush_sync h, fun r h => queueEOS_sync h, ?_, ?_⟩
  · intro hcp ht
    obtain ⟨r, hr⟩ := onFlush_total env s audio hcp ht
    exact ⟨r, hr, onFlush_sync hr⟩
  · intro hr ht
    obtain ⟨r, h⟩ := queueEOS_total env s audio finalResult hr ht
    exact ⟨r, h, queueEOS_sync h⟩

theorem C26_sync_ends_at_flush_and_eos_witness :
    sampleSyncing.mSyncQueues = true ∧
    (∃ r, onMessageReceived sampleEnv sampleSyncing (.flush true) = .ok r ∧
      r.mSyncQueues = false) ∧
    (∃ r, queueEOS sampleEnv sampleSyncing false ERROR_END_OF_STREAM = .ok r ∧
      r.mSyncQueues = false) := by
  have ht : videoHeadTimed sampleSyncing := by
    intro e b he
    have : sampleSyncing.mVideoQueue.head? = none := rfl
    rw [this] at he
    cases he
  have hcp : callbacksPresent (getQueue true sampleSyncing) := by
    intro e he
    have : getQueue true sampleSyncing = [] := rfl
    rw [this] at he
    cases he
  exact ⟨rfl,
    (C26_sync_ends_at_flush_and_eos sampleEnv sampleSyncing true ERROR_END_OF_STREAM).2.2.1
      hcp ht,
    (C26_sync_ends_at_flush_and_eos sampleEnv sampleSyncing false ERROR_END_OF_STREAM).2.2.2
      (by decide) ht⟩

/-! ## An EOS marker at the head of a queue (C22) -/

theorem notifyPosition_events (env : Env) (s : Renderer) (b : Bool) :
    eosEvents (notifyPosition env s b) = eosEvents s ∧
    sinkWrites (notifyPosition env s b) = sinkWrites s := by
  unfold notifyPosition
  split
  · exact ⟨rfl, rfl⟩
  · split
    · exact ⟨rfl, rfl⟩
    · constructor <;>
        simp [eosEvents, sinkWrites, emit, List.filter_append, isEOSEvent, isSinkWrite]

theorem measureStartUpLatency_written (env : Env) (s : Renderer) :
    (measureStartUpLatency env s).mNumFramesWritten = s.mNumFramesWritten ∧
    (measureStartUpLatency env s).mDelayPending = s.mDelayPending := by
  unfold measureStartUpLatency
  split <;> exact ⟨rfl, rfl⟩

theorem numBytesAvailableToWrite_congr (env : Env) (s s1 : Renderer)
    (h : s1.mNumFramesWritten = s.mNumFramesWritten) :
    numBytesAvailableToWrite env s1 = numBytesAvailableToWrite env s := by
  unfold numBytesAvailableToWrite numFramesPendingPlayout
  rw [h]

theorem drainVideoHead_marker (env : Env) (s : Renderer) (e : QueueEntry)
    (rest : List QueueEntry) (hq : s.mVideoQueue = e :: rest) (he : e.mBuffer = none) :
    ∃ r, drainVideoHead env s = .ok r ∧
      eosEvents r = eosEvents s ++ [.eos false e.mFinalResult] ∧ r.mVideoQueue = rest ∧
      r.mAudioQueue = s.mAudioQueue ∧ sinkWrites r = sinkWrites s ∧
      anchorPair r = anchorPair s := by
  unfold drainVideoHead
  rw [hq]
  simp only [he]
  obtain ⟨h1, h2⟩ := notifyPosition_events env s true
  obtain ⟨_, h3, h4, h5, _⟩ := notifyPosition_fields env s true
  refine ⟨_, rfl, ?_, rfl, h3, ?_, ?_⟩
  · show List.filter isEOSEvent ((notifyPosition env s true).out ++ [.eos false e.mFinalResult])
      = eosEvents s ++ [.eos false e.mFinalResult]
    rw [List.filter_append, ← h1]
    rfl
  · show List.filter isSinkWrite ((notifyPosition env s true).out ++ [.eos false e.mFinalResult])
      = sinkWrites s
    rw [List.filter_append, ← h2]
    simp [sinkWrites, isSinkWrite]
  · show ((notifyPosition env s true).mAnchorTimeMediaUs,
        (notifyPosition env s true).mAnchorTimeRealUs) = anchorPair s
    rw [h4, h5]
    rfl

theorem audioLoop_marker (env : Env) (fuel n : Nat) (s : Renderer) (e : QueueEntry)
    (rest : List QueueEntry) (hq : s.mAudioQueue = e :: rest) (he : e.mBuffer = none)
    (hn : 0 < n) :
    audioLoop env (fuel + 1) n s =
      .ok (false, { notifyEOS s true e.mFinalResult with mAudioQueue := rest }) := by
  unfold audioLoop
  rw [if_pos ⟨hn, by rw [hq]; rfl⟩]
  unfold audioBody
  rw [hq]
  simp only [he]

theorem audioLoop_full (env : Env) (fuel : Nat) (s : Renderer) :
    audioLoop env fuel 0 s = .ok (afterAudioLoop env s) := by
  cases fuel <;> simp [audioLoop]

/-- C22, as stated, fails for the audio stream: the EOS marker is at the head
of the audio queue with a buffer behind it, no stall is pending and the sink is
full; the audio drain posts no EOS notification and leaves the marker at the
head of the queue. -/
theorem C22_audio_marker_kept_while_sink_full_counterexample :
    sampleMarkerBeforeBuffer.mDelayPending = false ∧
      sampleMarkerBeforeBuffer.mAudioQueue =
        [eosEntry ERROR_END_OF_STREAM, bufferEntry sampleBuffer2 3] ∧
      ∃ r, onDrainAudioQueue sampleEnv sampleMarkerBeforeBuffer = .ok (true, r) ∧
        eosEvents r = [] ∧ r.mAudioQueue = sampleMarkerBeforeBuffer.mAudioQueue := by
  refine ⟨rfl, rfl, _, rfl, ?_, ?_⟩ <;> rfl

/-- C22, amended: with no stall pending and an EOS marker at the head of the
video queue, the video drain returns, posts one EOS notification for the video
stream with the final result of the marker, removes the marker and nothing
else, writes nothing to the sink and keeps the anchor pair, whatever is queued
behind the marker and whatever the sink reports.  The audio drain does the
same for a marker at the head of the audio queue when the marker is the only
entry, or the position query of the sink succeeds and the sink has room.  When
entries are queued behind the marker and the position query fails or the sink
has no room, the audio drain returns with the marker still at the head of the
queue, no EOS notification, no write and the anchor pair kept. -/
theorem C22_eos_marker_at_head (env : Env) (s : Renderer) (e : QueueEntry)
    (rest : List QueueEntry) (hd : s.mDelayPending = false) (he : e.mBuffer = none) :
    (s.mVideoQueue = e :: rest →
      ∃ r, onDrainVideoQueue env s = .ok r ∧
        eosEvents r = eosEvents s ++ [.eos false e.mFinalResult] ∧ r.mVideoQueue = rest ∧
        r.mAudioQueue = s.mAudioQueue ∧ sinkWrites r = sinkWrites s ∧
        anchorPair r = anchorPair s) ∧
    (s.mAudioQueue = e :: rest →
      (rest = [] ∨ (env.positionOK = true ∧ 0 < numBytesAvailableToWrite env s)) →
      ∃ r, onDrainAudioQueue env s = .ok (false, r) ∧
        r.out = s.out ++ [.eos true e.mFinalResult] ∧ r.mAudioQueue = rest ∧
        r.mVideoQueue = s.mVideoQueue ∧ anchorPair r = anchorPair s) ∧
    (s.mAudioQueue = e :: rest → rest ≠ [] →
      (env.positionOK = false ∨ numBytesAvailableToWrite env s = 0) →
      ∃ b r, onDrainAudioQueue env s = .ok (b, r) ∧ r.mAudioQueue = e :: rest ∧
        eosEvents r = eosEvents s ∧ sinkWrites r = sinkWrites s ∧
        anchorPair r = anchorPair s) := by
  obtain ⟨m1, m2, m3, m4, m5, _, _⟩ := measureStartUpLatency_fields env s
  obtain ⟨m6, _⟩ := measureStartUpLatency_written env s
  have hnb := numBytesAvailableToWrite_congr env s (measureStartUpLatency env s) m6
  refine ⟨?_, ?_, ?_⟩
  · intro hq
    unfold onDrainVideoQueue
    rw [hd]
    simp only [Bool.false_eq_true, if_false]
    obtain ⟨r, hr, h1, h2, h3, h4, h5⟩ :=
      drainVideoHead_marker env (measureStartUpLatency env s) e rest (by rw [m1, hq]) he
    refine ⟨r, hr, ?_, h2, by rw [h3, m2], ?_, ?_⟩
    · rw [h1]; unfold eosEvents; rw [m3]
    · rw [h4]; unfold sinkWrites; rw [m3]
    · rw [h5]; unfold anchorPair; rw [m4, m5]
  · intro hq hc
    unfold onDrainAudioQueue
    rw [hd]
    simp only [Bool.false_eq_true, if_false]
    have hq1 : (measureStartUpLatency env s).mAudioQueue = e :: rest := by rw [m2, hq]
    have hfin : ∀ X : Renderer, X.mAudioQueue = e :: rest → X.out = s.out →
        X.mVideoQueue = s.mVideoQueue → anchorPair X = anchorPair s →
        ∀ Y, Y = { notifyEOS X true e.mFinalResult with mAudioQueue := rest } →
        Y.out = s.out ++ [.eos true e.mFinalResult] ∧ Y.mAudioQueue = rest ∧
        Y.mVideoQueue = s.mVideoQueue ∧ anchorPair Y = anchorPair s := by
      intro X _ ho hv ha Y hY
      subst hY
      refine ⟨?_, rfl, hv, ha⟩
      show X.out ++ [.eos true e.mFinalResult] = _
      rw [ho]
    have hanch : anchorPair (measureStartUpLatency env s) = anchorPair s := by
      unfold anchorPair; rw [m4, m5]
    by_cases hr : rest = []
    · subst hr
      unfold drainAudioFirst
      rw [hq1]
      simp only [List.length_singleton, he, and_self, if_true]
      exact ⟨_, rfl, hfin _ hq1 m3 m1 hanch _ rfl⟩
    · rcases hc with hc | ⟨hp, hn⟩
      · exact absurd hc hr
      · unfold drainAudioFirst
        rw [hq1]
        have hlen : ¬ ((e :: rest).length = 1 ∧ e.mBuffer = none) := by
          intro h
          cases rest with
          | nil => exact hr rfl
          | cons x xs => simp at h
        simp only [if_neg hlen]
        unfold drainAudioSink
        rw [hp, hq1, hnb]
        simp only [Bool.not_true, Bool.false_eq_true, if_false, List.length_cons]
        rw [audioLoop_marker env _ _ _ e rest hq1 he hn]
        exact ⟨_, rfl, hfin _ hq1 m3 m1 hanch _ rfl⟩
  · intro hq hr hc
    unfold onDrainAudioQueue
    rw [hd]
    simp only [Bool.false_eq_true, if_false]
    have hq1 : (measureStartUpLatency env s).mAudioQueue = e :: rest := by rw [m2, hq]
    have hanch : anchorPair (measureStartUpLatency env s) = anchorPair s := by
      unfold anchorPair; rw [m4, m5]
    have hlen : ¬ ((e :: rest).length = 1 ∧ e.mBuffer = none) := by
      intro h
      cases rest with
      | nil => exact hr rfl
      | cons x xs => simp at h
    unfold drainAudioFirst
    rw [hq1]
    simp only [if_neg hlen]
    unfold drainAudioSink
    cases hp : env.positionOK with
    | false =>
      simp only [Bool.not_false, if_true]
      refine ⟨_, _, rfl, hq1, ?_, ?_, hanch⟩
      · unfold eosEvents; rw [m3]
      · unfold sinkWrites; rw [m3]
    | true =>
      rcases hc with hc | hc
      · rw [hp] at hc; cases hc
      · simp only [Bool.not_true, Bool.false_eq_true, if_false]
        rw [hnb, hc, audioLoop_full]
        obtain ⟨p1, p2⟩ := notifyPosition_events env (measureStartUpLatency env s) false
        obtain ⟨_, p3, p4, p5, _⟩ := notifyPosition_fields env (measureStartUpLatency env s) false
        refine ⟨_, _, rfl, ?_, ?_, ?_, ?_⟩
        · show (notifyPosition env (measureStartUpLatency env s) false).mAudioQueue = _
          rw [p3, hq1]
        · show eosEvents (notifyPosition env (measureStartUpLatency env s) false) = _
          rw [p1]; unfold eosEvents; rw [m3]
        · show sinkWrites (notifyPosition env (measureStartUpLatency env s) false) = _
          rw [p2]; unfold sinkWrites; rw [m3]
        · show anchorPair (notifyPosition env (measureStartUpLatency env s) false) = _
          unfold anchorPair
          rw [p4, p5, m4, m5]

theorem C22_eos_marker_at_head_witness :
    sampleVideoBeforeEOS.mDelayPending = false ∧
      (eosEntry ERROR_END_OF_STREAM).mBuffer = none ∧
      sampleVideoBeforeEOS.mVideoQueue = [eosEntry ERROR_END_OF_STREAM] ∧
      ∃ r, onDrainVideoQueue sampleEnv sampleVideoBeforeEOS = .ok r ∧
        eosEvents r = eosEvents sampleVideoBeforeEOS ++ [.eos false ERROR_END_OF_STREAM] ∧
        r.mVideoQueue = [] ∧ r.mAudioQueue = sampleVideoBeforeEOS.mAudioQueue ∧
        sinkWrites r = sinkWrites sampleVideoBeforeEOS ∧
        anchorPair r = anchorPair sampleVideoBeforeEOS :=
  ⟨rfl, rfl, rfl,
    (C22_eos_marker_at_head sampleEnv sampleVideoBeforeEOS (eosEntry ERROR_END_OF_STREAM) []
      rfl rfl).1 rfl⟩

/-! ## The audio drain re-derives the anchor (C24) -/

theorem clockKept_refl (s : Renderer) : ClockKept s s := ⟨rfl, rfl, rfl, rfl, rfl⟩

theorem clockKept_trans {s s1 s2 : Renderer} (h1 : ClockKept s s1) (h2 : ClockKept s1 s2) :
    ClockKept s s2 :=
  ⟨h2.media.trans h1.media, h2.real.trans h1.real, h2.rendered.trans h1.rendered,
    h2.offset.trans h1.offset, h2.wasPaused.trans h1.wasPaused⟩

theorem clockKept_anchorPair {s s1 : Renderer} (h : ClockKept s s1) :
    anchorPair s1 = anchorPair s := by
  unfold anchorPair
  rw [h.media, h.real]

theorem postConsumed_clock {s s1 : Renderer} {audio : Bool} {e : QueueEntry} {r : Option Int}
    (h : postConsumed s audio e r = .ok s1) : ClockKept s s1 := by
  obtain ⟨cb, _, h1⟩ := postConsumed_out h
  subst h1
  exact ⟨rfl, rfl, rfl, rfl, rfl⟩

theorem audioWrite_clock {env : Env} {n : Nat} {s : Renderer} {entry : QueueEntry}
    {buffer : ABuffer} {rest : List QueueEntry} {c : Ctl}
    (h : audioWrite env n s entry buffer rest = .ok c) : ClockKept s c.state := by
  unfold audioWrite at h
  dsimp only at h
  split at h
  · cases h
  · obtain ⟨s3, h3, h4⟩ := Result.bind_eq_ok h
    cases h4
    have h5 : ClockKept s s3 := by
      split at h3
      · obtain ⟨s2, h2, h6⟩ := Result.bind_eq_ok h3
        cases h6
        have := postConsumed_clock h2
        exact ⟨this.media, this.real, this.rendered, this.offset, this.wasPaused⟩
      · cases h3
        exact ⟨rfl, rfl, rfl, rfl, rfl⟩
    exact ⟨h5.media, h5.real, h5.rendered, h5.offset, h5.wasPaused⟩

theorem audioAnchor_eq (env : Env) (n : Nat) (s : Renderer) (entry : QueueEntry)
    (buffer : ABuffer) (rest : List QueueEntry) (t : Int) (hp : env.positionOK = true) :
    audioAnchor env n s entry buffer rest t =
      audioWrite env n
        { s with
          mAnchorTimeMediaUs := t, mLastRenderedTimeMediaUs := t,
          mRealTimeOffsetUs := env.offsetUs (numFramesPendingPlayout env s),
          mAnchorTimeRealUs := env.nowUs + env.offsetUs (numFramesPendingPlayout env s) }
        entry buffer rest := by
  unfold audioAnchor
  simp only [hp, Bool.not_true, Bool.false_eq_true, if_false]
  rfl

/-- C24: in one pass of the loop of the audio drain over a payload entry at the
head of the audio queue, the position query of the sink succeeding.  When the
offset of the entry is 0, it has time stamp `t` and the tests for a live
stream with video do not drop or defer it, the pass is the write of the entry
(`audioWrite`) made in a state that has the trace and the queues of the state
before and in which the anchor media time and the media time rendered last
are `t`, the real-time offset is the one computed from the sink, and the
anchor real time is the current time plus that offset.  When the offset is not
0, the pass is the write made in the state as it is.  The write itself keeps
the anchor pair, the media time rendered last and the real-time offset, and
the first thing it adds to the trace is the write to the sink. -/
theorem C24_audio_anchor_rederived_at_offset_zero (env : Env) (n : Nat) (s : Renderer)
    (entry : QueueEntry) (buffer : ABuffer) (rest : List QueueEntry)
    (hq : s.mAudioQueue = entry :: rest) (hb : entry.mBuffer = some buffer)
    (hp : env.positionOK = true) :
    (∀ t, entry.mOffset = 0 → buffer.timeUs = some t → ¬ liveGuardHits env s buffer t →
      ∃ s1, audioBody env n s = audioWrite env n s1 entry buffer rest ∧
        s1.mAnchorTimeMediaUs = t ∧ s1.mLastRenderedTimeMediaUs = t ∧
        s1.mRealTimeOffsetUs = env.offsetUs (numFramesPendingPlayout env s) ∧
        s1.mAnchorTimeRealUs = env.nowUs + s1.mRealTimeOffsetUs ∧
        s1.out = s.out ∧ s1.mAudioQueue = s.mAudioQueue ∧ s1.mVideoQueue = s.mVideoQueue) ∧
    (entry.mOffset ≠ 0 → audioBody env n s = audioWrite env n s entry buffer rest) ∧
    (∀ s0 c, audioWrite env n s0 entry buffer rest = .ok c →
      anchorPair c.state = anchorPair s0 ∧
      c.state.mLastRenderedTimeMediaUs = s0.mLastRenderedTimeMediaUs ∧
      c.state.mRealTimeOffsetUs = s0.mRealTimeOffsetUs ∧
      ∃ tail, c.state.out = s0.out ++
        Out.sinkWrite ((buffer.data.drop entry.mOffset).take (copySize env n entry buffer))
          :: tail) := by
  refine ⟨?_, ?_, ?_⟩
  · intro t ho ht hg
    have key : ∀ X : Renderer, X.out = s.out → X.mAudioQueue = entry :: rest →
        X.mVideoQueue = s.mVideoQueue → X.mNumFramesWritten = s.mNumFramesWritten →
        ∃ s1, audioAnchor env n X entry buffer rest t = audioWrite env n s1 entry buffer rest ∧
          s1.mAnchorTimeMediaUs = t ∧ s1.mLastRenderedTimeMediaUs = t ∧
          s1.mRealTimeOffsetUs = env.offsetUs (numFramesPendingPlayout env s) ∧
          s1.mAnchorTimeRealUs = env.nowUs + s1.mRealTimeOffsetUs ∧
          s1.out = s.out ∧ s1.mAudioQueue = entry :: rest ∧
          s1.mVideoQueue = s.mVideoQueue := by
      intro X h1 h2 h3 h4
      have hn : numFramesPendingPlayout env X = numFramesPendingPlayout env s := by
        unfold numFramesPendingPlayout; rw [h4]
      refine ⟨_, audioAnchor_eq env n X entry buffer rest t hp, rfl, rfl, ?_, ?_, h1, h2, h3⟩
      · show env.offsetUs (numFramesPendingPlayout env X) = _
        rw [hn]
      · rfl
    unfold audioBody
    rw [hq]
    simp only [hb, ho, if_true, ht]
    unfold liveGuardHits at hg
    cases hl : (s.mIsLiveStream && s.mHasVideo) with
    | false =>
      simp only [Bool.false_eq_true, if_false]
      exact key s rfl hq rfl rfl
    | true =>
      rw [hl] at hg
      simp only [true_and, not_or] at hg
      obtain ⟨g1, g2, g3⟩ := hg
      simp only [if_true]
      rw [if_neg g1, if_neg g2]
      split
      · rename_i hc
        have g4 : ¬ ((t - s.mAnchorTimeMediaUs) + s.mAnchorTimeRealUs - env.nowUs
            - ((env.latency * 1000 % 2 ^ 32 / 2 : Nat) : Int) > 0) := by
          intro h
          exact g3 ⟨hc.1, hc.2.1, hc.2.2, h⟩
        rw [if_neg g4]
        exact key _ rfl rfl rfl rfl
      · exact key s rfl hq rfl rfl
  · intro ho
    unfold audioBody
    rw [hq]
    simp only [hb, if_neg ho]
  · intro s0 c h
    have h1 := audioWrite_clock h
    exact ⟨clockKept_anchorPair h1, h1.rendered, h1.offset, audioWrite_out h⟩

theorem C24_audio_anchor_rederived_at_offset_zero_witness :
    sampleTwoQueued.mAudioQueue = [bufferEntry sampleBuffer1 1, bufferEntry sampleBuffer2 2] ∧
      sampleEnv.positionOK = true ∧ ¬ liveGuardHits sampleEnv sampleTwoQueued sampleBuffer1 10 ∧
      ∃ s1, audioBody sampleEnv 8 sampleTwoQueued =
          audioWrite sampleEnv 8 s1 (bufferEntry sampleBuffer1 1) sampleBuffer1
            [bufferEntry sampleBuffer2 2] ∧
        s1.mAnchorTimeMediaUs = 10 ∧ s1.mLastRenderedTimeMediaUs = 10 ∧
        s1.mRealTimeOffsetUs = sampleEnv.offsetUs (numFramesPendingPlayout sampleEnv sampleTwoQueued) ∧
        s1.mAnchorTimeRealUs = sampleEnv.nowUs + s1.mRealTimeOffsetUs ∧
        s1.out = sampleTwoQueued.out ∧ s1.mAudioQueue = sampleTwoQueued.mAudioQueue ∧
        s1.mVideoQueue = sampleTwoQueued.mVideoQueue := by
  have hg : ¬ liveGuardHits sampleEnv sampleTwoQueued sampleBuffer1 10 := by
    intro h
    exact absurd h.1 (by decide)
  exact ⟨rfl, rfl, hg,
    (C24_audio_anchor_rederived_at_offset_zero sampleEnv 8 sampleTwoQueued
      (bufferEntry sampleBuffer1 1) sampleBuffer1 [bufferEntry sampleBuffer2 2] rfl rfl rfl).1
      10 rfl rfl hg⟩

/-! ## The anchor when the video drain is posted, and the live refresh (C27) -/

theorem postDrainVideoQueue_anchor {env : Env} {s r : Renderer}
    (h : postDrainVideoQueue env s = .ok r) :
    anchorPair r =
      (match videoReanchor s with
       | some t => (t, env.nowUs)
       | none => anchorPair s) ∧
    r.mLastRenderedTimeMediaUs = s.mLastRenderedTimeMediaUs ∧
    r.mRealTimeOffsetUs = s.mRealTimeOffsetUs ∧ r.mHasAudio = s.mHasAudio ∧
    (s.mWasPaused = false → r.mWasPaused = false) := by
  unfold videoReanchor
  cases hg : videoDrainGated s with
  | true =>
    rw [postDrainVideoQueue_gated env s (Or.inl hg)] at h
    cases h
    exact ⟨rfl, rfl, rfl, rfl, fun h => h⟩
  | false =>
    have hg1 : (s.mDelayPending || s.mDrainVideoQueuePending || s.mSyncQueues || s.mPaused
      || s.mDrainVideoQueuePendingUntilFirstAudio) = false := hg
    simp only [Bool.false_eq_true, if_false]
    unfold postDrainVideoQueue at h
    rw [hg1] at h
    simp only [Bool.false_eq_true, if_false] at h
    cases hv : s.mVideoQueue with
    | nil =>
      rw [hv] at h
      cases h
      have : videoHeadTimeUs s = none := by unfold videoHeadTimeUs; rw [hv]
      rw [this]
      exact ⟨rfl, rfl, rfl, rfl, fun h => h⟩
    | cons entry rest =>
      rw [hv] at h
      rw [videoHeadTimeUs_cons s entry rest hv]
      simp only at h
      cases hb : entry.mBuffer with
      | none =>
        rw [hb] at h
        cases h
        exact ⟨rfl, rfl, rfl, rfl, fun h => h⟩
      | some buffer =>
        rw [hb] at h
        simp only at h
        cases htm : buffer.timeUs with
        | none => rw [htm] at h; cases h
        | some t =>
          rw [htm] at h
          simp only [Option.some_bind, htm] at h ⊢
          by_cases hav : s.mAnchorTimeMediaUs < 0 ∨ s.mAnchorTimeRealUs < 0
          · rw [if_pos hav] at h
            cases h
            have e1 : (decide (s.mAnchorTimeMediaUs < 0) || decide (s.mAnchorTimeRealUs < 0))
                = true := by simpa using hav
            rw [e1]
            exact ⟨rfl, rfl, rfl, rfl, fun h => h⟩
          · rw [if_neg hav] at h
            have e1 : (decide (s.mAnchorTimeMediaUs < 0) || decide (s.mAnchorTimeRealUs < 0))
                = false := by simpa using hav
            rw [e1]
            simp only [Bool.false_eq_true, if_false]
            cases hw : s.mWasPaused with
            | false =>
              rw [hw] at h
              simp only [Bool.false_eq_true, if_false] at h
              cases h
              exact ⟨rfl, rfl, rfl, rfl, fun _ => hw⟩
            | true =>
              rw [hw] at h
              simp only [if_true] at h
              cases hha : s.mHasAudio with
              | false =>
                rw [hha] at h
                simp only [Bool.not_false, if_true] at h
                cases h
                exact ⟨rfl, rfl, rfl, hha.symm ▸ rfl, fun _ => rfl⟩
              | true =>
                rw [hha] at h
                simp only [Bool.not_true, Bool.false_eq_true, if_false] at h
                split at h
                · cases h
                  split <;> exact ⟨rfl, rfl, rfl, hha.symm ▸ rfl, fun _ => rfl⟩
                · cases h
                  exact ⟨rfl, rfl, rfl, hha.symm ▸ rfl, fun _ => rfl⟩

theorem videoReanchor_valid (s : Renderer) (hv : anchorValid s) (hw : s.mWasPaused = false) :
    videoReanchor s = none := by
  unfold videoReanchor
  have e1 : (decide (s.mAnchorTimeMediaUs < 0) || decide (s.mAnchorTimeRealUs < 0)) = false := by
    unfold anchorValid at hv
    simp only [Bool.or_eq_false_iff, decide_eq_false_iff_not, not_lt]
    exact hv
  rw [e1, hw]
  split
  · rfl
  · split <;> rfl

theorem postDrainVideoQueue_clock {env : Env} {s r : Renderer}
    (h : postDrainVideoQueue env s = .ok r) (hv : anchorValid s) (hw : s.mWasPaused = false) :
    ClockKept s r := by
  obtain ⟨h1, h2, h3, _, h5⟩ := postDrainVideoQueue_anchor h
  rw [videoReanchor_valid s hv hw] at h1
  have h6 : r.mAnchorTimeMediaUs = s.mAnchorTimeMediaUs := congrArg Prod.fst h1
  have h7 : r.mAnchorTimeRealUs = s.mAnchorTimeRealUs := congrArg Prod.snd h1
  exact ⟨h6, h7, h2, h3, (h5 hw).trans hw.symm⟩

theorem postDrainAudioQueue_clock (s : Renderer) (d : Int) :
    ClockKept s (postDrainAudioQueue s d) := by
  unfold postDrainAudioQueue
  split
  · exact clockKept_refl s
  · split
    · exact clockKept_refl s
    · exact ⟨rfl, rfl, rfl, rfl, rfl⟩

theorem videoReanchor_congr (s s1 : Renderer) (hg : videoDrainGated s1 = videoDrainGated s)
    (hq : s1.mVideoQueue = s.mVideoQueue) (hc : ClockKept s s1)
    (ha : s1.mHasAudio = s.mHasAudio) : videoReanchor s1 = videoReanchor s := by
  unfold videoReanchor videoHeadTimeUs
  rw [hg, hq, hc.media, hc.real, hc.wasPaused, ha]

theorem videoDrainGated_postDrainAudioQueue (s : Renderer) (d : Int) :
    videoDrainGated (postDrainAudioQueue s d) = videoDrainGated s := by
  unfold postDrainAudioQueue
  split
  · rfl
  · split <;> rfl

theorem videoReanchor_postDrainAudioQueue (s : Renderer) (d : Int) :
    videoReanchor (postDrainAudioQueue s d) = videoReanchor s :=
  videoReanchor_congr s _ (videoDrainGated_postDrainAudioQueue s d)
    (postDrainAudioQueue_stable s d).vq (postDrainAudioQueue_clock s d)
    (congrArg Settings.hasAudio (postDrainAudioQueue_stable s d).settings)

theorem videoReanchor_empty (s : Renderer) (h : s.mVideoQueue = []) :
    videoReanchor s = none := by
  unfold videoReanchor videoHeadTimeUs
  rw [h]
  split <;> rfl

theorem signalRefresh_valid (env : Env) (s : Renderer) (b : Bool) (hv : anchorValid s) :
    signalRefreshAnchorRealTime env s b =
      { s with
        mAnchorTimeMediaUs := s.mLastRenderedTimeMediaUs
        mAnchorTimeRealUs :=
          env.nowUs + s.mRealTimeOffsetUs + (if b then s.mStartUpLatencyUs else 0)
        mDiscFromAnchorRealTimeRefresh := true } := by
  unfold anchorValid at hv
  unfold signalRefreshAnchorRealTime
  rw [if_pos ⟨by omega, by omega⟩]
  cases b
  · simp only [Bool.false_eq_true, if_false, add_zero]
  · simp only [if_true]

theorem signalRefresh_invalid (env : Env) (s : Renderer) (b : Bool) (hv : ¬ anchorValid s) :
    signalRefreshAnchorRealTime env s b = s := by
  unfold anchorValid at hv
  unfold signalRefreshAnchorRealTime
  rw [if_neg (by omega)]

theorem signalRefresh_anchor_congr (env : Env) (s X : Renderer) (b : Bool)
    (hc : ClockKept s X) (hl : X.mStartUpLatencyUs = s.mStartUpLatencyUs) :
    anchorPair (signalRefreshAnchorRealTime env X b) =
      anchorPair (signalRefreshAnchorRealTime env s b) := by
  have hx := clockKept_anchorPair hc
  by_cases hv : anchorValid s
  · have hvX : anchorValid X := by
      unfold anchorValid at hv ⊢
      rw [hc.media, hc.real]
      exact hv
    rw [signalRefresh_valid env s b hv, signalRefresh_valid env X b hvX]
    unfold anchorPair
    simp only [hc.rendered, hc.offset, hl]
  · have hvX : ¬ anchorValid X := by
      unfold anchorValid at hv ⊢
      rw [hc.media, hc.real]
      exact hv
    rw [signalRefresh_invalid env s b hv, signalRefresh_invalid env X b hvX]
    exact hx

theorem resumedState_anchor (env : Env) (s : Renderer) :
    anchorPair (resumedState env s) =
      anchorPair (if s.mIsLiveStream then signalRefreshAnchorRealTime env s false else s) := by
  have key : ∀ X : Renderer, ClockKept s X → X.mStartUpLatencyUs = s.mStartUpLatencyUs →
      X.mIsLiveStream = s.mIsLiveStream →
      anchorPair (if X.mIsLiveStream then signalRefreshAnchorRealTime env X false else X) =
        anchorPair (if s.mIsLiveStream then signalRefreshAnchorRealTime env s false else s) := by
    intro X hc hl hlive
    rw [hlive]
    split
    · exact signalRefresh_anchor_congr env s X false hc hl
    · exact clockKept_anchorPair hc
  have hX := key
    { (if s.mHasAudio && !s.mDelayPending then emit s .sinkStart else s) with mPaused := false }
    (by split <;> exact ⟨rfl, rfl, rfl, rfl, rfl⟩) (by split <;> rfl) (by split <;> rfl)
  exact hX

theorem onResume_anchor {env : Env} {s r : Renderer} (hp : s.mPaused = true)
    (h : onResume env s = .ok r) :
    anchorPair r =
      (match videoReanchor (resumedState env s) with
       | some t => (t, env.nowUs)
       | none => anchorPair (resumedState env s)) := by
  rw [onResume_eq env s hp] at h
  have key : ∀ X : Renderer, videoReanchor X = videoReanchor (resumedState env s) →
      anchorPair X = anchorPair (resumedState env s) →
      (if (!X.mVideoQueue.isEmpty) = true then postDrainVideoQueue env X else .ok X) = .ok r →
      anchorPair r =
        (match videoReanchor (resumedState env s) with
         | some t => (t, env.nowUs)
         | none => anchorPair (resumedState env s)) := by
    intro X h1 h2 h3
    split at h3
    · rw [(postDrainVideoQueue_anchor h3).1, h1, h2]
    · rename_i he
      have hq : X.mVideoQueue = [] := by
        cases hx : X.mVideoQueue with
        | nil => rfl
        | cons a l => rw [hx] at he; simp at he
      cases h3
      rw [← h1, videoReanchor_empty _ hq, h2]
  refine key _ ?_ ?_ h
  · split
    · exact videoReanchor_postDrainAudioQueue _ _
    · rfl
  · split
    · exact clockKept_anchorPair (postDrainAudioQueue_clock _ _)
    · rfl

theorem onResume_total (env : Env) (s : Renderer) (ht : videoHeadTimed s) :
    ∃ r, onResume env s = .ok r := by
  cases hp : s.mPaused with
  | false =>
    unfold onResume
    rw [hp]
    exact ⟨s, rfl⟩
  | true =>
    rw [onResume_eq env s hp]
    have hvq : (resumedState env s).mVideoQueue = s.mVideoQueue := (resumedState_effect env s).vq
    have key : ∀ X : Renderer, X.mVideoQueue = s.mVideoQueue →
        ∃ r, (if (!X.mVideoQueue.isEmpty) = true then postDrainVideoQueue env X else .ok X)
          = .ok r := by
      intro X hX
      split
      · refine postDrainVideoQueue_total env X ?_
        intro e b he hb
        rw [hX] at he
        exact ht e b he hb
      · exact ⟨_, rfl⟩
    refine key _ ?_
    split
    · rw [(postDrainAudioQueue_stable _ _).vq, hvq]
    · exact hvq

/-- C27, as stated, fails in its last part: a video-only stream that is not
live is paused with the frame of time stamp 20 queued and the anchor pair
`(10, 1000)`; handling the resume at wall time 5000 changes the anchor pair to
`(20, 5000)`. -/
theorem C27_resume_reanchors_video_only_counterexample :
    samplePausedVideo.mPaused = true ∧ samplePausedVideo.mIsLiveStream = false ∧
      anchorPair samplePausedVideo = (10, 1000) ∧
      ∃ r, onMessageReceived (sampleEnvAt 5000) samplePausedVideo .resume = .ok r ∧
        anchorPair r = (20, 5000) := by
  refine ⟨rfl, rfl, rfl, _, rfl, ?_⟩
  rfl

/-- C27, amended: when both values of the anchor pair are set,
`signalRefreshAnchorRealTime(addLatency)` sets the anchor media time to the
media time rendered last and the anchor real time to now plus the real-time
offset, plus the measured start-up latency iff `addLatency`, and marks the
refresh; when a value of the anchor pair is not set it changes nothing.
Handling a resume while paused applies this refresh, without start-up
latency, iff the stream is live, before it posts the drains.  When it returns,
the anchor pair is the one so obtained, unless posting the video drain sets the
anchor again (a time-stamped buffer at the head of the video queue while the
anchor pair is unset, or while was-paused is set and no audio is present): then
the anchor pair is the time stamp of that buffer and the current time.  It
returns whenever the head of the video queue carries a time stamp. -/
theorem C27_live_refresh_and_resume (env : Env) (s : Renderer) (addLatency : Bool) :
    (anchorValid s →
      signalRefreshAnchorRealTime env s addLatency =
        { s with
          mAnchorTimeMediaUs := s.mLastRenderedTimeMediaUs
          mAnchorTimeRealUs :=
            env.nowUs + s.mRealTimeOffsetUs + (if addLatency then s.mStartUpLatencyUs else 0)
          mDiscFromAnchorRealTimeRefresh := true }) ∧
    (¬ anchorValid s → signalRefreshAnchorRealTime env s addLatency = s) ∧
    (s.mPaused = true →
      anchorPair (resumedState env s) =
        anchorPair (if s.mIsLiveStream then signalRefreshAnchorRealTime env s false else s) ∧
      (∀ r, onMessageReceived env s .resume = .ok r →
        anchorPair r =
          (match videoReanchor (resumedState env s) with
           | some t => (t, env.nowUs)
           | none => anchorPair (resumedState env s))) ∧
      (videoHeadTimed s → ∃ r, onMessageReceived env s .resume = .ok r)) :=
  ⟨signalRefresh_valid env s addLatency, signalRefresh_invalid env s addLatency,
    fun hp => ⟨resumedState_anchor env s, fun _ h => onResume_anchor hp h,
      fun ht => onResume_total env s ht⟩⟩

theorem C27_live_refresh_and_resume_witness :
    samplePausedVideo.mPaused = true ∧ anchorValid samplePausedVideo ∧
      signalRefreshAnchorRealTime (sampleEnvAt 5000) samplePausedVideo true =
        { samplePausedVideo with
          mAnchorTimeMediaUs := samplePausedVideo.mLastRenderedTimeMediaUs
          mAnchorTimeRealUs :=
            (sampleEnvAt 5000).nowUs + samplePausedVideo.mRealTimeOffsetUs
              + (if true then samplePausedVideo.mStartUpLatencyUs else 0)
          mDiscFromAnchorRealTimeRefresh := true } ∧
      anchorPair (resumedState (sampleEnvAt 5000) samplePausedVideo) =
        anchorPair (if samplePausedVideo.mIsLiveStream
          then signalRefreshAnchorRealTime (sampleEnvAt 5000) samplePausedVideo false
          else samplePausedVideo) := by
  have hv : anchorValid samplePausedVideo := by
    unfold anchorValid
    decide
  exact ⟨rfl, hv,
    (C27_live_refresh_and_resume (sampleEnvAt 5000) samplePausedVideo true).1 hv,
    ((C27_live_refresh_and_resume (sampleEnvAt 5000) samplePausedVideo true).2.2 rfl).1⟩

/-! ## Stalls do not stack (C25) -/

theorem stallKept_refl (s : Renderer) : StallKept s s := ⟨rfl, rfl⟩

theorem stallKept_trans {s s1 s2 : Renderer} (h1 : StallKept s s1) (h2 : StallKept s1 s2) :
    StallKept s s2 :=
  ⟨h2.flag.trans h1.flag, h2.msgs.trans h1.msgs⟩

theorem stallKept_of_eq {s s1 : Renderer} (hf : s1.mDelayPending = s.mDelayPending)
    (hm : s1.mailbox = s.mailbox) : StallKept s s1 :=
  ⟨hf, by unfold delayMessages; rw [hm]⟩

theorem stallKept_post (s : Renderer) (m : Msg) (d : Int) (hm : isDelayQueued m = false) :
    StallKept s (post s m d) := by
  refine ⟨rfl, ?_⟩
  unfold delayMessages post
  simp [List.countP_append, hm]

theorem stallKept_emit (s : Renderer) (o : Out) : StallKept s (emit s o) :=
  stallKept_of_eq rfl rfl

theorem postConsumed_stall {s s1 : Renderer} {audio : Bool} {e : QueueEntry} {r : Option Int}
    (h : postConsumed s audio e r = .ok s1) : StallKept s s1 := by
  obtain ⟨cb, _, h1⟩ := postConsumed_out h
  subst h1
  exact stallKept_emit _ _

theorem notifyPosition_stall (env : Env) (s : Renderer) (b : Bool) :
    StallKept s (notifyPosition env s b) := by
  unfold notifyPosition
  split
  · exact stallKept_refl s
  · split
    · exact stallKept_refl s
    · exact stallKept_of_eq rfl rfl

theorem measureStartUpLatency_stall (env : Env) (s : Renderer) :
    StallKept s (measureStartUpLatency env s) := by
  unfold measureStartUpLatency
  split
  · exact stallKept_of_eq rfl rfl
  · exact stallKept_refl s

theorem postDrainAudioQueue_stall (s : Renderer) (d : Int) :
    StallKept s (postDrainAudioQueue s d) := by
  rcases postDrainAudioQueue_cases s d with h | ⟨_, _, h⟩
  · rw [h]; exact stallKept_refl s
  · rw [h]
    have h1 : StallKept s { s with mDrainAudioQueuePending := true } := stallKept_of_eq rfl rfl
    have h2 := stallKept_post { s with mDrainAudioQueuePending := true }
      (.drainAudioQueue s.mAudioQueueGeneration) d rfl
    exact ⟨h2.flag.trans h1.flag, h2.msgs.trans h1.msgs⟩

theorem postDrainVideoQueue_stall {env : Env} {s r : Renderer}
    (h : postDrainVideoQueue env s = .ok r) : StallKept s r := by
  have hst := postDrainVideoQueue_stable h
  have hf : r.mDelayPending = s.mDelayPending := congrArg Settings.delayPending hst.settings
  obtain ⟨_, h1 | ⟨_, _, d, h1⟩⟩ := postDrainVideoQueue_cases h
  · exact stallKept_of_eq hf h1.1
  · refine ⟨hf, ?_⟩
    unfold delayMessages
    rw [h1]
    simp [List.countP_append, isDelayQueued]

theorem syncQueuesDone_stall {env : Env} {s r : Renderer}
    (h : syncQueuesDone env s = .ok r) : StallKept s r := by
  unfold syncQueuesDone at h
  split at h
  · cases h; exact stallKept_refl s
  · have h0 : StallKept s { s with mSyncQueues := false } := stallKept_of_eq rfl rfl
    have key : ∀ s2 : Renderer, StallKept s s2 →
        (if (!s2.mVideoQueue.isEmpty) = true then postDrainVideoQueue env s2 else .ok s2)
          = .ok r → StallKept s r := by
      intro s2 h2 h
      split at h
      · exact stallKept_trans h2 (postDrainVideoQueue_stall h)
      · cases h; exact h2
    refine key _ ?_ h
    split
    · have h1 := postDrainAudioQueue_stall { s with mSyncQueues := false } 0
      exact ⟨h1.flag.trans h0.flag, h1.msgs.trans h0.msgs⟩
    · exact h0

theorem audioWrite_stall {env : Env} {n : Nat} {s : Renderer} {entry : QueueEntry}
    {buffer : ABuffer} {rest : List QueueEntry} {c : Ctl}
    (h : audioWrite env n s entry buffer rest = .ok c) : StallKept s c.state := by
  unfold audioWrite at h
  dsimp only at h
  split at h
  · cases h
  · obtain ⟨s3, h3, h4⟩ := Result.bind_eq_ok h
    cases h4
    have h5 : StallKept s s3 := by
      split at h3
      · obtain ⟨s2, h2, h6⟩ := Result.bind_eq_ok h3
        cases h6
        have := postConsumed_stall h2
        exact ⟨this.flag, this.msgs⟩
      · cases h3
        exact stallKept_of_eq rfl rfl
    exact ⟨h5.flag, h5.msgs⟩

theorem audioAnchor_stall {env : Env} {n : Nat} {s : Renderer} {entry : QueueEntry}
    {buffer : ABuffer} {rest : List QueueEntry} {m : Int} {c : Ctl}
    (h : audioAnchor env n s entry buffer rest m = .ok c) : StallKept s c.state := by
  unfold audioAnchor at h
  dsimp only at h
  split at h
  · cases h
  · have h1 := audioWrite_stall h
    exact ⟨h1.flag, h1.msgs⟩

theorem audioBody_stall {env : Env} {n : Nat} {s : Renderer} {c : Ctl}
    (h : audioBody env n s = .ok c) : StallKept s c.state := by
  unfold audioBody at h
  split at h
  · cases h
  · next entry rest hq =>
    split at h
    · cases h
      exact stallKept_of_eq rfl rfl
    · next buffer hb =>
      split at h
      · split at h
        · cases h
        · next mediaTimeUs ht =>
          split at h
          · split at h
            · cases h; exact stallKept_refl s
            · split at h
              · obtain ⟨s1, h1, h2⟩ := Result.bind_eq_ok h
                cases h2
                have := postConsumed_stall h1
                exact ⟨this.flag, this.msgs⟩
              · split at h
                · dsimp only at h
                  split at h
                  · cases h
                    have h1 := postDrainAudioQueue_stall
                      { s with
                        mDiscFromAnchorRealTimeRefresh := false
                        mAudioQueue :=
                          { entry with mBuffer := some { buffer with disc := some 0 } } :: rest
                        mAnchorTimeMediaUs := mediaTimeUs
                        mAnchorTimeRealUs :=
                          (mediaTimeUs - s.mAnchorTimeMediaUs) + s.mAnchorTimeRealUs }
                      ((mediaTimeUs - s.mAnchorTimeMediaUs) + s.mAnchorTimeRealUs - env.nowUs
                        - ((env.latency * 1000 % 2 ^ 32 / 2 : Nat) : Int))
                    exact ⟨h1.flag, h1.msgs⟩
                  · have h1 := audioAnchor_stall h
                    exact ⟨h1.flag, h1.msgs⟩
                · exact audioAnchor_stall h
          · exact audioAnchor_stall h
      · exact audioWrite_stall h

theorem audioLoop_stall {env : Env} (fuel : Nat) : ∀ {n : Nat} {s : Renderer}
    {r : Bool × Renderer}, audioLoop env fuel n s = .ok r → StallKept s r.2 := by
  induction fuel with
  | zero =>
    intro n s r h
    unfold audioLoop at h
    split at h
    · cases h
    · cases h
      exact notifyPosition_stall env s false
  | succ k ih =>
    intro n s r h
    unfold audioLoop at h
    split at h
    · split at h
      · cases h
      · next b s1 hb =>
        cases h
        exact audioBody_stall hb
      · next n1 s1 hb =>
        exact stallKept_trans (audioBody_stall hb) (ih h)
    · cases h
      exact notifyPosition_stall env s false

theorem onDrainAudioQueue_stall {env : Env} {s : Renderer} {r : Bool × Renderer}
    (h : onDrainAudioQueue env s = .ok r) : StallKept s r.2 := by
  unfold onDrainAudioQueue at h
  split at h
  · cases h; exact stallKept_refl s
  · refine stallKept_trans (measureStartUpLatency_stall env s) ?_
    unfold drainAudioFirst at h
    have hsink : ∀ {X : Renderer} {r : Bool × Renderer}, drainAudioSink env X = .ok r →
        StallKept X r.2 := by
      intro X r h
      unfold drainAudioSink at h
      split at h
      · cases h; exact stallKept_refl _
      · exact audioLoop_stall _ h
    split at h
    · exact hsink h
    · split at h
      · cases h
        exact stallKept_of_eq rfl rfl
      · exact hsink h

theorem onDrainVideoQueue_stall {env : Env} {s r : Renderer}
    (h : onDrainVideoQueue env s = .ok r) : StallKept s r := by
  unfold onDrainVideoQueue at h
  split at h
  · cases h; exact stallKept_refl s
  · refine stallKept_trans (measureStartUpLatency_stall env s) ?_
    generalize measureStartUpLatency env s = X at h
    unfold drainVideoHead at h
    split at h
    · cases h; exact stallKept_refl _
    · split at h
      · cases h
        have h1 := notifyPosition_stall env X true
        exact ⟨h1.flag, h1.msgs⟩
      · split at h
        · cases h
        · next mediaTimeUs ht =>
          have hd : StallKept X (videoRenderDecision env X mediaTimeUs).2 := by
            unfold videoRenderDecision
            dsimp only
            split <;> split <;> exact stallKept_of_eq rfl rfl
          generalize videoRenderDecision env X mediaTimeUs = d at h hd
          obtain ⟨tooLate, s5⟩ := d
          dsimp only at h
          obtain ⟨s6, h6, h7⟩ := Result.bind_eq_ok h
          cases h7
          have h8 := postConsumed_stall h6
          have key : ∀ Y : Renderer, StallKept s6 Y → StallKept X (notifyPosition env Y false) :=
            fun Y hY => stallKept_trans (stallKept_trans (stallKept_trans hd h8) hY)
              (notifyPosition_stall env Y false)
          exact key _ (stallKept_of_eq rfl rfl)

theorem onFlush_stall {env : Env} {s r : Renderer} {audio : Bool}
    (h : onFlush env s audio = .ok r) : StallKept s r := by
  unfold onFlush at h
  obtain ⟨s2, h2, h3⟩ := Result.bind_eq_ok h
  refine stallKept_trans (syncQueuesDone_stall h2) ?_
  split at h3
  · obtain ⟨s3, h4, h5⟩ := Result.bind_eq_ok h3
    cases h5
    obtain ⟨heq, _⟩ := flushLoop_eq true _ rfl h4
    subst heq
    exact stallKept_of_eq rfl rfl
  · obtain ⟨s3, h4, h5⟩ := Result.bind_eq_ok h3
    cases h5
    obtain ⟨heq, _⟩ := flushLoop_eq false _ rfl h4
    subst heq
    exact stallKept_of_eq rfl rfl

theorem setStartAnchor_stall {s r : Renderer}
    (h : setStartAnchorMediaAndPostDrainQueue s = .ok r) : StallKept s r := by
  unfold setStartAnchorMediaAndPostDrainQueue at h
  split at h
  · split at h
    · cases h
      have key : ∀ X : Renderer, StallKept s X → StallKept s (postDrainAudioQueue X 0) :=
        fun X hX => stallKept_trans hX (postDrainAudioQueue_stall X 0)
      refine key _ ?_
      split
      · exact stallKept_of_eq rfl rfl
      · split
        · exact stallKept_of_eq rfl rfl
        · split <;> exact stallKept_of_eq rfl rfl
    · cases h
  · cases h

theorem syncQueuesStep_stall {env : Env} {s r : Renderer}
    (h : syncQueuesStep env s = .ok r) : StallKept s r := by
  unfold syncQueuesStep at h
  split at h
  · cases h; exact stallKept_refl _
  · split at h
    · split at h
      · split at h
        · dsimp only at h
          split at h
          · obtain ⟨s1, h1, h2⟩ := Result.bind_eq_ok h
            cases h2
            have := postConsumed_stall h1
            exact ⟨this.flag, this.msgs⟩
          · exact syncQueuesDone_stall h
        · cases h
      · exact syncQueuesDone_stall h
    · cases h; exact stallKept_refl _

theorem enqueueBuffer_stall {env : Env} {s r : Renderer} {audio : Bool} {entry : QueueEntry}
    (h : enqueueBuffer env s audio entry = .ok r) : StallKept s r := by
  unfold enqueueBuffer at h
  split at h
  · dsimp only at h
    split at h
    · split at h
      · cases h; exact stallKept_of_eq rfl rfl
      · have h1 := setStartAnchor_stall h
        exact ⟨h1.flag, h1.msgs⟩
    · cases h
      have h1 := postDrainAudioQueue_stall { s with mAudioQueue := s.mAudioQueue ++ [entry] } 0
      exact ⟨h1.flag, h1.msgs⟩
  · dsimp only at h
    split at h
    · split at h
      · cases h; exact stallKept_of_eq rfl rfl
      · split at h
        · cases h; exact stallKept_of_eq rfl rfl
        · have h1 := setStartAnchor_stall h
          exact ⟨h1.flag, h1.msgs⟩
    · obtain ⟨s4, h4, h5⟩ := Result.bind_eq_ok h
      have h1 := postDrainVideoQueue_stall h4
      have h2 := syncQueuesStep_stall h5
      exact ⟨h2.flag.trans h1.flag, h2.msgs.trans h1.msgs⟩

theorem onQueueBuffer_stall {env : Env} {s r : Renderer} {audio : Bool} {buffer : ABuffer}
    {cb : Nat} (h : onQueueBuffer env s audio buffer cb = .ok r) : StallKept s r := by
  unfold onQueueBuffer at h
  rw [dropBufferWhileFlushing_eq] at h
  have hm : StallKept s (markPresent s audio) := by
    unfold markPresent
    split <;> exact stallKept_of_eq rfl rfl
  cases hf : flushingFlag audio (markPresent s audio)
  · rw [hf] at h
    simp only [Bool.false_eq_true, if_false] at h
    have hb : StallKept (markPresent s audio) (beginStartUpLatency env (markPresent s audio)) := by
      unfold beginStartUpLatency
      split
      · exact stallKept_of_eq rfl rfl
      · exact stallKept_refl _
    exact stallKept_trans hm (stallKept_trans hb (enqueueBuffer_stall h))
  · rw [hf] at h
    simp only [if_true] at h
    cases h
    exact stallKept_trans hm (stallKept_emit _ _)

theorem onQueueEOS_stall {env : Env} {s r : Renderer} {audio : Bool} {finalResult : Int}
    (h : onQueueEOS env s audio finalResult = .ok r) : StallKept s r := by
  unfold onQueueEOS at h
  rw [dropBufferWhileFlushing_eq] at h
  cases hf : flushingFlag audio s
  · rw [hf] at h
    simp only [Bool.false_eq_true, if_false] at h
    split at h
    · cases h
      have h1 := postDrainAudioQueue_stall
        { s with mAudioQueue := s.mAudioQueue ++ [eosEntry finalResult] } 0
      exact ⟨h1.flag, h1.msgs⟩
    · have h1 := postDrainVideoQueue_stall h
      exact ⟨h1.flag, h1.msgs⟩
  · rw [hf] at h
    simp only [if_true] at h
    cases h
    exact stallKept_refl _

theorem signalRefresh_stall (env : Env) (s : Renderer) (b : Bool) :
    StallKept s (signalRefreshAnchorRealTime env s b) := by
  unfold signalRefreshAnchorRealTime
  split
  · dsimp only
    split <;> exact stallKept_of_eq rfl rfl
  · exact stallKept_refl s

theorem onResume_stall {env : Env} {s r : Renderer} (h : onResume env s = .ok r) :
    StallKept s r := by
  cases hp : s.mPaused with
  | false =>
    unfold onResume at h
    rw [hp] at h
    cases h
    exact stallKept_refl _
  | true =>
    rw [onResume_eq env s hp] at h
    have h0 : StallKept s (resumedState env s) := by
      unfold resumedState
      dsimp only
      have key : ∀ X : Renderer, StallKept s X →
          StallKept s (if X.mIsLiveStream then signalRefreshAnchorRealTime env X false else X) := by
        intro X hX
        split
        · exact stallKept_trans hX (signalRefresh_stall env X false)
        · exact hX
      exact key { (if s.mHasAudio && !s.mDelayPending then emit s .sinkStart else s) with
        mPaused := false } (by split <;> exact stallKept_of_eq rfl rfl)
    have key : ∀ X : Renderer, StallKept s X →
        (if (!X.mVideoQueue.isEmpty) = true then postDrainVideoQueue env X else .ok X) = .ok r →
        StallKept s r := by
      intro X hX h
      split at h
      · exact stallKept_trans hX (postDrainVideoQueue_stall h)
      · cases h; exact hX
    refine key _ ?_ h
    split
    · exact stallKept_trans h0 (postDrainAudioQueue_stall _ _)
    · exact h0

theorem onMessageReceived_stall {env : Env} {s r : Renderer} {msg : Msg}
    (hm : isDelayQueued msg = false) (h : onMessageReceived env s msg = .ok r) :
    StallKept s r := by
  cases msg with
  | drainAudioQueue generation =>
    unfold onMessageReceived at h
    dsimp only at h
    have h0 : StallKept s { s with mDrainAudioQueuePending := false } := stallKept_of_eq rfl rfl
    split at h
    · cases h; exact h0
    · obtain ⟨⟨postAudio, s2⟩, h2, h3⟩ := Result.bind_eq_ok h
      have h4 := onDrainAudioQueue_stall h2
      dsimp only at h3
      obtain ⟨s3, h5, h6⟩ := Result.bind_eq_ok h3
      have h7 : StallKept s2 s3 := by
        split at h5
        · have h8 := postDrainVideoQueue_stall h5
          exact ⟨h8.flag, h8.msgs⟩
        · cases h5; exact stallKept_refl _
      have h9 : StallKept s s3 := ⟨h7.flag.trans (h4.flag.trans h0.flag),
        h7.msgs.trans (h4.msgs.trans h0.msgs)⟩
      split at h6
      · split at h6
        · cases h6
        · cases h6
          exact stallKept_trans h9 (postDrainAudioQueue_stall _ _)
      · cases h6; exact h9
  | drainVideoQueue generation =>
    unfold onMessageReceived at h
    dsimp only at h
    have h0 : StallKept s { s with mDrainVideoQueuePending := false } := stallKept_of_eq rfl rfl
    split at h
    · cases h; exact h0
    · obtain ⟨s2, h2, h3⟩ := Result.bind_eq_ok h
      have h4 := onDrainVideoQueue_stall h2
      have h5 := postDrainVideoQueue_stall h3
      exact ⟨h5.flag.trans (h4.flag.trans h0.flag), h5.msgs.trans (h4.msgs.trans h0.msgs)⟩
  | queueBuffer audio buffer cb => exact onQueueBuffer_stall h
  | queueEOS audio finalResult => exact onQueueEOS_stall h
  | flush audio => exact onFlush_stall h
  | audioSinkChanged =>
    have h1 : onAudioSinkChanged env s = .ok r := h
    unfold onAudioSinkChanged at h1
    split at h1
    · cases h1
    · cases h1
      dsimp only
      split <;> exact stallKept_of_eq rfl rfl
  | pause =>
    have h1 : onPause s = .ok r := h
    unfold onPause at h1
    split at h1
    · cases h1
    · cases h1
      dsimp only
      split <;> exact stallKept_of_eq rfl rfl
  | resume => exact onResume_stall h
  | delayQueued => cases hm

theorem countP_eraseIdx_add {α : Type} (p : α → Bool) : ∀ (l : List α) (i : Nat) (x : α),
    l[i]? = some x → (l.eraseIdx i).countP p + (if p x then 1 else 0) = l.countP p := by
  intro l
  induction l with
  | nil => intro i x h; simp at h
  | cons a l ih =>
    intro i x h
    cases i with
    | zero =>
      simp only [List.getElem?_cons_zero, Option.some.injEq] at h
      subst h
      simp only [List.eraseIdx_cons_zero, List.countP_cons]
    | succ j =>
      simp only [List.getElem?_cons_succ] at h
      have := ih j x h
      simp only [List.eraseIdx_cons_succ, List.countP_cons]
      omega

theorem stallKept_inv {s r : Renderer} (h : StallKept s r) (hi : DelayInv s) : DelayInv r := by
  unfold DelayInv at hi ⊢
  rw [h.flag, h.msgs]
  exact hi

theorem queueDelay_inv (env : Env) (s : Renderer) (d : Int) (hi : DelayInv s) :
    DelayInv (queueDelay env s d) := by
  cases hp : s.mDelayPending with
  | true =>
    rw [queueDelay_pending env s d hp]
    exact stallKept_inv (stallKept_of_eq rfl rfl) hi
  | false =>
    unfold DelayInv at hi ⊢
    rw [hp] at hi
    simp only [Bool.false_eq_true, if_false] at hi
    unfold queueDelay
    rw [hp]
    simp only [Bool.false_eq_true, if_false, if_true]
    have key : ∀ X : Renderer, delayMessages X = 0 →
        delayMessages { post X .delayQueued d with mDelayPending := true, mDelayToQueueUs := 0 }
          = 1 := by
      intro X hX
      unfold delayMessages at hX ⊢
      show List.countP _ (X.mailbox ++ [(Msg.delayQueued, d)]) = 1
      rw [List.countP_append, hX]
      rfl
    refine key _ ?_
    split
    · exact hi
    · exact hi

theorem onDelayQueued_inv {env : Env} {s r : Renderer} (hz : delayMessages s = 0)
    (h : onDelayQueued env s = .ok r) : DelayInv r := by
  have h1 : DelayInv { s with mDelayPending := false } := hz
  unfold onDelayQueued at h
  dsimp only at h
  split at h
  · cases h
    exact queueDelay_inv env _ _ h1
  · have key : ∀ X : Renderer, DelayInv X →
        postDrainVideoQueue env (postDrainAudioQueue X 0) = .ok r → DelayInv r := by
      intro X hX h
      exact stallKept_inv (postDrainVideoQueue_stall h)
        (stallKept_inv (postDrainAudioQueue_stall X 0) hX)
    refine key _ ?_ h
    split
    · exact h1
    · exact h1

theorem step_delayInv {env : Env} {s r : Renderer} {a : Action} (hi : DelayInv s)
    (h : step env s a = .ok r) : DelayInv r := by
  cases a with
  | queueBuffer audio buffer cb =>
    cases h
    exact stallKept_inv (stallKept_post s _ 0 rfl) hi
  | queueEOS audio finalResult =>
    have h1 : queueEOS env s audio finalResult = .ok r := h
    unfold queueEOS at h1
    split at h1
    · cases h1
    · obtain ⟨s1, h2, h3⟩ := Result.bind_eq_ok h1
      cases h3
      have h4 : StallKept s s1 := by
        split at h2
        · exact syncQueuesDone_stall h2
        · cases h2; exact stallKept_refl _
      exact stallKept_inv (stallKept_trans h4 (stallKept_post s1 _ 0 rfl)) hi
  | queueDelay d =>
    cases h
    exact queueDelay_inv env s d hi
  | flush audio =>
    have h1 : flush s audio = .ok r := h
    unfold flush at h1
    split at h1
    · split at h1
      · cases h1
      · cases h1
        exact stallKept_inv (stallKept_trans (stallKept_of_eq rfl rfl)
          (stallKept_post { s with mFlushingAudio := true } _ 0 rfl)) hi
    · split at h1
      · cases h1
      · cases h1
        exact stallKept_inv (stallKept_trans (stallKept_of_eq rfl rfl)
          (stallKept_post { s with mFlushingVideo := true } _ 0 rfl)) hi
  | signalTimeDiscontinuity =>
    have h1 : signalTimeDiscontinuity s = .ok r := h
    unfold signalTimeDiscontinuity at h1
    split at h1
    · cases h1
    · split at h1
      · cases h1
      · cases h1
        exact stallKept_inv (stallKept_of_eq rfl rfl) hi
  | pause =>
    cases h
    exact stallKept_inv (stallKept_post s _ 0 rfl) hi
  | resume =>
    cases h
    exact stallKept_inv (stallKept_post s _ 0 rfl) hi
  | signalRefreshAnchorRealTime b =>
    cases h
    exact stallKept_inv (signalRefresh_stall env s b) hi
  | signalAudioSinkChanged =>
    cases h
    exact stallKept_inv (stallKept_post s _ 0 rfl) hi
  | notifySeekPosition seekTime =>
    cases h
    exact stallKept_inv (stallKept_of_eq rfl rfl) hi
  | setMediaPresence audio bValue =>
    cases h
    unfold setMediaPresence
    split <;> exact stallKept_inv (stallKept_of_eq rfl rfl) hi
  | setLiveStream b =>
    cases h
    exact stallKept_inv (stallKept_of_eq rfl rfl) hi
  | deliver i =>
    have h1 : (match s.mailbox[i]? with
      | none => Result.fail Fault.noMessage
      | some (msg, _) =>
        onMessageReceived env { s with mailbox := s.mailbox.eraseIdx i } msg) = .ok r := h
    cases hm : s.mailbox[i]? with
    | none => rw [hm] at h1; cases h1
    | some md =>
      obtain ⟨msg, d⟩ := md
      rw [hm] at h1
      dsimp only at h1
      have hc := countP_eraseIdx_add (fun m : Msg × Int => isDelayQueued m.1) s.mailbox i _ hm
      dsimp only at hc
      cases hd : isDelayQueued msg with
      | false =>
        rw [hd] at hc
        simp only [Bool.false_eq_true, if_false, add_zero] at hc
        have h0 : StallKept s { s with mailbox := s.mailbox.eraseIdx i } := ⟨rfl, hc⟩
        exact stallKept_inv (stallKept_trans h0 (onMessageReceived_stall hd h1)) hi
      | true =>
        rw [hd] at hc
        simp only [if_true] at hc
        have hmsg : msg = .delayQueued := by
          cases msg <;> first | rfl | cases hd
        subst hmsg
        have hz : delayMessages { s with mailbox := s.mailbox.eraseIdx i } = 0 := by
          unfold DelayInv delayMessages at hi
          unfold delayMessages
          show List.countP _ (s.mailbox.eraseIdx i) = 0
          split at hi <;> omega
        exact onDelayQueued_inv hz h1

theorem run_delayInv : ∀ (acts : List (Env × Action)) (s r : Renderer),
    DelayInv s → run s acts = .ok r → DelayInv r := by
  intro acts
  induction acts with
  | nil =>
    intro s r hi h
    cases h
    exact hi
  | cons ea rest ih =>
    intro s r hi h
    obtain ⟨env, a⟩ := ea
    unfold run at h
    obtain ⟨s1, h1, h2⟩ := Result.bind_eq_ok h
    exact ih s1 r (step_delayInv hi h1) h2

theorem reachable_delayInv {s : Renderer} (h : Reachable s) : DelayInv s := by
  obtain ⟨msec, u1, u2, acts, hr⟩ := h
  have h0 : DelayInv (Renderer.new msec u1 u2) := by
    unfold DelayInv delayMessages
    rfl
  exact run_delayInv acts _ s h0 hr

/-- C25: a call of `queueDelay` made while a stall is pending posts no message
and changes nothing but the cached duration and request time, and of two such
calls the later one overwrites what the earlier one cached; in every reachable
state at most one stall-expiry message waits in the mailbox, and the
stall-pending flag is set exactly when one does. -/
theorem C25_queueDelay_never_stacks (env1 env2 : Env) (s : Renderer) (d1 d2 : Int) :
    (s.mDelayPending = true →
      queueDelay env1 s d1 =
        { s with mDelayToQueueUs := d1, mDelayToQueueTimeRealUs := env1.nowUs } ∧
      queueDelay env2 (queueDelay env1 s d1) d2 =
        { s with mDelayToQueueUs := d2, mDelayToQueueTimeRealUs := env2.nowUs }) ∧
    (Reachable s →
      delayMessages s ≤ 1 ∧ (s.mDelayPending = true ↔ delayMessages s = 1)) := by
  constructor
  · intro hp
    have h1 := queueDelay_pending env1 s d1 hp
    refine ⟨h1, ?_⟩
    rw [h1]
    exact queueDelay_pending env2 _ d2 hp
  · intro hr
    have hi := reachable_delayInv hr
    unfold DelayInv at hi
    cases hp : s.mDelayPending with
    | false =>
      rw [hp] at hi
      simp only [Bool.false_eq_true, if_false] at hi
      rw [hi]
      simp
    | true =>
      rw [hp] at hi
      simp only [if_true] at hi
      rw [hi]
      simp

theorem C25_queueDelay_never_stacks_witness :
    sampleStalled.mDelayPending = true ∧ Reachable sampleStalled ∧
      (queueDelay sampleEnv sampleStalled 300 =
        { sampleStalled with mDelayToQueueUs := 300, mDelayToQueueTimeRealUs := sampleEnv.nowUs } ∧
      queueDelay sampleEnvPlayed (queueDelay sampleEnv sampleStalled 300) 700 =
        { sampleStalled with
          mDelayToQueueUs := 700, mDelayToQueueTimeRealUs := sampleEnvPlayed.nowUs }) ∧
      delayMessages sampleStalled ≤ 1 ∧
      (sampleStalled.mDelayPending = true ↔ delayMessages sampleStalled = 1) := by
  have hr : Reachable sampleStalled := ⟨none, 0, 0, [(sampleEnv, .queueDelay 5000)], rfl⟩
  exact ⟨rfl, hr,
    (C25_queueDelay_never_stacks sampleEnv sampleEnvPlayed sampleStalled 300 700).1 rfl,
    (C25_queueDelay_never_stacks sampleEnv sampleEnvPlayed sampleStalled 300 700).2 hr⟩

/-! ## The anchor of a video-only stream (C21) -/

theorem anchorHeld_refl (s : Renderer) : AnchorHeld s s := ⟨rfl, rfl, rfl, rfl⟩

theorem anchorHeld_trans {s s1 s2 : Renderer} (h1 : AnchorHeld s s1) (h2 : AnchorHeld s1 s2) :
    AnchorHeld s s2 :=
  ⟨h2.media.trans h1.media, h2.real.trans h1.real, h2.wasPaused.trans h1.wasPaused,
    h2.hasAudio.trans h1.hasAudio⟩

theorem anchorHeld_anchorPair {s s1 : Renderer} (h : AnchorHeld s s1) :
    anchorPair s1 = anchorPair s := by
  unfold anchorPair
  rw [h.media, h.real]

theorem anchorHeld_anchored {s s1 : Renderer} (h : AnchorHeld s s1) (hv : videoAnchored s) :
    videoAnchored s1 := by
  unfold videoAnchored anchorValid at hv ⊢
  rw [h.media, h.real, h.wasPaused, h.hasAudio]
  exact hv

theorem postDrainVideoQueue_held {env : Env} {s r : Renderer}
    (h : postDrainVideoQueue env s = .ok r) (hv : videoAnchored s) : AnchorHeld s r := by
  have h1 := postDrainVideoQueue_clock h hv.1 hv.2.1
  exact ⟨h1.media, h1.real, h1.wasPaused, (postDrainVideoQueue_anchor h).2.2.2.1⟩

theorem postDrainAudioQueue_held (s : Renderer) (d : Int) :
    AnchorHeld s (postDrainAudioQueue s d) := by
  have h1 := postDrainAudioQueue_clock s d
  exact ⟨h1.media, h1.real, h1.wasPaused,
    congrArg Settings.hasAudio (postDrainAudioQueue_stable s d).settings⟩

theorem syncQueuesDone_held {env : Env} {s r : Renderer}
    (h : syncQueuesDone env s = .ok r) (hv : videoAnchored s) : AnchorHeld s r := by
  unfold syncQueuesDone at h
  split at h
  · cases h; exact anchorHeld_refl _
  · have h0 : AnchorHeld s { s with mSyncQueues := false } := ⟨rfl, rfl, rfl, rfl⟩
    have key : ∀ s2 : Renderer, AnchorHeld s s2 →
        (if (!s2.mVideoQueue.isEmpty) = true then postDrainVideoQueue env s2 else .ok s2)
          = .ok r → AnchorHeld s r := by
      intro s2 h2 h
      split at h
      · exact anchorHeld_trans h2 (postDrainVideoQueue_held h (anchorHeld_anchored h2 hv))
      · cases h; exact h2
    refine key _ ?_ h
    split
    · have h1 := postDrainAudioQueue_held { s with mSyncQueues := false } 0
      exact ⟨h1.media, h1.real, h1.wasPaused, h1.hasAudio⟩
    · exact h0

theorem measureStartUpLatency_held (env : Env) (s : Renderer) :
    AnchorHeld s (measureStartUpLatency env s) := by
  unfold measureStartUpLatency
  split
  · exact ⟨rfl, rfl, rfl, rfl⟩
  · exact anchorHeld_refl s

theorem notifyPosition_held (env : Env) (s : Renderer) (b : Bool) :
    AnchorHeld s (notifyPosition env s b) := by
  unfold notifyPosition
  split
  · exact anchorHeld_refl s
  · split
    · exact anchorHeld_refl s
    · exact ⟨rfl, rfl, rfl, rfl⟩

theorem postConsumed_held {s s1 : Renderer} {audio : Bool} {e : QueueEntry} {r : Option Int}
    (h : postConsumed s audio e r = .ok s1) : AnchorHeld s s1 := by
  obtain ⟨cb, _, h1⟩ := postConsumed_out h
  subst h1
  exact ⟨rfl, rfl, rfl, rfl⟩

/-- With nothing but EOS markers in the audio queue the audio drain keeps the
anchor. -/
theorem onDrainAudioQueue_markers {env : Env} {s : Renderer} {r : Bool × Renderer}
    (h : onDrainAudioQueue env s = .ok r) (hq : ∀ e ∈ s.mAudioQueue, e.mBuffer = none) :
    AnchorHeld s r.2 := by
  unfold onDrainAudioQueue at h
  split at h
  · cases h; exact anchorHeld_refl _
  · refine anchorHeld_trans (measureStartUpLatency_held env s) ?_
    have hq1 : ∀ e ∈ (measureStartUpLatency env s).mAudioQueue, e.mBuffer = none := by
      rw [(measureStartUpLatency_fields env s).2.1]
      exact hq
    generalize measureStartUpLatency env s = X at h hq1
    have hloop : ∀ (fuel n : Nat) (r : Bool × Renderer), audioLoop env fuel n X = .ok r →
        AnchorHeld X r.2 := by
      intro fuel n r h
      cases fuel with
      | zero =>
        unfold audioLoop at h
        split at h
        · cases h
        · cases h
          exact notifyPosition_held env X false
      | succ k =>
        unfold audioLoop at h
        split at h
        · unfold audioBody at h
          cases hx : X.mAudioQueue with
          | nil => rw [hx] at h; cases h
          | cons e rest =>
            rw [hx] at h
            have he : e.mBuffer = none := hq1 e (by rw [hx]; simp)
            simp only [he] at h
            cases h
            exact ⟨rfl, rfl, rfl, rfl⟩
        · cases h
          exact notifyPosition_held env X false
    have hsink : ∀ r : Bool × Renderer, drainAudioSink env X = .ok r → AnchorHeld X r.2 := by
      intro r h
      unfold drainAudioSink at h
      split at h
      · cases h; exact anchorHeld_refl _
      · exact hloop _ _ r h
    unfold drainAudioFirst at h
    split at h
    · exact hsink r h
    · split at h
      · cases h
        exact ⟨rfl, rfl, rfl, rfl⟩
      · exact hsink r h

theorem videoRenderDecision_flags (env : Env) (s : Renderer) (t : Int) :
    (videoRenderDecision env s t).2.mWasPaused = s.mWasPaused ∧
    (videoRenderDecision env s t).2.mHasAudio = s.mHasAudio := by
  unfold videoRenderDecision
  dsimp only
  split <;> split <;> exact ⟨rfl, rfl⟩

theorem drainVideoHead_held {env : Env} {s r : Renderer} (h : drainVideoHead env s = .ok r)
    (hl : ∀ t, videoHeadTimeUs s = some t →
      env.nowUs - realTimeOf s t ≤ s.mAVSyncDelayWindowUs) :
    AnchorHeld s r := by
  unfold drainVideoHead at h
  cases hv : s.mVideoQueue with
  | nil => rw [hv] at h; cases h; exact anchorHeld_refl _
  | cons entry rest =>
    rw [hv] at h
    have hh := videoHeadTimeUs_cons s entry rest hv
    dsimp only at h
    cases hb : entry.mBuffer with
    | none =>
      rw [hb] at h
      cases h
      have h1 := notifyPosition_held env s true
      exact ⟨h1.media, h1.real, h1.wasPaused, h1.hasAudio⟩
    | some buffer =>
      rw [hb] at h hh
      dsimp only at h
      cases ht : buffer.timeUs with
      | none => rw [ht] at h; cases h
      | some t =>
        rw [ht] at h
        dsimp only at h
        have hlate := hl t (by rw [hh]; simpa using ht)
        have hd : AnchorHeld s (videoRenderDecision env s t).2 := by
          obtain ⟨h1, h2⟩ := ((videoRenderDecision_spec env s t).2.1) (Or.inr hlate)
          obtain ⟨h3, h4⟩ := videoRenderDecision_flags env s t
          exact ⟨h1, h2, h3, h4⟩
        generalize videoRenderDecision env s t = d at h hd
        obtain ⟨tooLate, s5⟩ := d
        dsimp only at h
        obtain ⟨s6, h6, h7⟩ := Result.bind_eq_ok h
        cases h7
        have h8 := postConsumed_held h6
        have key : ∀ Y : Renderer, AnchorHeld s6 Y → AnchorHeld s (notifyPosition env Y false) :=
          fun Y hY => anchorHeld_trans (anchorHeld_trans (anchorHeld_trans hd h8) hY)
            (notifyPosition_held env Y false)
        exact key _ ⟨rfl, rfl, rfl, rfl⟩

theorem onDrainVideoQueue_held {env : Env} {s r : Renderer} (h : onDrainVideoQueue env s = .ok r)
    (hl : s.mDelayPending = false → ∀ t, videoHeadTimeUs s = some t →
      env.nowUs - realTimeOf s t ≤ s.mAVSyncDelayWindowUs) :
    AnchorHeld s r := by
  unfold onDrainVideoQueue at h
  split at h
  · cases h; exact anchorHeld_refl _
  · rename_i hd
    have hd1 : s.mDelayPending = false := by simpa using hd
    obtain ⟨m1, _, _, m4, m5, _, m7⟩ := measureStartUpLatency_fields env s
    refine anchorHeld_trans (measureStartUpLatency_held env s) (drainVideoHead_held h ?_)
    intro t ht
    have e1 : videoHeadTimeUs (measureStartUpLatency env s) = videoHeadTimeUs s := by
      unfold videoHeadTimeUs; rw [m1]
    have e2 : realTimeOf (measureStartUpLatency env s) t = realTimeOf s t := by
      unfold realTimeOf; rw [m4, m5]
    rw [e2, m7]
    exact hl hd1 t (by rw [← e1]; exact ht)

theorem onFlush_held {env : Env} {s r : Renderer} {audio : Bool}
    (h : onFlush env s audio = .ok r) (hv : videoAnchored s) : AnchorHeld s r := by
  unfold onFlush at h
  obtain ⟨s2, h2, h3⟩ := Result.bind_eq_ok h
  refine anchorHeld_trans (syncQueuesDone_held h2 hv) ?_
  split at h3
  · obtain ⟨s3, h4, h5⟩ := Result.bind_eq_ok h3
    cases h5
    obtain ⟨heq, _⟩ := flushLoop_eq true _ rfl h4
    subst heq
    exact ⟨rfl, rfl, rfl, rfl⟩
  · obtain ⟨s3, h4, h5⟩ := Result.bind_eq_ok h3
    cases h5
    obtain ⟨heq, _⟩ := flushLoop_eq false _ rfl h4
    subst heq
    exact ⟨rfl, rfl, rfl, rfl⟩

theorem syncQueuesStep_held {env : Env} {s r : Renderer}
    (h : syncQueuesStep env s = .ok r) (hv : videoAnchored s) : AnchorHeld s r := by
  unfold syncQueuesStep at h
  split at h
  · cases h; exact anchorHeld_refl _
  · split at h
    · split at h
      · split at h
        · dsimp only at h
          split at h
          · obtain ⟨s1, h1, h2⟩ := Result.bind_eq_ok h
            cases h2
            have := postConsumed_held h1
            exact ⟨this.media, this.real, this.wasPaused, this.hasAudio⟩
          · exact syncQueuesDone_held h hv
        · cases h
      · exact syncQueuesDone_held h hv
    · cases h; exact anchorHeld_refl _

theorem onQueueBuffer_video_held {env : Env} {s r : Renderer} {buffer : ABuffer} {cb : Nat}
    (h : onQueueBuffer env s false buffer cb = .ok r) (hv : videoAnchored s) :
    AnchorHeld s r := by
  unfold onQueueBuffer at h
  rw [dropBufferWhileFlushing_eq] at h
  have hm : AnchorHeld s (markPresent s false) := ⟨rfl, rfl, rfl, rfl⟩
  cases hf : flushingFlag false (markPresent s false)
  · rw [hf] at h
    simp only [Bool.false_eq_true, if_false] at h
    have hb : AnchorHeld (markPresent s false)
        (beginStartUpLatency env (markPresent s false)) := by
      unfold beginStartUpLatency
      split
      · exact ⟨rfl, rfl, rfl, rfl⟩
      · exact anchorHeld_refl _
    have h0 := anchorHeld_trans hm hb
    refine anchorHeld_trans h0 ?_
    have hv0 := anchorHeld_anchored h0 hv
    generalize beginStartUpLatency env (markPresent s false) = X at h hv0
    unfold enqueueBuffer at h
    simp only [Bool.false_eq_true, if_false] at h
    have hna : X.mHasAudio = false := hv0.2.2
    split at h
    · rename_i hc
      exfalso
      simp [hna] at hc
    · obtain ⟨s4, h4, h5⟩ := Result.bind_eq_ok h
      have hX : AnchorHeld X
          { X with mVideoQueue := X.mVideoQueue ++ [bufferEntry buffer cb] } :=
        ⟨rfl, rfl, rfl, rfl⟩
      have h6 := postDrainVideoQueue_held h4 (anchorHeld_anchored hX hv0)
      have h7 := syncQueuesStep_held h5 (anchorHeld_anchored h6 (anchorHeld_anchored hX hv0))
      exact anchorHeld_trans (anchorHeld_trans hX h6) h7
  · rw [hf] at h
    simp only [if_true] at h
    cases h
    exact ⟨rfl, rfl, rfl, rfl⟩

theorem onQueueEOS_held {env : Env} {s r : Renderer} {audio : Bool} {finalResult : Int}
    (h : onQueueEOS env s audio finalResult = .ok r) (hv : videoAnchored s) :
    AnchorHeld s r := by
  unfold onQueueEOS at h
  rw [dropBufferWhileFlushing_eq] at h
  cases hf : flushingFlag audio s
  · rw [hf] at h
    simp only [Bool.false_eq_true, if_false] at h
    split at h
    · cases h
      have h1 := postDrainAudioQueue_held
        { s with mAudioQueue := s.mAudioQueue ++ [eosEntry finalResult] } 0
      exact ⟨h1.media, h1.real, h1.wasPaused, h1.hasAudio⟩
    · have hX : AnchorHeld s { s with mVideoQueue := s.mVideoQueue ++ [eosEntry finalResult] } :=
        ⟨rfl, rfl, rfl, rfl⟩
      exact anchorHeld_trans hX (postDrainVideoQueue_held h (anchorHeld_anchored hX hv))
  · rw [hf] at h
    simp only [if_true] at h
    cases h
    exact anchorHeld_refl _

theorem onResume_held {env : Env} {s r : Renderer} (h : onResume env s = .ok r)
    (hv : videoAnchored s) (hl : (s.mPaused && s.mIsLiveStream) = false) :
    AnchorHeld s r := by
  cases hp : s.mPaused with
  | false =>
    unfold onResume at h
    rw [hp] at h
    cases h
    exact anchorHeld_refl _
  | true =>
    rw [hp] at hl
    have hlive : s.mIsLiveStream = false := by simpa using hl
    rw [onResume_eq env s hp] at h
    have h0 : AnchorHeld s (resumedState env s) := by
      unfold resumedState
      dsimp only
      have key : ∀ X : Renderer, AnchorHeld s X → X.mIsLiveStream = false →
          AnchorHeld s (if X.mIsLiveStream then signalRefreshAnchorRealTime env X false
            else X) := by
        intro X hX hf
        rw [hf]
        exact hX
      exact key { (if s.mHasAudio && !s.mDelayPending then emit s .sinkStart else s) with
        mPaused := false } (by split <;> exact ⟨rfl, rfl, rfl, rfl⟩) (by split <;> exact hlive)
    have key : ∀ X : Renderer, AnchorHeld s X →
        (if (!X.mVideoQueue.isEmpty) = true then postDrainVideoQueue env X else .ok X) = .ok r →
        AnchorHeld s r := by
      intro X hX h
      split at h
      · exact anchorHeld_trans hX (postDrainVideoQueue_held h (anchorHeld_anchored hX hv))
      · cases h; exact hX
    refine key _ ?_ h
    split
    · exact anchorHeld_trans h0 (postDrainAudioQueue_held _ _)
    · exact h0

theorem queueDelay_held (env : Env) (s : Renderer) (d : Int) :
    AnchorHeld s (queueDelay env s d) := by
  unfold queueDelay
  split
  · exact ⟨rfl, rfl, rfl, rfl⟩
  · dsimp only
    split <;> exact ⟨rfl, rfl, rfl, rfl⟩

theorem onDelayQueued_held {env : Env} {s r : Renderer} (h : onDelayQueued env s = .ok r)
    (hv : videoAnchored s) : AnchorHeld s r := by
  have h1 : AnchorHeld s { s with mDelayPending := false } := ⟨rfl, rfl, rfl, rfl⟩
  unfold onDelayQueued at h
  dsimp only at h
  split at h
  · cases h
    exact anchorHeld_trans h1 (queueDelay_held env _ _)
  · have key : ∀ X : Renderer, AnchorHeld s X →
        postDrainVideoQueue env (postDrainAudioQueue X 0) = .ok r → AnchorHeld s r := by
      intro X hX h
      have h2 := anchorHeld_trans hX (postDrainAudioQueue_held X 0)
      exact anchorHeld_trans h2 (postDrainVideoQueue_held h (anchorHeld_anchored h2 hv))
    refine key _ ?_ h
    split
    · exact ⟨rfl, rfl, rfl, rfl⟩
    · exact h1

theorem onMessageReceived_anchor {env : Env} {s r : Renderer} {msg : Msg}
    (h : onMessageReceived env s msg = .ok r) (hv : videoAnchored s)
    (hq : ∀ e ∈ s.mAudioQueue, e.mBuffer = none)
    (ha : ∀ b cb, msg ≠ .queueBuffer true b cb)
    (hr : msg = .resume → (s.mPaused && s.mIsLiveStream) = false)
    (hl : ∀ g, msg = .drainVideoQueue g → g = s.mVideoQueueGeneration →
      s.mDelayPending = false → ∀ t, videoHeadTimeUs s = some t →
        env.nowUs - realTimeOf s t ≤ s.mAVSyncDelayWindowUs) :
    anchorPair r = anchorPair s := by
  cases msg with
  | drainAudioQueue generation =>
    unfold onMessageReceived at h
    dsimp only at h
    have h0 : AnchorHeld s { s with mDrainAudioQueuePending := false } := ⟨rfl, rfl, rfl, rfl⟩
    split at h
    · cases h; rfl
    · obtain ⟨⟨postAudio, s2⟩, h2, h3⟩ := Result.bind_eq_ok h
      have h4 := onDrainAudioQueue_markers h2 hq
      dsimp only at h3 h4
      obtain ⟨s3, h5, h6⟩ := Result.bind_eq_ok h3
      have h04 : AnchorHeld s s2 := ⟨h4.media, h4.real, h4.wasPaused, h4.hasAudio⟩
      have h7 : AnchorHeld s s3 := by
        split at h5
        · have hX : AnchorHeld s2 { s2 with mDrainVideoQueuePendingUntilFirstAudio := false } :=
            ⟨rfl, rfl, rfl, rfl⟩
          have h8 := postDrainVideoQueue_held h5
            (anchorHeld_anchored (anchorHeld_trans h04 hX) hv)
          exact anchorHeld_trans h04 (anchorHeld_trans hX h8)
        · cases h5; exact h04
      split at h6
      · split at h6
        · cases h6
        · cases h6
          exact anchorHeld_anchorPair (anchorHeld_trans h7 (postDrainAudioQueue_held _ _))
      · cases h6; exact anchorHeld_anchorPair h7
  | drainVideoQueue generation =>
    unfold onMessageReceived at h
    dsimp only at h
    have h0 : AnchorHeld s { s with mDrainVideoQueuePending := false } := ⟨rfl, rfl, rfl, rfl⟩
    split at h
    · cases h; rfl
    · rename_i hg
      have hg1 : generation = s.mVideoQueueGeneration := by
        by_contra hne
        exact hg hne
      obtain ⟨s2, h2, h3⟩ := Result.bind_eq_ok h
      have h4 := onDrainVideoQueue_held h2 (hl generation rfl hg1)
      have h04 : AnchorHeld s s2 := ⟨h4.media, h4.real, h4.wasPaused, h4.hasAudio⟩
      have h5 := postDrainVideoQueue_held h3 (anchorHeld_anchored h04 hv)
      exact anchorHeld_anchorPair (anchorHeld_trans h04 h5)
  | queueBuffer audio buffer cb =>
    cases audio with
    | true => exact absurd rfl (ha buffer cb)
    | false => exact anchorHeld_anchorPair (onQueueBuffer_video_held h hv)
  | queueEOS audio finalResult => exact anchorHeld_anchorPair (onQueueEOS_held h hv)
  | flush audio => exact anchorHeld_anchorPair (onFlush_held h hv)
  | audioSinkChanged =>
    have h1 : onAudioSinkChanged env s = .ok r := h
    unfold onAudioSinkChanged at h1
    split at h1
    · cases h1
    · cases h1
      dsimp only
      split <;> rfl
  | pause =>
    have h1 : onPause s = .ok r := h
    unfold onPause at h1
    split at h1
    · cases h1
    · cases h1
      dsimp only
      split <;> rfl
  | resume => exact anchorHeld_anchorPair (onResume_held h hv (hr rfl))
  | delayQueued => exact anchorHeld_anchorPair (onDelayQueued_held h hv)

theorem step_anchor {env : Env} {s r : Renderer} {a : Action}
    (h : step env s a = .ok r) (hv : videoAnchored s)
    (hq : ∀ e ∈ s.mAudioQueue, e.mBuffer = none) (hd : isDiscontinuity a = false)
    (ha : setsAudioPresence s a = false) (hr : refreshesAnchor s a = false)
    (hl : lateFrameReset env s a = false) :
    anchorPair r = anchorPair s := by
  cases a with
  | queueBuffer audio buffer cb => cases h; rfl
  | queueEOS audio finalResult =>
    have h1 : queueEOS env s audio finalResult = .ok r := h
    unfold queueEOS at h1
    split at h1
    · cases h1
    · obtain ⟨s1, h2, h3⟩ := Result.bind_eq_ok h1
      cases h3
      have h4 : AnchorHeld s s1 := by
        split at h2
        · exact syncQueuesDone_held h2 hv
        · cases h2; exact anchorHeld_refl _
      exact anchorHeld_anchorPair (anchorHeld_trans h4 ⟨rfl, rfl, rfl, rfl⟩)
  | queueDelay d =>
    cases h
    exact anchorHeld_anchorPair (queueDelay_held env s d)
  | flush audio =>
    have h1 : flush s audio = .ok r := h
    unfold flush at h1
    split at h1
    · split at h1
      · cases h1
      · cases h1; rfl
    · split at h1
      · cases h1
      · cases h1; rfl
  | signalTimeDiscontinuity => cases hd
  | pause => cases h; rfl
  | resume => cases h; rfl
  | signalRefreshAnchorRealTime b => cases hr
  | signalAudioSinkChanged => cases h; rfl
  | notifySeekPosition seekTime => cases h; rfl
  | setMediaPresence audio bValue =>
    cases h
    unfold setMediaPresence
    split <;> rfl
  | setLiveStream b => cases h; rfl
  | deliver i =>
    have h1 : (match s.mailbox[i]? with
      | none => Result.fail Fault.noMessage
      | some (msg, _) =>
        onMessageReceived env { s with mailbox := s.mailbox.eraseIdx i } msg) = .ok r := h
    cases hm : s.mailbox[i]? with
    | none => rw [hm] at h1; cases h1
    | some md =>
      obtain ⟨msg, d⟩ := md
      rw [hm] at h1
      dsimp only at h1
      simp only [setsAudioPresence, hm] at ha
      simp only [refreshesAnchor, hm] at hr
      simp only [lateFrameReset, hm] at hl
      have hv1 : videoAnchored { s with mailbox := s.mailbox.eraseIdx i } := hv
      refine (onMessageReceived_anchor h1 hv1 hq ?_ ?_ ?_).trans rfl
      · intro b cb hmsg
        subst hmsg
        simp at ha
      · intro hmsg
        subst hmsg
        simpa using hr
      · intro g hmsg hg hdp t ht
        subst hmsg
        have ht1 : videoHeadTimeUs s = some t := ht
        have hdp1 : s.mDelayPending = false := hdp
        have hg1 : g = s.mVideoQueueGeneration := hg
        simp only [hg1, decide_True, hdp1, Bool.not_false, Bool.and_self, Bool.true_and, ht1,
          decide_eq_false_iff_not, not_lt] at hl
        exact hl

theorem offsetsOK_popA {w : Nat} {e : QueueEntry} {rest vq : List QueueEntry}
    {written : List Nat} (written1 : List Nat) (h : OffsetsOK w (e :: rest) vq written) :
    OffsetsOK w rest vq written1 := by
  obtain ⟨h1, h2, _, h4⟩ := h
  refine ⟨h1, ?_, ?_, ?_⟩
  · intro x hx
    exact h2 x (List.mem_of_mem_tail hx)
  · intro x hx
    have hm : x ∈ rest := List.mem_of_mem_head? hx
    have h0 : x.mOffset = 0 := h2 x hm
    rw [h0]
    exact ⟨Nat.zero_le _, by simp⟩
  · intro x hx
    exact h4 x (List.mem_cons_of_mem e hx)

theorem offsetsOK_subV {w : Nat} {aq vq vq1 : List QueueEntry} {written : List Nat}
    (hs : ∀ e ∈ vq1, e ∈ vq) (h : OffsetsOK w aq vq written) : OffsetsOK w aq vq1 written :=
  ⟨fun e he => h.1 e (hs e he), h.2.1, h.2.2.1, h.2.2.2⟩

theorem offsetsOK_pushV {w : Nat} {aq vq : List QueueEntry} {written : List Nat}
    (e : QueueEntry) (he : e.mOffset = 0) (h : OffsetsOK w aq vq written) :
    OffsetsOK w aq (vq ++ [e]) written := by
  refine ⟨?_, h.2.1, h.2.2.1, h.2.2.2⟩
  intro x hx
  rcases List.mem_append.mp hx with hx | hx
  · exact h.1 x hx
  · rw [List.mem_singleton.mp hx]; exact he

theorem offsetsOK_pushA {w : Nat} {aq vq : List QueueEntry} {written : List Nat}
    (e : QueueEntry) (he : e.mOffset = 0) (hl : (entryData e).length < 2 ^ w)
    (h : OffsetsOK w aq vq written) : OffsetsOK w (aq ++ [e]) vq written := by
  obtain ⟨h1, h2, h3, h4⟩ := h
  cases aq with
  | nil =>
    refine ⟨h1, ?_, ?_, ?_⟩
    · intro x hx; simp at hx
    · intro x hx
      simp only [List.nil_append, List.head?_cons, Option.some.injEq] at hx
      subst hx
      rw [he]
      exact ⟨Nat.zero_le _, by simp⟩
    · intro x hx
      simp only [List.nil_append, List.mem_singleton] at hx
      rw [hx]; exact hl
  | cons a l =>
    refine ⟨h1, ?_, ?_, ?_⟩
    · intro x hx
      simp only [List.cons_append, List.tail_cons, List.mem_append, List.mem_singleton] at hx
      rcases hx with hx | hx
      · exact h2 x hx
      · rw [hx]; exact he
    · intro x hx
      exact h3 x hx
    · intro x hx
      rcases List.mem_append.mp hx with hx | hx
      · exact h4 x hx
      · rw [List.mem_singleton.mp hx]; exact hl

theorem offsetsOK_clearA {w : Nat} {aq vq : List QueueEntry} {written : List Nat}
    (written1 : List Nat) (h : OffsetsOK w aq vq written) : OffsetsOK w [] vq written1 :=
  ⟨h.1, fun x hx => by simp at hx, fun x hx => by simp at hx, fun x hx => by simp at hx⟩

theorem offsetsOK_clearV {w : Nat} {aq vq : List QueueEntry} {written : List Nat}
    (h : OffsetsOK w aq vq written) : OffsetsOK w aq [] written :=
  ⟨fun x hx => by simp at hx, h.2.1, h.2.2.1, h.2.2.2⟩

theorem offsetsOK_touch {w : Nat} {e e1 : QueueEntry} {rest vq : List QueueEntry}
    {written : List Nat} (ho : e1.mOffset = e.mOffset) (hd : entryData e1 = entryData e)
    (h : OffsetsOK w (e :: rest) vq written) : OffsetsOK w (e1 :: rest) vq written := by
  obtain ⟨h1, h2, h3, h4⟩ := h
  refine ⟨h1, h2, ?_, ?_⟩
  · intro x hx
    simp only [List.head?_cons, Option.some.injEq] at hx
    subst hx
    rw [ho, hd]
    exact h3 e rfl
  · intro x hx
    rcases List.mem_cons.mp hx with hx | hx
    · rw [hx, hd]; exact h4 e (by simp)
    · exact h4 x (List.mem_cons_of_mem e hx)

theorem take_add_drop {α : Type} (l : List α) (a c : Nat) :
    l.take (a + c) = l.take a ++ (l.drop a).take c := by
  induction a generalizing l with
  | zero => simp
  | succ k ih =>
    cases l with
    | nil => simp
    | cons x xs =>
      have : k + 1 + c = (k + c) + 1 := by omega
      rw [this]
      simp only [List.take_succ_cons, List.drop_succ_cons, List.cons_append]
      rw [ih]

theorem offsetsOK_write {w : Nat} {e : QueueEntry} {b : ABuffer} {rest vq : List QueueEntry}
    {written : List Nat} (c : Nat) (hb : e.mBuffer = some b)
    (hc : e.mOffset + c ≤ b.data.length) (h : OffsetsOK w (e :: rest) vq written) :
    OffsetsOK w ({ e with mOffset := e.mOffset + c } :: rest) vq
      (written ++ (b.data.drop e.mOffset).take c) := by
  obtain ⟨h1, h2, h3, h4⟩ := h
  have hd : entryData e = b.data := by unfold entryData; rw [hb]
  have hd1 : entryData { e with mOffset := e.mOffset + c } = b.data := by
    unfold entryData; simp only [hb]
  refine ⟨h1, h2, ?_, ?_⟩
  · intro x hx
    simp only [List.head?_cons, Option.some.injEq] at hx
    subst hx
    rw [hd1]
    refine ⟨hc, ?_⟩
    show b.data.take (e.mOffset + c) <:+ _
    rw [take_add_drop]
    obtain ⟨pre, hpre⟩ := (h3 e rfl).2
    rw [hd] at hpre
    exact ⟨pre, by rw [← hpre, List.append_assoc]⟩
  · intro x hx
    rcases List.mem_cons.mp hx with hx | hx
    · rw [hx, hd1, ← hd]; exact h4 e (by simp)
    · exact h4 x (List.mem_cons_of_mem e hx)

theorem queuesKept_refl (s : Renderer) : QueuesKept s s := ⟨rfl, rfl, rfl⟩

theorem queuesKept_trans {s s1 s2 : Renderer} (h1 : QueuesKept s s1) (h2 : QueuesKept s1 s2) :
    QueuesKept s s2 :=
  ⟨h2.aq.trans h1.aq, h2.vq.trans h1.vq, h2.bytes.trans h1.bytes⟩

theorem queuesKept_inv {w : Nat} {s s1 : Renderer} (h : QueuesKept s s1)
    (hi : OffsetInv w s) : OffsetInv w s1 := by
  unfold OffsetInv at hi ⊢
  rw [h.aq, h.vq, h.bytes]
  exact hi

theorem stable_queuesKept {s s1 : Renderer} (h : Stable s s1) : QueuesKept s s1 :=
  ⟨h.aq, h.vq, congrArg bytesOf h.out⟩

theorem bytesOf_snoc (out : List Out) (o : Out) (h : writtenOf o = []) :
    bytesOf (out ++ [o]) = bytesOf out := by
  rw [bytesOf_append]
  simp [bytesOf, h]

theorem queuesKept_emit (s : Renderer) (o : Out) (h : writtenOf o = []) :
    QueuesKept s (emit s o) :=
  ⟨rfl, rfl, bytesOf_snoc s.out o h⟩

theorem notifyPosition_kept (env : Env) (s : Renderer) (b : Bool) :
    QueuesKept s (notifyPosition env s b) := by
  unfold notifyPosition
  split
  · exact queuesKept_refl s
  · split
    · exact queuesKept_refl s
    · exact ⟨rfl, rfl, bytesOf_snoc _ _ rfl⟩

theorem measureStartUpLatency_kept (env : Env) (s : Renderer) :
    QueuesKept s (measureStartUpLatency env s) := by
  unfold measureStartUpLatency
  split
  · exact ⟨rfl, rfl, rfl⟩
  · exact queuesKept_refl s

theorem postConsumed_bytes {s s1 : Renderer} {audio : Bool} {e : QueueEntry} {r : Option Int}
    (h : postConsumed s audio e r = .ok s1) : QueuesKept s s1 := by
  obtain ⟨cb, _, h1⟩ := postConsumed_out h
  subst h1
  exact queuesKept_emit _ _ rfl

theorem offsetInv_of {w : Nat} {Y : Renderer} (aq vq : List QueueEntry) (written : List Nat)
    (ha : Y.mAudioQueue = aq) (hv : Y.mVideoQueue = vq) (hb : bytesOf Y.out = written)
    (h : OffsetsOK w aq vq written) : OffsetInv w Y := by
  unfold OffsetInv
  rw [ha, hv, hb]
  exact h

theorem audioWrite_inv {w : Nat} {env : Env} {n : Nat} {X : Renderer} {entry : QueueEntry}
    {buffer : ABuffer} {rest : List QueueEntry} {c : Ctl} (hw : env.sizeBits = w)
    (hq : X.mAudioQueue = entry :: rest) (hb : entry.mBuffer = some buffer)
    (hi : OffsetInv w X) (h : audioWrite env n X entry buffer rest = .ok c) :
    OffsetInv w c.state := by
  unfold OffsetInv at hi
  rw [hq] at hi
  have hd : entryData entry = buffer.data := by unfold entryData; rw [hb]
  have hlen : buffer.data.length < 2 ^ env.sizeBits := by
    rw [hw, ← hd]; exact hi.2.2.2 entry (by simp)
  have ho : entry.mOffset ≤ buffer.data.length := by
    rw [← hd]; exact (hi.2.2.1 entry rfl).1
  have hcopy := copySize_min env n entry buffer hlen ho
  have hle : entry.mOffset + copySize env n entry buffer ≤ buffer.data.length := by
    rw [hcopy]; omega
  have hmod : (entry.mOffset + copySize env n entry buffer) % 2 ^ env.sizeBits
      = entry.mOffset + copySize env n entry buffer := Nat.mod_eq_of_lt (by omega)
  unfold audioWrite at h
  dsimp only at h
  split at h
  · cases h
  · obtain ⟨s3, h3, h4⟩ := Result.bind_eq_ok h
    cases h4
    show OffsetInv w { s3 with mNumFramesWritten := _ }
    have key : OffsetInv w s3 := by
      split at h3
      · obtain ⟨s2, h2, h5⟩ := Result.bind_eq_ok h3
        cases h5
        obtain ⟨cb, _, h6⟩ := postConsumed_out h2
        subst h6
        exact offsetInv_of rest X.mVideoQueue _ rfl rfl rfl (offsetsOK_popA _ hi)
      · cases h3
        have hok := offsetsOK_write (copySize env n entry buffer) hb hle hi
        refine offsetInv_of _ _ _ ?_ rfl ?_ hok
        · show { entry with mOffset := (entry.mOffset + copySize env n entry buffer)
              % 2 ^ env.sizeBits } :: rest = _
          rw [hmod]
        · show bytesOf (X.out ++ [Out.sinkWrite _]) = _
          rw [bytesOf_append]
          simp [bytesOf, writtenOf]
    exact offsetInv_of s3.mAudioQueue s3.mVideoQueue _ rfl rfl rfl key

theorem audioAnchor_inv {w : Nat} {env : Env} {n : Nat} {X : Renderer} {entry : QueueEntry}
    {buffer : ABuffer} {rest : List QueueEntry} {m : Int} {c : Ctl} (hw : env.sizeBits = w)
    (hq : X.mAudioQueue = entry :: rest) (hb : entry.mBuffer = some buffer)
    (hi : OffsetInv w X) (h : audioAnchor env n X entry buffer rest m = .ok c) :
    OffsetInv w c.state := by
  unfold audioAnchor at h
  dsimp only at h
  split at h
  · cases h
  · have key : ∀ Y : Renderer, audioWrite env n Y entry buffer rest = .ok c →
        Y.mAudioQueue = entry :: rest → OffsetInv w Y → OffsetInv w c.state :=
      fun Y a b d => audioWrite_inv hw b hb d a
    exact key _ h hq (offsetInv_of X.mAudioQueue X.mVideoQueue _ rfl rfl rfl hi)

theorem audioBody_inv {w : Nat} {env : Env} {n : Nat} {s : Renderer} {c : Ctl}
    (hw : env.sizeBits = w) (hi : OffsetInv w s) (h : audioBody env n s = .ok c) :
    OffsetInv w c.state := by
  unfold audioBody at h
  cases hq : s.mAudioQueue with
  | nil => rw [hq] at h; cases h
  | cons entry rest =>
    rw [hq] at h
    dsimp only at h
    have hi0 : OffsetsOK w (entry :: rest) s.mVideoQueue (bytesOf s.out) := by
      unfold OffsetInv at hi; rw [hq] at hi; exact hi
    cases hb : entry.mBuffer with
    | none =>
      rw [hb] at h
      cases h
      exact offsetInv_of rest s.mVideoQueue _ rfl rfl rfl (offsetsOK_popA _ hi0)
    | some buffer =>
      rw [hb] at h
      dsimp only at h
      split at h
      · rename_i ho
        split at h
        · cases h
        · next mediaTimeUs ht =>
          split at h
          · split at h
            · cases h; exact hi
            · split at h
              · obtain ⟨s1, h1, h2⟩ := Result.bind_eq_ok h
                cases h2
                obtain ⟨cb, _, h6⟩ := postConsumed_out h1
                subst h6
                exact offsetInv_of rest s.mVideoQueue _ rfl rfl rfl
                  (offsetsOK_popA _ hi0)
              · split at h
                · split at h
                  · cases h
                    refine queuesKept_inv (stable_queuesKept (postDrainAudioQueue_stable _ _)) ?_
                    refine offsetInv_of ({ entry with
                        mBuffer := some { buffer with disc := some 0 } } :: rest)
                      s.mVideoQueue (bytesOf s.out) rfl rfl rfl ?_
                    refine @offsetsOK_touch w entry _ rest _ _ rfl ?_ hi0
                    unfold entryData
                    simp only [hb]
                  · have key : ∀ Y : Renderer,
                        audioAnchor env n Y entry buffer rest mediaTimeUs = .ok c →
                        Y.mAudioQueue = entry :: rest → OffsetInv w Y → OffsetInv w c.state :=
                      fun Y a b d => audioAnchor_inv hw b hb d a
                    refine key _ h ?_ ?_
                    · first | exact hq | rfl
                    · first
                      | exact offsetInv_of s.mAudioQueue s.mVideoQueue _
                          rfl rfl rfl hi
                      | exact offsetInv_of (entry :: rest) s.mVideoQueue _
                          rfl rfl rfl hi0
                · exact audioAnchor_inv hw hq hb hi h
          · exact audioAnchor_inv hw hq hb hi h
      · exact audioWrite_inv hw hq hb hi h

theorem audioLoop_inv {w : Nat} {env : Env} (hw : env.sizeBits = w) (fuel : Nat) :
    ∀ {n : Nat} {s : Renderer} {r : Bool × Renderer}, OffsetInv w s →
      audioLoop env fuel n s = .ok r → OffsetInv w r.2 := by
  induction fuel with
  | zero =>
    intro n s r hi h
    unfold audioLoop at h
    split at h
    · cases h
    · cases h
      exact queuesKept_inv (notifyPosition_kept env s false) hi
  | succ k ih =>
    intro n s r hi h
    unfold audioLoop at h
    split at h
    · split at h
      · cases h
      · next b s1 hb =>
        cases h
        exact audioBody_inv hw hi hb
      · next n1 s1 hb =>
        exact ih (audioBody_inv hw hi hb) h
    · cases h
      exact queuesKept_inv (notifyPosition_kept env s false) hi

theorem onDrainAudioQueue_inv {w : Nat} {env : Env} {s : Renderer} {r : Bool × Renderer}
    (hw : env.sizeBits = w) (hi : OffsetInv w s) (h : onDrainAudioQueue env s = .ok r) :
    OffsetInv w r.2 := by
  unfold onDrainAudioQueue at h
  split at h
  · cases h; exact hi
  · have hi1 := queuesKept_inv (measureStartUpLatency_kept env s) hi
    generalize measureStartUpLatency env s = X at h hi1
    have hsink : ∀ {r : Bool × Renderer}, drainAudioSink env X = .ok r → OffsetInv w r.2 := by
      intro r h
      unfold drainAudioSink at h
      split at h
      · cases h; exact hi1
      · exact audioLoop_inv hw _ hi1 h
    unfold drainAudioFirst at h
    cases hq : X.mAudioQueue with
    | nil =>
      rw [hq] at h
      exact hsink h
    | cons entry rest =>
      rw [hq] at h
      dsimp only at h
      split at h
      · cases h
        have hi0 : OffsetsOK w (entry :: rest) X.mVideoQueue (bytesOf X.out) := by
          unfold OffsetInv at hi1; rw [hq] at hi1; exact hi1
        exact offsetInv_of rest X.mVideoQueue _ rfl rfl rfl (offsetsOK_popA _ hi0)
      · exact hsink h

theorem onDrainVideoQueue_inv {w : Nat} {env : Env} {s r : Renderer}
    (hi : OffsetInv w s) (h : onDrainVideoQueue env s = .ok r) : OffsetInv w r := by
  unfold onDrainVideoQueue at h
  split at h
  · cases h; exact hi
  · have hi1 := queuesKept_inv (measureStartUpLatency_kept env s) hi
    generalize measureStartUpLatency env s = X at h hi1
    unfold drainVideoHead at h
    cases hq : X.mVideoQueue with
    | nil => rw [hq] at h; cases h; exact hi1
    | cons entry rest =>
      rw [hq] at h
      dsimp only at h
      have hi0 : OffsetsOK w X.mAudioQueue rest (bytesOf X.out) := by
        unfold OffsetInv at hi1
        rw [hq] at hi1
        exact offsetsOK_subV (fun e he => List.mem_cons_of_mem entry he) hi1
      split at h
      · cases h
        obtain ⟨p1, p2, p3⟩ := notifyPosition_kept env X true
        refine offsetInv_of X.mAudioQueue rest _ p1 rfl ?_ hi0
        show bytesOf ((notifyPosition env X true).out ++ [Out.eos false entry.mFinalResult]) = _
        rw [bytesOf_snoc _ (Out.eos false entry.mFinalResult) rfl, p3]
      · split at h
        · cases h
        · next mediaTimeUs ht =>
          have hd : QueuesKept X (videoRenderDecision env X mediaTimeUs).2 := by
            obtain ⟨_, _, _, d1, d2, d3⟩ := videoRenderDecision_spec env X mediaTimeUs
            exact ⟨d3, d2, congrArg bytesOf d1⟩
          generalize videoRenderDecision env X mediaTimeUs = d at h hd
          obtain ⟨tooLate, s5⟩ := d
          dsimp only at h
          obtain ⟨s6, h6, h7⟩ := Result.bind_eq_ok h
          cases h7
          have h8 := queuesKept_trans hd (postConsumed_bytes h6)
          have key : ∀ Y : Renderer, Y.mAudioQueue = s6.mAudioQueue → Y.mVideoQueue = rest →
              bytesOf Y.out = bytesOf s6.out → OffsetInv w (notifyPosition env Y false) := by
            intro Y y1 y2 y3
            refine queuesKept_inv (notifyPosition_kept env Y false) ?_
            exact offsetInv_of X.mAudioQueue rest _ (y1.trans h8.aq) y2
              (y3.trans h8.bytes) hi0
          exact key _ rfl rfl rfl

theorem bytesOf_flushEvents (audio : Bool) (q : List QueueEntry) :
    bytesOf (flushEvents audio q) = [] := by
  induction q with
  | nil => rfl
  | cons e rest ih =>
    rw [flushEvents_cons]
    split
    · rw [bytesOf_append, ih]
      cases e.mNotifyConsumed <;> rfl
    · exact ih

theorem onFlush_inv {w : Nat} {env : Env} {s r : Renderer} {audio : Bool}
    (hi : OffsetInv w s) (h : onFlush env s audio = .ok r) : OffsetInv w r := by
  unfold onFlush at h
  obtain ⟨s2, h2, h3⟩ := Result.bind_eq_ok h
  have hi2 := queuesKept_inv (stable_queuesKept (syncQueuesDone_stable h2)) hi
  unfold OffsetInv at hi2
  split at h3
  · obtain ⟨s3, h4, h5⟩ := Result.bind_eq_ok h3
    cases h5
    obtain ⟨heq, _⟩ := flushLoop_eq true _ rfl h4
    subst heq
    exact offsetInv_of [] s2.mVideoQueue _ rfl rfl rfl (offsetsOK_clearA _ hi2)
  · obtain ⟨s3, h4, h5⟩ := Result.bind_eq_ok h3
    cases h5
    obtain ⟨heq, _⟩ := flushLoop_eq false _ rfl h4
    subst heq
    refine offsetInv_of s2.mAudioQueue [] (bytesOf s2.out) rfl rfl ?_
      (offsetsOK_clearV hi2)
    simp [notifyFlushComplete, emit, setQueue, bytesOf_append, bytesOf_flushEvents, bytesOf,
      writtenOf]

theorem syncQueuesStep_inv {w : Nat} {env : Env} {s r : Renderer}
    (hi : OffsetInv w s) (h : syncQueuesStep env s = .ok r) : OffsetInv w r := by
  have hdone : ∀ {r : Renderer}, syncQueuesDone env s = .ok r → OffsetInv w r :=
    fun h => queuesKept_inv (stable_queuesKept (syncQueuesDone_stable h)) hi
  unfold syncQueuesStep at h
  split at h
  · cases h; exact hi
  · cases hq : s.mAudioQueue with
    | nil =>
      rw [hq] at h
      split at h <;> first | (cases h; exact hi) | exact hdone h | skip
      all_goals simp at *
    | cons aentry arest =>
      have hi0 : OffsetsOK w (aentry :: arest) s.mVideoQueue (bytesOf s.out) := by
        unfold OffsetInv at hi; rw [hq] at hi; exact hi
      split at h
      · next a1 ar v1 vr ha hv =>
        rw [hq] at ha
        cases ha
        split at h
        · split at h
          · dsimp only at h
            split at h
            · obtain ⟨s1, h1, h2⟩ := Result.bind_eq_ok h
              cases h2
              obtain ⟨cb, _, h6⟩ := postConsumed_out h1
              subst h6
              exact offsetInv_of arest s.mVideoQueue _ rfl rfl rfl
                (offsetsOK_popA _ hi0)
            · exact hdone h
          · cases h
        · exact hdone h
      · cases h; exact hi

theorem enqueueBuffer_inv {w : Nat} {env : Env} {s r : Renderer} {audio : Bool}
    {entry : QueueEntry} (ho : entry.mOffset = 0) (hl : (entryData entry).length < 2 ^ w)
    (hi : OffsetInv w s) (h : enqueueBuffer env s audio entry = .ok r) : OffsetInv w r := by
  unfold OffsetInv at hi
  unfold enqueueBuffer at h
  split at h
  · have hi1 : OffsetInv w { s with mAudioQueue := s.mAudioQueue ++ [entry] } :=
      offsetInv_of (s.mAudioQueue ++ [entry]) s.mVideoQueue _ rfl rfl rfl
        (offsetsOK_pushA entry ho hl hi)
    dsimp only at h
    split at h
    · split at h
      · cases h; exact hi1
      · exact queuesKept_inv (stable_queuesKept (setStartAnchor_stable h)) hi1
    · cases h
      exact queuesKept_inv (stable_queuesKept (postDrainAudioQueue_stable _ _)) hi1
  · have hi1 : OffsetInv w { s with mVideoQueue := s.mVideoQueue ++ [entry] } :=
      offsetInv_of s.mAudioQueue (s.mVideoQueue ++ [entry]) _ rfl rfl rfl
        (offsetsOK_pushV entry ho hi)
    dsimp only at h
    split at h
    · split at h
      · cases h; exact hi1
      · split at h
        · cases h; exact hi1
        · exact queuesKept_inv (stable_queuesKept (setStartAnchor_stable h)) hi1
    · obtain ⟨s4, h4, h5⟩ := Result.bind_eq_ok h
      have hi4 := queuesKept_inv (stable_queuesKept (postDrainVideoQueue_stable h4)) hi1
      exact syncQueuesStep_inv hi4 h5

theorem onQueueBuffer_inv {w : Nat} {env : Env} {s r : Renderer} {audio : Bool}
    {buffer : ABuffer} {cb : Nat} (hl : buffer.data.length < 2 ^ w) (hi : OffsetInv w s)
    (h : onQueueBuffer env s audio buffer cb = .ok r) : OffsetInv w r := by
  unfold onQueueBuffer at h
  rw [dropBufferWhileFlushing_eq] at h
  have hm : QueuesKept s (markPresent s audio) := by
    unfold markPresent
    split <;> exact ⟨rfl, rfl, rfl⟩
  have hi1 := queuesKept_inv hm hi
  cases hf : flushingFlag audio (markPresent s audio)
  · rw [hf] at h
    simp only [Bool.false_eq_true, if_false] at h
    have hb : QueuesKept (markPresent s audio)
        (beginStartUpLatency env (markPresent s audio)) := by
      unfold beginStartUpLatency
      split
      · exact ⟨rfl, rfl, rfl⟩
      · exact queuesKept_refl _
    have hl1 : (entryData (bufferEntry buffer cb)).length < 2 ^ w := hl
    exact enqueueBuffer_inv rfl hl1 (queuesKept_inv hb hi1) h
  · rw [hf] at h
    simp only [if_true] at h
    cases h
    exact queuesKept_inv (queuesKept_emit _ _ rfl) hi1

theorem onQueueEOS_inv {w : Nat} {env : Env} {s r : Renderer} {audio : Bool}
    {finalResult : Int} (hi : OffsetInv w s) (h : onQueueEOS env s audio finalResult = .ok r) :
    OffsetInv w r := by
  have hl : (entryData (eosEntry finalResult)).length < 2 ^ w := by
    show 0 < 2 ^ w
    positivity
  unfold onQueueEOS at h
  rw [dropBufferWhileFlushing_eq] at h
  cases hf : flushingFlag audio s
  · rw [hf] at h
    simp only [Bool.false_eq_true, if_false] at h
    unfold OffsetInv at hi
    split at h
    · cases h
      refine queuesKept_inv (stable_queuesKept (postDrainAudioQueue_stable _ _)) ?_
      exact offsetInv_of (s.mAudioQueue ++ [eosEntry finalResult]) s.mVideoQueue _
        rfl rfl rfl (offsetsOK_pushA _ rfl hl hi)
    · refine queuesKept_inv (stable_queuesKept (postDrainVideoQueue_stable h)) ?_
      exact offsetInv_of s.mAudioQueue (s.mVideoQueue ++ [eosEntry finalResult]) _
        rfl rfl rfl (offsetsOK_pushV _ rfl hi)
  · rw [hf] at h
    simp only [if_true] at h
    cases h
    exact hi

theorem signalRefresh_kept (env : Env) (s : Renderer) (b : Bool) :
    QueuesKept s (signalRefreshAnchorRealTime env s b) := by
  unfold signalRefreshAnchorRealTime
  split
  · dsimp only
    split <;> exact ⟨rfl, rfl, rfl⟩
  · exact queuesKept_refl s

theorem queueDelay_kept (env : Env) (s : Renderer) (d : Int) :
    QueuesKept s (queueDelay env s d) := by
  unfold queueDelay
  split
  · exact ⟨rfl, rfl, rfl⟩
  · dsimp only
    split
    · exact ⟨rfl, rfl, bytesOf_snoc _ Out.sinkPause rfl⟩
    · exact ⟨rfl, rfl, rfl⟩

theorem onResume_kept {env : Env} {s r : Renderer} (h : onResume env s = .ok r) :
    QueuesKept s r := by
  cases hp : s.mPaused with
  | false =>
    unfold onResume at h
    rw [hp] at h
    cases h
    exact queuesKept_refl _
  | true =>
    rw [onResume_eq env s hp] at h
    have h0 : QueuesKept s (resumedState env s) := by
      unfold resumedState
      dsimp only
      have key : ∀ X : Renderer, QueuesKept s X →
          QueuesKept s (if X.mIsLiveStream then signalRefreshAnchorRealTime env X false
            else X) := by
        intro X hX
        split
        · exact queuesKept_trans hX (signalRefresh_kept env X false)
        · exact hX
      refine key { (if s.mHasAudio && !s.mDelayPending then emit s .sinkStart else s) with
        mPaused := false } ?_
      split
      · exact ⟨rfl, rfl, bytesOf_snoc _ Out.sinkStart rfl⟩
      · exact ⟨rfl, rfl, rfl⟩
    have key : ∀ X : Renderer, QueuesKept s X →
        (if (!X.mVideoQueue.isEmpty) = true then postDrainVideoQueue env X else .ok X) = .ok r →
        QueuesKept s r := by
      intro X hX h
      split at h
      · exact queuesKept_trans hX (stable_queuesKept (postDrainVideoQueue_stable h))
      · cases h; exact hX
    refine key _ ?_ h
    split
    · exact queuesKept_trans h0 (stable_queuesKept (postDrainAudioQueue_stable _ _))
    · exact h0

theorem onDelayQueued_kept {env : Env} {s r : Renderer} (h : onDelayQueued env s = .ok r) :
    QueuesKept s r := by
  have h1 : QueuesKept s { s with mDelayPending := false } := ⟨rfl, rfl, rfl⟩
  unfold onDelayQueued at h
  dsimp only at h
  split at h
  · cases h
    exact queuesKept_trans h1 (queueDelay_kept env _ _)
  · have key : ∀ X : Renderer, QueuesKept s X →
        postDrainVideoQueue env (postDrainAudioQueue X 0) = .ok r → QueuesKept s r := by
      intro X hX h
      exact queuesKept_trans (queuesKept_trans hX
        (stable_queuesKept (postDrainAudioQueue_stable X 0)))
        (stable_queuesKept (postDrainVideoQueue_stable h))
    refine key _ ?_ h
    split
    · exact ⟨rfl, rfl, bytesOf_snoc _ Out.sinkStart rfl⟩
    · exact h1

theorem onMessageReceived_inv {w : Nat} {env : Env} {s r : Renderer} {msg : Msg}
    (hw : env.sizeBits = w)
    (hl : ∀ audio buffer cb, msg = .queueBuffer audio buffer cb → buffer.data.length < 2 ^ w)
    (hi : OffsetInv w s) (h : onMessageReceived env s msg = .ok r) : OffsetInv w r := by
  cases msg with
  | drainAudioQueue generation =>
    unfold onMessageReceived at h
    dsimp only at h
    have hi0 : OffsetInv w { s with mDrainAudioQueuePending := false } :=
      queuesKept_inv ⟨rfl, rfl, rfl⟩ hi
    split at h
    · cases h; exact hi0
    · obtain ⟨⟨postAudio, s2⟩, h2, h3⟩ := Result.bind_eq_ok h
      have hi2 : OffsetInv w s2 := onDrainAudioQueue_inv hw hi0 h2
      dsimp only at h3
      obtain ⟨s3, h5, h6⟩ := Result.bind_eq_ok h3
      have hi3 : OffsetInv w s3 := by
        split at h5
        · refine queuesKept_inv (stable_queuesKept (postDrainVideoQueue_stable h5)) ?_
          exact queuesKept_inv ⟨rfl, rfl, rfl⟩ hi2
        · cases h5; exact hi2
      split at h6
      · split at h6
        · cases h6
        · cases h6
          exact queuesKept_inv (stable_queuesKept (postDrainAudioQueue_stable _ _)) hi3
      · cases h6; exact hi3
  | drainVideoQueue generation =>
    unfold onMessageReceived at h
    dsimp only at h
    have hi0 : OffsetInv w { s with mDrainVideoQueuePending := false } :=
      queuesKept_inv ⟨rfl, rfl, rfl⟩ hi
    split at h
    · cases h; exact hi0
    · obtain ⟨s2, h2, h3⟩ := Result.bind_eq_ok h
      exact queuesKept_inv (stable_queuesKept (postDrainVideoQueue_stable h3))
        (onDrainVideoQueue_inv hi0 h2)
  | queueBuffer audio buffer cb => exact onQueueBuffer_inv (hl audio buffer cb rfl) hi h
  | queueEOS audio finalResult => exact onQueueEOS_inv hi h
  | flush audio => exact onFlush_inv hi h
  | audioSinkChanged =>
    have h1 : onAudioSinkChanged env s = .ok r := h
    unfold onAudioSinkChanged at h1
    split at h1
    · cases h1
    · cases h1
      dsimp only
      split <;> exact queuesKept_inv ⟨rfl, rfl, rfl⟩ hi
  | pause =>
    have h1 : onPause s = .ok r := h
    unfold onPause at h1
    split at h1
    · cases h1
    · cases h1
      dsimp only
      split
      · refine queuesKept_inv (s := s) ⟨rfl, rfl, ?_⟩ hi
        show bytesOf (s.out ++ [Out.sinkPause]) = bytesOf s.out
        exact bytesOf_snoc _ _ rfl
      · exact queuesKept_inv ⟨rfl, rfl, rfl⟩ hi
  | resume => exact queuesKept_inv (onResume_kept h) hi
  | delayQueued => exact queuesKept_inv (onDelayQueued_kept h) hi

theorem step_offsetInv {w : Nat} {env : Env} {s r : Renderer} {a : Action}
    (hw : env.sizeBits = w) (hl : deliveredSized w s a = true) (hi : OffsetInv w s)
    (h : step env s a = .ok r) : OffsetInv w r := by
  cases a with
  | queueBuffer audio buffer cb => cases h; exact queuesKept_inv ⟨rfl, rfl, rfl⟩ hi
  | queueEOS audio finalResult =>
    have h1 : queueEOS env s audio finalResult = .ok r := h
    unfold queueEOS at h1
    split at h1
    · cases h1
    · obtain ⟨s1, h2, h3⟩ := Result.bind_eq_ok h1
      cases h3
      have h4 : QueuesKept s s1 := by
        split at h2
        · exact stable_queuesKept (syncQueuesDone_stable h2)
        · cases h2; exact queuesKept_refl _
      exact queuesKept_inv (queuesKept_trans h4 ⟨rfl, rfl, rfl⟩) hi
  | queueDelay d =>
    cases h
    exact queuesKept_inv (queueDelay_kept env s d) hi
  | flush audio =>
    have h1 : flush s audio = .ok r := h
    unfold flush at h1
    split at h1
    · split at h1
      · cases h1
      · cases h1; exact queuesKept_inv ⟨rfl, rfl, rfl⟩ hi
    · split at h1
      · cases h1
      · cases h1; exact queuesKept_inv ⟨rfl, rfl, rfl⟩ hi
  | signalTimeDiscontinuity =>
    have h1 : signalTimeDiscontinuity s = .ok r := h
    unfold signalTimeDiscontinuity at h1
    split at h1
    · cases h1
    · split at h1
      · cases h1
      · cases h1; exact queuesKept_inv ⟨rfl, rfl, rfl⟩ hi
  | pause => cases h; exact queuesKept_inv ⟨rfl, rfl, rfl⟩ hi
  | resume => cases h; exact queuesKept_inv ⟨rfl, rfl, rfl⟩ hi
  | signalRefreshAnchorRealTime b =>
    cases h
    exact queuesKept_inv (signalRefresh_kept env s b) hi
  | signalAudioSinkChanged => cases h; exact queuesKept_inv ⟨rfl, rfl, rfl⟩ hi
  | notifySeekPosition seekTime =>
    cases h
    refine queuesKept_inv (s := s) ⟨rfl, rfl, ?_⟩ hi
    show bytesOf (s.out ++ [Out.position seekTime s.mVideoLateByUs]) = bytesOf s.out
    exact bytesOf_snoc _ _ rfl
  | setMediaPresence audio bValue =>
    cases h
    unfold setMediaPresence
    split <;> exact queuesKept_inv ⟨rfl, rfl, rfl⟩ hi
  | setLiveStream b => cases h; exact queuesKept_inv ⟨rfl, rfl, rfl⟩ hi
  | deliver i =>
    have h1 : (match s.mailbox[i]? with
      | none => Result.fail Fault.noMessage
      | some (msg, _) =>
        onMessageReceived env { s with mailbox := s.mailbox.eraseIdx i } msg) = .ok r := h
    cases hm : s.mailbox[i]? with
    | none => rw [hm] at h1; cases h1
    | some md =>
      obtain ⟨msg, d⟩ := md
      rw [hm] at h1
      dsimp only at h1
      simp only [deliveredSized, hm] at hl
      have hi1 : OffsetInv w { s with mailbox := s.mailbox.eraseIdx i } := hi
      refine onMessageReceived_inv hw ?_ hi1 h1
      intro audio buffer cb hmsg
      subst hmsg
      simpa using hl

theorem run_offsetInv (w : Nat) : ∀ (acts : List (Env × Action)) (s r : Renderer),
    OffsetInv w s → sizedAlong w s acts = true → run s acts = .ok r → OffsetInv w r := by
  intro acts
  induction acts with
  | nil =>
    intro s r hi _ h
    cases h
    exact hi
  | cons ea rest ih =>
    intro s r hi hs h
    obtain ⟨env, a⟩ := ea
    unfold run at h
    obtain ⟨s1, h1, h2⟩ := Result.bind_eq_ok h
    unfold sizedAlong at hs
    rw [h1] at hs
    simp only [Bool.and_eq_true, decide_eq_true_eq] at hs
    exact ih s1 r (step_offsetInv hs.1.1 hs.1.2 hi h1) hs.2 h2

/-! ## Lock discipline (C29) -/

theorem lockCheck_append (ok : List Lock → LockEvent → Bool) :
    ∀ (t1 t2 : List LockEvent) (held : List Lock),
      lockCheck ok held (t1 ++ t2) =
        (lockCheck ok held t1 && lockCheck ok (t1.foldl heldAfter held) t2) := by
  intro t1
  induction t1 with
  | nil => intro t2 held; simp [lockCheck]
  | cons e rest ih =>
    intro t2 held
    show (ok held e && lockCheck ok (heldAfter held e) (rest ++ t2)) = _
    rw [ih]
    simp [lockCheck, Bool.and_assoc]

theorem balanced_nil (ok : List Lock → LockEvent → Bool) : Balanced ok [] :=
  ⟨rfl, rfl⟩

theorem balanced_append {ok : List Lock → LockEvent → Bool} {t1 t2 : List LockEvent}
    (h1 : Balanced ok t1) (h2 : Balanced ok t2) : Balanced ok (t1 ++ t2) := by
  unfold Balanced at h1 h2 ⊢
  rw [lockCheck_append, List.foldl_append, h1.1, h1.2, h2.1, h2.2]
  exact ⟨rfl, rfl⟩

theorem balanced_posts {ok : List Lock → LockEvent → Bool} (h : ok [] .post = true)
    (n : Nat) : Balanced ok (List.replicate n .post) := by
  induction n with
  | zero => exact balanced_nil ok
  | succ k ih =>
    have h1 : Balanced ok [LockEvent.post] := by
      unfold Balanced
      simp [lockCheck, heldAfter, h]
    exact balanced_append h1 ih

theorem balanced_section {ok : List Lock → LockEvent → Bool} (l : Lock)
    (h1 : ok [] (.acquire l) = true) (h2 : ok [l] (.release l) = true) :
    Balanced ok [.acquire l, .release l] := by
  unfold Balanced
  simp [lockCheck, heldAfter, h1, h2]

theorem balanced_queueDelay {ok : List Lock → LockEvent → Bool} (s : Renderer)
    (h1 : ok [] (.acquire .delay) = true) (h2 : ok [.delay] (.release .delay) = true)
    (h3 : s.mDelayPending = true ∨ ok [.delay] .post = true) :
    Balanced ok (queueDelayLocks s) := by
  unfold queueDelayLocks Balanced
  cases hp : s.mDelayPending with
  | true => simp [lockCheck, heldAfter, h1, h2]
  | false =>
    rcases h3 with h3 | h3
    · rw [hp] at h3; cases h3
    · simp [lockCheck, heldAfter, h1, h2, h3]

/-- Whatever the test, as long as it passes every event when no lock is held,
passes the release of the only lock held, and passes a post under the delay
lock where `queueDelay` may run: the lock events of an action pass it and end
with no lock held. -/
theorem actionLocks_balanced (ok : List Lock → LockEvent → Bool)
    (h0 : ∀ e, ok [] e = true) (h1 : ∀ l, ok [l] (.release l) = true)
    {env : Env} {s : Renderer} {a : Action} {t : List LockEvent}
    (hq : runsQueueDelay s a = false ∨ ok [.delay] .post = true)
    (h : actionLocks env s a = .ok t) : Balanced ok t := by
  have hposts : ∀ x y : Renderer, Balanced ok (postsBetween x y) :=
    fun x y => balanced_posts (h0 _) _
  have hsec : ∀ l, Balanced ok [.acquire l, .release l] :=
    fun l => balanced_section l (h0 _) (h1 l)
  have hplain : ∀ {r : Result Renderer}, (r.bind fun r => .ok (postsBetween s r)) = .ok t →
      Balanced ok t := by
    intro r h
    obtain ⟨r1, _, h2⟩ := Result.bind_eq_ok h
    cases h2
    exact hposts _ _
  cases a with
  | queueDelay d =>
    cases h
    refine balanced_queueDelay s (h0 _) (h1 _) ?_
    rcases hq with hq | hq
    · cases hq
    · exact Or.inr hq
  | flush audio =>
    have h2 : flushLocks s audio = .ok t := h
    unfold flushLocks at h2
    obtain ⟨r1, _, h3⟩ := Result.bind_eq_ok h2
    cases h3
    have hp : Balanced ok [LockEvent.post] := balanced_posts (h0 _) 1
    exact balanced_append (hsec .flush) hp
  | signalRefreshAnchorRealTime b =>
    cases h
    exact hsec .refreshAnchor
  | deliver i =>
    have h2 : (match s.mailbox[i]? with
      | none => Result.fail Fault.noMessage
      | some (msg, _) =>
        onMessageReceivedLocks env { s with mailbox := s.mailbox.eraseIdx i } msg) = .ok t := h
    cases hm : s.mailbox[i]? with
    | none => rw [hm] at h2; cases h2
    | some md =>
      obtain ⟨msg, d⟩ := md
      rw [hm] at h2
      dsimp only at h2
      simp only [runsQueueDelay, hm] at hq
      generalize { s with mailbox := s.mailbox.eraseIdx i } = X at h2
      have hplainX : ∀ {r : Result Renderer},
          (r.bind fun r => .ok (postsBetween X r)) = .ok t → Balanced ok t := by
        intro r h
        obtain ⟨r1, _, h2⟩ := Result.bind_eq_ok h
        cases h2
        exact hposts _ _
      cases msg with
      | drainAudioQueue g => exact hplainX h2
      | drainVideoQueue g => exact hplainX h2
      | audioSinkChanged => exact hplainX h2
      | pause => exact hplainX h2
      | queueBuffer audio buffer cb =>
        have h3 : onQueueBufferLocks env X audio buffer cb = .ok t := h2
        unfold onQueueBufferLocks at h3
        obtain ⟨r1, _, h4⟩ := Result.bind_eq_ok h3
        cases h4
        exact balanced_append (hsec .flush) (hposts _ _)
      | queueEOS audio finalResult =>
        have h3 : onQueueEOSLocks env X audio finalResult = .ok t := h2
        unfold onQueueEOSLocks at h3
        obtain ⟨r1, _, h4⟩ := Result.bind_eq_ok h3
        cases h4
        exact balanced_append (hsec .flush) (hposts _ _)
      | flush audio =>
        have h3 : onFlushLocks env X audio = .ok t := h2
        unfold onFlushLocks at h3
        obtain ⟨r1, _, h4⟩ := Result.bind_eq_ok h3
        obtain ⟨r2, _, h5⟩ := Result.bind_eq_ok h4
        cases h5
        have hp : Balanced ok [LockEvent.post] := balanced_posts (h0 _) 1
        exact balanced_append (hposts _ _) (balanced_append (hsec .flush) hp)
      | resume =>
        have h3 : onResumeLocks env X = .ok t := h2
        unfold onResumeLocks at h3
        split at h3
        · cases h3; exact balanced_nil ok
        · obtain ⟨r1, _, h4⟩ := Result.bind_eq_ok h3
          cases h4
          refine balanced_append ?_ (hposts _ _)
          split
          · exact hsec .refreshAnchor
          · exact balanced_nil ok
      | delayQueued =>
        have hpost : ok [.delay] .post = true := by
          rcases hq with hq | hq
          · cases hq
          · exact hq
        have h3 : onDelayQueuedLocks env X = .ok t := h2
        unfold onDelayQueuedLocks at h3
        dsimp only at h3
        split at h3
        · cases h3
          exact balanced_append (hsec .delay)
            (balanced_queueDelay _ (h0 _) (h1 _) (Or.inr hpost))
        · obtain ⟨r1, _, h4⟩ := Result.bind_eq_ok h3
          cases h4
          exact balanced_append (hsec .delay) (hposts _ _)
  | queueBuffer audio buffer cb =>
    exact hplain (r := step env s (.queueBuffer audio buffer cb)) h
  | queueEOS audio finalResult => exact hplain (r := step env s (.queueEOS audio finalResult)) h
  | signalTimeDiscontinuity => exact hplain (r := step env s .signalTimeDiscontinuity) h
  | pause => exact hplain (r := step env s .pause) h
  | resume => exact hplain (r := step env s .resume) h
  | signalAudioSinkChanged => exact hplain (r := step env s .signalAudioSinkChanged) h
  | notifySeekPosition seekTime =>
    exact hplain (r := step env s (.notifySeekPosition seekTime)) h
  | setMediaPresence audio bValue =>
    exact hplain (r := step env s (.setMediaPresence audio bValue)) h
  | setLiveStream b => exact hplain (r := step env s (.setLiveStream b)) h

/-- Whenever an action returns, its lock events are defined. -/
theorem actionLocks_total {env : Env} {s r : Renderer} {a : Action}
    (h : step env s a = .ok r) : ∃ t, actionLocks env s a = .ok t := by
  have hplain : ∃ t, ((step env s a).bind fun r => Result.ok (postsBetween s r)) = .ok t := by
    rw [h]; exact ⟨_, rfl⟩
  cases a with
  | queueDelay d => exact ⟨_, rfl⟩
  | flush audio =>
    have h1 : flush s audio = .ok r := h
    show ∃ t, flushLocks s audio = .ok t
    unfold flushLocks
    rw [h1]
    exact ⟨_, rfl⟩
  | signalRefreshAnchorRealTime b => exact ⟨_, rfl⟩
  | deliver i =>
    have h2 : (match s.mailbox[i]? with
      | none => Result.fail Fault.noMessage
      | some (msg, _) =>
        onMessageReceived env { s with mailbox := s.mailbox.eraseIdx i } msg) = .ok r := h
    show ∃ t, (match s.mailbox[i]? with
      | none => Result.fail Fault.noMessage
      | some (msg, _) =>
        onMessageReceivedLocks env { s with mailbox := s.mailbox.eraseIdx i } msg) = .ok t
    cases hm : s.mailbox[i]? with
    | none => rw [hm] at h2; cases h2
    | some md =>
      obtain ⟨msg, d⟩ := md
      rw [hm] at h2
      dsimp only at h2 ⊢
      generalize { s with mailbox := s.mailbox.eraseIdx i } = X at h2
      have hplainX : ∃ t, ((onMessageReceived env X msg).bind
          fun r => Result.ok (postsBetween X r)) = .ok t := by
        rw [h2]; exact ⟨_, rfl⟩
      cases msg with
      | drainAudioQueue g => exact hplainX
      | drainVideoQueue g => exact hplainX
      | audioSinkChanged => exact hplainX
      | pause => exact hplainX
      | queueBuffer audio buffer cb =>
        have h3 : onQueueBuffer env X audio buffer cb = .ok r := h2
        show ∃ t, onQueueBufferLocks env X audio buffer cb = .ok t
        unfold onQueueBufferLocks
        rw [h3]
        exact ⟨_, rfl⟩
      | queueEOS audio finalResult =>
        have h3 : onQueueEOS env X audio finalResult = .ok r := h2
        show ∃ t, onQueueEOSLocks env X audio finalResult = .ok t
        unfold onQueueEOSLocks
        rw [h3]
        exact ⟨_, rfl⟩
      | flush audio =>
        have h3 : onFlush env X audio = .ok r := h2
        show ∃ t, onFlushLocks env X audio = .ok t
        unfold onFlush at h3
        obtain ⟨s1, h4, h5⟩ := Result.bind_eq_ok h3
        unfold onFlushLocks
        rw [h4]
        have h6 : ∃ s2, flushQueue audio s1 = .ok s2 := by
          split at h5
          · rename_i ha
            obtain ⟨s2, h7, _⟩ := Result.bind_eq_ok h5
            exact ⟨s2, by rw [ha]; exact h7⟩
          · rename_i ha
            have ha1 : audio = false := by simpa using ha
            obtain ⟨s2, h7, _⟩ := Result.bind_eq_ok h5
            exact ⟨s2, by rw [ha1]; exact h7⟩
        obtain ⟨s2, h7⟩ := h6
        simp only [Result.bind, h7]
        exact ⟨_, rfl⟩
      | resume =>
        have h3 : onResume env X = .ok r := h2
        show ∃ t, onResumeLocks env X = .ok t
        unfold onResumeLocks
        split
        · exact ⟨_, rfl⟩
        · rw [h3]; exact ⟨_, rfl⟩
      | delayQueued =>
        have h3 : onDelayQueued env X = .ok r := h2
        show ∃ t, onDelayQueuedLocks env X = .ok t
        unfold onDelayQueuedLocks
        dsimp only
        split
        · exact ⟨_, rfl⟩
        · rw [h3]; exact ⟨_, rfl⟩
  | queueBuffer audio buffer cb => exact hplain
  | queueEOS audio finalResult => exact hplain
  | signalTimeDiscontinuity => exact hplain
  | pause => exact hplain
  | resume => exact hplain
  | signalAudioSinkChanged => exact hplain
  | notifySeekPosition seekTime => exact hplain
  | setMediaPresence audio bValue => exact hplain
  | setLiveStream b => exact hplain

/-- C29, as stated, fails in its second part: `queueDelay`, called while no
stall is pending, posts the `kWhatDelayQueued` message while it holds the
delay lock. -/
theorem C29_queueDelay_posts_under_delay_lock_counterexample :
    actionLocks sampleEnv sampleStart (.queueDelay 5000) =
        .ok [.acquire .delay, .post, .release .delay] ∧
      lockCheck postUnlocked [] [.acquire .delay, .post, .release .delay] = false := by
  constructor
  · rfl
  · decide

/-- C29, amended: in every public entry point and message handler of the
renderer that returns, the flush lock and the delay lock are never held at the
same time, every lock taken is released, and a message is posted only while no
lock is held or, in `queueDelay`, while the delay lock alone is held: outside
`queueDelay` (called directly or from the handler of the stall-expiry message)
no message is posted while a lock is held.  The lock events are defined for
every action that returns. -/
theorem C29_lock_discipline (env : Env) (s : Renderer) (a : Action) :
    (∀ t, actionLocks env s a = .ok t →
      lockCheck notFlushWithDelay [] t = true ∧ t.foldl heldAfter [] = [] ∧
      lockCheck postUnderDelayOnly [] t = true ∧
      (runsQueueDelay s a = false → lockCheck postUnlocked [] t = true)) ∧
    (∀ r, step env s a = .ok r → ∃ t, actionLocks env s a = .ok t) := by
  refine ⟨?_, fun r h => actionLocks_total h⟩
  intro t h
  have b1 := actionLocks_balanced notFlushWithDelay (by intro e; cases e <;> first | rfl | (rename_i l; cases l <;> rfl))
    (by intro l; rfl) (Or.inr rfl) h
  have b2 := actionLocks_balanced postUnderDelayOnly (by intro e; cases e <;> rfl)
    (by intro l; rfl) (Or.inr rfl) h
  refine ⟨b1.1, b1.2, b2.1, ?_⟩
  intro hq
  exact (actionLocks_balanced postUnlocked (by intro e; cases e <;> rfl)
    (by intro l; rfl) (Or.inl hq) h).1

theorem C29_lock_discipline_witness :
    runsQueueDelay sampleFlushing (.deliver 1) = false ∧
      actionLocks sampleEnv sampleFlushing (.deliver 1) =
        .ok [.post, .acquire .flush, .release .flush, .post] ∧
      lockCheck notFlushWithDelay [] [.post, .acquire .flush, .release .flush, .post]
        = true ∧
      lockCheck postUnlocked [] [.post, .acquire .flush, .release .flush, .post]
        = true := by
  have h : actionLocks sampleEnv sampleFlushing (.deliver 1) =
      .ok [.post, .acquire .flush, .release .flush, .post] := by rfl
  have hw := (C29_lock_discipline sampleEnv sampleFlushing (.deliver 1)).1 _ h
  exact ⟨rfl, h, hw.1, hw.2.2.2 rfl⟩

/-! ## The caption filter (C39) -/

set_option maxRecDepth 20000 in
theorem sampleCaptions_run :
    ccRun 64 (CCDecoder.new 4 true) sampleCaptionCalls = .ok sampleCaptions := by
  rfl

theorem lastChannel_snoc (carried : Nat) (before : List CCData) (cc : CCData) :
    lastChannel carried (before ++ [cc]) =
      match cc.getChannel with
      | some channel => channel
      | none => lastChannel carried before := by
  unfold lastChannel
  rw [List.filterMap_append]
  cases h : cc.getChannel with
  | none => simp [List.filterMap, h]
  | some channel => simp [List.filterMap, h]

theorem recordsOfChannel_sublist (channel carried : Nat) :
    ∀ (ccBuf before : List CCData),
      (recordsOfChannel channel carried before ccBuf).Sublist ccBuf := by
  intro ccBuf
  induction ccBuf with
  | nil => intro before; exact List.Sublist.refl _
  | cons cc rest ih =>
    intro before
    unfold recordsOfChannel
    split
    · exact (ih (before ++ [cc])).cons₂ cc
    · exact (ih (before ++ [cc])).cons cc

theorem filterLoop_spec (index channel carried : Nat) :
    ∀ (ccBuf before filtered : List CCData) (d : CCDecoder),
      d.mFoundChannels[index]? = some channel →
      d.mCurrentChannel = lastChannel carried before →
      filterLoop index ccBuf filtered d =
        .ok (filtered ++ recordsOfChannel channel carried before ccBuf,
          { d with mCurrentChannel := lastChannel carried (before ++ ccBuf) }) := by
  intro ccBuf
  induction ccBuf with
  | nil =>
    intro before filtered d _ hc
    simp [filterLoop, recordsOfChannel, ← hc]
  | cons cc rest ih =>
    intro before filtered d hf hc
    have hl := lastChannel_snoc carried before cc
    unfold filterLoop recordsOfChannel effectiveChannel
    cases hg : cc.getChannel with
    | none =>
      rw [hg] at hl
      simp only [hf]
      rw [ih (before ++ [cc]) _ d hf (by rw [hl]; exact hc)]
      rw [hl, ← hc]
      simp only [List.append_assoc, List.singleton_append]
      split <;> simp
    | some ch =>
      rw [hg] at hl
      simp only []
      have hf1 : ({ d with mCurrentChannel := ch } : CCDecoder).mFoundChannels[index]?
          = some channel := hf
      rw [hf1]
      simp only []
      rw [ih (before ++ [cc]) _ { d with mCurrentChannel := ch } hf1 (by rw [hl])]
      rw [hl]
      simp only [List.append_assoc, List.singleton_append]
      split <;> simp

theorem filterLoop_valid (d : CCDecoder) (ccBuf : List CCData) (index : Nat)
    (hv : isTrackValid d index = true) :
    ∃ channel, d.mFoundChannels[index]? = some channel ∧
      filterCCBuf d ccBuf index =
        .ok (recordsOfChannel channel d.mCurrentChannel [] ccBuf,
          { d with mCurrentChannel := lastChannel d.mCurrentChannel ccBuf }) ∧
      (recordsOfChannel channel d.mCurrentChannel [] ccBuf).Sublist ccBuf := by
  have hlt : index < d.mFoundChannels.length := by
    simpa [isTrackValid, getTrackCount] using hv
  refine ⟨d.mFoundChannels[index], List.getElem?_eq_getElem hlt, ?_,
    recordsOfChannel_sublist _ _ _ _⟩
  have h := filterLoop_spec index d.mFoundChannels[index] d.mCurrentChannel ccBuf [] [] d
    (List.getElem?_eq_getElem hlt) (by simp [lastChannel])
  simpa [filterCCBuf] using h

/-- C39: for a valid track index, `filterCCBuf` returns the records of the
caption buffer whose effective channel (channel of the most recent control pair
at or before the record, else the channel carried over) is the channel of the
track, in their order in the buffer; the result is a subsequence of the buffer
and never longer than it, and the channel carried over afterwards is that of
the last control pair of the buffer. -/
theorem C39_filterCCBuf_selects_effective_channel (d : CCDecoder) (ccBuf : List CCData)
    (index : Nat) (hv : isTrackValid d index = true) :
    ∃ channel, d.mFoundChannels[index]? = some channel ∧
      filterCCBuf d ccBuf index =
        .ok (recordsOfChannel channel d.mCurrentChannel [] ccBuf,
          { d with mCurrentChannel := lastChannel d.mCurrentChannel ccBuf }) ∧
      (recordsOfChannel channel d.mCurrentChannel [] ccBuf).Sublist ccBuf ∧
      (recordsOfChannel channel d.mCurrentChannel [] ccBuf).length ≤ ccBuf.length := by
  obtain ⟨channel, h1, h2, h3⟩ := filterLoop_valid d ccBuf index hv
  exact ⟨channel, h1, h2, h3, h3.length_le⟩

theorem C39_filterCCBuf_selects_effective_channel_witness :
    isTrackValid sampleCaptions 1 = true ∧
    ∃ channel, sampleCaptions.mFoundChannels[1]? = some channel ∧
      filterCCBuf sampleCaptions sampleMixedBuffer 1 =
        .ok (recordsOfChannel channel sampleCaptions.mCurrentChannel [] sampleMixedBuffer,
          { sampleCaptions with
            mCurrentChannel := lastChannel sampleCaptions.mCurrentChannel sampleMixedBuffer }) ∧
      (recordsOfChannel channel sampleCaptions.mCurrentChannel [] sampleMixedBuffer).Sublist
        sampleMixedBuffer ∧
      (recordsOfChannel channel sampleCaptions.mCurrentChannel [] sampleMixedBuffer).length ≤
        sampleMixedBuffer.length :=
  ⟨by decide, C39_filterCCBuf_selects_effective_channel sampleCaptions _ 1 (by decide)⟩

/-! ## Found channels and track indices (C38) -/

theorem getChannel_some {cc : CCData} {c : Nat} (h : cc.getChannel = some c) :
    0x10 ≤ cc.mData1 ∧ cc.mData1 ≤ 0x1f ∧ c = controlChannel cc ∧ c ≤ 3 := by
  unfold CCData.getChannel at h
  split at h
  · next hr =>
    cases h
    refine ⟨hr.1, hr.2, rfl, ?_⟩
    split <;> split <;> omega
  · cases h

theorem length_le_four {l : List Nat} (hn : l.Nodup) (hs : ∀ c ∈ l, c ≤ 3) : l.length ≤ 4 := by
  have hsub : l ⊆ List.range 4 := by
    intro c hc
    exact List.mem_range.mpr (Nat.lt_succ_of_le (hs c hc))
  have := (List.subperm_of_subset hn hsub).length_le
  simpa using this

theorem toInt32_small {n : Nat} (h : n ≤ 4) : toInt32 n = n := by
  unfold toInt32
  have h1 : n % 2 ^ 32 = n := Nat.mod_eq_of_lt (by omega)
  rw [h1, if_pos (by omega)]

theorem channelsOK_new (slots : Nat) (b : Bool) : ChannelsOK (CCDecoder.new slots b) := by
  refine ⟨List.nodup_nil, ?_, ?_, ?_, ?_, ?_⟩
  · intro c hc; cases hc
  · intro c hc; cases hc
  · intro i c h; simp [CCDecoder.new] at h
  · intro c _
    unfold getTrackIndex CCDecoder.new
    dsimp only
    cases h : (List.replicate slots (-1 : Int))[c]? with
    | none => rfl
    | some v =>
      have := List.getElem?_mem h
      simp only [List.mem_replicate] at this
      simp [this.2]
  · simp [getTrackCount, CCDecoder.new]

theorem channelsOK_of_eq {d r : CCDecoder} (hf : r.mFoundChannels = d.mFoundChannels)
    (ht : r.mTrackIndices = d.mTrackIndices) (h : ChannelsOK d) : ChannelsOK r := by
  refine ⟨hf ▸ h.nodup, hf ▸ h.small, hf ▸ h.control, ?_, ?_, ?_⟩
  · intro i c hi
    rw [hf] at hi
    have := h.inverse i c hi
    unfold getTrackIndex at this ⊢
    rw [ht]; exact this
  · intro c hc
    rw [hf] at hc
    have := h.absent c hc
    unfold getTrackIndex at this ⊢
    rw [ht]; exact this
  · have := h.count
    unfold getTrackCount at this ⊢
    rw [hf]; exact this

theorem addTrack_ok {d r : CCDecoder} {cc : CCData} {added : Bool}
    (hok : ChannelsOK d) (ht : cc.mType = 0 ∨ cc.mType = 1)
    (h : addTrack d cc = .ok (added, r)) :
    ChannelsOK r ∧ d.mFoundChannels <+: r.mFoundChannels ∧ r.mCCMap = d.mCCMap := by
  unfold addTrack at h
  split at h
  · cases h; exact ⟨hok, List.prefix_refl _, rfl⟩
  · next channel hg =>
    obtain ⟨hlo, hhi, hctl, hsmall⟩ := getChannel_some hg
    split at h
    · next hneg =>
      split at h
      · next hlt =>
        cases h
        have hnot : channel ∉ d.mFoundChannels := by
          intro hmem
          obtain ⟨i, hi, hget⟩ := List.getElem_of_mem hmem
          have := hok.inverse i channel (by rw [List.getElem?_eq_getElem hi, hget])
          rw [this] at hneg
          omega
        have hnodup : (d.mFoundChannels ++ [channel]).Nodup := by
          rw [List.nodup_append]
          refine ⟨hok.nodup, List.nodup_singleton _, ?_⟩
          intro a ha hb
          simp only [List.mem_singleton] at hb
          subst hb
          exact hnot ha
        have hsm : ∀ c ∈ d.mFoundChannels ++ [channel], c ≤ 3 := by
          intro c hc
          rcases List.mem_append.mp hc with h1 | h1
          · exact hok.small c h1
          · simp only [List.mem_singleton] at h1; subst h1; exact hsmall
        refine ⟨⟨hnodup, hsm, ?_, ?_, ?_, ?_⟩, List.prefix_append _ _, rfl⟩
        · intro c hc
          rcases List.mem_append.mp hc with h1 | h1
          · exact hok.control c h1
          · simp only [List.mem_singleton] at h1
            subst h1
            exact ⟨cc, ht, hlo, hhi, hctl⟩
        · intro i c hi
          show (match (d.mTrackIndices.set channel
              (toInt32 d.mFoundChannels.length))[c]? with
            | some i => i | none => -1) = (i : Int)
          by_cases hil : i < d.mFoundChannels.length
          · rw [List.getElem?_append_left hil] at hi
            have hne : channel ≠ c := by
              intro he
              subst he
              exact hnot (List.getElem?_mem hi)
            rw [List.getElem?_set_ne hne]
            exact hok.inverse i c hi
          · have hil2 : d.mFoundChannels.length ≤ i := Nat.le_of_not_lt hil
            rw [List.getElem?_append_right hil2] at hi
            have hi0 : i - d.mFoundChannels.length = 0 := by
              by_contra hne
              have : [channel][i - d.mFoundChannels.length]? = none := by
                apply List.getElem?_eq_none
                simp only [List.length_singleton]
                omega
              rw [this] at hi
              cases hi
            rw [hi0] at hi
            simp only [List.getElem?_cons_zero, Option.some.injEq] at hi
            subst hi
            rw [List.getElem?_set_self hlt]
            have hcount := hok.count
            unfold getTrackCount at hcount
            rw [toInt32_small hcount]
            have : i = d.mFoundChannels.length := by omega
            rw [this]
        · intro c hc
          have hc1 : c ∉ d.mFoundChannels := fun h1 => hc (List.mem_append_left _ h1)
          have hne : channel ≠ c := by
            intro he
            subst he
            exact hc (List.mem_append_right _ (List.mem_singleton_self _))
          show (match (d.mTrackIndices.set channel
              (toInt32 d.mFoundChannels.length))[c]? with
            | some i => i | none => -1) = -1
          rw [List.getElem?_set_ne hne]
          exact hok.absent c hc1
        · exact length_le_four hnodup hsm
      · cases h
    · cases h; exact ⟨hok, List.prefix_refl _, rfl⟩

theorem ccPackets_ok (t : Int) :
    ∀ (count : Nat) (br : List Bool) (added : Bool) (ccBuf : List CCData) (d : CCDecoder)
      (res : Bool × List CCData × CCDecoder),
      ChannelsOK d → ccPackets t count br added ccBuf d = .ok res →
      ChannelsOK res.2.2 ∧ d.mFoundChannels <+: res.2.2.mFoundChannels := by
  intro count
  induction count with
  | zero =>
    intro br added ccBuf d res hok h
    simp only [ccPackets] at h
    cases h
    exact ⟨hok, List.prefix_refl _⟩
  | succ n ih =>
    intro br added ccBuf d res hok h
    unfold ccPackets at h
    obtain ⟨⟨marker, br1⟩, _, h⟩ := Result.bind_eq_ok h
    dsimp only at h
    split at h
    · cases h
    · obtain ⟨⟨cc_valid, br2⟩, _, h⟩ := Result.bind_eq_ok h
      obtain ⟨⟨cc_type, br3⟩, _, h⟩ := Result.bind_eq_ok h
      obtain ⟨⟨byte1, br4⟩, _, h⟩ := Result.bind_eq_ok h
      obtain ⟨⟨byte2, br5⟩, _, h⟩ := Result.bind_eq_ok h
      dsimp only at h
      split at h
      · next hv =>
        split at h
        · obtain ⟨⟨a, d1⟩, h1, h⟩ := Result.bind_eq_ok h
          dsimp only at h
          obtain ⟨hok1, hp1, _⟩ := addTrack_ok hok hv.2 h1
          obtain ⟨h3, h4⟩ := ih _ _ _ _ _ (by exact channelsOK_of_eq (d := d1) rfl rfl hok1) h
          exact ⟨h3, hp1.trans h4⟩
        · exact ih _ _ _ _ _ hok h
      · exact ih _ _ _ _ _ hok h

theorem extractPictureUserData_ok {d : CCDecoder} {bits : List Bool} {t : Int}
    {res : Bool × List CCData × CCDecoder} (hok : ChannelsOK d)
    (h : extractPictureUserData d bits t = .ok res) :
    ChannelsOK res.2.2 ∧ d.mFoundChannels <+: res.2.2.mFoundChannels := by
  unfold extractPictureUserData at h
  obtain ⟨⟨v1, br1⟩, _, h⟩ := Result.bind_eq_ok h
  obtain ⟨⟨v2, br2⟩, _, h⟩ := Result.bind_eq_ok h
  obtain ⟨⟨v3, br3⟩, _, h⟩ := Result.bind_eq_ok h
  obtain ⟨⟨v4, br4⟩, _, h⟩ := Result.bind_eq_ok h
  dsimp only at h
  split at h
  · obtain ⟨br5, _, h⟩ := Result.bind_eq_ok h
    obtain ⟨⟨flag, br6⟩, _, h⟩ := Result.bind_eq_ok h
    obtain ⟨br7, _, h⟩ := Result.bind_eq_ok h
    obtain ⟨⟨cc_count, br8⟩, _, h⟩ := Result.bind_eq_ok h
    obtain ⟨br9, _, h⟩ := Result.bind_eq_ok h
    dsimp only at h
    split at h
    · exact ccPackets_ok t _ _ _ _ _ _ hok h
    · cases h; exact ⟨hok, List.prefix_refl _⟩
  · cases h; exact ⟨hok, List.prefix_refl _⟩

theorem decode_ok {d r : CCDecoder} {bits : List Bool} {t : Int} (hok : ChannelsOK d)
    (h : decode d bits t = .ok r) :
    ChannelsOK r ∧ d.mFoundChannels <+: r.mFoundChannels := by
  unfold decode at h
  obtain ⟨⟨added, buf, d1⟩, h1, h⟩ := Result.bind_eq_ok h
  obtain ⟨h2, h3⟩ := extractPictureUserData_ok hok h1
  dsimp only at h
  split at h
  · cases h
    split
    · exact ⟨channelsOK_of_eq (d := d1) rfl rfl h2, h3⟩
    · exact ⟨h2, h3⟩
  · cases h; exact ⟨h2, h3⟩

theorem filterLoop_fields (index : Nat) :
    ∀ (ccBuf filtered : List CCData) (d : CCDecoder) (res : List CCData × CCDecoder),
      filterLoop index ccBuf filtered d = .ok res →
      res.2.mFoundChannels = d.mFoundChannels ∧ res.2.mTrackIndices = d.mTrackIndices ∧
      res.2.mCCMap = d.mCCMap ∧ res.2.posted = d.posted ∧ res.2.hasNotify = d.hasNotify ∧
      res.2.mSelectedTrack = d.mSelectedTrack := by
  intro ccBuf
  induction ccBuf with
  | nil =>
    intro filtered d res h
    simp only [filterLoop] at h
    cases h
    exact ⟨rfl, rfl, rfl, rfl, rfl, rfl⟩
  | cons cc rest ih =>
    intro filtered d res h
    unfold filterLoop at h
    dsimp only at h
    split at h
    · cases h
    · have := ih _ _ _ h
      cases hg : cc.getChannel <;> simpa [hg] using this

theorem display_ok {w : Nat} {d r : CCDecoder} {t : Int} (hok : ChannelsOK d)
    (h : display w d t = .ok r) :
    ChannelsOK r ∧ r.mFoundChannels = d.mFoundChannels := by
  unfold display at h
  split at h
  · cases h; exact ⟨hok, rfl⟩
  · split at h
    · cases h; exact ⟨hok, rfl⟩
    · split at h
      · cases h
      · obtain ⟨⟨ccBuf, d1⟩, h1, h⟩ := Result.bind_eq_ok h
        obtain ⟨hf, hi, _⟩ := filterLoop_fields _ _ _ _ _ h1
        dsimp only at h hf hi
        cases h
        have hf2 : ∀ (n : Nat) (x : CCDecoder), x.mFoundChannels = d1.mFoundChannels →
            x.mTrackIndices = d1.mTrackIndices →
            ChannelsOK { x with mCCMap := removeItemsAt x.mCCMap 0 n } ∧
              ({ x with mCCMap := removeItemsAt x.mCCMap 0 n } : CCDecoder).mFoundChannels
                = d.mFoundChannels := by
          intro n x hx1 hx2
          exact ⟨channelsOK_of_eq (d := d) (hx1.trans hf) (hx2.trans hi) hok, hx1.trans hf⟩
        apply hf2
        · split
          · split <;> rfl
          · rfl
        · split
          · split <;> rfl
          · rfl

theorem selectTrack_fields (d : CCDecoder) (index : Nat) (select : Bool) :
    (selectTrack d index select).2.mFoundChannels = d.mFoundChannels ∧
    (selectTrack d index select).2.mTrackIndices = d.mTrackIndices ∧
    (selectTrack d index select).2.mCCMap = d.mCCMap := by
  unfold selectTrack
  split
  · exact ⟨rfl, rfl, rfl⟩
  · split
    · split <;> exact ⟨rfl, rfl, rfl⟩
    · split <;> exact ⟨rfl, rfl, rfl⟩

theorem ccStep_ok {w : Nat} {d r : CCDecoder} {a : CCAction} (hok : ChannelsOK d)
    (h : ccStep w d a = .ok r) :
    ChannelsOK r ∧ d.mFoundChannels <+: r.mFoundChannels := by
  cases a with
  | decode bits t => exact decode_ok hok h
  | display t =>
    obtain ⟨h1, h2⟩ := display_ok hok h
    exact ⟨h1, h2 ▸ List.prefix_refl _⟩
  | selectTrack index select =>
    have h1 : (selectTrack d index select).2 = r := by
      simpa [ccStep] using h
    obtain ⟨h2, h3, _⟩ := selectTrack_fields d index select
    rw [h1] at h2 h3
    exact ⟨channelsOK_of_eq h2 h3 hok, h2 ▸ List.prefix_refl _⟩
  | flush =>
    have h1 : ccFlush d = r := by simpa [ccStep] using h
    subst h1
    exact ⟨channelsOK_of_eq (d := d) rfl rfl hok, List.prefix_refl _⟩

theorem ccRun_ok (w : Nat) :
    ∀ (acts : List CCAction) (d r : CCDecoder), ChannelsOK d → ccRun w d acts = .ok r →
      ChannelsOK r ∧ d.mFoundChannels <+: r.mFoundChannels := by
  intro acts
  induction acts with
  | nil =>
    intro d r hok h
    simp only [ccRun] at h
    cases h
    exact ⟨hok, List.prefix_refl _⟩
  | cons a rest ih =>
    intro d r hok h
    unfold ccRun at h
    obtain ⟨d1, h1, h2⟩ := Result.bind_eq_ok h
    obtain ⟨hok1, hp1⟩ := ccStep_ok hok h1
    obtain ⟨hok2, hp2⟩ := ih d1 r hok1 h2
    exact ⟨hok2, hp1.trans hp2⟩

/-- C38: after any sequence of calls on a fresh caption decoder (decoding of
picture user data, display, track selection, flush) the found channels hold no
channel twice, every found channel is at most 3 and is the channel
`(data1 ≥ 0x18 ? 1 : 0) + (type ≠ 0 ? 2 : 0)` of a control pair with
`0x10 ≤ data1 ≤ 0x1f`, the table of track indices maps each found channel to
its position and every other channel to -1, the track count is at most 4, and
further calls only append to the found channels, so the count never drops. -/
theorem C38_found_channels_invariant (w slots : Nat) (hasNotify : Bool)
    (acts more : List CCAction) (d r : CCDecoder)
    (h1 : ccRun w (CCDecoder.new slots hasNotify) acts = .ok d)
    (h2 : ccRun w d more = .ok r) :
    ChannelsOK r ∧ getTrackCount r ≤ 4 ∧ d.mFoundChannels <+: r.mFoundChannels ∧
      getTrackCount d ≤ getTrackCount r := by
  obtain ⟨hd, _⟩ := ccRun_ok w acts _ d (channelsOK_new slots hasNotify) h1
  obtain ⟨hr, hp⟩ := ccRun_ok w more d r hd h2
  exact ⟨hr, hr.count, hp, hp.length_le⟩

theorem C38_found_channels_invariant_witness :
    ccRun 64 (CCDecoder.new 4 true) sampleCaptionCalls = .ok sampleCaptions ∧
    ccRun 64 sampleCaptions [.display 200, .flush] = .ok (runCaptions sampleCaptions) ∧
    (ChannelsOK (runCaptions sampleCaptions) ∧ getTrackCount (runCaptions sampleCaptions) ≤ 4 ∧
      sampleCaptions.mFoundChannels <+: (runCaptions sampleCaptions).mFoundChannels ∧
      getTrackCount sampleCaptions ≤ getTrackCount (runCaptions sampleCaptions)) :=
  ⟨sampleCaptions_run, by rfl,
    C38_found_channels_invariant 64 4 true sampleCaptionCalls [.display 200, .flush]
      sampleCaptions _ sampleCaptions_run (by rfl)⟩

/-! ## Display drops the captions up to the displayed frame (C31) -/

theorem mapAdd_keys (key : Int) (value : List CCData) :
    ∀ (m : List (Int × List CCData)) (x : Int),
      x ∈ (mapAdd m key value).map Prod.fst → x = key ∨ x ∈ m.map Prod.fst := by
  intro m
  induction m with
  | nil =>
    intro x hx
    simp [mapAdd] at hx
    exact Or.inl hx
  | cons p rest ih =>
    intro x hx
    obtain ⟨k, v⟩ := p
    unfold mapAdd at hx
    split at hx
    · simp only [List.map_cons, List.mem_cons] at hx ⊢
      rcases hx with h | h | h
      · exact Or.inl h
      · exact Or.inr (Or.inl h)
      · exact Or.inr (Or.inr h)
    · split at hx
      · simp only [List.map_cons, List.mem_cons] at hx ⊢
        rcases hx with h | h
        · exact Or.inl h
        · exact Or.inr (Or.inr h)
      · simp only [List.map_cons, List.mem_cons] at hx ⊢
        rcases hx with h | h
        · exact Or.inr (Or.inl h)
        · rcases ih x h with h1 | h1
          · exact Or.inl h1
          · exact Or.inr (Or.inr h1)

theorem mapAdd_sorted (key : Int) (value : List CCData) :
    ∀ m : List (Int × List CCData), mapSorted m → mapSorted (mapAdd m key value) := by
  intro m
  induction m with
  | nil => intro _; simp [mapAdd, mapSorted]
  | cons p rest ih =>
    intro hs
    obtain ⟨k, v⟩ := p
    unfold mapSorted at hs
    simp only [List.map_cons, List.pairwise_cons] at hs
    unfold mapAdd
    split
    · next hlt =>
      unfold mapSorted
      simp only [List.map_cons, List.pairwise_cons, List.mem_cons]
      refine ⟨?_, hs.1, hs.2⟩
      intro x hx
      rcases hx with h | h
      · rw [h]; exact hlt
      · exact lt_trans hlt (hs.1 x h)
    · split
      · next heq =>
        unfold mapSorted
        simp only [List.map_cons, List.pairwise_cons]
        exact ⟨fun x hx => heq ▸ hs.1 x hx, hs.2⟩
      · next hnlt hne =>
        unfold mapSorted
        simp only [List.map_cons, List.pairwise_cons]
        refine ⟨?_, ih hs.2⟩
        intro x hx
        rcases mapAdd_keys key value rest x hx with h | h
        · rw [h]; omega
        · exact hs.1 x h

theorem drop_sorted (n : Nat) {m : List (Int × List CCData)} (h : mapSorted m) :
    mapSorted (removeItemsAt m 0 n) := by
  unfold removeItemsAt mapSorted at *
  simp only [List.take_zero, List.nil_append, Nat.zero_add, List.map_drop]
  exact h.sublist (List.drop_sublist _ _)

theorem addTrack_map {d r : CCDecoder} {cc : CCData} {added : Bool}
    (h : addTrack d cc = .ok (added, r)) : r.mCCMap = d.mCCMap := by
  unfold addTrack at h
  split at h
  · cases h; rfl
  · split at h
    · split at h
      · cases h; rfl
      · cases h
    · cases h; rfl

theorem ccPackets_sorted (t : Int) :
    ∀ (count : Nat) (br : List Bool) (added : Bool) (ccBuf : List CCData) (d : CCDecoder)
      (res : Bool × List CCData × CCDecoder),
      mapSorted d.mCCMap → ccPackets t count br added ccBuf d = .ok res →
      mapSorted res.2.2.mCCMap := by
  intro count
  induction count with
  | zero =>
    intro br added ccBuf d res hs h
    simp only [ccPackets] at h
    cases h
    exact hs
  | succ n ih =>
    intro br added ccBuf d res hs h
    unfold ccPackets at h
    obtain ⟨⟨marker, br1⟩, _, h⟩ := Result.bind_eq_ok h
    dsimp only at h
    split at h
    · cases h
    · obtain ⟨⟨cc_valid, br2⟩, _, h⟩ := Result.bind_eq_ok h
      obtain ⟨⟨cc_type, br3⟩, _, h⟩ := Result.bind_eq_ok h
      obtain ⟨⟨byte1, br4⟩, _, h⟩ := Result.bind_eq_ok h
      obtain ⟨⟨byte2, br5⟩, _, h⟩ := Result.bind_eq_ok h
      dsimp only at h
      split at h
      · split at h
        · obtain ⟨⟨a, d1⟩, h1, h⟩ := Result.bind_eq_ok h
          dsimp only at h
          have hm := addTrack_map h1
          refine ih _ _ _ _ _ ?_ h
          exact mapAdd_sorted _ _ _ (hm ▸ hs)
        · exact ih _ _ _ _ _ hs h
      · exact ih _ _ _ _ _ hs h

theorem decode_sorted {d r : CCDecoder} {bits : List Bool} {t : Int}
    (hs : mapSorted d.mCCMap) (h : decode d bits t = .ok r) : mapSorted r.mCCMap := by
  unfold decode at h
  obtain ⟨⟨added, buf, d1⟩, h1, h⟩ := Result.bind_eq_ok h
  have h2 : mapSorted d1.mCCMap := by
    unfold extractPictureUserData at h1
    obtain ⟨⟨v1, br1⟩, _, h1⟩ := Result.bind_eq_ok h1
    obtain ⟨⟨v2, br2⟩, _, h1⟩ := Result.bind_eq_ok h1
    obtain ⟨⟨v3, br3⟩, _, h1⟩ := Result.bind_eq_ok h1
    obtain ⟨⟨v4, br4⟩, _, h1⟩ := Result.bind_eq_ok h1
    dsimp only at h1
    split at h1
    · obtain ⟨br5, _, h1⟩ := Result.bind_eq_ok h1
      obtain ⟨⟨flag, br6⟩, _, h1⟩ := Result.bind_eq_ok h1
      obtain ⟨br7, _, h1⟩ := Result.bind_eq_ok h1
      obtain ⟨⟨cc_count, br8⟩, _, h1⟩ := Result.bind_eq_ok h1
      obtain ⟨br9, _, h1⟩ := Result.bind_eq_ok h1
      dsimp only at h1
      split at h1
      · exact ccPackets_sorted t _ _ _ _ _ _ hs h1
      · cases h1; exact hs
    · cases h1; exact hs
  dsimp only at h
  split at h
  · cases h
    split
    · exact h2
    · exact h2
  · cases h; exact h2

theorem display_map {w : Nat} {d r : CCDecoder} {t : Int} (h : display w d t = .ok r) :
    r.mCCMap = d.mCCMap ∨ ∃ n, r.mCCMap = removeItemsAt d.mCCMap 0 n := by
  unfold display at h
  split at h
  · cases h; exact Or.inl rfl
  · split at h
    · cases h; exact Or.inl rfl
    · next index _ =>
      split at h
      · cases h
      · obtain ⟨⟨ccBuf, d1⟩, h1, h⟩ := Result.bind_eq_ok h
        obtain ⟨_, _, hm, _⟩ := filterLoop_fields _ _ _ _ _ h1
        dsimp only at h hm
        cases h
        refine Or.inr ⟨index + 1, ?_⟩
        show removeItemsAt _ 0 (index + 1) = _
        congr 1
        split
        · split
          · exact hm
          · exact hm
        · exact hm

theorem ccStep_sorted {w : Nat} {d r : CCDecoder} {a : CCAction}
    (hs : mapSorted d.mCCMap) (h : ccStep w d a = .ok r) : mapSorted r.mCCMap := by
  cases a with
  | decode bits t => exact decode_sorted hs h
  | display t =>
    rcases display_map h with h1 | ⟨n, h1⟩
    · rw [h1]; exact hs
    · rw [h1]; exact drop_sorted n hs
  | selectTrack index select =>
    have h1 : (selectTrack d index select).2 = r := by
      simpa [ccStep] using h
    obtain ⟨_, _, h3⟩ := selectTrack_fields d index select
    rw [h1] at h3
    rw [h3]; exact hs
  | flush =>
    have h1 : ccFlush d = r := by simpa [ccStep] using h
    subst h1
    simp [ccFlush, mapSorted]

theorem ccRun_sorted (w : Nat) :
    ∀ (acts : List CCAction) (d r : CCDecoder), mapSorted d.mCCMap →
      ccRun w d acts = .ok r → mapSorted r.mCCMap := by
  intro acts
  induction acts with
  | nil =>
    intro d r hs h
    simp only [ccRun] at h
    cases h
    exact hs
  | cons a rest ih =>
    intro d r hs h
    unfold ccRun at h
    obtain ⟨d1, h1, h2⟩ := Result.bind_eq_ok h
    exact ih d1 r (ccStep_sorted hs h1) h2

theorem indexOfKey_none {m : List (Int × List CCData)} {t : Int}
    (h : t ∉ m.map Prod.fst) : indexOfKey m t = none := by
  unfold indexOfKey
  dsimp only
  rw [if_neg]
  intro hlt
  have := List.findIdx_getElem (w := hlt)
  apply h
  simp only [beq_iff_eq] at this
  rw [← this]
  exact List.mem_map_of_mem _ (List.getElem_mem _)

theorem indexOfKey_sorted (t : Int) :
    ∀ m : List (Int × List CCData), mapSorted m → t ∈ m.map Prod.fst →
      ∃ index p, indexOfKey m t = some index ∧ m[index]? = some p ∧
        m.drop (index + 1) = m.filter fun q => decide (t < q.1) := by
  intro m
  induction m with
  | nil => intro _ h; cases h
  | cons p rest ih =>
    intro hs hmem
    obtain ⟨k, v⟩ := p
    unfold mapSorted at hs
    simp only [List.map_cons, List.pairwise_cons] at hs
    by_cases hk : k = t
    · subst hk
      refine ⟨0, (k, v), ?_, by simp, ?_⟩
      · simp [indexOfKey, List.findIdx_cons]
      · simp only [Nat.zero_add, List.drop_succ_cons, List.drop_zero]
        rw [List.filter_cons_of_neg (by simp)]
        symm
        rw [List.filter_eq_self]
        intro q hq
        have := hs.1 q.1 (List.mem_map_of_mem _ hq)
        simpa using this
    · have hmem1 : t ∈ rest.map Prod.fst := by
        simp only [List.map_cons, List.mem_cons] at hmem
        rcases hmem with h | h
        · exact absurd h.symm hk
        · exact h
      obtain ⟨index, q, h1, h2, h3⟩ := ih hs.2 hmem1
      have hlt : k < t := hs.1 t hmem1
      refine ⟨index + 1, q, ?_, by simpa using h2, ?_⟩
      · unfold indexOfKey at h1 ⊢
        dsimp only at h1 ⊢
        have hb : ((k, v).1 == t) = false := by simpa using hk
        rw [List.findIdx_cons, hb]
        simp only [cond_false, List.length_cons, Nat.add_lt_add_iff_right]
        split at h1
        · next hl =>
          rw [if_pos hl]
          cases h1
          rfl
        · cases h1
      · rw [List.drop_succ_cons, h3]
        rw [List.filter_cons_of_neg (by simp; omega)]

/-- C31: in every state of the caption decoder reached from a fresh one,
`display(timeUs)` with a valid selected track and `timeUs` in the caption map
returns and leaves in the map exactly the entries with a later time stamp (the
entries before `timeUs` and the displayed one are removed); with an invalid
selected track or `timeUs` not in the map it leaves the decoder as it is, the
map unchanged and nothing posted. -/
theorem C31_display_drops_up_to_displayed (w slots : Nat) (hasNotify : Bool)
    (acts : List CCAction) (d : CCDecoder) (timeUs : Int)
    (hrun : ccRun w (CCDecoder.new slots hasNotify) acts = .ok d) :
    (isTrackValid d (toSize w d.mSelectedTrack) = true → timeUs ∈ d.mCCMap.map Prod.fst →
      ∃ r, display w d timeUs = .ok r ∧
        r.mCCMap = d.mCCMap.filter (fun q => decide (timeUs < q.1)) ∧
        ∀ q ∈ d.mCCMap, q ∈ r.mCCMap ↔ timeUs < q.1) ∧
    (isTrackValid d (toSize w d.mSelectedTrack) = false ∨ timeUs ∉ d.mCCMap.map Prod.fst →
      display w d timeUs = .ok d) := by
  have hs : mapSorted d.mCCMap :=
    ccRun_sorted w acts _ d (by simp [CCDecoder.new, mapSorted]) hrun
  constructor
  · intro hv hmem
    obtain ⟨index, p, h1, h2, h3⟩ := indexOfKey_sorted timeUs d.mCCMap hs hmem
    obtain ⟨channel, hch, hf, _⟩ :=
      filterLoop_valid d p.2 (toSize w d.mSelectedTrack) hv
    have hmap : ∀ r, display w d timeUs = .ok r →
        r.mCCMap = d.mCCMap.filter (fun q => decide (timeUs < q.1)) := by
      intro r hr
      unfold display at hr
      rw [if_neg (by simp [hv]), h1] at hr
      dsimp only at hr
      rw [h2] at hr
      dsimp only at hr
      rw [hf] at hr
      simp only [Result.bind] at hr
      cases hr
      show removeItemsAt _ 0 (index + 1) = _
      rw [← h3]
      unfold removeItemsAt
      simp only [List.take_zero, List.nil_append, Nat.zero_add]
      congr 1
      split
      · split <;> rfl
      · rfl
    have hret : ∃ r, display w d timeUs = .ok r := by
      unfold display
      rw [if_neg (by simp [hv]), h1]
      dsimp only
      rw [h2]
      dsimp only
      rw [hf]
      exact ⟨_, rfl⟩
    obtain ⟨r, hr⟩ := hret
    refine ⟨r, hr, hmap r hr, ?_⟩
    intro q hq
    rw [hmap r hr, List.mem_filter]
    simp [hq]
  · intro h
    unfold display
    rcases h with h | h
    · rw [if_pos (by simp [h])]
    · by_cases hv : (!isTrackValid d (toSize w d.mSelectedTrack)) = true
      · rw [if_pos hv]
      · rw [if_neg hv, indexOfKey_none h]

theorem C31_display_drops_up_to_displayed_witness :
    ccRun 64 (CCDecoder.new 4 true) sampleCaptionCalls = .ok sampleCaptions ∧
    ((isTrackValid sampleCaptions (toSize 64 sampleCaptions.mSelectedTrack) = true →
        (200 : Int) ∈ sampleCaptions.mCCMap.map Prod.fst →
      ∃ r, display 64 sampleCaptions 200 = .ok r ∧
        r.mCCMap = sampleCaptions.mCCMap.filter (fun q => decide ((200 : Int) < q.1)) ∧
        ∀ q ∈ sampleCaptions.mCCMap, q ∈ r.mCCMap ↔ (200 : Int) < q.1) ∧
    (isTrackValid sampleCaptions (toSize 64 sampleCaptions.mSelectedTrack) = false ∨
        (200 : Int) ∉ sampleCaptions.mCCMap.map Prod.fst →
      display 64 sampleCaptions 200 = .ok sampleCaptions)) :=
  ⟨sampleCaptions_run,
    C31_display_drops_up_to_displayed 64 4 true sampleCaptionCalls sampleCaptions 200
      sampleCaptions_run⟩

/-! ## The guards of pause and resume (C36) -/

/-- C36: handling a pause message fails its `CHECK` if and only if the renderer
is already paused; handling a resume message on a renderer that is not paused
returns the state as it is (nothing posted, nothing emitted), so the looper
step only takes the message out of the mailbox; and on a renderer that is not
paused the pause handler sets paused and was-paused, clears both drain-pending
flags, pauses the sink exactly when audio is present and posts nothing. -/
theorem C36_pause_resume_guards (env : Env) (s : Renderer) :
    ((∃ f, onMessageReceived env s .pause = .fail f) ↔ s.mPaused = true) ∧
    (s.mPaused = true → onMessageReceived env s .pause = .fail .checkFailed) ∧
    (s.mPaused = false → onMessageReceived env s .resume = .ok s) ∧
    (∀ i d, s.mPaused = false → s.mailbox[i]? = some (.resume, d) →
      step env s (.deliver i) = .ok { s with mailbox := s.mailbox.eraseIdx i }) ∧
    (s.mPaused = false → ∃ r, onMessageReceived env s .pause = .ok r ∧
      r.mPaused = true ∧ r.mWasPaused = true ∧
      r.mDrainAudioQueuePending = false ∧ r.mDrainVideoQueuePending = false ∧
      r.out = s.out ++ (if s.mHasAudio then [.sinkPause] else []) ∧
      r.mailbox = s.mailbox) := by
  have hfail : s.mPaused = true → onMessageReceived env s .pause = .fail .checkFailed := by
    intro hp
    show onPause s = _
    unfold onPause
    rw [if_pos hp]
  have hok : s.mPaused = false → onMessageReceived env s .pause = .ok (pausedState s) :=
    fun hp => onPause_eq s hp
  refine ⟨⟨?_, fun hp => ⟨_, hfail hp⟩⟩, hfail, ?_, ?_, ?_⟩
  · rintro ⟨f, hf⟩
    cases hp : s.mPaused with
    | true => rfl
    | false => rw [hok hp] at hf; cases hf
  · intro hp
    show onResume env s = _
    unfold onResume
    rw [if_pos (by simp [hp])]
  · intro i d hp hm
    show (match s.mailbox[i]? with
      | none => Result.fail Fault.noMessage
      | some (msg, _) =>
        onMessageReceived env { s with mailbox := s.mailbox.eraseIdx i } msg) = _
    rw [hm]
    show onResume env { s with mailbox := s.mailbox.eraseIdx i } = _
    unfold onResume
    rw [if_pos (by simp [hp])]
  · intro hp
    have he := pausedState_effect s
    refine ⟨pausedState s, hok hp, he.paused, ?_, he.pendA, he.pendV, he.out, he.mailbox⟩
    unfold pausedState
    rfl

/-! ## The synchronisation step (C37) -/

theorem onQueueBuffer_sync_step (env : Env) (t : Renderer) (buffer : ABuffer) (cb : Nat)
    (hf : t.mFlushingVideo = false) (hs : t.mSyncQueues = true)
    (hg : startGated false t = false) :
    onQueueBuffer env t false buffer cb =
      syncQueuesStep env
        { beginStartUpLatency env (markPresent t false) with
          mVideoQueue := (beginStartUpLatency env (markPresent t false)).mVideoQueue
            ++ [bufferEntry buffer cb] } := by
  rw [onQueueBuffer_open env t false buffer cb hf]
  have hp := prologue_eq env t false
  have hg1 : ((beginStartUpLatency env (markPresent t false)).mHasAudio &&
      decide ((beginStartUpLatency env (markPresent t false)).mAnchorTimeMediaUs < 0)) = false := by
    rw [hp]
    simpa [startGated] using hg
  rw [enqueueBuffer_video_open env _ _ hg1]
  rw [postDrainVideoQueue_gated]
  · rfl
  · left
    rw [hp]
    simp [videoDrainGated, hs]

theorem syncQueuesStep_drop (env : Env) (s : Renderer) (aentry ventry : QueueEntry)
    (arest vrest : List QueueEntry) (cb : Nat)
    (hs : s.mSyncQueues = true) (ha : s.mAudioQueue = aentry :: arest)
    (hv : s.mVideoQueue = ventry :: vrest) (hcb : aentry.mNotifyConsumed = some cb)
    (he : audioHeadEarly aentry ventry) :
    syncQueuesStep env s =
      .ok { emit s (.consumed true cb none) with mAudioQueue := arest } := by
  obtain ⟨ab, vb, ta, tv, h1, h2, h3, h4, h5⟩ := he
  unfold syncQueuesStep
  rw [if_neg (by simp [hs, ha, hv])]
  rw [ha, hv]
  simp only [h1, h2, h3, h4]
  rw [if_pos h5]
  unfold postConsumed
  rw [hcb]
  rfl

theorem syncQueuesStep_done (env : Env) (s : Renderer) (aentry ventry : QueueEntry)
    (arest vrest : List QueueEntry)
    (hs : s.mSyncQueues = true) (ha : s.mAudioQueue = aentry :: arest)
    (hv : s.mVideoQueue = ventry :: vrest)
    (hta : entryTimed aentry) (htv : entryTimed ventry)
    (he : ¬ audioHeadEarly aentry ventry) :
    syncQueuesStep env s = syncQueuesDone env s := by
  unfold syncQueuesStep
  rw [if_neg (by simp [hs, ha, hv])]
  rw [ha, hv]
  dsimp only
  cases h1 : aentry.mBuffer with
  | none => rfl
  | some ab =>
    cases h2 : ventry.mBuffer with
    | none => rfl
    | some vb =>
      dsimp only
      cases h3 : ab.timeUs with
      | none => exact absurd h3 (hta ab h1)
      | some ta =>
        cases h4 : vb.timeUs with
        | none => exact absurd h4 (htv vb h2)
        | some tv =>
          dsimp only
          rw [if_neg]
          intro h5
          exact he ⟨ab, vb, ta, tv, h1, h2, h3, h4, h5⟩

/-- C37: at the synchronisation step of `onQueueBuffer` (sync flag set, both
queues non-empty, payload heads with time stamps, the audio head with its
callback) the step returns, and the head of the audio queue is dropped
(callback posted, entry dequeued, nothing else emitted, so nothing written to
the sink, sync flag still set) exactly when both heads carry payloads and the
video head is more than 100000 us later; only that one entry is dropped; in
every other case the sync flag is cleared and both queues and the trace are as
before. -/
theorem C37_sync_step_drops_early_audio (env : Env) (s : Renderer)
    (aentry ventry : QueueEntry) (arest vrest : List QueueEntry)
    (hs : s.mSyncQueues = true) (ha : s.mAudioQueue = aentry :: arest)
    (hv : s.mVideoQueue = ventry :: vrest)
    (hta : entryTimed aentry) (htv : entryTimed ventry)
    (hcb : aentry.mBuffer ≠ none → aentry.mNotifyConsumed ≠ none) :
    ∃ r, syncQueuesStep env s = .ok r ∧
      (r.mAudioQueue = arest ↔ audioHeadEarly aentry ventry) ∧
      (audioHeadEarly aentry ventry →
        r.mAudioQueue = arest ∧ r.mVideoQueue = s.mVideoQueue ∧ r.mSyncQueues = true ∧
        r.mailbox = s.mailbox ∧
        ∃ cb, aentry.mNotifyConsumed = some cb ∧ r.out = s.out ++ [.consumed true cb none]) ∧
      (¬ audioHeadEarly aentry ventry →
        r.mSyncQueues = false ∧ r.mAudioQueue = s.mAudioQueue ∧
        r.mVideoQueue = s.mVideoQueue ∧ r.out = s.out) := by
  have hne : aentry :: arest ≠ arest := by
    intro h
    have := congrArg List.length h
    simp at this
  by_cases he : audioHeadEarly aentry ventry
  · obtain ⟨ab, _, _, _, h1, _⟩ := id he
    have hsome : aentry.mNotifyConsumed ≠ none := hcb (by rw [h1]; simp)
    obtain ⟨cb, hcb1⟩ := Option.ne_none_iff_exists'.mp hsome
    refine ⟨_, syncQueuesStep_drop env s aentry ventry arest vrest cb hs ha hv hcb1 he,
      ⟨fun _ => he, fun _ => rfl⟩, fun _ => ⟨rfl, rfl, hs, rfl, cb, hcb1, rfl⟩,
      fun hn => absurd he hn⟩
  · have hvt : videoHeadTimed s := by
      intro e b hh hb
      rw [hv] at hh
      cases hh
      exact htv b hb
    obtain ⟨r, hr⟩ := syncQueuesDone_total env s hvt
    have hst := syncQueuesDone_stable hr
    have hoff := syncQueuesDone_off hr
    refine ⟨r, (syncQueuesStep_done env s aentry ventry arest vrest hs ha hv hta htv he).trans hr,
      ⟨fun h => ?_, fun h => absurd h he⟩, fun h => absurd h he,
      fun _ => ⟨hoff, hst.aq, hst.vq, hst.out⟩⟩
    rw [hst.aq, ha] at h
    exact absurd h hne

theorem C37_sync_step_drops_early_audio_witness :
    sampleSyncStep.mSyncQueues = true ∧
    ∃ r, syncQueuesStep sampleEnv sampleSyncStep = .ok r ∧
      (r.mAudioQueue = [] ↔
        audioHeadEarly (bufferEntry sampleBuffer1 1) (bufferEntry sampleVideoStart1 2)) ∧
      (audioHeadEarly (bufferEntry sampleBuffer1 1) (bufferEntry sampleVideoStart1 2) →
        r.mAudioQueue = [] ∧ r.mVideoQueue = sampleSyncStep.mVideoQueue ∧
        r.mSyncQueues = true ∧ r.mailbox = sampleSyncStep.mailbox ∧
        ∃ cb, (bufferEntry sampleBuffer1 1).mNotifyConsumed = some cb ∧
          r.out = sampleSyncStep.out ++ [.consumed true cb none]) ∧
      (¬ audioHeadEarly (bufferEntry sampleBuffer1 1) (bufferEntry sampleVideoStart1 2) →
        r.mSyncQueues = false ∧ r.mAudioQueue = sampleSyncStep.mAudioQueue ∧
        r.mVideoQueue = sampleSyncStep.mVideoQueue ∧ r.out = sampleSyncStep.out) :=
  ⟨rfl, C37_sync_step_drops_early_audio sampleEnv sampleSyncStep
    (bufferEntry sampleBuffer1 1) (bufferEntry sampleVideoStart1 2) []
    [bufferEntry sampleVideoStart2 3, bufferEntry sampleVideo2 4] rfl rfl rfl
    (by intro b hb; cases hb; simp [sampleBuffer1])
    (by intro b hb; cases hb; simp [sampleVideoStart1])
    (by intro _; simp [bufferEntry])⟩

/-! ## The start gate and an EOS marker at the head of a queue (C34) -/

theorem setStartAnchor_marker (s : Renderer) (aentry ventry : QueueEntry)
    (arest vrest : List QueueEntry) (ha : s.mAudioQueue = aentry :: arest)
    (hv : s.mVideoQueue = ventry :: vrest)
    (hm : aentry.mBuffer = none ∨ ventry.mBuffer = none) :
    setStartAnchorMediaAndPostDrainQueue s = .fail .nullDeref := by
  unfold setStartAnchorMediaAndPostDrainQueue
  rw [ha, hv]
  dsimp only
  cases h1 : ventry.mBuffer with
  | none => rfl
  | some vb =>
    cases h2 : aentry.mBuffer with
    | none => rfl
    | some ab =>
      rcases hm with h | h
      · rw [h2] at h; cases h
      · rw [h1] at h; cases h

/-- C34, at the input where the code departs from it: audio is declared
present, the audio stream ends before its first buffer and two video frames
are queued before the looper runs.  When `onQueueBuffer` handles the second
frame both queues are non-empty, but the head of the audio queue is the EOS
marker, and `setStartAnchorMediaAndPostDrainQueue` dereferences its null
buffer: the handler does not return. -/
theorem C34_start_anchor_reads_eos_marker :
    run sampleStart (sampleEOSBeforeVideo.take 6) = .ok sampleMarkerAtStart ∧
    sampleMarkerAtStart.mAudioQueue = [eosEntry ERROR_END_OF_STREAM] ∧
    sampleMarkerAtStart.mVideoQueue = [bufferEntry sampleVideo1 1] ∧
    sampleMarkerAtStart.mailbox[0]? = some (.queueBuffer false sampleVideo2 2, 0) ∧
    setStartAnchorMediaAndPostDrainQueue
      { sampleMarkerAtStart with
        mailbox := sampleMarkerAtStart.mailbox.eraseIdx 0
        mVideoQueue := sampleMarkerAtStart.mVideoQueue ++ [bufferEntry sampleVideo2 2] }
      = .fail .nullDeref ∧
    step sampleEnv sampleMarkerAtStart (.deliver 0) = .fail .nullDeref ∧
    run sampleStart sampleEOSBeforeVideo = .fail .nullDeref := by
  refine ⟨by rfl, by rfl, by rfl, by rfl, ?_, by rfl, by rfl⟩
  exact setStartAnchor_marker _ (eosEntry ERROR_END_OF_STREAM) (bufferEntry sampleVideo1 1) []
    [bufferEntry sampleVideo2 2] rfl rfl (Or.inl rfl)

/-! ## The audio drain writes within the room of the sink (C35) -/

theorem wrote_of_bytes {s r : Renderer} (k : Nat) (h : bytesOf r.out = bytesOf s.out) :
    Wrote k s r :=
  ⟨[], by simp [h], Nat.zero_le _⟩

theorem wrote_trans {a b : Nat} {s m r : Renderer} (h1 : Wrote a s m) (h2 : Wrote b m r) :
    Wrote (a + b) s r := by
  obtain ⟨w1, e1, l1⟩ := h1
  obtain ⟨w2, e2, l2⟩ := h2
  refine ⟨w1 ++ w2, by rw [e2, e1, List.append_assoc], ?_⟩
  simp only [List.length_append]
  omega

theorem wrote_mono {a b : Nat} {s r : Renderer} (h : Wrote a s r) (hab : a ≤ b) :
    Wrote b s r := by
  obtain ⟨w, e, l⟩ := h
  exact ⟨w, e, le_trans l hab⟩

theorem wrote_zero {s r : Renderer} (h : Wrote 0 s r) : bytesOf r.out = bytesOf s.out := by
  obtain ⟨w, e, l⟩ := h
  have : w = [] := List.length_eq_zero.mp (Nat.le_zero.mp l)
  rw [e, this, List.append_nil]

theorem audioWrite_room {env : Env} {n : Nat} {s : Renderer} {entry : QueueEntry}
    {buffer : ABuffer} {rest : List QueueEntry} {c : Ctl}
    (h : audioWrite env n s entry buffer rest = .ok c) : roomKept n s c := by
  have hle := copySize_le env n entry buffer
  unfold audioWrite at h
  dsimp only at h
  split at h
  · cases h
  · obtain ⟨s3, h3, h4⟩ := Result.bind_eq_ok h
    cases h4
    have h5 : bytesOf s3.out = bytesOf s.out ++
        (buffer.data.drop entry.mOffset).take (copySize env n entry buffer) := by
      split at h3
      · obtain ⟨s2, h2, h6⟩ := Result.bind_eq_ok h3
        cases h6
        have := (postConsumed_bytes h2).bytes
        show bytesOf s2.out = _
        rw [this]
        simp [emit, bytesOf_append, bytesOf, writtenOf]
      · cases h3
        simp [emit, bytesOf_append, bytesOf, writtenOf]
    refine ⟨Nat.sub_le _ _, _, h5, ?_⟩
    have : ((buffer.data.drop entry.mOffset).take (copySize env n entry buffer)).length
        ≤ copySize env n entry buffer := List.length_take_le _ _
    omega

theorem audioAnchor_room {env : Env} {n : Nat} {s : Renderer} {entry : QueueEntry}
    {buffer : ABuffer} {rest : List QueueEntry} {m : Int} {c : Ctl}
    (h : audioAnchor env n s entry buffer rest m = .ok c) : roomKept n s c := by
  unfold audioAnchor at h
  dsimp only at h
  split at h
  · cases h
  · have h1 := audioWrite_room h
    cases c with
    | ret b s1 => exact h1
    | next n1 s1 => exact h1

theorem audioBody_room {env : Env} {n : Nat} {s : Renderer} {c : Ctl}
    (h : audioBody env n s = .ok c) : roomKept n s c := by
  unfold audioBody at h
  split at h
  · cases h
  · next entry rest hq =>
    split at h
    · cases h
      exact wrote_of_bytes 0 (by simp [notifyEOS, emit, bytesOf_append, bytesOf, writtenOf])
    · next buffer hb =>
      split at h
      · split at h
        · cases h
        · next mediaTimeUs ht =>
          split at h
          · split at h
            · cases h; exact wrote_of_bytes 0 rfl
            · split at h
              · obtain ⟨s1, h1, h2⟩ := Result.bind_eq_ok h
                cases h2
                refine ⟨le_refl _, wrote_of_bytes _ ?_⟩
                exact (postConsumed_bytes h1).bytes
              · split at h
                · dsimp only at h
                  split at h
                  · cases h
                    refine wrote_of_bytes 0 ?_
                    rw [(postDrainAudioQueue_stable _ _).out]
                  · have h1 := audioAnchor_room h
                    cases c with
                    | ret b s1 => exact h1
                    | next n1 s1 => exact h1
                · exact audioAnchor_room h
          · exact audioAnchor_room h
      · exact audioWrite_room h

theorem audioLoop_room {env : Env} (fuel : Nat) : ∀ {n : Nat} {s : Renderer}
    {r : Bool × Renderer}, audioLoop env fuel n s = .ok r → Wrote n s r.2 := by
  induction fuel with
  | zero =>
    intro n s r h
    unfold audioLoop at h
    split at h
    · cases h
    · cases h
      exact wrote_of_bytes n (notifyPosition_bytes env s false).1
  | succ k ih =>
    intro n s r h
    unfold audioLoop at h
    split at h
    · split at h
      · cases h
      · next b s1 hb =>
        cases h
        exact wrote_mono (audioBody_room hb) (Nat.zero_le _)
      · next n1 s1 hb =>
        obtain ⟨hle, hw⟩ := audioBody_room hb
        exact wrote_mono (wrote_trans hw (ih h)) (by omega)
    · cases h
      exact wrote_of_bytes n (notifyPosition_bytes env s false).1

theorem onDrainAudioQueue_room {env : Env} {s : Renderer} {r : Bool × Renderer}
    (h : onDrainAudioQueue env s = .ok r) : Wrote (numBytesAvailableToWrite env s) s r.2 := by
  unfold onDrainAudioQueue at h
  split at h
  · cases h; exact wrote_of_bytes _ rfl
  · have hm : (measureStartUpLatency env s).out = s.out := by
      unfold measureStartUpLatency
      split <;> rfl
    have hn := numBytesAvailableToWrite_congr env s (measureStartUpLatency env s)
      (measureStartUpLatency_written env s).1
    have key : ∀ X : Renderer, X.out = s.out →
        numBytesAvailableToWrite env X = numBytesAvailableToWrite env s →
        drainAudioFirst env X = .ok r → Wrote (numBytesAvailableToWrite env s) s r.2 := by
      intro X ho hnx h
      have hsink : ∀ {r : Bool × Renderer}, drainAudioSink env X = .ok r →
          Wrote (numBytesAvailableToWrite env s) s r.2 := by
        intro r h
        unfold drainAudioSink at h
        split at h
        · cases h; exact wrote_of_bytes _ (by rw [ho])
        · obtain ⟨w, e, l⟩ := audioLoop_room _ h
          exact ⟨w, by rw [e, ho], by rw [← hnx]; exact l⟩
      unfold drainAudioFirst at h
      split at h
      · exact hsink h
      · split at h
        · cases h
          exact wrote_of_bytes _
            (by simp [notifyEOS, emit, bytesOf_append, bytesOf, writtenOf, ho])
        · exact hsink h
    exact key _ hm hn h

theorem wrapSigned_of_range (w : Nat) (x : Int) (hw : 0 < w) (h0 : 0 ≤ x)
    (h1 : x < 2 ^ (w - 1)) : wrapSigned w x = x := by
  unfold wrapSigned
  have hp : (2 : Int) ^ w = 2 * 2 ^ (w - 1) := by
    obtain ⟨k, rfl⟩ : ∃ k, w = k + 1 := ⟨w - 1, by omega⟩
    simp [pow_succ, mul_comm]
  have hpos : (0 : Int) < 2 ^ (w - 1) := by positivity
  rw [Int.emod_eq_of_lt (by omega) (by omega)]
  ring

theorem numBytes_of_free (env : Env) (s : Renderer) (h0 : 0 ≤ freeFrames env s)
    (h1 : freeFrames env s < 2 ^ (env.sizeBits - 1)) (h2 : 0 ≤ env.frameSize)
    (h3 : freeFrames env s * env.frameSize < 2 ^ env.sizeBits) :
    numBytesAvailableToWrite env s = (freeFrames env s * env.frameSize).toNat := by
  unfold numBytesAvailableToWrite
  dsimp only
  have hf : env.frameCount - (numFramesPendingPlayout env s : Int) = freeFrames env s := rfl
  rw [hf]
  by_cases hw : env.sizeBits = 0
  · rw [hw] at h3 ⊢
    have hz : freeFrames env s * env.frameSize = 0 := by
      have := mul_nonneg h0 h2
      simp only [pow_zero] at h3
      omega
    rw [hz]
    simp
  · rw [wrapSigned_of_range _ _ (Nat.pos_of_ne_zero hw) h0 h1]
    rw [Int.emod_eq_of_lt (mul_nonneg h0 h2) h3]

theorem numBytes_of_zero (env : Env) (s : Renderer) (h : freeFrames env s = 0) :
    numBytesAvailableToWrite env s = 0 := by
  by_cases hw : env.sizeBits = 0
  · unfold numBytesAvailableToWrite
    dsimp only
    rw [hw]
    simp
  · have hpos : (0 : Int) < 2 ^ (env.sizeBits - 1) := by positivity
    have hp : (0 : Int) < 2 ^ env.sizeBits := by positivity
    unfold numBytesAvailableToWrite
    dsimp only
    have hf : env.frameCount - (numFramesPendingPlayout env s : Int) = freeFrames env s := rfl
    rw [hf, h, wrapSigned_of_range _ _ (Nat.pos_of_ne_zero hw) (le_refl _) hpos]
    simp

/-- C35 fails for a negative free capacity: on `sampleHalfDrained` (four frames
written, none played) a sink that reports room for two frames has
`frameCount - (framesWritten - framesPlayed) = -2`; the byte count wraps to
`2 ^ 32 - 4` and the drain writes the two bytes left in the queue. -/
theorem C35_negative_room_counterexample :
    freeFrames sampleEnvSmall sampleHalfDrained = -2 ∧
    numBytesAvailableToWrite sampleEnvSmall sampleHalfDrained = 2 ^ 32 - 4 ∧
    ∃ b r, onDrainAudioQueue sampleEnvSmall sampleHalfDrained = .ok (b, r) ∧
      bytesOf r.out = bytesOf sampleHalfDrained.out ++ [9, 10] := by
  refine ⟨by rfl, by rfl, ?_⟩
  cases h : onDrainAudioQueue sampleEnvSmall sampleHalfDrained with
  | fail f =>
    have : (onDrainAudioQueue sampleEnvSmall sampleHalfDrained matches .ok _) = true := by rfl
    rw [h] at this
    cases this
  | ok p =>
    refine ⟨p.1, p.2, rfl, ?_⟩
    have h2 : (match onDrainAudioQueue sampleEnvSmall sampleHalfDrained with
      | .ok q => bytesOf q.2.out
      | .fail _ => []) = bytesOf sampleHalfDrained.out ++ [9, 10] := by rfl
    rw [h] at h2
    exact h2

/-- C35 (amended): one call of `onDrainAudioQueue` writes to the sink at most
`numBytesAvailableToWrite` bytes, the value of
`(frameCount - (framesWritten - framesPlayed)) * frameSize` as the code holds
it (frame difference in `uint32_t`, free frames in `ssize_t`, byte count in
`size_t`), and nothing when that value is zero; when the free capacity is not
negative and the product fits, the value is the product itself, and with a
free capacity of zero nothing is written. -/
theorem C35_audio_drain_writes_within_room (env : Env) (s r : Renderer) (b : Bool)
    (h : onDrainAudioQueue env s = .ok (b, r)) :
    Wrote (numBytesAvailableToWrite env s) s r ∧
    (numBytesAvailableToWrite env s = 0 → bytesOf r.out = bytesOf s.out) ∧
    (0 ≤ freeFrames env s → freeFrames env s < 2 ^ (env.sizeBits - 1) → 0 ≤ env.frameSize →
      freeFrames env s * env.frameSize < 2 ^ env.sizeBits →
      numBytesAvailableToWrite env s = (freeFrames env s * env.frameSize).toNat) ∧
    (freeFrames env s = 0 → bytesOf r.out = bytesOf s.out) := by
  have hw := onDrainAudioQueue_room h
  refine ⟨hw, ?_, numBytes_of_free env s, ?_⟩
  · intro h0
    rw [h0] at hw
    exact wrote_zero hw
  · intro h0
    rw [numBytes_of_zero env s h0] at hw
    exact wrote_zero hw

theorem C35_audio_drain_writes_within_room_witness :
    onDrainAudioQueue sampleEnvPlayed sampleHalfDrained
      = .ok (sampleDrainedPlayed.1, sampleDrainedPlayed.2) ∧
    Wrote (numBytesAvailableToWrite sampleEnvPlayed sampleHalfDrained) sampleHalfDrained
      sampleDrainedPlayed.2 ∧
    numBytesAvailableToWrite sampleEnvPlayed sampleHalfDrained = 8 :=
  ⟨by rfl,
    (C35_audio_drain_writes_within_room sampleEnvPlayed sampleHalfDrained sampleDrainedPlayed.2
      sampleDrainedPlayed.1 (by rfl)).1, by rfl⟩

/-! ## Drain messages, generations and drain-pending flags (C32, C33) -/

theorem drainStep_refl (audio : Bool) (v : DrainView) : DrainStep audio v v :=
  Or.inl ⟨rfl, rfl⟩

theorem drainPosts_refl (v : DrainView) : DrainPosts v v :=
  ⟨rfl, rfl, rfl, drainStep_refl _ _, drainStep_refl _ _⟩

theorem drainStep_trans {audio : Bool} {v v1 v2 : DrainView} (hp : v1.paused = v.paused)
    (hg : v1.generation audio = v.generation audio)
    (h1 : DrainStep audio v v1) (h2 : DrainStep audio v1 v2) : DrainStep audio v v2 := by
  rcases h1 with ⟨a1, b1⟩ | ⟨a1, b1, c1, d1⟩
  · rcases h2 with ⟨a2, b2⟩ | ⟨a2, b2, c2, d2⟩
    · exact Or.inl ⟨a2.trans a1, b2.trans b1⟩
    · exact Or.inr ⟨by rw [a2, a1, hg], by rw [← b1]; exact b2, c2, by rw [← hp]; exact d2⟩
  · rcases h2 with ⟨a2, b2⟩ | ⟨a2, b2, c2, d2⟩
    · exact Or.inr ⟨a2.trans a1, b1, b2.trans c1, d1⟩
    · rw [c1] at b2; cases b2

theorem drainPosts_trans {v v1 v2 : DrainView} (h1 : DrainPosts v v1) (h2 : DrainPosts v1 v2) :
    DrainPosts v v2 := by
  refine ⟨h2.paused.trans h1.paused, h2.genA.trans h1.genA, h2.genV.trans h1.genV, ?_, ?_⟩
  · exact drainStep_trans h1.paused h1.genA h1.audio h2.audio
  · exact drainStep_trans h1.paused h1.genV h1.video h2.video

theorem generations_post (audio : Bool) (s : Renderer) (m : Msg) (d : Int) :
    (post s m d).drains.generations audio =
      s.drains.generations audio ++ (drainGeneration audio m).toList := by
  unfold DrainView.generations Renderer.drains post
  simp only [List.filterMap_append]
  cases h : drainGeneration audio m <;> simp [List.filterMap, h]

theorem drainPosts_post (s : Renderer) (m : Msg) (d : Int)
    (ha : drainGeneration true m = none) (hv : drainGeneration false m = none) :
    DrainPosts s.drains (post s m d).drains := by
  refine ⟨rfl, rfl, rfl, Or.inl ⟨?_, rfl⟩, Or.inl ⟨?_, rfl⟩⟩
  · rw [generations_post, ha]; simp
  · rw [generations_post, hv]; simp

theorem postConsumed_drains {s s1 : Renderer} {audio : Bool} {e : QueueEntry} {r : Option Int}
    (h : postConsumed s audio e r = .ok s1) : DrainPosts s.drains s1.drains := by
  obtain ⟨cb, _, h1⟩ := postConsumed_out h
  subst h1
  exact drainPosts_refl _

theorem notifyPosition_drains (env : Env) (s : Renderer) (b : Bool) :
    DrainPosts s.drains (notifyPosition env s b).drains := by
  unfold notifyPosition
  split
  · exact drainPosts_refl _
  · split
    · exact drainPosts_refl _
    · exact drainPosts_refl _

theorem measureStartUpLatency_drains (env : Env) (s : Renderer) :
    DrainPosts s.drains (measureStartUpLatency env s).drains := by
  unfold measureStartUpLatency
  split
  · exact drainPosts_refl _
  · exact drainPosts_refl _

theorem postDrainAudioQueue_drains (s : Renderer) (d : Int) :
    DrainPosts s.drains (postDrainAudioQueue s d).drains := by
  rcases postDrainAudioQueue_cases s d with h | ⟨hg, _, h⟩
  · rw [h]; exact drainPosts_refl _
  · rw [h]
    unfold audioDrainGated at hg
    simp only [Bool.or_eq_false_iff] at hg
    obtain ⟨⟨⟨_, hpend⟩, _⟩, hpaused⟩ := hg
    refine ⟨rfl, rfl, rfl, Or.inr ⟨?_, hpend, rfl, hpaused⟩, Or.inl ⟨?_, rfl⟩⟩
    · rw [generations_post]; rfl
    · rw [generations_post]; simp [drainGeneration]; rfl

theorem postDrainVideoQueue_drains {env : Env} {s r : Renderer}
    (h : postDrainVideoQueue env s = .ok r) : DrainPosts s.drains r.drains := by
  have hst := postDrainVideoQueue_stable h
  have hp : r.mPaused = s.mPaused := congrArg Settings.paused hst.settings
  obtain ⟨hA, h1 | ⟨hg, hV, d, h1⟩⟩ := postDrainVideoQueue_cases h
  · refine ⟨hp, hst.genA, hst.genV, Or.inl ⟨?_, hA⟩, Or.inl ⟨?_, h1.2⟩⟩
    · unfold DrainView.generations Renderer.drains; rw [h1.1]
    · unfold DrainView.generations Renderer.drains; rw [h1.1]
  · unfold videoDrainGated at hg
    simp only [Bool.or_eq_false_iff] at hg
    obtain ⟨⟨⟨⟨_, hpend⟩, _⟩, hpaused⟩, _⟩ := hg
    refine ⟨hp, hst.genA, hst.genV, Or.inl ⟨?_, hA⟩, Or.inr ⟨?_, hpend, hV, hpaused⟩⟩
    · unfold DrainView.generations Renderer.drains
      dsimp only
      rw [h1]
      simp [List.filterMap_append, List.filterMap, drainGeneration]
    · unfold DrainView.generations Renderer.drains
      dsimp only
      rw [h1]
      simp [List.filterMap_append, List.filterMap, drainGeneration]
      rfl

theorem syncQueuesDone_drains {env : Env} {s r : Renderer}
    (h : syncQueuesDone env s = .ok r) : DrainPosts s.drains r.drains := by
  unfold syncQueuesDone at h
  split at h
  · cases h; exact drainPosts_refl _
  · have h0 : DrainPosts s.drains ({ s with mSyncQueues := false } : Renderer).drains := drainPosts_refl _
    have key : ∀ s2 : Renderer, DrainPosts s.drains s2.drains →
        (if (!s2.mVideoQueue.isEmpty) = true then postDrainVideoQueue env s2 else .ok s2)
          = .ok r → DrainPosts s.drains r.drains := by
      intro s2 h2 h
      split at h
      · exact drainPosts_trans h2 (postDrainVideoQueue_drains h)
      · cases h; exact h2
    refine key _ ?_ h
    split
    · have h1 := postDrainAudioQueue_drains { s with mSyncQueues := false } 0
      exact drainPosts_trans h0 h1
    · exact h0

theorem audioWrite_drains {env : Env} {n : Nat} {s : Renderer} {entry : QueueEntry}
    {buffer : ABuffer} {rest : List QueueEntry} {c : Ctl}
    (h : audioWrite env n s entry buffer rest = .ok c) : DrainPosts s.drains c.state.drains := by
  unfold audioWrite at h
  dsimp only at h
  split at h
  · cases h
  · obtain ⟨s3, h3, h4⟩ := Result.bind_eq_ok h
    cases h4
    have h5 : DrainPosts s.drains s3.drains := by
      split at h3
      · obtain ⟨s2, h2, h6⟩ := Result.bind_eq_ok h3
        cases h6
        have := postConsumed_drains h2
        exact this
      · cases h3
        exact drainPosts_refl _
    exact h5

theorem audioAnchor_drains {env : Env} {n : Nat} {s : Renderer} {entry : QueueEntry}
    {buffer : ABuffer} {rest : List QueueEntry} {m : Int} {c : Ctl}
    (h : audioAnchor env n s entry buffer rest m = .ok c) : DrainPosts s.drains c.state.drains := by
  unfold audioAnchor at h
  dsimp only at h
  split at h
  · cases h
  · have h1 := audioWrite_drains h
    exact h1

theorem audioBody_drains {env : Env} {n : Nat} {s : Renderer} {c : Ctl}
    (h : audioBody env n s = .ok c) : DrainPosts s.drains c.state.drains := by
  unfold audioBody at h
  split at h
  · cases h
  · next entry rest hq =>
    split at h
    · cases h
      exact drainPosts_refl _
    · next buffer hb =>
      split at h
      · split at h
        · cases h
        · next mediaTimeUs ht =>
          split at h
          · split at h
            · cases h; exact drainPosts_refl _
            · split at h
              · obtain ⟨s1, h1, h2⟩ := Result.bind_eq_ok h
                cases h2
                have := postConsumed_drains h1
                exact this
              · split at h
                · dsimp only at h
                  split at h
                  · cases h
                    have h1 := postDrainAudioQueue_drains
                      { s with
                        mDiscFromAnchorRealTimeRefresh := false
                        mAudioQueue :=
                          { entry with mBuffer := some { buffer with disc := some 0 } } :: rest
                        mAnchorTimeMediaUs := mediaTimeUs
                        mAnchorTimeRealUs :=
                          (mediaTimeUs - s.mAnchorTimeMediaUs) + s.mAnchorTimeRealUs }
                      ((mediaTimeUs - s.mAnchorTimeMediaUs) + s.mAnchorTimeRealUs - env.nowUs
                        - ((env.latency * 1000 % 2 ^ 32 / 2 : Nat) : Int))
                    exact h1
                  · have h1 := audioAnchor_drains h
                    exact h1
                · exact audioAnchor_drains h
          · exact audioAnchor_drains h
      · exact audioWrite_drains h

theorem audioLoop_drains {env : Env} (fuel : Nat) : ∀ {n : Nat} {s : Renderer}
    {r : Bool × Renderer}, audioLoop env fuel n s = .ok r → DrainPosts s.drains r.2.drains := by
  induction fuel with
  | zero =>
    intro n s r h
    unfold audioLoop at h
    split at h
    · cases h
    · cases h
      exact notifyPosition_drains env s false
  | succ k ih =>
    intro n s r h
    unfold audioLoop at h
    split at h
    · split at h
      · cases h
      · next b s1 hb =>
        cases h
        exact audioBody_drains hb
      · next n1 s1 hb =>
        exact drainPosts_trans (audioBody_drains hb) (ih h)
    · cases h
      exact notifyPosition_drains env s false

theorem onDrainAudioQueue_drains {env : Env} {s : Renderer} {r : Bool × Renderer}
    (h : onDrainAudioQueue env s = .ok r) : DrainPosts s.drains r.2.drains := by
  unfold onDrainAudioQueue at h
  split at h
  · cases h; exact drainPosts_refl _
  · refine drainPosts_trans (measureStartUpLatency_drains env s) ?_
    unfold drainAudioFirst at h
    have hsink : ∀ {X : Renderer} {r : Bool × Renderer}, drainAudioSink env X = .ok r →
        DrainPosts X.drains r.2.drains := by
      intro X r h
      unfold drainAudioSink at h
      split at h
      · cases h; exact drainPosts_refl _
      · exact audioLoop_drains _ h
    split at h
    · exact hsink h
    · split at h
      · cases h
        exact drainPosts_refl _
      · exact hsink h

theorem onDrainVideoQueue_drains {env : Env} {s r : Renderer}
    (h : onDrainVideoQueue env s = .ok r) : DrainPosts s.drains r.drains := by
  unfold onDrainVideoQueue at h
  split at h
  · cases h; exact drainPosts_refl _
  · refine drainPosts_trans (measureStartUpLatency_drains env s) ?_
    generalize measureStartUpLatency env s = X at h
    unfold drainVideoHead at h
    split at h
    · cases h; exact drainPosts_refl _
    · split at h
      · cases h
        have h1 := notifyPosition_drains env X true
        exact h1
      · split at h
        · cases h
        · next mediaTimeUs ht =>
          have hd : DrainPosts X.drains ((videoRenderDecision env X mediaTimeUs).2).drains := by
            unfold videoRenderDecision
            dsimp only
            split <;> split <;> exact drainPosts_refl _
          generalize videoRenderDecision env X mediaTimeUs = d at h hd
          obtain ⟨tooLate, s5⟩ := d
          dsimp only at h
          obtain ⟨s6, h6, h7⟩ := Result.bind_eq_ok h
          cases h7
          have h8 := postConsumed_drains h6
          have key : ∀ Y : Renderer, DrainPosts s6.drains Y.drains → DrainPosts X.drains (notifyPosition env Y false).drains :=
            fun Y hY => drainPosts_trans (drainPosts_trans (drainPosts_trans hd h8) hY)
              (notifyPosition_drains env Y false)
          exact key _ (drainPosts_refl _)

theorem setStartAnchor_drains {s r : Renderer}
    (h : setStartAnchorMediaAndPostDrainQueue s = .ok r) : DrainPosts s.drains r.drains := by
  unfold setStartAnchorMediaAndPostDrainQueue at h
  split at h
  · split at h
    · cases h
      have key : ∀ X : Renderer, DrainPosts s.drains X.drains → DrainPosts s.drains (postDrainAudioQueue X 0).drains :=
        fun X hX => drainPosts_trans hX (postDrainAudioQueue_drains X 0)
      refine key _ ?_
      split
      · exact drainPosts_refl _
      · split
        · exact drainPosts_refl _
        · split <;> exact drainPosts_refl _
    · cases h
  · cases h

theorem syncQueuesStep_drains {env : Env} {s r : Renderer}
    (h : syncQueuesStep env s = .ok r) : DrainPosts s.drains r.drains := by
  unfold syncQueuesStep at h
  split at h
  · cases h; exact drainPosts_refl _
  · split at h
    · split at h
      · split at h
        · dsimp only at h
          split at h
          · obtain ⟨s1, h1, h2⟩ := Result.bind_eq_ok h
            cases h2
            have := postConsumed_drains h1
            exact this
          · exact syncQueuesDone_drains h
        · cases h
      · exact syncQueuesDone_drains h
    · cases h; exact drainPosts_refl _

theorem enqueueBuffer_drains {env : Env} {s r : Renderer} {audio : Bool} {entry : QueueEntry}
    (h : enqueueBuffer env s audio entry = .ok r) : DrainPosts s.drains r.drains := by
  unfold enqueueBuffer at h
  split at h
  · dsimp only at h
    split at h
    · split at h
      · cases h; exact drainPosts_refl _
      · have h1 := setStartAnchor_drains h
        exact h1
    · cases h
      have h1 := postDrainAudioQueue_drains { s with mAudioQueue := s.mAudioQueue ++ [entry] } 0
      exact h1
  · dsimp only at h
    split at h
    · split at h
      · cases h; exact drainPosts_refl _
      · split at h
        · cases h; exact drainPosts_refl _
        · have h1 := setStartAnchor_drains h
          exact h1
    · obtain ⟨s4, h4, h5⟩ := Result.bind_eq_ok h
      have h1 := postDrainVideoQueue_drains h4
      have h2 := syncQueuesStep_drains h5
      exact drainPosts_trans h1 h2

theorem onQueueBuffer_drains {env : Env} {s r : Renderer} {audio : Bool} {buffer : ABuffer}
    {cb : Nat} (h : onQueueBuffer env s audio buffer cb = .ok r) : DrainPosts s.drains r.drains := by
  unfold onQueueBuffer at h
  rw [dropBufferWhileFlushing_eq] at h
  have hm : DrainPosts s.drains (markPresent s audio).drains := by
    unfold markPresent
    split <;> exact drainPosts_refl _
  cases hf : flushingFlag audio (markPresent s audio)
  · rw [hf] at h
    simp only [Bool.false_eq_true, if_false] at h
    have hb : DrainPosts (markPresent s audio).drains (beginStartUpLatency env (markPresent s audio)).drains := by
      unfold beginStartUpLatency
      split
      · exact drainPosts_refl _
      · exact drainPosts_refl _
    exact drainPosts_trans hm (drainPosts_trans hb (enqueueBuffer_drains h))
  · rw [hf] at h
    simp only [if_true] at h
    cases h
    exact drainPosts_trans hm (drainPosts_refl _)

theorem onQueueEOS_drains {env : Env} {s r : Renderer} {audio : Bool} {finalResult : Int}
    (h : onQueueEOS env s audio finalResult = .ok r) : DrainPosts s.drains r.drains := by
  unfold onQueueEOS at h
  rw [dropBufferWhileFlushing_eq] at h
  cases hf : flushingFlag audio s
  · rw [hf] at h
    simp only [Bool.false_eq_true, if_false] at h
    split at h
    · cases h
      have h1 := postDrainAudioQueue_drains
        { s with mAudioQueue := s.mAudioQueue ++ [eosEntry finalResult] } 0
      exact h1
    · have h1 := postDrainVideoQueue_drains h
      exact h1
  · rw [hf] at h
    simp only [if_true] at h
    cases h
    exact drainPosts_refl _

theorem signalRefresh_drains (env : Env) (s : Renderer) (b : Bool) :
    DrainPosts s.drains (signalRefreshAnchorRealTime env s b).drains := by
  unfold signalRefreshAnchorRealTime
  split
  · dsimp only
    split <;> exact drainPosts_refl _
  · exact drainPosts_refl _

theorem queueDelay_drains (env : Env) (s : Renderer) (d : Int) :
    DrainPosts s.drains (queueDelay env s d).drains := by
  cases hp : s.mDelayPending with
  | true =>
    rw [queueDelay_pending env s d hp]
    exact drainPosts_refl _
  | false =>
    rw [queueDelay_fresh env s d hp]
    have key : ∀ X : Renderer, DrainPosts s.drains X.drains →
        DrainPosts s.drains
          ({ post X .delayQueued d with mDelayPending := true, mDelayToQueueUs := 0 }
            : Renderer).drains := by
      intro X hX
      exact drainPosts_trans hX (drainPosts_post X .delayQueued d rfl rfl)
    refine key _ ?_
    split
    · exact drainPosts_refl _
    · exact drainPosts_refl _

theorem onDelayQueued_drains {env : Env} {s r : Renderer}
    (h : onDelayQueued env s = .ok r) : DrainPosts s.drains r.drains := by
  unfold onDelayQueued at h
  dsimp only at h
  split at h
  · cases h
    exact queueDelay_drains env { s with mDelayPending := false } _
  · have key : ∀ X : Renderer, DrainPosts s.drains X.drains →
        postDrainVideoQueue env (postDrainAudioQueue X 0) = .ok r →
        DrainPosts s.drains r.drains := by
      intro X hX h
      exact drainPosts_trans (drainPosts_trans hX (postDrainAudioQueue_drains X 0))
        (postDrainVideoQueue_drains h)
    refine key _ ?_ h
    split
    · exact drainPosts_refl _
    · exact drainPosts_refl _

theorem onFlush_drains {env : Env} {s r : Renderer} {audio : Bool}
    (h : onFlush env s audio = .ok r) :
    ∃ v, DrainPosts s.drains v ∧ r.drains = v.bump audio := by
  unfold onFlush at h
  obtain ⟨s2, h2, h3⟩ := Result.bind_eq_ok h
  refine ⟨s2.drains, syncQueuesDone_drains h2, ?_⟩
  split at h3
  · next ha =>
    obtain ⟨s3, h4, h5⟩ := Result.bind_eq_ok h3
    cases h5
    obtain ⟨heq, _⟩ := flushLoop_eq true _ rfl h4
    subst heq
    rw [ha]
    rfl
  · next ha =>
    obtain ⟨s3, h4, h5⟩ := Result.bind_eq_ok h3
    cases h5
    obtain ⟨heq, _⟩ := flushLoop_eq false _ rfl h4
    subst heq
    have : audio = false := by simpa using ha
    rw [this]
    rfl

theorem onResume_drains {env : Env} {s r : Renderer} (h : onResume env s = .ok r) :
    DrainPosts { s.drains with paused := false } r.drains := by
  cases hp : s.mPaused with
  | false =>
    unfold onResume at h
    rw [hp] at h
    cases h
    have : ({ s.drains with paused := false } : DrainView) = s.drains := by
      unfold Renderer.drains
      rw [hp]
    rw [this]
    exact drainPosts_refl _
  | true =>
    rw [onResume_eq env s hp] at h
    have h0 : DrainPosts { s.drains with paused := false } (resumedState env s).drains := by
      unfold resumedState
      dsimp only
      have key : ∀ X : Renderer, DrainPosts { s.drains with paused := false } X.drains →
          DrainPosts { s.drains with paused := false }
            (if X.mIsLiveStream then signalRefreshAnchorRealTime env X false else X).drains := by
        intro X hX
        split
        · exact drainPosts_trans hX (signalRefresh_drains env X false)
        · exact hX
      exact key { (if s.mHasAudio && !s.mDelayPending then emit s .sinkStart else s) with
        mPaused := false } (by split <;> exact drainPosts_refl _)
    have key : ∀ X : Renderer, DrainPosts { s.drains with paused := false } X.drains →
        (if (!X.mVideoQueue.isEmpty) = true then postDrainVideoQueue env X else .ok X) = .ok r →
        DrainPosts { s.drains with paused := false } r.drains := by
      intro X hX h
      split at h
      · exact drainPosts_trans hX (postDrainVideoQueue_drains h)
      · cases h; exact hX
    refine key _ ?_ h
    split
    · exact drainPosts_trans h0 (postDrainAudioQueue_drains _ _)
    · exact h0

theorem drainAudioMessage_drains {env : Env} {s r : Renderer} {generation : Int}
    (h : onMessageReceived env s (.drainAudioQueue generation) = .ok r) :
    DrainPosts (s.drains.clear true) r.drains := by
  unfold onMessageReceived at h
  dsimp only at h
  have h0 : DrainPosts (s.drains.clear true)
      ({ s with mDrainAudioQueuePending := false } : Renderer).drains := drainPosts_refl _
  split at h
  · cases h; exact h0
  · obtain ⟨⟨postAudio, s2⟩, h2, h3⟩ := Result.bind_eq_ok h
    have h4 := onDrainAudioQueue_drains h2
    dsimp only at h3
    obtain ⟨s3, h5, h6⟩ := Result.bind_eq_ok h3
    have h7 : DrainPosts s2.drains s3.drains := by
      split at h5
      · have h8 := postDrainVideoQueue_drains h5
        exact h8
      · cases h5; exact drainPosts_refl _
    have h9 : DrainPosts (s.drains.clear true) s3.drains :=
      drainPosts_trans (drainPosts_trans h0 h4) h7
    split at h6
    · split at h6
      · cases h6
      · cases h6
        exact drainPosts_trans h9 (postDrainAudioQueue_drains _ _)
    · cases h6; exact h9

theorem drainVideoMessage_drains {env : Env} {s r : Renderer} {generation : Int}
    (h : onMessageReceived env s (.drainVideoQueue generation) = .ok r) :
    DrainPosts (s.drains.clear false) r.drains := by
  unfold onMessageReceived at h
  dsimp only at h
  have h0 : DrainPosts (s.drains.clear false)
      ({ s with mDrainVideoQueuePending := false } : Renderer).drains := drainPosts_refl _
  split at h
  · cases h; exact h0
  · obtain ⟨s2, h2, h3⟩ := Result.bind_eq_ok h
    have h4 := onDrainVideoQueue_drains h2
    have h5 := postDrainVideoQueue_drains h3
    exact drainPosts_trans (drainPosts_trans h0 h4) h5

theorem step_drains {env : Env} {s r : Renderer} {a : Action}
    (h : step env s a = .ok r) : DrainMove s a r := by
  cases a with
  | queueBuffer audio buffer cb =>
    cases h
    exact drainPosts_post s _ 0 rfl rfl
  | queueEOS audio finalResult =>
    have h1 : queueEOS env s audio finalResult = .ok r := h
    unfold queueEOS at h1
    split at h1
    · cases h1
    · obtain ⟨s1, h2, h3⟩ := Result.bind_eq_ok h1
      cases h3
      have h4 : DrainPosts s.drains s1.drains := by
        split at h2
        · exact syncQueuesDone_drains h2
        · cases h2; exact drainPosts_refl _
      exact drainPosts_trans h4 (drainPosts_post s1 _ 0 rfl rfl)
  | queueDelay d =>
    cases h
    exact queueDelay_drains env s d
  | flush audio =>
    have h1 : flush s audio = .ok r := h
    unfold flush at h1
    split at h1
    · split at h1
      · cases h1
      · cases h1
        exact drainPosts_post { s with mFlushingAudio := true } _ 0 rfl rfl
    · split at h1
      · cases h1
      · cases h1
        exact drainPosts_post { s with mFlushingVideo := true } _ 0 rfl rfl
  | signalTimeDiscontinuity =>
    have h1 : signalTimeDiscontinuity s = .ok r := h
    unfold signalTimeDiscontinuity at h1
    split at h1
    · cases h1
    · split at h1
      · cases h1
      · cases h1
        exact drainPosts_refl _
  | pause =>
    cases h
    exact drainPosts_post s _ 0 rfl rfl
  | resume =>
    cases h
    exact drainPosts_post s _ 0 rfl rfl
  | signalRefreshAnchorRealTime b =>
    cases h
    exact signalRefresh_drains env s b
  | signalAudioSinkChanged =>
    cases h
    exact drainPosts_post s _ 0 rfl rfl
  | notifySeekPosition seekTime =>
    cases h
    exact drainPosts_refl _
  | setMediaPresence audio bValue =>
    cases h
    show DrainPosts s.drains (setMediaPresence s audio bValue).drains
    unfold setMediaPresence
    split <;> exact drainPosts_refl _
  | setLiveStream b =>
    cases h
    exact drainPosts_refl _
  | deliver i =>
    have h1 : (match s.mailbox[i]? with
      | none => Result.fail Fault.noMessage
      | some (msg, _) =>
        onMessageReceived env { s with mailbox := s.mailbox.eraseIdx i } msg) = .ok r := h
    unfold DrainMove
    dsimp only
    cases hm : s.mailbox[i]? with
    | none => rw [hm] at h1; cases h1
    | some md =>
      obtain ⟨msg, d⟩ := md
      rw [hm] at h1
      dsimp only at h1
      cases msg with
      | drainAudioQueue generation => exact drainAudioMessage_drains h1
      | drainVideoQueue generation => exact drainVideoMessage_drains h1
      | queueBuffer audio buffer cb => exact onQueueBuffer_drains h1
      | queueEOS audio finalResult => exact onQueueEOS_drains h1
      | flush audio => exact onFlush_drains h1
      | audioSinkChanged =>
        have h2 : onAudioSinkChanged env { s with mailbox := s.mailbox.eraseIdx i } = .ok r := h1
        unfold onAudioSinkChanged at h2
        split at h2
        · cases h2
        · cases h2
          dsimp only
          split <;> exact drainPosts_refl _
      | pause =>
        have h2 : onPause { s with mailbox := s.mailbox.eraseIdx i } = .ok r := h1
        unfold onPause at h2
        split at h2
        · cases h2
        · next hp =>
          cases h2
          refine ⟨by simpa using hp, ?_⟩
          dsimp only
          split <;> rfl
      | resume => exact onResume_drains h1
      | delayQueued => exact onDelayQueued_drains h1

/-! ## Invariants of the drain scheduling (C32) -/

theorem generations_take (audio : Bool) (v : DrainView) (i : Nat) (m : Msg × Int)
    (hm : v.mailbox[i]? = some m) :
    ∃ l1 l2, v.generations audio = l1 ++ (drainGeneration audio m.1).toList ++ l2 ∧
      (v.take i).generations audio = l1 ++ l2 := by
  obtain ⟨hlt, hget⟩ := List.getElem?_eq_some.mp hm
  have hsplit : v.mailbox = v.mailbox.take i ++ m :: v.mailbox.drop (i + 1) := by
    rw [← hget, ← List.drop_eq_getElem_cons hlt, List.take_append_drop]
  refine ⟨(v.mailbox.take i).filterMap (fun m => drainGeneration audio m.1),
    (v.mailbox.drop (i + 1)).filterMap (fun m => drainGeneration audio m.1), ?_, ?_⟩
  · unfold DrainView.generations
    conv_lhs => rw [hsplit]
    rw [List.filterMap_append, List.filterMap_cons]
    cases h : drainGeneration audio m.1 <;> simp
  · unfold DrainView.generations DrainView.take
    dsimp only
    rw [List.eraseIdx_eq_take_drop_succ, List.filterMap_append]

theorem generations_take_mem {audio : Bool} {v : DrainView} {i : Nat} {m : Msg × Int}
    (hm : v.mailbox[i]? = some m) {g : Int} (hg : g ∈ (v.take i).generations audio) :
    g ∈ v.generations audio := by
  obtain ⟨l1, l2, h1, h2⟩ := generations_take audio v i m hm
  rw [h2] at hg
  rw [h1]
  simp only [List.mem_append] at hg ⊢
  rcases hg with h | h
  · exact Or.inl (Or.inl h)
  · exact Or.inr h

theorem generations_take_none {audio : Bool} {v : DrainView} {i : Nat} {m : Msg × Int}
    (hm : v.mailbox[i]? = some m) (hn : drainGeneration audio m.1 = none) :
    (v.take i).generations audio = v.generations audio := by
  obtain ⟨l1, l2, h1, h2⟩ := generations_take audio v i m hm
  rw [h1, h2, hn]
  simp

theorem generations_take_count {audio : Bool} {v : DrainView} {i : Nat} {m : Msg × Int}
    (hm : v.mailbox[i]? = some m) {g0 : Int} (hs : drainGeneration audio m.1 = some g0)
    (x : Int) :
    (v.generations audio).count x =
      ((v.take i).generations audio).count x + (if g0 = x then 1 else 0) := by
  obtain ⟨l1, l2, h1, h2⟩ := generations_take audio v i m hm
  rw [h1, h2, hs]
  simp only [Option.toList, List.count_append, List.count_cons, List.count_nil, beq_iff_eq]
  omega

theorem drainPosts_step {v v1 : DrainView} (h : DrainPosts v v1) (audio : Bool) :
    DrainStep audio v v1 ∧ v1.generation audio = v.generation audio := by
  cases audio
  · exact ⟨h.video, h.genV⟩
  · exact ⟨h.audio, h.genA⟩

theorem sound_posts {v v1 : DrainView} (hs : DrainsSound v) (h : DrainPosts v v1) :
    DrainsSound v1 := by
  intro audio
  obtain ⟨hstep, hgen⟩ := drainPosts_step h audio
  obtain ⟨h1, h2⟩ := hs audio
  rw [hgen]
  rcases hstep with ⟨a, b⟩ | ⟨a, b, c, d⟩
  · rw [a, b]; exact ⟨h1, h2⟩
  · rw [a]
    refine ⟨?_, fun _ => by simp⟩
    intro g hg
    rcases List.mem_append.mp hg with hg | hg
    · exact h1 g hg
    · simp only [List.mem_singleton] at hg
      rw [hg]

theorem sound_take_other {v : DrainView} {i : Nat} {m : Msg × Int} (hs : DrainsSound v)
    (hm : v.mailbox[i]? = some m) (hn : ∀ audio, drainGeneration audio m.1 = none) :
    DrainsSound (v.take i) := by
  intro audio
  have hg := generations_take_none hm (hn audio)
  rw [hg]
  exact hs audio

theorem sound_take_clear {v : DrainView} {i : Nat} {m : Msg × Int} (a : Bool)
    (hs : DrainsSound v) (hm : v.mailbox[i]? = some m)
    (hn : drainGeneration (!a) m.1 = none) :
    DrainsSound ((v.take i).clear a) := by
  intro audio
  obtain ⟨h1, h2⟩ := hs audio
  by_cases hc : audio = a
  · subst hc
    have hp : ((v.take i).clear audio).pending audio = false := by
      cases audio <;> rfl
    have hgs : ((v.take i).clear audio).generations audio = (v.take i).generations audio := by
      cases audio <;> rfl
    have hgn : ((v.take i).clear audio).generation audio = v.generation audio := by
      cases audio <;> rfl
    rw [hp, hgs, hgn]
    exact ⟨fun g hg => h1 g (generations_take_mem hm hg), fun h => by cases h⟩
  · have hna : audio = !a := by cases audio <;> cases a <;> simp_all
    subst hna
    have hp : ((v.take i).clear a).pending (!a) = v.pending (!a) := by
      cases a <;> rfl
    have hgs : ((v.take i).clear a).generations (!a) = (v.take i).generations (!a) := by
      cases a <;> rfl
    have hgn : ((v.take i).clear a).generation (!a) = v.generation (!a) := by
      cases a <;> rfl
    rw [hp, hgs, hgn, generations_take_none hm hn]
    exact ⟨h1, h2⟩

theorem sound_bump {v : DrainView} (a : Bool) (hs : DrainsSound v) :
    DrainsSound (v.bump a) := by
  intro audio
  obtain ⟨h1, h2⟩ := hs audio
  by_cases hc : audio = a
  · subst hc
    have hp : (v.bump audio).pending audio = false := by cases audio <;> rfl
    have hgs : (v.bump audio).generations audio = v.generations audio := by cases audio <;> rfl
    have hgn : (v.bump audio).generation audio = v.generation audio + 1 := by
      cases audio <;> rfl
    rw [hp, hgs, hgn]
    exact ⟨fun g hg => by have := h1 g hg; omega, fun h => by cases h⟩
  · have hna : audio = !a := by cases audio <;> cases a <;> simp_all
    subst hna
    have hp : (v.bump a).pending (!a) = v.pending (!a) := by cases a <;> rfl
    have hgs : (v.bump a).generations (!a) = v.generations (!a) := by cases a <;> rfl
    have hgn : (v.bump a).generation (!a) = v.generation (!a) := by cases a <;> rfl
    rw [hp, hgs, hgn]
    exact ⟨h1, h2⟩

theorem step_sound {env : Env} {s r : Renderer} {a : Action} (hs : DrainsSound s.drains)
    (h : step env s a = .ok r) : DrainsSound r.drains := by
  have hm := step_drains h
  cases a with
  | deliver i =>
    unfold DrainMove at hm
    dsimp only at hm
    cases hmsg : s.mailbox[i]? with
    | none => rw [hmsg] at hm; exact hm.elim
    | some md =>
      obtain ⟨msg, d⟩ := md
      have hmv : s.drains.mailbox[i]? = some (msg, d) := hmsg
      rw [hmsg] at hm
      cases msg with
      | drainAudioQueue generation =>
        exact sound_posts (sound_take_clear true hs hmv rfl) hm
      | drainVideoQueue generation =>
        exact sound_posts (sound_take_clear false hs hmv rfl) hm
      | flush audio =>
        obtain ⟨v, h1, h2⟩ := hm
        rw [h2]
        exact sound_bump audio
          (sound_posts (sound_take_other hs hmv (fun au => by cases au <;> rfl)) h1)
      | pause =>
        obtain ⟨_, h2⟩ := hm
        rw [h2]
        exact sound_bump false
          (sound_bump true (sound_take_other hs hmv (fun au => by cases au <;> rfl)))
      | resume =>
        exact sound_posts (v := { s.drains.take i with paused := false })
          (sound_take_other hs hmv (fun au => by cases au <;> rfl)) hm
      | queueBuffer audio buffer cb =>
        exact sound_posts (sound_take_other hs hmv (fun au => by cases au <;> rfl)) hm
      | queueEOS audio finalResult =>
        exact sound_posts (sound_take_other hs hmv (fun au => by cases au <;> rfl)) hm
      | audioSinkChanged =>
        exact sound_posts (sound_take_other hs hmv (fun au => by cases au <;> rfl)) hm
      | delayQueued =>
        exact sound_posts (sound_take_other hs hmv (fun au => by cases au <;> rfl)) hm
  | queueBuffer audio buffer cb => exact sound_posts hs hm
  | queueEOS audio finalResult => exact sound_posts hs hm
  | queueDelay d => exact sound_posts hs hm
  | flush audio => exact sound_posts hs hm
  | signalTimeDiscontinuity => exact sound_posts hs hm
  | pause => exact sound_posts hs hm
  | resume => exact sound_posts hs hm
  | signalRefreshAnchorRealTime b => exact sound_posts hs hm
  | signalAudioSinkChanged => exact sound_posts hs hm
  | notifySeekPosition seekTime => exact sound_posts hs hm
  | setMediaPresence audio bValue => exact sound_posts hs hm
  | setLiveStream b => exact sound_posts hs hm

theorem run_sound : ∀ (acts : List (Env × Action)) (s r : Renderer),
    DrainsSound s.drains → run s acts = .ok r → DrainsSound r.drains := by
  intro acts
  induction acts with
  | nil =>
    intro s r hi h
    cases h
    exact hi
  | cons ea rest ih =>
    intro s r hi h
    obtain ⟨env, a⟩ := ea
    unfold run at h
    obtain ⟨s1, h1, h2⟩ := Result.bind_eq_ok h
    exact ih s1 r (step_sound hi h1) h2

theorem sound_new (msec : Option Int) (u1 u2 : Int) :
    DrainsSound (Renderer.new msec u1 u2).drains := by
  intro audio
  refine ⟨fun g hg => ?_, fun h => ?_⟩
  · cases audio <;> cases hg
  · cases audio <;> cases h

theorem reachable_sound {s : Renderer} (h : Reachable s) : DrainsSound s.drains := by
  obtain ⟨msec, u1, u2, acts, hr⟩ := h
  exact run_sound acts _ s (sound_new msec u1 u2) hr

theorem exact_posts {v v1 : DrainView} (he : DrainsExact v) (h : DrainPosts v v1) :
    DrainsExact v1 := by
  intro audio
  obtain ⟨hstep, hgen⟩ := drainPosts_step h audio
  have h1 := he audio
  rw [hgen]
  rcases hstep with ⟨a, b⟩ | ⟨a, b, c, d⟩
  · rw [a, b]; exact h1
  · rw [a, c]
    rw [b] at h1
    simp only [Bool.false_eq_true, if_false] at h1
    simp [List.count_append, h1]

theorem exact_take_other {v : DrainView} {i : Nat} {m : Msg × Int} (he : DrainsExact v)
    (hm : v.mailbox[i]? = some m) (hn : ∀ audio, drainGeneration audio m.1 = none) :
    DrainsExact (v.take i) := by
  intro audio
  have hg := generations_take_none hm (hn audio)
  rw [hg]
  exact he audio

theorem exact_take_clear {v : DrainView} {i : Nat} {m : Msg × Int} (a : Bool) (g0 : Int)
    (he : DrainsExact v) (hm : v.mailbox[i]? = some m)
    (hs : drainGeneration a m.1 = some g0) (hn : drainGeneration (!a) m.1 = none)
    (hok : g0 ≠ v.generation a → v.pending a = false) :
    DrainsExact ((v.take i).clear a) := by
  intro audio
  have h1 := he audio
  by_cases hc : audio = a
  · subst hc
    have hp : ((v.take i).clear audio).pending audio = false := by
      cases audio <;> rfl
    have hgs : ((v.take i).clear audio).generations audio = (v.take i).generations audio := by
      cases audio <;> rfl
    have hgn : ((v.take i).clear audio).generation audio = v.generation audio := by
      cases audio <;> rfl
    rw [hp, hgs, hgn]
    simp only [Bool.false_eq_true, if_false]
    have hcount := generations_take_count hm hs (v.generation audio)
    rw [hcount] at h1
    by_cases hg : g0 = v.generation audio
    · rw [if_pos hg] at h1
      split at h1 <;> omega
    · rw [if_neg hg, hok hg] at h1
      simpa using h1
  · have hna : audio = !a := by cases audio <;> cases a <;> simp_all
    subst hna
    have hp : ((v.take i).clear a).pending (!a) = v.pending (!a) := by
      cases a <;> rfl
    have hgs : ((v.take i).clear a).generations (!a) = (v.take i).generations (!a) := by
      cases a <;> rfl
    have hgn : ((v.take i).clear a).generation (!a) = v.generation (!a) := by
      cases a <;> rfl
    rw [hp, hgs, hgn, generations_take_none hm hn]
    exact h1

theorem exact_bump {v : DrainView} (a : Bool) (hs : DrainsSound v) (he : DrainsExact v) :
    DrainsExact (v.bump a) := by
  intro audio
  have h1 := he audio
  by_cases hc : audio = a
  · subst hc
    have hp : (v.bump audio).pending audio = false := by cases audio <;> rfl
    have hgs : (v.bump audio).generations audio = v.generations audio := by cases audio <;> rfl
    have hgn : (v.bump audio).generation audio = v.generation audio + 1 := by
      cases audio <;> rfl
    rw [hp, hgs, hgn]
    simp only [Bool.false_eq_true, if_false]
    apply List.count_eq_zero_of_not_mem
    intro hmem
    have := (hs audio).1 _ hmem
    omega
  · have hna : audio = !a := by cases audio <;> cases a <;> simp_all
    subst hna
    have hp : (v.bump a).pending (!a) = v.pending (!a) := by cases a <;> rfl
    have hgs : (v.bump a).generations (!a) = v.generations (!a) := by cases a <;> rfl
    have hgn : (v.bump a).generation (!a) = v.generation (!a) := by cases a <;> rfl
    rw [hp, hgs, hgn]
    exact h1

theorem step_exact {env : Env} {s r : Renderer} {a : Action} (hs : DrainsSound s.drains)
    (he : DrainsExact s.drains) (hno : staleWhilePending s a = false)
    (h : step env s a = .ok r) : DrainsExact r.drains := by
  have hm := step_drains h
  cases a with
  | deliver i =>
    unfold DrainMove at hm
    dsimp only at hm
    unfold staleWhilePending at hno
    dsimp only at hno
    cases hmsg : s.mailbox[i]? with
    | none => rw [hmsg] at hm; exact hm.elim
    | some md =>
      obtain ⟨msg, d⟩ := md
      have hmv : s.drains.mailbox[i]? = some (msg, d) := hmsg
      rw [hmsg] at hm hno
      cases msg with
      | drainAudioQueue generation =>
        refine exact_posts (exact_take_clear true generation he hmv rfl rfl ?_) hm
        intro hne
        have hne1 : generation ≠ s.mAudioQueueGeneration := hne
        simpa [hne1] using hno
      | drainVideoQueue generation =>
        refine exact_posts (exact_take_clear false generation he hmv rfl rfl ?_) hm
        intro hne
        have hne1 : generation ≠ s.mVideoQueueGeneration := hne
        simpa [hne1] using hno
      | flush audio =>
        obtain ⟨v, h1, h2⟩ := hm
        rw [h2]
        have hn : ∀ au, drainGeneration au (Msg.flush audio, d).1 = none :=
          fun au => by cases au <;> rfl
        exact exact_bump audio (sound_posts (sound_take_other hs hmv hn) h1)
          (exact_posts (exact_take_other he hmv hn) h1)
      | pause =>
        obtain ⟨_, h2⟩ := hm
        rw [h2]
        have hn : ∀ au, drainGeneration au (Msg.pause, d).1 = none :=
          fun au => by cases au <;> rfl
        exact exact_bump false (sound_bump true (sound_take_other hs hmv hn))
          (exact_bump true (sound_take_other hs hmv hn) (exact_take_other he hmv hn))
      | resume =>
        exact exact_posts (v := { s.drains.take i with paused := false })
          (exact_take_other he hmv (fun au => by cases au <;> rfl)) hm
      | queueBuffer audio buffer cb =>
        exact exact_posts (exact_take_other he hmv (fun au => by cases au <;> rfl)) hm
      | queueEOS audio finalResult =>
        exact exact_posts (exact_take_other he hmv (fun au => by cases au <;> rfl)) hm
      | audioSinkChanged =>
        exact exact_posts (exact_take_other he hmv (fun au => by cases au <;> rfl)) hm
      | delayQueued =>
        exact exact_posts (exact_take_other he hmv (fun au => by cases au <;> rfl)) hm
  | queueBuffer audio buffer cb => exact exact_posts he hm
  | queueEOS audio finalResult => exact exact_posts he hm
  | queueDelay d => exact exact_posts he hm
  | flush audio => exact exact_posts he hm
  | signalTimeDiscontinuity => exact exact_posts he hm
  | pause => exact exact_posts he hm
  | resume => exact exact_posts he hm
  | signalRefreshAnchorRealTime b => exact exact_posts he hm
  | signalAudioSinkChanged => exact exact_posts he hm
  | notifySeekPosition seekTime => exact exact_posts he hm
  | setMediaPresence audio bValue => exact exact_posts he hm
  | setLiveStream b => exact exact_posts he hm

theorem run_exact : ∀ (acts : List (Env × Action)) (s r : Renderer),
    DrainsSound s.drains → DrainsExact s.drains → noStaleWhilePending s acts = true →
    run s acts = .ok r → DrainsExact r.drains := by
  intro acts
  induction acts with
  | nil =>
    intro s r _ he _ h
    cases h
    exact he
  | cons ea rest ih =>
    intro s r hs he hno h
    obtain ⟨env, a⟩ := ea
    unfold run at h
    obtain ⟨s1, h1, h2⟩ := Result.bind_eq_ok h
    unfold noStaleWhilePending at hno
    rw [h1] at hno
    simp only [Bool.and_eq_true, Bool.not_eq_true'] at hno
    exact ih s1 r (step_sound hs h1) (step_exact hs he hno.1 h1) hno.2 h2

theorem exact_new (msec : Option Int) (u1 u2 : Int) :
    DrainsExact (Renderer.new msec u1 u2).drains := by
  intro audio
  cases audio <;> rfl

theorem view_generation (audio : Bool) (s : Renderer) :
    s.drains.generation audio = queueGeneration audio s := by
  cases audio <;> rfl

theorem view_pending (audio : Bool) (s : Renderer) :
    s.drains.pending audio = drainPending audio s := by
  cases audio <;> rfl

/-- C32 fails where a stale drain message comes due while a newer one waits:
in `sampleStaleHandled`, reached from a fresh renderer, the audio drain-pending
flag is clear although a drain message of the current generation is in the
mailbox, and after one more audio buffer (`sampleTwoDrains`) two drain messages
of the current generation are outstanding. -/
theorem C32_stale_drain_clears_flag_counterexample :
    run sampleStart (sampleTwoDrainsRun.take 11) = .ok sampleStaleHandled ∧
    drainPending true sampleStaleHandled = false ∧
    currentDrains true sampleStaleHandled = 1 ∧
    run sampleStart sampleTwoDrainsRun = .ok sampleTwoDrains ∧
    currentDrains true sampleTwoDrains = 2 := by
  refine ⟨by rfl, by rfl, by rfl, by rfl, by rfl⟩

/-- C32 (amended): in every state reached from a fresh renderer, no drain
message in the mailbox carries a generation above the current one of its
stream, and a stream whose drain-pending flag is set has a drain message of its
current generation outstanding; if along the run no stale drain message was
handled while the flag of its stream was set, at most one drain message of the
current generation is outstanding per stream and the flag is set exactly when
one is. -/
theorem C32_drain_messages_and_flags (msec : Option Int) (u1 u2 : Int)
    (acts : List (Env × Action)) (s : Renderer)
    (hrun : run (Renderer.new msec u1 u2) acts = .ok s) :
    (∀ audio, (∀ g ∈ drainGenerations audio s, g ≤ queueGeneration audio s) ∧
      (drainPending audio s = true → 0 < currentDrains audio s)) ∧
    (noStaleWhilePending (Renderer.new msec u1 u2) acts = true →
      ∀ audio, currentDrains audio s ≤ 1 ∧
        (drainPending audio s = true ↔ currentDrains audio s = 1)) := by
  have hs := run_sound acts _ s (sound_new msec u1 u2) hrun
  constructor
  · intro audio
    obtain ⟨h1, h2⟩ := hs audio
    rw [view_generation] at h1 h2
    rw [view_pending] at h2
    refine ⟨h1, fun hp => ?_⟩
    exact List.count_pos_iff.mpr (h2 hp)
  · intro hno audio
    have he := run_exact acts _ s (sound_new msec u1 u2) (exact_new msec u1 u2) hno hrun audio
    rw [view_generation, view_pending] at he
    have hc : currentDrains audio s = if drainPending audio s = true then 1 else 0 := he
    rw [hc]
    cases drainPending audio s <;> simp

theorem C32_drain_messages_and_flags_witness :
    run (Renderer.new none 0 0) sampleDrainedHalf = .ok sampleHalfDrained ∧
    noStaleWhilePending (Renderer.new none 0 0) sampleDrainedHalf = true ∧
    (∀ audio, (∀ g ∈ drainGenerations audio sampleHalfDrained,
        g ≤ queueGeneration audio sampleHalfDrained) ∧
      (drainPending audio sampleHalfDrained = true → 0 < currentDrains audio sampleHalfDrained)) ∧
    ∀ audio, currentDrains audio sampleHalfDrained ≤ 1 ∧
      (drainPending audio sampleHalfDrained = true ↔ currentDrains audio sampleHalfDrained = 1) :=
  ⟨by rfl, by rfl,
    (C32_drain_messages_and_flags none 0 0 sampleDrainedHalf sampleHalfDrained (by rfl)).1,
    (C32_drain_messages_and_flags none 0 0 sampleDrainedHalf sampleHalfDrained (by rfl)).2
      (by rfl)⟩

/-! ## Nothing is rendered while the renderer is paused (C33) -/

theorem idle_of_out {s r : Renderer} (h : r.out = s.out) : Idle s r := by
  unfold Idle Renderer.played renderedFrames
  rw [h]

theorem idle_trans {s m r : Renderer} (h1 : Idle s m) (h2 : Idle m r) : Idle s r :=
  Eq.trans h2 h1

theorem idle_append {s r : Renderer} (l : List Out) (h : r.out = s.out ++ l)
    (hw : ∀ o ∈ l, writtenOf o = []) (hr : ∀ o ∈ l, isRendered o = false) : Idle s r := by
  unfold Idle Renderer.played renderedFrames
  rw [h, bytesOf_append, List.filter_append]
  have h1 : bytesOf l = [] := by
    clear h
    induction l with
    | nil => rfl
    | cons o rest ih =>
      show writtenOf o ++ bytesOf rest = []
      rw [hw o (List.mem_cons_self _ _),
        ih (fun x hx => hw x (List.mem_cons_of_mem _ hx))
          (fun x hx => hr x (List.mem_cons_of_mem _ hx))]
      rfl
  have h2 : l.filter isRendered = [] := by
    rw [List.filter_eq_nil_iff]
    intro o ho
    rw [hr o ho]
    simp
  rw [h1, h2, List.append_nil, List.append_nil]

theorem idle_emit (s : Renderer) (o : Out) (hw : writtenOf o = [])
    (hr : isRendered o = false) : Idle s (emit s o) :=
  idle_append [o] rfl (fun x hx => by simp only [List.mem_singleton] at hx; rw [hx]; exact hw)
    (fun x hx => by simp only [List.mem_singleton] at hx; rw [hx]; exact hr)

theorem postConsumed_idle {s s1 : Renderer} {audio : Bool} {e : QueueEntry}
    (h : postConsumed s audio e none = .ok s1) : Idle s s1 := by
  obtain ⟨cb, _, h1⟩ := postConsumed_out h
  subst h1
  exact idle_emit _ _ rfl rfl

theorem postDrainAudioQueue_idle (s : Renderer) (d : Int) :
    Idle s (postDrainAudioQueue s d) :=
  idle_of_out (postDrainAudioQueue_stable s d).out

theorem postDrainVideoQueue_idle {env : Env} {s r : Renderer}
    (h : postDrainVideoQueue env s = .ok r) : Idle s r :=
  idle_of_out (postDrainVideoQueue_stable h).out

theorem syncQueuesDone_idle {env : Env} {s r : Renderer}
    (h : syncQueuesDone env s = .ok r) : Idle s r := by
  unfold syncQueuesDone at h
  split at h
  · cases h; exact idle_of_out rfl
  · have h0 : Idle s { s with mSyncQueues := false } := idle_of_out rfl
    have key : ∀ s2 : Renderer, Idle s s2 →
        (if (!s2.mVideoQueue.isEmpty) = true then postDrainVideoQueue env s2 else .ok s2)
          = .ok r → Idle s r := by
      intro s2 h2 h
      split at h
      · exact idle_trans h2 (postDrainVideoQueue_idle h)
      · cases h; exact h2
    refine key _ ?_ h
    split
    · have h1 := postDrainAudioQueue_idle { s with mSyncQueues := false } 0
      exact idle_trans h0 h1
    · exact h0

theorem setStartAnchor_idle {s r : Renderer}
    (h : setStartAnchorMediaAndPostDrainQueue s = .ok r) : Idle s r := by
  unfold setStartAnchorMediaAndPostDrainQueue at h
  split at h
  · split at h
    · cases h
      have key : ∀ X : Renderer, Idle s X → Idle s (postDrainAudioQueue X 0) :=
        fun X hX => idle_trans hX (postDrainAudioQueue_idle X 0)
      refine key _ ?_
      split
      · exact idle_of_out rfl
      · split
        · exact idle_of_out rfl
        · split <;> exact idle_of_out rfl
    · cases h
  · cases h

theorem syncQueuesStep_idle {env : Env} {s r : Renderer}
    (h : syncQueuesStep env s = .ok r) : Idle s r := by
  unfold syncQueuesStep at h
  split at h
  · cases h; exact idle_of_out rfl
  · split at h
    · split at h
      · split at h
        · dsimp only at h
          split at h
          · obtain ⟨s1, h1, h2⟩ := Result.bind_eq_ok h
            cases h2
            have := postConsumed_idle h1
            exact this
          · exact syncQueuesDone_idle h
        · cases h
      · exact syncQueuesDone_idle h
    · cases h; exact idle_of_out rfl

theorem enqueueBuffer_idle {env : Env} {s r : Renderer} {audio : Bool} {entry : QueueEntry}
    (h : enqueueBuffer env s audio entry = .ok r) : Idle s r := by
  unfold enqueueBuffer at h
  split at h
  · dsimp only at h
    split at h
    · split at h
      · cases h; exact idle_of_out rfl
      · have h1 := setStartAnchor_idle h
        exact h1
    · cases h
      have h1 := postDrainAudioQueue_idle { s with mAudioQueue := s.mAudioQueue ++ [entry] } 0
      exact h1
  · dsimp only at h
    split at h
    · split at h
      · cases h; exact idle_of_out rfl
      · split at h
        · cases h; exact idle_of_out rfl
        · have h1 := setStartAnchor_idle h
          exact h1
    · obtain ⟨s4, h4, h5⟩ := Result.bind_eq_ok h
      have h1 := postDrainVideoQueue_idle h4
      have h2 := syncQueuesStep_idle h5
      exact idle_trans h1 h2

theorem onQueueBuffer_idle {env : Env} {s r : Renderer} {audio : Bool} {buffer : ABuffer}
    {cb : Nat} (h : onQueueBuffer env s audio buffer cb = .ok r) : Idle s r := by
  unfold onQueueBuffer at h
  rw [dropBufferWhileFlushing_eq] at h
  have hm : Idle s (markPresent s audio) := by
    unfold markPresent
    split <;> exact idle_of_out rfl
  cases hf : flushingFlag audio (markPresent s audio)
  · rw [hf] at h
    simp only [Bool.false_eq_true, if_false] at h
    have hb : Idle (markPresent s audio) (beginStartUpLatency env (markPresent s audio)) := by
      unfold beginStartUpLatency
      split
      · exact idle_of_out rfl
      · exact idle_of_out rfl
    exact idle_trans hm (idle_trans hb (enqueueBuffer_idle h))
  · rw [hf] at h
    simp only [if_true] at h
    cases h
    exact idle_trans hm (idle_emit _ _ rfl rfl)

theorem onQueueEOS_idle {env : Env} {s r : Renderer} {audio : Bool} {finalResult : Int}
    (h : onQueueEOS env s audio finalResult = .ok r) : Idle s r := by
  unfold onQueueEOS at h
  rw [dropBufferWhileFlushing_eq] at h
  cases hf : flushingFlag audio s
  · rw [hf] at h
    simp only [Bool.false_eq_true, if_false] at h
    split at h
    · cases h
      have h1 := postDrainAudioQueue_idle
        { s with mAudioQueue := s.mAudioQueue ++ [eosEntry finalResult] } 0
      exact h1
    · have h1 := postDrainVideoQueue_idle h
      exact h1
  · rw [hf] at h
    simp only [if_true] at h
    cases h
    exact idle_of_out rfl

theorem signalRefresh_idle (env : Env) (s : Renderer) (b : Bool) :
    Idle s (signalRefreshAnchorRealTime env s b) := by
  unfold signalRefreshAnchorRealTime
  split
  · dsimp only
    split <;> exact idle_of_out rfl
  · exact idle_of_out rfl

theorem onResume_idle {env : Env} {s r : Renderer} (h : onResume env s = .ok r) :
    Idle s r := by
  cases hp : s.mPaused with
  | false =>
    unfold onResume at h
    rw [hp] at h
    cases h
    exact idle_of_out rfl
  | true =>
    rw [onResume_eq env s hp] at h
    have h0 : Idle s (resumedState env s) := by
      unfold resumedState
      dsimp only
      have key : ∀ X : Renderer, Idle s X →
          Idle s (if X.mIsLiveStream then signalRefreshAnchorRealTime env X false else X) := by
        intro X hX
        split
        · exact idle_trans hX (signalRefresh_idle env X false)
        · exact hX
      exact key { (if s.mHasAudio && !s.mDelayPending then emit s .sinkStart else s) with
        mPaused := false }
        (by
          split
          · exact idle_trans (idle_emit _ .sinkStart rfl rfl) (idle_of_out rfl)
          · exact idle_of_out rfl)
    have key : ∀ X : Renderer, Idle s X →
        (if (!X.mVideoQueue.isEmpty) = true then postDrainVideoQueue env X else .ok X) = .ok r →
        Idle s r := by
      intro X hX h
      split at h
      · exact idle_trans hX (postDrainVideoQueue_idle h)
      · cases h; exact hX
    refine key _ ?_ h
    split
    · exact idle_trans h0 (postDrainAudioQueue_idle _ _)
    · exact h0

theorem queueDelay_idle (env : Env) (s : Renderer) (d : Int) :
    Idle s (queueDelay env s d) := by
  cases hp : s.mDelayPending with
  | true =>
    rw [queueDelay_pending env s d hp]
    exact idle_of_out rfl
  | false =>
    rw [queueDelay_fresh env s d hp]
    have key : ∀ X : Renderer, Idle s X →
        Idle s { post X .delayQueued d with mDelayPending := true, mDelayToQueueUs := 0 } := by
      intro X hX
      exact idle_trans hX (idle_of_out rfl)
    refine key _ ?_
    split
    · exact idle_emit _ _ rfl rfl
    · exact idle_of_out rfl

theorem onDelayQueued_idle {env : Env} {s r : Renderer}
    (h : onDelayQueued env s = .ok r) : Idle s r := by
  unfold onDelayQueued at h
  dsimp only at h
  split at h
  · cases h
    exact queueDelay_idle env { s with mDelayPending := false } _
  · have key : ∀ X : Renderer, Idle s X →
        postDrainVideoQueue env (postDrainAudioQueue X 0) = .ok r → Idle s r := by
      intro X hX h
      exact idle_trans (idle_trans hX (postDrainAudioQueue_idle X 0))
        (postDrainVideoQueue_idle h)
    refine key _ ?_ h
    split
    · exact idle_emit _ _ rfl rfl
    · exact idle_of_out rfl

theorem flushEvents_idle (audio : Bool) (q : List QueueEntry) :
    (∀ o ∈ flushEvents audio q, writtenOf o = []) ∧
    (∀ o ∈ flushEvents audio q, isRendered o = false) := by
  unfold flushEvents
  constructor
  · intro o ho
    obtain ⟨e, _, he⟩ := List.mem_filterMap.mp ho
    split at he
    · cases hcb : e.mNotifyConsumed with
      | none => rw [hcb] at he; cases he
      | some cb => rw [hcb] at he; cases he; rfl
    · cases he
  · intro o ho
    obtain ⟨e, _, he⟩ := List.mem_filterMap.mp ho
    split at he
    · cases hcb : e.mNotifyConsumed with
      | none => rw [hcb] at he; cases he
      | some cb => rw [hcb] at he; cases he; rfl
    · cases he

theorem onFlush_idle {env : Env} {s r : Renderer} {audio : Bool}
    (h : onFlush env s audio = .ok r) : Idle s r := by
  obtain ⟨hout, _⟩ := onFlush_effect h
  obtain ⟨h1, h2⟩ := flushEvents_idle audio (getQueue audio s)
  refine idle_append (flushEvents audio (getQueue audio s) ++ [.flushComplete audio])
    (by rw [hout, List.append_assoc]) ?_ ?_
  · intro o ho
    rcases List.mem_append.mp ho with h | h
    · exact h1 o h
    · simp only [List.mem_singleton] at h; rw [h]; rfl
  · intro o ho
    rcases List.mem_append.mp ho with h | h
    · exact h2 o h
    · simp only [List.mem_singleton] at h; rw [h]; rfl

theorem onMessageReceived_idle {env : Env} {s r : Renderer} {msg : Msg}
    (hm : ∀ g, msg = .drainAudioQueue g → g ≠ s.mAudioQueueGeneration)
    (hv : ∀ g, msg = .drainVideoQueue g → g ≠ s.mVideoQueueGeneration)
    (h : onMessageReceived env s msg = .ok r) : Idle s r := by
  cases msg with
  | drainAudioQueue generation =>
    unfold onMessageReceived at h
    dsimp only at h
    rw [if_pos (hm generation rfl)] at h
    cases h
    exact idle_of_out rfl
  | drainVideoQueue generation =>
    unfold onMessageReceived at h
    dsimp only at h
    rw [if_pos (hv generation rfl)] at h
    cases h
    exact idle_of_out rfl
  | queueBuffer audio buffer cb => exact onQueueBuffer_idle h
  | queueEOS audio finalResult => exact onQueueEOS_idle h
  | flush audio => exact onFlush_idle h
  | audioSinkChanged =>
    have h1 : onAudioSinkChanged env s = .ok r := h
    unfold onAudioSinkChanged at h1
    split at h1
    · cases h1
    · cases h1
      dsimp only
      split <;> exact idle_of_out rfl
  | pause =>
    have h1 : onPause s = .ok r := h
    unfold onPause at h1
    split at h1
    · cases h1
    · cases h1
      dsimp only
      split
      · exact idle_trans (idle_emit _ .sinkPause rfl rfl) (idle_of_out rfl)
      · exact idle_of_out rfl
  | resume => exact onResume_idle h
  | delayQueued => exact onDelayQueued_idle h

theorem step_idle {env : Env} {s r : Renderer} {a : Action}
    (hf : firesCurrentDrain s a = false) (h : step env s a = .ok r) : Idle s r := by
  cases a with
  | queueBuffer audio buffer cb =>
    cases h
    exact idle_of_out rfl
  | queueEOS audio finalResult =>
    have h1 : queueEOS env s audio finalResult = .ok r := h
    unfold queueEOS at h1
    split at h1
    · cases h1
    · obtain ⟨s1, h2, h3⟩ := Result.bind_eq_ok h1
      cases h3
      have h4 : Idle s s1 := by
        split at h2
        · exact syncQueuesDone_idle h2
        · cases h2; exact idle_of_out rfl
      exact idle_trans h4 (idle_of_out rfl)
  | queueDelay d =>
    cases h
    exact queueDelay_idle env s d
  | flush audio =>
    have h1 : flush s audio = .ok r := h
    unfold flush at h1
    split at h1
    · split at h1
      · cases h1
      · cases h1
        exact idle_of_out rfl
    · split at h1
      · cases h1
      · cases h1
        exact idle_of_out rfl
  | signalTimeDiscontinuity =>
    have h1 : signalTimeDiscontinuity s = .ok r := h
    unfold signalTimeDiscontinuity at h1
    split at h1
    · cases h1
    · split at h1
      · cases h1
      · cases h1
        exact idle_of_out rfl
  | pause =>
    cases h
    exact idle_of_out rfl
  | resume =>
    cases h
    exact idle_of_out rfl
  | signalRefreshAnchorRealTime b =>
    cases h
    exact signalRefresh_idle env s b
  | signalAudioSinkChanged =>
    cases h
    exact idle_of_out rfl
  | notifySeekPosition seekTime =>
    cases h
    exact idle_emit _ _ rfl rfl
  | setMediaPresence audio bValue =>
    cases h
    show Idle s (setMediaPresence s audio bValue)
    unfold setMediaPresence
    split <;> exact idle_of_out rfl
  | setLiveStream b =>
    cases h
    exact idle_of_out rfl
  | deliver i =>
    have h1 : (match s.mailbox[i]? with
      | none => Result.fail Fault.noMessage
      | some (msg, _) =>
        onMessageReceived env { s with mailbox := s.mailbox.eraseIdx i } msg) = .ok r := h
    unfold firesCurrentDrain at hf
    dsimp only at hf
    cases hm : s.mailbox[i]? with
    | none => rw [hm] at h1; cases h1
    | some md =>
      obtain ⟨msg, d⟩ := md
      rw [hm] at h1 hf
      dsimp only at h1
      have h2 : Idle { s with mailbox := s.mailbox.eraseIdx i } r :=
        onMessageReceived_idle (by intro g hg; subst hg; simpa using hf)
          (by intro g hg; subst hg; simpa using hf) h1
      exact h2

theorem stale_posts {v v1 : DrainView} (hs : AllStale v) (hp : v.paused = true)
    (h : DrainPosts v v1) : AllStale v1 := by
  intro audio g hg
  obtain ⟨hstep, hgen⟩ := drainPosts_step h audio
  rw [hgen]
  rcases hstep with ⟨a, _⟩ | ⟨_, _, _, d⟩
  · rw [a] at hg
    exact hs audio g hg
  · rw [hp] at d; cases d

theorem stale_take {v : DrainView} {i : Nat} {m : Msg × Int} (hs : AllStale v)
    (hm : v.mailbox[i]? = some m) : AllStale (v.take i) := by
  intro audio g hg
  exact hs audio g (generations_take_mem hm hg)

theorem stale_clear {v : DrainView} (a : Bool) (hs : AllStale v) : AllStale (v.clear a) := by
  intro audio g hg
  have h1 : (v.clear a).generations audio = v.generations audio := by cases a <;> rfl
  have h2 : (v.clear a).generation audio = v.generation audio := by
    cases a <;> cases audio <;> rfl
  rw [h1] at hg
  rw [h2]
  exact hs audio g hg

theorem bump_generation (v : DrainView) (a audio : Bool) :
    (v.bump a).generations audio = v.generations audio ∧
    v.generation audio ≤ (v.bump a).generation audio ∧
    (v.bump a).generation a = v.generation a + 1 := by
  refine ⟨by cases a <;> rfl, ?_, by cases a <;> rfl⟩
  cases a <;> cases audio <;>
    simp [DrainView.bump, DrainView.generation]

theorem stale_bump {v : DrainView} (a : Bool) (hs : AllStale v) : AllStale (v.bump a) := by
  intro audio g hg
  obtain ⟨h1, h2, _⟩ := bump_generation v a audio
  rw [h1] at hg
  exact lt_of_lt_of_le (hs audio g hg) h2

theorem stale_of_sound {v : DrainView} (hs : DrainsSound v) :
    AllStale ((v.bump true).bump false) := by
  intro audio g hg
  obtain ⟨h1, _, _⟩ := bump_generation (v.bump true) false audio
  obtain ⟨h3, _, _⟩ := bump_generation v true audio
  rw [h1, h3] at hg
  have hle := (hs audio).1 g hg
  have hgen : ((v.bump true).bump false).generation audio = v.generation audio + 1 := by
    cases audio <;> rfl
  rw [hgen]
  omega

theorem drain_mem_generations {s : Renderer} {i : Nat} {msg : Msg} {d : Int} (audio : Bool)
    {g : Int} (hm : s.mailbox[i]? = some (msg, d)) (hg : drainGeneration audio msg = some g) :
    g ∈ s.drains.generations audio := by
  unfold DrainView.generations
  exact List.mem_filterMap.mpr ⟨(msg, d), List.getElem?_mem hm, hg⟩

theorem paused_step {env : Env} {s r : Renderer} {a : Action} (hp : s.mPaused = true)
    (hs : AllStale s.drains) (hno : deliversResume s a = false)
    (h : step env s a = .ok r) :
    r.mPaused = true ∧ AllStale r.drains ∧ firesCurrentDrain s a = false := by
  have hm := step_drains h
  have hposts : DrainPosts s.drains r.drains →
      r.mPaused = true ∧ AllStale r.drains := by
    intro hd
    exact ⟨hd.paused.trans hp, stale_posts hs hp hd⟩
  cases a with
  | deliver i =>
    unfold DrainMove at hm
    dsimp only at hm
    unfold deliversResume at hno
    dsimp only at hno
    unfold firesCurrentDrain
    dsimp only
    cases hmsg : s.mailbox[i]? with
    | none => rw [hmsg] at hm; exact hm.elim
    | some md =>
      obtain ⟨msg, d⟩ := md
      have hmv : s.drains.mailbox[i]? = some (msg, d) := hmsg
      rw [hmsg] at hm hno
      have htake : DrainPosts (s.drains.take i) r.drains →
          r.mPaused = true ∧ AllStale r.drains := by
        intro hd
        exact ⟨hd.paused.trans hp, stale_posts (stale_take hs hmv) hp hd⟩
      cases msg with
      | drainAudioQueue generation =>
        have hlt := hs true generation (drain_mem_generations true hmsg rfl)
        have hne : generation ≠ s.mAudioQueueGeneration := ne_of_lt hlt
        refine ⟨?_, stale_posts (stale_clear true (stale_take hs hmv)) hp hm, by simpa using hne⟩
        exact hm.paused.trans hp
      | drainVideoQueue generation =>
        have hlt := hs false generation (drain_mem_generations false hmsg rfl)
        have hne : generation ≠ s.mVideoQueueGeneration := ne_of_lt hlt
        refine ⟨?_, stale_posts (stale_clear false (stale_take hs hmv)) hp hm, by simpa using hne⟩
        exact hm.paused.trans hp
      | flush audio =>
        obtain ⟨v, h1, h2⟩ := hm
        have hv := stale_posts (stale_take hs hmv) hp h1
        have hpv : v.paused = true := h1.paused.trans hp
        refine ⟨?_, ?_, rfl⟩
        · have : r.drains.paused = (v.bump audio).paused := by rw [h2]
          have hb : (v.bump audio).paused = v.paused := by cases audio <;> rfl
          exact this.trans (hb.trans hpv)
        · rw [h2]; exact stale_bump audio hv
      | pause =>
        obtain ⟨h1, _⟩ := hm
        rw [hp] at h1; cases h1
      | resume => simp at hno
      | queueBuffer audio buffer cb =>
        obtain ⟨h1, h2⟩ := htake hm
        exact ⟨h1, h2, rfl⟩
      | queueEOS audio finalResult =>
        obtain ⟨h1, h2⟩ := htake hm
        exact ⟨h1, h2, rfl⟩
      | audioSinkChanged =>
        obtain ⟨h1, h2⟩ := htake hm
        exact ⟨h1, h2, rfl⟩
      | delayQueued =>
        obtain ⟨h1, h2⟩ := htake hm
        exact ⟨h1, h2, rfl⟩
  | queueBuffer audio buffer cb => exact ⟨(hposts hm).1, (hposts hm).2, rfl⟩
  | queueEOS audio finalResult => exact ⟨(hposts hm).1, (hposts hm).2, rfl⟩
  | queueDelay d => exact ⟨(hposts hm).1, (hposts hm).2, rfl⟩
  | flush audio => exact ⟨(hposts hm).1, (hposts hm).2, rfl⟩
  | signalTimeDiscontinuity => exact ⟨(hposts hm).1, (hposts hm).2, rfl⟩
  | pause => exact ⟨(hposts hm).1, (hposts hm).2, rfl⟩
  | resume => exact ⟨(hposts hm).1, (hposts hm).2, rfl⟩
  | signalRefreshAnchorRealTime b => exact ⟨(hposts hm).1, (hposts hm).2, rfl⟩
  | signalAudioSinkChanged => exact ⟨(hposts hm).1, (hposts hm).2, rfl⟩
  | notifySeekPosition seekTime => exact ⟨(hposts hm).1, (hposts hm).2, rfl⟩
  | setMediaPresence audio bValue => exact ⟨(hposts hm).1, (hposts hm).2, rfl⟩
  | setLiveStream b => exact ⟨(hposts hm).1, (hposts hm).2, rfl⟩

theorem run_paused : ∀ (acts : List (Env × Action)) (p r : Renderer),
    p.mPaused = true → AllStale p.drains → noResumeDelivered p acts = true →
    run p acts = .ok r →
    r.mPaused = true ∧ AllStale r.drains ∧ Idle p r ∧ firedDrainsStale p acts = true := by
  intro acts
  induction acts with
  | nil =>
    intro p r hp hs _ h
    cases h
    exact ⟨hp, hs, rfl, rfl⟩
  | cons ea rest ih =>
    intro p r hp hs hno h
    obtain ⟨env, a⟩ := ea
    unfold run at h
    obtain ⟨s1, h1, h2⟩ := Result.bind_eq_ok h
    unfold noResumeDelivered at hno
    rw [h1] at hno
    simp only [Bool.and_eq_true, Bool.not_eq_true'] at hno
    obtain ⟨hp1, hs1, hf⟩ := paused_step hp hs hno.1 h1
    obtain ⟨hp2, hs2, hi2, hf2⟩ := ih s1 r hp1 hs1 hno.2 h2
    refine ⟨hp2, hs2, idle_trans (step_idle hf h1) hi2, ?_⟩
    unfold firedDrainsStale
    rw [h1, hf]
    simpa using hf2

theorem pause_establishes {env : Env} {s p : Renderer} {i : Nat} {d : Int}
    (hs : DrainsSound s.drains) (hmsg : s.mailbox[i]? = some (.pause, d))
    (h : step env s (.deliver i) = .ok p) : p.mPaused = true ∧ AllStale p.drains := by
  have hm := step_drains h
  unfold DrainMove at hm
  dsimp only at hm
  rw [hmsg] at hm
  obtain ⟨_, h2⟩ := hm
  have hmv : s.drains.mailbox[i]? = some (Msg.pause, d) := hmsg
  have hsound := sound_take_other hs hmv (fun au => by cases au <;> rfl)
  constructor
  · have : p.drains.paused = true := by rw [h2]
    exact this
  · rw [h2]
    exact stale_of_sound hsound

/-- C33: from the handling of a pause message in a reachable state on, as long
as no resume message is handled, whatever else is called or handled: the
renderer stays paused, no byte is written to the audio sink, no video entry is
handed back with a render decision, every drain message that is handled is
stale, and every drain message in the mailbox is stale, so none of the current
generation has been posted. -/
theorem C33_paused_renders_nothing (env0 : Env) (s0 p r : Renderer) (i : Nat) (d : Int)
    (acts : List (Env × Action)) (hreach : Reachable s0)
    (hmsg : s0.mailbox[i]? = some (.pause, d))
    (hpause : step env0 s0 (.deliver i) = .ok p)
    (hno : noResumeDelivered p acts = true) (hrun : run p acts = .ok r) :
    r.mPaused = true ∧ bytesOf r.out = bytesOf p.out ∧
      renderedFrames r = renderedFrames p ∧ firedDrainsStale p acts = true ∧
      AllStale r.drains ∧ ∀ audio, currentDrains audio r = 0 := by
  obtain ⟨hp, hs⟩ := pause_establishes (reachable_sound hreach) hmsg hpause
  obtain ⟨hp2, hs2, hi, hf⟩ := run_paused acts p r hp hs hno hrun
  have hi1 : r.played = p.played := hi
  refine ⟨hp2, congrArg Prod.fst hi1, congrArg Prod.snd hi1, hf, hs2, ?_⟩
  intro audio
  unfold currentDrains
  apply List.count_eq_zero_of_not_mem
  intro hmem
  have := hs2 audio _ hmem
  rw [view_generation] at this
  exact lt_irrefl _ this

theorem C33_paused_renders_nothing_witness :
    Reachable samplePauseRequested ∧
    samplePauseRequested.mailbox[2]? = some (.pause, 0) ∧
    step sampleEnv samplePauseRequested (.deliver 2) = .ok samplePausedBoth ∧
    noResumeDelivered samplePausedBoth samplePausedActs = true ∧
    run samplePausedBoth samplePausedActs = .ok samplePausedLater ∧
    (samplePausedLater.mPaused = true ∧
      bytesOf samplePausedLater.out = bytesOf samplePausedBoth.out ∧
      renderedFrames samplePausedLater = renderedFrames samplePausedBoth ∧
      firedDrainsStale samplePausedBoth samplePausedActs = true ∧
      AllStale samplePausedLater.drains ∧ ∀ audio, currentDrains audio samplePausedLater = 0) := by
  have hr : Reachable samplePauseRequested := ⟨none, 0, 0, samplePauseRequestedRun, by rfl⟩
  exact ⟨hr, by rfl, by rfl, by rfl, by rfl,
    C33_paused_renders_nothing sampleEnv samplePauseRequested samplePausedBoth samplePausedLater
      2 0 samplePausedActs hr (by rfl) (by rfl) (by rfl) (by rfl)⟩

/-! ## Live streams: the drop rule on the audio drain as a whole (C19) -/

/-- With a payload entry at the head of the audio queue, `onDrainAudioQueue`
is the stall test, the position test and the loop. -/
theorem onDrainAudioQueue_payload_head (env : Env) (s : Renderer) (entry : QueueEntry)
    (rest : List QueueEntry) (buffer : ABuffer)
    (hq : s.mAudioQueue = entry :: rest) (hb : entry.mBuffer = some buffer) :
    onDrainAudioQueue env s =
      if s.mDelayPending then .ok (false, s)
      else if !env.positionOK then .ok (false, measureStartUpLatency env s)
      else audioLoop env (rest.length + 1) (numBytesAvailableToWrite env s)
        (measureStartUpLatency env s) := by
  unfold onDrainAudioQueue
  split
  · rfl
  · have hq1 : (measureStartUpLatency env s).mAudioQueue = entry :: rest := by
      rw [(measureStartUpLatency_fields env s).2.1, hq]
    have hn : numBytesAvailableToWrite env (measureStartUpLatency env s)
        = numBytesAvailableToWrite env s :=
      numBytesAvailableToWrite_congr env s _ (measureStartUpLatency_written env s).1
    unfold drainAudioFirst
    rw [hq1]
    simp only [hb]
    have hne : ¬ ((entry :: rest).length = 1 ∧ (some buffer : Option ABuffer) = none) := by
      intro h
      cases h.2
    rw [if_neg hne]
    unfold drainAudioSink
    rw [hq1, hn]
    rfl

theorem notifyPosition_extends (env : Env) (s : Renderer) (b : Bool) :
    (notifyPosition env s b).mAudioQueue = s.mAudioQueue ∧
    bytesOf (notifyPosition env s b).out = bytesOf s.out ∧
    postedCallbacks true (notifyPosition env s b) = postedCallbacks true s ∧
    ∃ tail, (notifyPosition env s b).out = s.out ++ tail := by
  unfold notifyPosition
  split
  · exact ⟨rfl, rfl, rfl, [], by simp⟩
  · split
    · exact ⟨rfl, rfl, rfl, [], by simp⟩
    · refine ⟨rfl, by simp [emit, bytesOf_append, bytesOf, writtenOf], ?_, _, rfl⟩
      simp [postedCallbacks, emit, List.filterMap_append, consumedOf]

theorem audioBody_extends {env : Env} {n : Nat} {s : Renderer} {c : Ctl}
    (h : audioBody env n s = .ok c) : ∃ tail, c.state.out = s.out ++ tail := by
  unfold audioBody at h
  split at h
  · cases h
  · split at h
    · cases h
      exact ⟨_, rfl⟩
    · next buffer _ =>
      split at h
      · split at h
        · cases h
        · split at h
          · split at h
            · cases h
              exact ⟨[], by simp [Ctl.state]⟩
            · split at h
              · obtain ⟨s1, h1, h2⟩ := Result.bind_eq_ok h
                cases h2
                obtain ⟨cb, _, h3⟩ := postConsumed_out h1
                subst h3
                exact ⟨_, rfl⟩
              · split at h
                · dsimp only at h
                  split at h
                  · cases h
                    refine ⟨[], ?_⟩
                    show (postDrainAudioQueue _ _).out = s.out ++ []
                    rw [(postDrainAudioQueue_stable _ _).out]
                    simp
                  · obtain ⟨tail, h1⟩ := audioAnchor_out h
                    exact ⟨_, h1⟩
                · obtain ⟨tail, h1⟩ := audioAnchor_out h
                  exact ⟨_, h1⟩
          · obtain ⟨tail, h1⟩ := audioAnchor_out h
            exact ⟨_, h1⟩
      · obtain ⟨tail, h1⟩ := audioWrite_out h
        exact ⟨_, h1⟩

theorem audioLoop_extends {env : Env} (fuel : Nat) : ∀ {n : Nat} {s : Renderer}
    {r : Bool × Renderer}, audioLoop env fuel n s = .ok r → ∃ tail, r.2.out = s.out ++ tail := by
  induction fuel with
  | zero =>
    intro n s r h
    unfold audioLoop at h
    split at h
    · cases h
    · cases h
      exact (notifyPosition_extends env s false).2.2.2
  | succ k ih =>
    intro n s r h
    unfold audioLoop at h
    split at h
    · cases hb : audioBody env n s with
      | fail f => rw [hb] at h; cases h
      | ok c =>
        rw [hb] at h
        obtain ⟨t1, h1⟩ := audioBody_extends hb
        cases c with
        | ret b s1 =>
          cases h
          exact ⟨t1, h1⟩
        | next n1 s1 =>
          obtain ⟨t2, h2⟩ := ih h
          refine ⟨t1 ++ t2, ?_⟩
          rw [h2]
          have h3 : s1.out = s.out ++ t1 := h1
          rw [h3, List.append_assoc]
    · cases h
      exact (notifyPosition_extends env s false).2.2.2

theorem awaitsVideoAnchor_iff (s : Renderer) (t : Int) :
    awaitsVideoAnchor s t = true ↔ (s.mAnchorTimeRealUs < 0 ∧ s.mAnchorTimeMediaUs ≠ t) := by
  simp [awaitsVideoAnchor]

theorem measureStartUpLatency_live (env : Env) (s : Renderer) :
    (measureStartUpLatency env s).mIsLiveStream = s.mIsLiveStream ∧
    (measureStartUpLatency env s).mHasVideo = s.mHasVideo ∧
    (measureStartUpLatency env s).mLastReceivedVideoSampleUs = s.mLastReceivedVideoSampleUs ∧
    awaitsVideoAnchor (measureStartUpLatency env s) = awaitsVideoAnchor s := by
  unfold measureStartUpLatency
  split <;> exact ⟨rfl, rfl, rfl, rfl⟩

/-- The live-stream tests of one pass of the audio drain on a payload entry at
offset 0. -/
theorem audioBody_live_rule (env : Env) (n : Nat)
    (s : Renderer) (entry : QueueEntry) (rest : List QueueEntry) (buffer : ABuffer)
    (t : Int) (cb : Nat)
    (hlive : s.mIsLiveStream = true) (hvid : s.mHasVideo = true)
    (hq : s.mAudioQueue = entry :: rest) (hb : entry.mBuffer = some buffer)
    (ho : entry.mOffset = 0) (ht : buffer.timeUs = some t)
    (hc : entry.mNotifyConsumed = some cb) :
    (awaitsVideoAnchor s t = true → audioBody env n s = .ok (.ret true s)) ∧
    (awaitsVideoAnchor s t = false → t < s.mLastReceivedVideoSampleUs →
      audioBody env n s =
        .ok (.next n { emit s (.consumed true cb none) with mAudioQueue := rest })) ∧
    (s.mLastReceivedVideoSampleUs ≤ t → ∀ c, audioBody env n s = .ok c →
      (∃ b s1 e, c = .ret b s1 ∧ s1.mAudioQueue = e :: rest ∧ entryKey e = entryKey entry ∧
        e.mOffset = 0 ∧ s1.out = s.out) ∨
      ∃ tail, c.state.out = s.out ++
        Out.sinkWrite ((buffer.data.drop entry.mOffset).take (copySize env n entry buffer))
          :: tail) := by
  refine ⟨?_, ?_, ?_⟩
  · intro hg
    have hg1 := (awaitsVideoAnchor_iff s t).1 hg
    unfold audioBody
    rw [hq]
    simp only [hb, ho, ht, hlive, hvid, Bool.and_self, if_true]
    rw [if_pos hg1]
  · intro hg hold
    have hg1 : ¬ (s.mAnchorTimeRealUs < 0 ∧ s.mAnchorTimeMediaUs ≠ t) := by
      intro h
      rw [(awaitsVideoAnchor_iff s t).2 h] at hg
      cases hg
    unfold audioBody
    rw [hq]
    simp only [hb, ho, ht, hlive, hvid, Bool.and_self, if_true]
    rw [if_neg hg1, if_pos hold]
    simp only [postConsumed, hc, Result.bind]
  · intro hnew c h
    unfold audioBody at h
    rw [hq] at h
    simp only [hb, ho, ht, hlive, hvid, Bool.and_self, if_true] at h
    have hno : ¬ t < s.mLastReceivedVideoSampleUs := by omega
    by_cases hg : s.mAnchorTimeRealUs < 0 ∧ s.mAnchorTimeMediaUs ≠ t
    · rw [if_pos hg] at h
      cases h
      exact Or.inl ⟨true, s, entry, rfl, hq, rfl, ho, rfl⟩
    · rw [if_neg hg, if_neg hno] at h
      split at h
      · split at h
        · cases h
          left
          refine ⟨false, _, _, rfl, (postDrainAudioQueue_stable _ _).aq, ?_, ?_,
            (postDrainAudioQueue_stable _ _).out⟩
          · simp [entryKey, hb, ht]
          · rfl
        · right
          obtain ⟨tail, h1⟩ := audioAnchor_out h
          exact ⟨tail, h1⟩
      · right
        exact audioAnchor_out h

/-- C19, as stated, fails: on a live stream the video frame of time stamp
200000 was received and rendered while no anchor was set (its drain message was
posted before the time discontinuity); the audio buffer of time stamp 100000,
older than that frame, is at the head of the audio queue at offset 0.  The
audio drain that comes due finds no anchor real time and an anchor media time
other than 100000: it returns and leaves the buffer at the head of the queue,
no callback posted and nothing written. -/
theorem C19_older_audio_kept_before_anchor_counterexample :
    run sampleStart sampleOlderAudioRun = .ok sampleOlderAudio ∧
    sampleOlderAudio.mIsLiveStream = true ∧ sampleOlderAudio.mHasVideo = true ∧
    sampleOlderAudio.out.getLast? = some (.consumed false 5 (some 1)) ∧
    sampleOlderAudio.mLastReceivedVideoSampleUs = 200000 ∧
    anchorPair sampleOlderAudio = (-1, -1) ∧
    sampleOlderAudio.mAudioQueue = [bufferEntry sampleAudioLate 6] ∧
    sampleAudioLate.timeUs = some 100000 ∧
    sampleOlderAudio.mailbox[0]? = some (.drainAudioQueue 0, 0) ∧
    sampleOlderAudio.mAudioQueueGeneration = 0 ∧
    drainReaches (sampleEnvAt 51040) sampleOlderAudio = true ∧
    ∃ r, step (sampleEnvAt 51040) sampleOlderAudio (.deliver 0) = .ok r ∧
      r.mAudioQueue = [bufferEntry sampleAudioLate 6] ∧ r.out = sampleOlderAudio.out := by
  refine ⟨by rfl, by rfl, by rfl, by rfl, by rfl, by rfl, by rfl, by rfl, by rfl, by rfl, by rfl,
    runFrom sampleOlderAudio [(sampleEnvAt 51040, .deliver 0)], by rfl, by rfl, by rfl⟩

/-- C19, amended: on a live stream with video present, take a payload entry at
the head of the audio queue at offset 0, with media time `t` and a callback.
When the audio drain gets to it (no stall pending, the sink tells its position
and has room) and `t` is strictly older than `mLastReceivedVideoSampleUs`, the
entry is dropped, unless no anchor real time is set and the anchor media time
differs from `t`: the callback is posted, the entry is dequeued, nothing of it
is written, and the drain goes on with the rest of the queue and the same room
in the sink; in the excepted case the drain returns at once, asks to be posted
again and leaves the entry at the head of the queue.  When the drain does not
get to the entry, it leaves the queue, the bytes written and the callbacks
posted as they are.  An entry whose media time is equal to or newer than
`mLastReceivedVideoSampleUs` is not dropped: whenever the drain returns,
either the entry is still at the head of the queue at offset 0 with nothing
posted or written, or the first thing the drain did was to write bytes of the
entry to the sink.  The value compared against is the time stamp of the last
video frame received: the video drain stores the time stamp of every payload
frame it takes from the queue there, also when it drops the frame and leaves
the last rendered time stamp as it was. -/
theorem C19_live_audio_older_than_received_video_dropped (env : Env)
    (s : Renderer) (entry : QueueEntry) (rest : List QueueEntry) (buffer : ABuffer)
    (t : Int) (cb : Nat)
    (hlive : s.mIsLiveStream = true) (hvid : s.mHasVideo = true)
    (hq : s.mAudioQueue = entry :: rest) (hb : entry.mBuffer = some buffer)
    (ho : entry.mOffset = 0) (ht : buffer.timeUs = some t)
    (hc : entry.mNotifyConsumed = some cb) :
    (drainReaches env s = true → awaitsVideoAnchor s t = false →
      t < s.mLastReceivedVideoSampleUs →
      onDrainAudioQueue env s =
        audioLoop env rest.length (numBytesAvailableToWrite env s)
          { emit (measureStartUpLatency env s) (.consumed true cb none) with
            mAudioQueue := rest } ∧
      ∀ r, onDrainAudioQueue env s = .ok r →
        ∃ tail, r.2.out = s.out ++ Out.consumed true cb none :: tail) ∧
    (drainReaches env s = true → awaitsVideoAnchor s t = true →
      onDrainAudioQueue env s = .ok (true, measureStartUpLatency env s) ∧
      (measureStartUpLatency env s).mAudioQueue = s.mAudioQueue ∧
      (measureStartUpLatency env s).out = s.out) ∧
    (drainReaches env s = false →
      ∃ r, onDrainAudioQueue env s = .ok r ∧ r.2.mAudioQueue = s.mAudioQueue ∧
        bytesOf r.2.out = bytesOf s.out ∧
        postedCallbacks true r.2 = postedCallbacks true s) ∧
    (s.mLastReceivedVideoSampleUs ≤ t → ∀ r, onDrainAudioQueue env s = .ok r →
      ((∃ e, r.2.mAudioQueue = e :: rest ∧ entryKey e = entryKey entry ∧ e.mOffset = 0) ∧
        bytesOf r.2.out = bytesOf s.out ∧
        postedCallbacks true r.2 = postedCallbacks true s) ∨
      ∃ tail, r.2.out = s.out ++
        Out.sinkWrite ((buffer.data.drop entry.mOffset).take
          (copySize env (numBytesAvailableToWrite env s) entry buffer)) :: tail) ∧
    (∀ (venv : Env) (sv : Renderer) (ventry : QueueEntry) (vrest : List QueueEntry)
        (vbuf : ABuffer) (tv : Int) (vcb : Nat),
      sv.mDelayPending = false → sv.mVideoQueue = ventry :: vrest →
      ventry.mBuffer = some vbuf → vbuf.timeUs = some tv →
      ventry.mNotifyConsumed = some vcb →
      ∃ s1 r, onDrainVideoQueue venv sv = .ok s1 ∧
        renderDecisions s1 = renderDecisions sv ++ [(vcb, some r)] ∧
        s1.mLastReceivedVideoSampleUs = tv ∧
        (r = 0 → s1.mLastRenderedTimeMediaUs = sv.mLastRenderedTimeMediaUs)) := by
  have heq := onDrainAudioQueue_payload_head env s entry rest buffer hq hb
  obtain ⟨m1, m2, m3, m4⟩ := measureStartUpLatency_live env s
  obtain ⟨_, f2, f3, _⟩ := measureStartUpLatency_fields env s
  have hqX : (measureStartUpLatency env s).mAudioQueue = entry :: rest := by rw [f2, hq]
  have hrule := audioBody_live_rule env (numBytesAvailableToWrite env s)
    (measureStartUpLatency env s) entry rest buffer t cb (by rw [m1, hlive]) (by rw [m2, hvid])
    hqX hb ho ht hc
  rw [m3, m4] at hrule
  obtain ⟨rule1, rule2, rule3⟩ := hrule
  have hreach : drainReaches env s = true →
      onDrainAudioQueue env s = (match audioBody env (numBytesAvailableToWrite env s)
          (measureStartUpLatency env s) with
        | .fail f => .fail f
        | .ok (.ret b s1) => .ok (b, s1)
        | .ok (.next n1 s1) => audioLoop env rest.length n1 s1) := by
    intro hr
    simp only [drainReaches, Bool.and_eq_true, Bool.not_eq_true', decide_eq_true_eq] at hr
    obtain ⟨⟨hd, hp⟩, hn⟩ := hr
    rw [heq, hd, hp]
    simp only [Bool.false_eq_true, if_false, Bool.not_true]
    rw [audioLoop]
    exact if_pos ⟨hn, by rw [hqX]; rfl⟩
  have hout : ∀ X : Renderer, X.out = s.out →
      bytesOf X.out = bytesOf s.out ∧ postedCallbacks true X = postedCallbacks true s := by
    intro X hX
    unfold postedCallbacks
    rw [hX]
    exact ⟨rfl, rfl⟩
  have hfar : drainReaches env s = false →
      ∃ r, onDrainAudioQueue env s = .ok r ∧ r.2.mAudioQueue = s.mAudioQueue ∧
        bytesOf r.2.out = bytesOf s.out ∧
        postedCallbacks true r.2 = postedCallbacks true s := by
    intro hr
    rw [heq]
    cases hd : s.mDelayPending with
    | true => exact ⟨_, rfl, rfl, rfl, rfl⟩
    | false =>
      simp only [Bool.false_eq_true, if_false]
      cases hp : env.positionOK with
      | false => exact ⟨_, rfl, f2, (hout _ f3).1, (hout _ f3).2⟩
      | true =>
        have hn : numBytesAvailableToWrite env s = 0 := by
          simp only [drainReaches, hd, hp, Bool.not_false, Bool.and_self, Bool.true_and,
            decide_eq_false_iff_not, not_lt, Nat.le_zero_eq] at hr
          exact hr
        rw [hn, audioLoop_full]
        obtain ⟨n1, n2, n3, _⟩ := notifyPosition_extends env (measureStartUpLatency env s) false
        refine ⟨_, rfl, ?_, ?_, ?_⟩
        · show (notifyPosition env (measureStartUpLatency env s) false).mAudioQueue = _
          rw [n1, f2]
        · show bytesOf (notifyPosition env (measureStartUpLatency env s) false).out = _
          rw [n2, f3]
        · show postedCallbacks true (notifyPosition env (measureStartUpLatency env s) false) = _
          rw [n3]
          exact (hout _ f3).2
  refine ⟨?_, ?_, hfar, ?_, ?_⟩
  · intro hr hg hold
    have e1 := hreach hr
    rw [rule2 hg hold] at e1
    refine ⟨e1, ?_⟩
    intro r h
    rw [e1] at h
    obtain ⟨tail, h1⟩ := audioLoop_extends _ h
    refine ⟨tail, ?_⟩
    rw [h1]
    show ((measureStartUpLatency env s).out ++ [Out.consumed true cb none]) ++ tail = _
    rw [f3, List.append_assoc]
    rfl
  · intro hr hg
    have e1 := hreach hr
    rw [rule1 hg] at e1
    exact ⟨e1, f2, f3⟩
  · intro hnew r h
    cases hr : drainReaches env s with
    | false =>
      left
      obtain ⟨r1, g1, g2, g3, g4⟩ := hfar hr
      rw [g1] at h
      cases h
      exact ⟨⟨entry, by rw [g2, hq], rfl, ho⟩, g3, g4⟩
    | true =>
      rw [hreach hr] at h
      cases hbody : audioBody env (numBytesAvailableToWrite env s)
          (measureStartUpLatency env s) with
      | fail f => rw [hbody] at h; cases h
      | ok c =>
        rw [hbody] at h
        rcases rule3 hnew c hbody with ⟨b, s1, e, k1, k2, k3, k4, k5⟩ | ⟨tail, k1⟩
        · subst k1
          cases h
          left
          exact ⟨⟨e, k2, k3, k4⟩, hout _ (k5.trans f3)⟩
        · right
          rw [f3] at k1
          cases c with
          | ret b s1 =>
            cases h
            exact ⟨tail, k1⟩
          | next n1 s1 =>
            obtain ⟨t2, k2⟩ := audioLoop_extends _ h
            refine ⟨tail ++ t2, ?_⟩
            rw [k2]
            have k3 : s1.out = _ := k1
            rw [k3, List.append_assoc]
            rfl
  · intro venv sv ventry vrest vbuf tv vcb hd hvq hvb hvt hvc
    obtain ⟨s1, r, h1, h2, h3, h4, _⟩ :=
      onDrainVideoQueue_received venv sv ventry vrest vbuf tv vcb hd hvq hvb hvt hvc
    exact ⟨s1, r, h1, h2, h3, h4⟩

/-- C19, worked example: on a live stream the video frame of time stamp 20
was received and the anchor is set; the audio buffer of time stamp 10 at the
head of the audio queue is dropped by the audio drain: its callback 2 is
posted, the queue is empty and nothing was written to the sink. -/
theorem C19_live_audio_older_than_received_video_dropped_witness :
    sampleLiveLate.mLastReceivedVideoSampleUs = 20 ∧
    sampleLiveLate.mAudioQueue = [bufferEntry sampleBuffer1 2] ∧
    drainReaches sampleEnv sampleLiveLate = true ∧
    awaitsVideoAnchor sampleLiveLate 10 = false ∧
    onDrainAudioQueue sampleEnv sampleLiveLate =
      audioLoop sampleEnv 0 (numBytesAvailableToWrite sampleEnv sampleLiveLate)
        { emit (measureStartUpLatency sampleEnv sampleLiveLate) (.consumed true 2 none) with
          mAudioQueue := [] } ∧
    ∃ r, onDrainAudioQueue sampleEnv sampleLiveLate = .ok (false, r) ∧ r.mAudioQueue = [] ∧
      postedCallbacks true r = [2] ∧ bytesOf r.out = [] :=
  ⟨by rfl, by rfl, by rfl, by rfl,
    ((C19_live_audio_older_than_received_video_dropped sampleEnv sampleLiveLate
      (bufferEntry sampleBuffer1 2) [] sampleBuffer1 10 2
      (by rfl) (by rfl) (by rfl) rfl rfl rfl rfl).1 (by rfl) (by rfl) (by decide)).1,
    _, by rfl, by rfl, by rfl, by rfl⟩

/-! ## The anchor of a video-only stream along a run (C21) -/

theorem trackHead_neutral (g : List Nat) (o : Out) (h : neutralOut o = true) :
    trackHead g o = g := by
  cases o with
  | consumed audio cb render => cases audio <;> simp_all [neutralOut, trackHead]
  | sinkWrite bytes => simp [neutralOut] at h
  | eos audio fr => cases audio <;> simp_all [neutralOut, trackHead]
  | sinkPause => rfl
  | sinkStart => rfl
  | flushComplete audio => rfl
  | position p l => rfl

theorem foldl_neutral (added : List Out) : ∀ (g : List Nat),
    (∀ o ∈ added, neutralOut o = true) → added.foldl trackHead g = g := by
  induction added with
  | nil => intro g _; rfl
  | cons o rest ih =>
    intro g h
    rw [List.foldl_cons, trackHead_neutral g o (h o (by simp))]
    exact ih g fun x hx => h x (List.mem_cons_of_mem _ hx)

theorem tracks_refl (s : Renderer) : Tracks s s :=
  ⟨[], by simp, fun _ h => h⟩

theorem tracks_trans {s m r : Renderer} (h1 : Tracks s m) (h2 : Tracks m r) : Tracks s r := by
  obtain ⟨a1, o1, t1⟩ := h1
  obtain ⟨a2, o2, t2⟩ := h2
  refine ⟨a1 ++ a2, by rw [o2, o1, List.append_assoc], ?_⟩
  intro g hg
  rw [List.foldl_append]
  exact t2 _ (t1 g hg)

theorem audioKept_refl (s : Renderer) : AudioKept s s :=
  ⟨rfl, [], by simp, by simp⟩

theorem audioKept_trans {s m r : Renderer} (h1 : AudioKept s m) (h2 : AudioKept m r) :
    AudioKept s r := by
  obtain ⟨q1, a1, o1, n1⟩ := h1
  obtain ⟨q2, a2, o2, n2⟩ := h2
  refine ⟨q2.trans q1, a1 ++ a2, by rw [o2, o1, List.append_assoc], ?_⟩
  intro o ho
  rcases List.mem_append.1 ho with ho | ho
  · exact n1 o ho
  · exact n2 o ho

theorem audioKept_of {s r : Renderer} (hq : r.mAudioQueue = s.mAudioQueue)
    (ho : r.out = s.out) : AudioKept s r :=
  ⟨hq, [], by simp [ho], by simp⟩

theorem audioKept_of_stable {s r : Renderer} (h : Stable s r) : AudioKept s r :=
  audioKept_of h.aq h.out

theorem audioKept_emit (s : Renderer) (o : Out) (h : neutralOut o = true) :
    AudioKept s (emit s o) :=
  ⟨rfl, [o], rfl, by simpa using h⟩

theorem tracks_of_kept {s r : Renderer} (h : AudioKept s r) : Tracks s r := by
  obtain ⟨q, a, o, n⟩ := h
  refine ⟨a, o, ?_⟩
  intro g hg
  rw [foldl_neutral a g n, q]
  exact hg

/-- Behind the head of the audio queue every entry has offset 0, so the empty
record is exact once the head is removed. -/
theorem headExact_tail {w : Nat} {e : QueueEntry} {rest vq : List QueueEntry}
    {written : List Nat} (h : OffsetsOK w (e :: rest) vq written) : HeadExact [] rest := by
  cases rest with
  | nil => rfl
  | cons e1 rest1 =>
    have h0 : e1.mOffset = 0 := h.2.1 e1 (by simp)
    show (entryData e1).take e1.mOffset = []
    rw [h0]
    rfl

theorem notifyPosition_audioKept (env : Env) (s : Renderer) (b : Bool) :
    AudioKept s (notifyPosition env s b) := by
  unfold notifyPosition
  split
  · exact audioKept_refl s
  · split
    · exact audioKept_refl s
    · exact ⟨rfl, [_], rfl, by simp [neutralOut]⟩

theorem measureStartUpLatency_audioKept (env : Env) (s : Renderer) :
    AudioKept s (measureStartUpLatency env s) := by
  unfold measureStartUpLatency
  split
  · exact audioKept_of rfl rfl
  · exact audioKept_refl s

theorem audioWrite_head {w : Nat} {env : Env} {n : Nat} {X : Renderer} {entry : QueueEntry}
    {buffer : ABuffer} {rest : List QueueEntry} {c : Ctl} (hw : env.sizeBits = w)
    (hq : X.mAudioQueue = entry :: rest) (hb : entry.mBuffer = some buffer)
    (hi : OffsetInv w X) (h : audioWrite env n X entry buffer rest = .ok c) :
    Tracks X c.state := by
  unfold OffsetInv at hi
  rw [hq] at hi
  have hd : entryData entry = buffer.data := by unfold entryData; rw [hb]
  have hlen : buffer.data.length < 2 ^ env.sizeBits := by
    rw [hw, ← hd]; exact hi.2.2.2 entry (by simp)
  have ho : entry.mOffset ≤ buffer.data.length := by
    rw [← hd]; exact (hi.2.2.1 entry rfl).1
  have hcopy := copySize_min env n entry buffer hlen ho
  have hle : entry.mOffset + copySize env n entry buffer ≤ buffer.data.length := by
    rw [hcopy]; omega
  have hmod : (entry.mOffset + copySize env n entry buffer) % 2 ^ env.sizeBits
      = entry.mOffset + copySize env n entry buffer := Nat.mod_eq_of_lt (by omega)
  unfold audioWrite at h
  dsimp only at h
  split at h
  · cases h
  · obtain ⟨s3, h3, h4⟩ := Result.bind_eq_ok h
    cases h4
    show Tracks X { s3 with mNumFramesWritten := _ }
    have key : Tracks X s3 := by
      split at h3
      · obtain ⟨s2, h2, h5⟩ := Result.bind_eq_ok h3
        cases h5
        obtain ⟨cb, _, h6⟩ := postConsumed_out h2
        subst h6
        refine ⟨[Out.sinkWrite ((buffer.data.drop entry.mOffset).take
          (copySize env n entry buffer)), Out.consumed true cb none], by simp [emit], ?_⟩
        intro g _
        exact headExact_tail hi
      · cases h3
        refine ⟨[Out.sinkWrite ((buffer.data.drop entry.mOffset).take
          (copySize env n entry buffer))], rfl, ?_⟩
        intro g hg
        rw [hq] at hg
        have hg1 : (entryData entry).take entry.mOffset = g := hg
        show (entryData { entry with mOffset := (entry.mOffset + copySize env n entry buffer)
            % 2 ^ env.sizeBits }).take ((entry.mOffset + copySize env n entry buffer)
            % 2 ^ env.sizeBits) = _
        have hd1 : entryData { entry with mOffset := (entry.mOffset
            + copySize env n entry buffer) % 2 ^ env.sizeBits } = buffer.data := by
          unfold entryData; simp only [hb]
        rw [hd1, hmod, take_add_drop, ← hd, hg1]
        rfl
    obtain ⟨a, o, k⟩ := key
    exact ⟨a, o, k⟩

theorem audioAnchor_head {w : Nat} {env : Env} {n : Nat} {X : Renderer} {entry : QueueEntry}
    {buffer : ABuffer} {rest : List QueueEntry} {m : Int} {c : Ctl} (hw : env.sizeBits = w)
    (hq : X.mAudioQueue = entry :: rest) (hb : entry.mBuffer = some buffer)
    (hi : OffsetInv w X) (h : audioAnchor env n X entry buffer rest m = .ok c) :
    Tracks X c.state := by
  unfold audioAnchor at h
  dsimp only at h
  split at h
  · cases h
  · have key : ∀ Y : Renderer, audioWrite env n Y entry buffer rest = .ok c →
        Y.mAudioQueue = entry :: rest → OffsetInv w Y → Tracks Y c.state :=
      fun Y a b d => audioWrite_head hw b hb d a
    obtain ⟨a, o, k⟩ := key _ h hq (offsetInv_of X.mAudioQueue X.mVideoQueue _ rfl rfl rfl hi)
    exact ⟨a, o, k⟩

theorem audioBody_head {w : Nat} {env : Env} {n : Nat} {s : Renderer} {c : Ctl}
    (hw : env.sizeBits = w) (hi : OffsetInv w s) (h : audioBody env n s = .ok c) :
    Tracks s c.state := by
  unfold audioBody at h
  cases hq : s.mAudioQueue with
  | nil => rw [hq] at h; cases h
  | cons entry rest =>
    rw [hq] at h
    dsimp only at h
    have hi0 : OffsetsOK w (entry :: rest) s.mVideoQueue (bytesOf s.out) := by
      unfold OffsetInv at hi; rw [hq] at hi; exact hi
    cases hb : entry.mBuffer with
    | none =>
      rw [hb] at h
      cases h
      exact ⟨[Out.eos true entry.mFinalResult], rfl, fun _ _ => headExact_tail hi0⟩
    | some buffer =>
      rw [hb] at h
      dsimp only at h
      split at h
      · rename_i ho
        split at h
        · cases h
        · next mediaTimeUs ht =>
          split at h
          · split at h
            · cases h; exact tracks_refl s
            · split at h
              · obtain ⟨s1, h1, h2⟩ := Result.bind_eq_ok h
                cases h2
                obtain ⟨cb, _, h6⟩ := postConsumed_out h1
                subst h6
                exact ⟨[Out.consumed true cb none], rfl, fun _ _ => headExact_tail hi0⟩
              · split at h
                · split at h
                  · cases h
                    refine tracks_trans ?_
                      (tracks_of_kept (audioKept_of_stable (postDrainAudioQueue_stable _ _)))
                    refine ⟨[], by simp, ?_⟩
                    intro g hg
                    rw [hq] at hg
                    have hg1 : (entryData entry).take entry.mOffset = g := hg
                    show (entryData { entry with
                      mBuffer := some { buffer with disc := some 0 } }).take entry.mOffset = g
                    rw [← hg1]
                    unfold entryData
                    simp only [hb]
                  · have key : ∀ Y : Renderer,
                        audioAnchor env n Y entry buffer rest mediaTimeUs = .ok c →
                        Y.mAudioQueue = entry :: rest → OffsetInv w Y → Tracks Y c.state :=
                      fun Y a b d => audioAnchor_head hw b hb d a
                    have k1 := key _ h (by first | exact hq | rfl)
                      (by
                        first
                        | exact offsetInv_of s.mAudioQueue s.mVideoQueue _ rfl rfl rfl hi
                        | exact offsetInv_of (entry :: rest) s.mVideoQueue _ rfl rfl rfl hi0)
                    obtain ⟨a, o, k⟩ := k1
                    refine ⟨a, o, ?_⟩
                    intro g hg
                    first
                    | exact k g hg
                    | exact k g (by rw [hq] at hg; exact hg)
                · exact audioAnchor_head hw hq hb hi h
          · exact audioAnchor_head hw hq hb hi h
      · exact audioWrite_head hw hq hb hi h

theorem audioLoop_head {w : Nat} {env : Env} (hw : env.sizeBits = w) (fuel : Nat) :
    ∀ {n : Nat} {s : Renderer} {r : Bool × Renderer}, OffsetInv w s →
      audioLoop env fuel n s = .ok r → Tracks s r.2 := by
  induction fuel with
  | zero =>
    intro n s r hi h
    unfold audioLoop at h
    split at h
    · cases h
    · cases h
      exact tracks_of_kept (notifyPosition_audioKept env s false)
  | succ k ih =>
    intro n s r hi h
    unfold audioLoop at h
    split at h
    · split at h
      · cases h
      · next b s1 hb =>
        cases h
        exact audioBody_head hw hi hb
      · next n1 s1 hb =>
        exact tracks_trans (audioBody_head hw hi hb) (ih (audioBody_inv hw hi hb) h)
    · cases h
      exact tracks_of_kept (notifyPosition_audioKept env s false)

theorem onDrainAudioQueue_head {w : Nat} {env : Env} {s : Renderer} {r : Bool × Renderer}
    (hw : env.sizeBits = w) (hi : OffsetInv w s) (h : onDrainAudioQueue env s = .ok r) :
    Tracks s r.2 := by
  unfold onDrainAudioQueue at h
  split at h
  · cases h; exact tracks_refl s
  · have hi1 := queuesKept_inv (measureStartUpLatency_kept env s) hi
    refine tracks_trans (tracks_of_kept (measureStartUpLatency_audioKept env s)) ?_
    generalize measureStartUpLatency env s = X at h hi1
    have hsink : ∀ {r : Bool × Renderer}, drainAudioSink env X = .ok r → Tracks X r.2 := by
      intro r h
      unfold drainAudioSink at h
      split at h
      · cases h; exact tracks_refl X
      · exact audioLoop_head hw _ hi1 h
    unfold drainAudioFirst at h
    cases hq : X.mAudioQueue with
    | nil =>
      rw [hq] at h
      exact hsink h
    | cons entry rest =>
      rw [hq] at h
      dsimp only at h
      split at h
      · cases h
        have hi0 : OffsetsOK w (entry :: rest) X.mVideoQueue (bytesOf X.out) := by
          unfold OffsetInv at hi1; rw [hq] at hi1; exact hi1
        exact ⟨[Out.eos true entry.mFinalResult], rfl, fun _ _ => headExact_tail hi0⟩
      · exact hsink h

/-! ## The bytes written from the head audio entry: the other handlers (C28) -/

theorem onDrainVideoQueue_audioKept {env : Env} {s r : Renderer}
    (h : onDrainVideoQueue env s = .ok r) : AudioKept s r := by
  unfold onDrainVideoQueue at h
  split at h
  · cases h; exact audioKept_refl s
  · refine audioKept_trans (measureStartUpLatency_audioKept env s) ?_
    generalize measureStartUpLatency env s = X at h
    unfold drainVideoHead at h
    cases hq : X.mVideoQueue with
    | nil => rw [hq] at h; cases h; exact audioKept_refl _
    | cons entry rest =>
      rw [hq] at h
      dsimp only at h
      split at h
      · cases h
        have h1 := audioKept_trans (notifyPosition_audioKept env X true)
          (audioKept_emit _ (Out.eos false entry.mFinalResult) rfl)
        obtain ⟨q, a, o, n⟩ := h1
        exact ⟨q, a, o, n⟩
      · split at h
        · cases h
        · next mediaTimeUs ht =>
          have hd : AudioKept X (videoRenderDecision env X mediaTimeUs).2 := by
            obtain ⟨_, _, _, d1, _, d3⟩ := videoRenderDecision_spec env X mediaTimeUs
            exact audioKept_of d3 d1
          generalize videoRenderDecision env X mediaTimeUs = d at h hd
          obtain ⟨tooLate, s5⟩ := d
          dsimp only at h
          obtain ⟨s6, h6, h7⟩ := Result.bind_eq_ok h
          cases h7
          obtain ⟨cb, _, h8⟩ := postConsumed_out h6
          subst h8
          have h9 : AudioKept X (emit s5 (Out.consumed false cb
              (some (if (!tooLate) = true then 1 else 0)))) :=
            audioKept_trans hd (audioKept_emit _ _ rfl)
          have key : ∀ Y Z : Renderer, AudioKept X Y → Z.mAudioQueue = Y.mAudioQueue →
              Z.out = Y.out → AudioKept X (notifyPosition env Z false) :=
            fun Y Z hY z1 z2 => audioKept_trans (audioKept_trans hY (audioKept_of z1 z2))
              (notifyPosition_audioKept env Z false)
          exact key _ _ h9 rfl rfl

theorem flushEvents_video_neutral (q : List QueueEntry) :
    ∀ o ∈ flushEvents false q, neutralOut o = true := by
  intro o ho
  unfold flushEvents at ho
  obtain ⟨e, _, he⟩ := List.mem_filterMap.1 ho
  split at he
  · cases hc : e.mNotifyConsumed with
    | none => rw [hc] at he; cases he
    | some cb =>
      rw [hc] at he
      cases he
      rfl
  · cases he

/-- The trace elements of a flush of the audio queue end the record of the
head entry: the record is empty afterwards. -/
theorem flushEvents_audio_head : ∀ (q : List QueueEntry) (g : List Nat),
    callbacksPresent q → HeadExact g q → (flushEvents true q).foldl trackHead g = [] := by
  have all : ∀ (q : List QueueEntry) (g : List Nat),
      (flushEvents true q).foldl trackHead g = g ∨
        (flushEvents true q).foldl trackHead g = [] := by
    intro q
    induction q with
    | nil => intro g; exact Or.inl rfl
    | cons e rest ih =>
      intro g
      rw [flushEvents_cons]
      split
      · cases hc : e.mNotifyConsumed with
        | none => exact ih g
        | some cb =>
          rw [List.foldl_append]
          right
          rcases ih (List.foldl trackHead g [Out.consumed true cb none]) with h | h
          · rw [h]; rfl
          · exact h
      · exact ih g
  intro q g hc hg
  cases q with
  | nil => exact hg
  | cons e rest =>
    have hg1 : (entryData e).take e.mOffset = g := hg
    rw [flushEvents_cons]
    cases hb : e.mBuffer with
    | none =>
      have hd : entryData e = [] := by unfold entryData; rw [hb]
      rw [hd] at hg1
      simp only [List.take_nil] at hg1
      subst hg1
      simp only [ne_eq, not_true_eq_false, if_false, List.nil_append]
      rcases all rest [] with h | h <;> exact h
    | some b =>
      have hcb : e.mNotifyConsumed ≠ none := hc e (by simp) (by rw [hb]; simp)
      cases hn : e.mNotifyConsumed with
      | none => exact absurd hn hcb
      | some cb =>
        simp only [ne_eq, reduceCtorEq, not_false_eq_true, if_true, List.foldl_append]
        rcases all rest (List.foldl trackHead g [Out.consumed true cb none]) with h | h
        · rw [h]; rfl
        · exact h

theorem onFlush_head {env : Env} {s r : Renderer} {audio : Bool}
    (h : onFlush env s audio = .ok r) : Tracks s r := by
  unfold onFlush at h
  obtain ⟨s2, h2, h3⟩ := Result.bind_eq_ok h
  refine tracks_trans (tracks_of_kept (audioKept_of_stable (syncQueuesDone_stable h2))) ?_
  cases audio with
  | true =>
    rw [if_pos rfl] at h3
    obtain ⟨s3, h4, h5⟩ := Result.bind_eq_ok h3
    cases h5
    obtain ⟨heq, hcb⟩ := flushLoop_eq true _ rfl h4
    subst heq
    refine ⟨flushEvents true s2.mAudioQueue ++ [Out.flushComplete true], ?_, ?_⟩
    · simp [notifyFlushComplete, emit, setQueue, getQueue]
    · intro g hg
      rw [List.foldl_append]
      have h6 : (flushEvents true (getQueue true s2)).foldl trackHead g = [] :=
        flushEvents_audio_head _ g hcb hg
      have h7 : getQueue true s2 = s2.mAudioQueue := rfl
      rw [h7] at h6
      rw [h6]
      rfl
  | false =>
    rw [if_neg (by simp)] at h3
    obtain ⟨s3, h4, h5⟩ := Result.bind_eq_ok h3
    cases h5
    obtain ⟨heq, _⟩ := flushLoop_eq false _ rfl h4
    subst heq
    refine tracks_of_kept ⟨rfl, flushEvents false s2.mVideoQueue ++ [Out.flushComplete false],
      ?_, ?_⟩
    · simp [notifyFlushComplete, emit, setQueue, getQueue]
    · intro o ho
      rcases List.mem_append.1 ho with ho | ho
      · exact flushEvents_video_neutral _ o ho
      · simp only [List.mem_singleton] at ho
        subst ho
        rfl

theorem headExact_push {g : List Nat} {aq : List QueueEntry} (entry : QueueEntry)
    (ho : entry.mOffset = 0) (h : HeadExact g aq) : HeadExact g (aq ++ [entry]) := by
  cases aq with
  | nil =>
    have hg : g = [] := h
    subst hg
    show (entryData entry).take entry.mOffset = []
    rw [ho]
    rfl
  | cons e rest => exact h

theorem syncQueuesStep_head {w : Nat} {env : Env} {s r : Renderer}
    (hi : OffsetInv w s) (h : syncQueuesStep env s = .ok r) : Tracks s r := by
  have hdone : ∀ {r : Renderer}, syncQueuesDone env s = .ok r → Tracks s r :=
    fun h => tracks_of_kept (audioKept_of_stable (syncQueuesDone_stable h))
  unfold syncQueuesStep at h
  split at h
  · cases h; exact tracks_refl s
  · cases hq : s.mAudioQueue with
    | nil =>
      rw [hq] at h
      split at h <;> first | (cases h; exact tracks_refl _) | exact hdone h | skip
      all_goals simp at *
    | cons aentry arest =>
      have hi0 : OffsetsOK w (aentry :: arest) s.mVideoQueue (bytesOf s.out) := by
        unfold OffsetInv at hi; rw [hq] at hi; exact hi
      split at h
      · next a1 ar v1 vr ha hv =>
        rw [hq] at ha
        cases ha
        split at h
        · split at h
          · dsimp only at h
            split at h
            · obtain ⟨s1, h1, h2⟩ := Result.bind_eq_ok h
              cases h2
              obtain ⟨cb, _, h6⟩ := postConsumed_out h1
              subst h6
              exact ⟨[Out.consumed true cb none], rfl, fun _ _ => headExact_tail hi0⟩
            · exact hdone h
          · cases h
        · exact hdone h
      · cases h; exact tracks_refl s

theorem enqueueBuffer_head {w : Nat} {env : Env} {s r : Renderer} {audio : Bool}
    {entry : QueueEntry} (ho : entry.mOffset = 0)
    (hi : OffsetInv w s) (h : enqueueBuffer env s audio entry = .ok r) : Tracks s r := by
  unfold enqueueBuffer at h
  split at h
  · have h1 : Tracks s { s with mAudioQueue := s.mAudioQueue ++ [entry] } :=
      ⟨[], by simp, fun g hg => headExact_push entry ho hg⟩
    dsimp only at h
    split at h
    · split at h
      · cases h; exact h1
      · exact tracks_trans h1 (tracks_of_kept (audioKept_of_stable (setStartAnchor_stable h)))
    · cases h
      exact tracks_trans h1
        (tracks_of_kept (audioKept_of_stable (postDrainAudioQueue_stable _ _)))
  · have hi1 : OffsetInv w { s with mVideoQueue := s.mVideoQueue ++ [entry] } := by
      unfold OffsetInv at hi
      exact offsetInv_of s.mAudioQueue (s.mVideoQueue ++ [entry]) _ rfl rfl rfl
        (offsetsOK_pushV entry ho hi)
    have h1 : Tracks s { s with mVideoQueue := s.mVideoQueue ++ [entry] } :=
      tracks_of_kept (audioKept_of rfl rfl)
    dsimp only at h
    split at h
    · split at h
      · cases h; exact h1
      · split at h
        · cases h; exact h1
        · exact tracks_trans h1 (tracks_of_kept (audioKept_of_stable (setStartAnchor_stable h)))
    · obtain ⟨s4, h4, h5⟩ := Result.bind_eq_ok h
      have hi4 := queuesKept_inv (stable_queuesKept (postDrainVideoQueue_stable h4)) hi1
      exact tracks_trans (tracks_trans h1
        (tracks_of_kept (audioKept_of_stable (postDrainVideoQueue_stable h4))))
        (syncQueuesStep_head hi4 h5)

/-- The handling of a buffer: unless it is an audio buffer rejected during a
flush, the record of the head audio entry follows the trace; a rejected audio
buffer leaves the audio queue as it is. -/
theorem onQueueBuffer_head {w : Nat} {env : Env} {s r : Renderer} {audio : Bool}
    {buffer : ABuffer} {cb : Nat} (hi : OffsetInv w s)
    (h : onQueueBuffer env s audio buffer cb = .ok r) :
    ((audio && s.mFlushingAudio) = false → Tracks s r) ∧
    ((audio && s.mFlushingAudio) = true → r.mAudioQueue = s.mAudioQueue) := by
  unfold onQueueBuffer at h
  rw [dropBufferWhileFlushing_eq] at h
  have hm : QueuesKept s (markPresent s audio) := by
    unfold markPresent
    split <;> exact ⟨rfl, rfl, rfl⟩
  have hm1 : AudioKept s (markPresent s audio) := by
    unfold markPresent
    split <;> exact audioKept_of rfl rfl
  have hf0 : flushingFlag audio (markPresent s audio) = flushingFlag audio s := by
    unfold markPresent flushingFlag
    split <;> rfl
  have hi1 := queuesKept_inv hm hi
  cases hf : flushingFlag audio (markPresent s audio)
  · rw [hf] at h
    simp only [Bool.false_eq_true, if_false] at h
    have hb : QueuesKept (markPresent s audio)
        (beginStartUpLatency env (markPresent s audio)) := by
      unfold beginStartUpLatency
      split
      · exact ⟨rfl, rfl, rfl⟩
      · exact queuesKept_refl _
    have hb1 : AudioKept (markPresent s audio)
        (beginStartUpLatency env (markPresent s audio)) := by
      unfold beginStartUpLatency
      split
      · exact audioKept_of rfl rfl
      · exact audioKept_refl _
    have ht := tracks_trans (tracks_of_kept (audioKept_trans hm1 hb1))
      (enqueueBuffer_head rfl (queuesKept_inv hb hi1) h)
    refine ⟨fun _ => ht, ?_⟩
    intro hr
    exfalso
    rw [hf0] at hf
    cases audio with
    | false => simp at hr
    | true =>
      have : s.mFlushingAudio = false := hf
      rw [this] at hr
      simp at hr
  · rw [hf] at h
    simp only [if_true] at h
    cases h
    refine ⟨?_, fun _ => hm1.1⟩
    intro hr
    rw [hf0] at hf
    cases audio with
    | true =>
      have : s.mFlushingAudio = true := hf
      rw [this] at hr
      simp at hr
    | false =>
      exact tracks_of_kept (audioKept_trans hm1 (audioKept_emit _ _ rfl))

theorem onQueueEOS_head {env : Env} {s r : Renderer} {audio : Bool}
    {finalResult : Int} (h : onQueueEOS env s audio finalResult = .ok r) : Tracks s r := by
  unfold onQueueEOS at h
  rw [dropBufferWhileFlushing_eq] at h
  cases hf : flushingFlag audio s
  · rw [hf] at h
    simp only [Bool.false_eq_true, if_false] at h
    split at h
    · cases h
      refine tracks_trans ?_
        (tracks_of_kept (audioKept_of_stable (postDrainAudioQueue_stable _ _)))
      exact ⟨[], by simp, fun g hg => headExact_push (eosEntry finalResult) rfl hg⟩
    · refine tracks_trans ?_
        (tracks_of_kept (audioKept_of_stable (postDrainVideoQueue_stable h)))
      exact tracks_of_kept (audioKept_of rfl rfl)
  · rw [hf] at h
    simp only [if_true] at h
    cases h
    exact tracks_refl s

theorem signalRefresh_audioKept (env : Env) (s : Renderer) (b : Bool) :
    AudioKept s (signalRefreshAnchorRealTime env s b) := by
  unfold signalRefreshAnchorRealTime
  split
  · dsimp only
    split <;> exact audioKept_of rfl rfl
  · exact audioKept_refl s

theorem queueDelay_audioKept (env : Env) (s : Renderer) (d : Int) :
    AudioKept s (queueDelay env s d) := by
  unfold queueDelay
  split
  · exact audioKept_of rfl rfl
  · dsimp only
    split
    · exact ⟨rfl, [Out.sinkPause], rfl, by simp [neutralOut]⟩
    · exact audioKept_of rfl rfl

theorem onResume_audioKept {env : Env} {s r : Renderer} (h : onResume env s = .ok r) :
    AudioKept s r := by
  cases hp : s.mPaused with
  | false =>
    unfold onResume at h
    rw [hp] at h
    cases h
    exact audioKept_refl _
  | true =>
    rw [onResume_eq env s hp] at h
    have h0 : AudioKept s (resumedState env s) := by
      unfold resumedState
      dsimp only
      have key : ∀ X : Renderer, AudioKept s X →
          AudioKept s (if X.mIsLiveStream then signalRefreshAnchorRealTime env X false
            else X) := by
        intro X hX
        split
        · exact audioKept_trans hX (signalRefresh_audioKept env X false)
        · exact hX
      refine key { (if s.mHasAudio && !s.mDelayPending then emit s .sinkStart else s) with
        mPaused := false } ?_
      split
      · exact ⟨rfl, [Out.sinkStart], rfl, by simp [neutralOut]⟩
      · exact audioKept_of rfl rfl
    have key : ∀ X : Renderer, AudioKept s X →
        (if (!X.mVideoQueue.isEmpty) = true then postDrainVideoQueue env X else .ok X) = .ok r →
        AudioKept s r := by
      intro X hX h
      split at h
      · exact audioKept_trans hX (audioKept_of_stable (postDrainVideoQueue_stable h))
      · cases h; exact hX
    refine key _ ?_ h
    split
    · exact audioKept_trans h0 (audioKept_of_stable (postDrainAudioQueue_stable _ _))
    · exact h0

theorem onDelayQueued_audioKept {env : Env} {s r : Renderer}
    (h : onDelayQueued env s = .ok r) : AudioKept s r := by
  have h1 : AudioKept s { s with mDelayPending := false } := audioKept_of rfl rfl
  unfold onDelayQueued at h
  dsimp only at h
  split at h
  · cases h
    exact audioKept_trans h1 (queueDelay_audioKept env _ _)
  · have key : ∀ X : Renderer, AudioKept s X →
        postDrainVideoQueue env (postDrainAudioQueue X 0) = .ok r → AudioKept s r := by
      intro X hX h
      exact audioKept_trans (audioKept_trans hX
        (audioKept_of_stable (postDrainAudioQueue_stable X 0)))
        (audioKept_of_stable (postDrainVideoQueue_stable h))
    refine key _ ?_ h
    split
    · exact ⟨rfl, [Out.sinkStart], rfl, by simp [neutralOut]⟩
    · exact h1

theorem onMessageReceived_head {w : Nat} {env : Env} {s r : Renderer} {msg : Msg}
    (hw : env.sizeBits = w) (hi : OffsetInv w s) (h : onMessageReceived env s msg = .ok r) :
    ((∀ b cb, msg = .queueBuffer true b cb → s.mFlushingAudio = false) → Tracks s r) ∧
    (∀ b cb, msg = .queueBuffer true b cb → s.mFlushingAudio = true →
      r.mAudioQueue = s.mAudioQueue) := by
  have plain : Tracks s r → ((∀ b cb, msg = .queueBuffer true b cb →
      s.mFlushingAudio = false) → Tracks s r) := fun t _ => t
  cases msg with
  | drainAudioQueue generation =>
    refine ⟨plain ?_, fun _ _ hm => by cases hm⟩
    unfold onMessageReceived at h
    dsimp only at h
    have hi0 : OffsetInv w { s with mDrainAudioQueuePending := false } :=
      queuesKept_inv ⟨rfl, rfl, rfl⟩ hi
    have t0 : Tracks s { s with mDrainAudioQueuePending := false } :=
      tracks_of_kept (audioKept_of rfl rfl)
    split at h
    · cases h; exact t0
    · obtain ⟨⟨postAudio, s2⟩, h2, h3⟩ := Result.bind_eq_ok h
      have t2 : Tracks s s2 := tracks_trans t0 (onDrainAudioQueue_head hw hi0 h2)
      dsimp only at h3
      obtain ⟨s3, h5, h6⟩ := Result.bind_eq_ok h3
      have t3 : Tracks s s3 := by
        split at h5
        · have a1 : AudioKept s2 { s2 with mDrainVideoQueuePendingUntilFirstAudio := false } :=
            audioKept_of rfl rfl
          exact tracks_trans t2 (tracks_of_kept (audioKept_trans a1
            (audioKept_of_stable (postDrainVideoQueue_stable h5))))
        · cases h5; exact t2
      split at h6
      · split at h6
        · cases h6
        · cases h6
          exact tracks_trans t3
            (tracks_of_kept (audioKept_of_stable (postDrainAudioQueue_stable _ _)))
      · cases h6; exact t3
  | drainVideoQueue generation =>
    refine ⟨plain ?_, fun _ _ hm => by cases hm⟩
    unfold onMessageReceived at h
    dsimp only at h
    have t0 : AudioKept s { s with mDrainVideoQueuePending := false } := audioKept_of rfl rfl
    split at h
    · cases h; exact tracks_of_kept t0
    · obtain ⟨s2, h2, h3⟩ := Result.bind_eq_ok h
      exact tracks_of_kept (audioKept_trans (audioKept_trans t0 (onDrainVideoQueue_audioKept h2))
        (audioKept_of_stable (postDrainVideoQueue_stable h3)))
  | queueBuffer audio buffer cb =>
    obtain ⟨k1, k2⟩ := onQueueBuffer_head hi h
    constructor
    · intro hf
      apply k1
      cases audio with
      | false => rfl
      | true => simp [hf buffer cb rfl]
    · intro b c hm hf
      cases hm
      exact k2 (by simp [hf])
  | queueEOS audio finalResult =>
    exact ⟨plain (onQueueEOS_head h), fun _ _ hm => by cases hm⟩
  | flush audio => exact ⟨plain (onFlush_head h), fun _ _ hm => by cases hm⟩
  | audioSinkChanged =>
    refine ⟨plain ?_, fun _ _ hm => by cases hm⟩
    have h1 : onAudioSinkChanged env s = .ok r := h
    unfold onAudioSinkChanged at h1
    split at h1
    · cases h1
    · cases h1
      dsimp only
      split <;> exact tracks_of_kept (audioKept_of rfl rfl)
  | pause =>
    refine ⟨plain ?_, fun _ _ hm => by cases hm⟩
    have h1 : onPause s = .ok r := h
    unfold onPause at h1
    split at h1
    · cases h1
    · cases h1
      dsimp only
      split
      · exact tracks_of_kept ⟨rfl, [Out.sinkPause], rfl, by simp [neutralOut]⟩
      · exact tracks_of_kept (audioKept_of rfl rfl)
  | resume =>
    exact ⟨plain (tracks_of_kept (onResume_audioKept h)), fun _ _ hm => by cases hm⟩
  | delayQueued =>
    exact ⟨plain (tracks_of_kept (onDelayQueued_audioKept h)), fun _ _ hm => by cases hm⟩

theorem tracks_drop {s r : Renderer} {g : List Nat} (h : Tracks s r)
    (hg : HeadExact g s.mAudioQueue) :
    HeadExact ((r.out.drop s.out.length).foldl trackHead g) r.mAudioQueue := by
  obtain ⟨a, o, k⟩ := h
  rw [o]
  simp only [List.drop_left']
  exact k g hg

theorem headWrittenStep_plain (g : List Nat) (s r : Renderer) (a : Action)
    (h : rejectsAudio s a = false) :
    headWrittenStep g s a r = (r.out.drop s.out.length).foldl trackHead g := by
  unfold headWrittenStep
  rw [h]
  rfl

/-- One operation keeps the record of the head audio entry exact. -/
theorem step_head {w : Nat} {env : Env} {s r : Renderer} {a : Action}
    (hw : env.sizeBits = w) (hi : OffsetInv w s) (h : step env s a = .ok r)
    {g : List Nat} (hg : HeadExact g s.mAudioQueue) :
    HeadExact (headWrittenStep g s a r) r.mAudioQueue := by
  have kept : rejectsAudio s a = false → AudioKept s r →
      HeadExact (headWrittenStep g s a r) r.mAudioQueue := by
    intro hr hk
    rw [headWrittenStep_plain g s r a hr]
    exact tracks_drop (tracks_of_kept hk) hg
  cases a with
  | queueBuffer audio buffer cb => cases h; exact kept rfl (audioKept_of rfl rfl)
  | queueEOS audio finalResult =>
    have h1 : queueEOS env s audio finalResult = .ok r := h
    unfold queueEOS at h1
    split at h1
    · cases h1
    · obtain ⟨s1, h2, h3⟩ := Result.bind_eq_ok h1
      cases h3
      have h4 : AudioKept s s1 := by
        split at h2
        · exact audioKept_of_stable (syncQueuesDone_stable h2)
        · cases h2; exact audioKept_refl _
      exact kept rfl (audioKept_trans h4 (audioKept_of rfl rfl))
  | queueDelay d =>
    cases h
    exact kept rfl (queueDelay_audioKept env s d)
  | flush audio =>
    have h1 : flush s audio = .ok r := h
    unfold flush at h1
    split at h1
    · split at h1
      · cases h1
      · cases h1; exact kept rfl (audioKept_of rfl rfl)
    · split at h1
      · cases h1
      · cases h1; exact kept rfl (audioKept_of rfl rfl)
  | signalTimeDiscontinuity =>
    have h1 : signalTimeDiscontinuity s = .ok r := h
    unfold signalTimeDiscontinuity at h1
    split at h1
    · cases h1
    · split at h1
      · cases h1
      · cases h1; exact kept rfl (audioKept_of rfl rfl)
  | pause => cases h; exact kept rfl (audioKept_of rfl rfl)
  | resume => cases h; exact kept rfl (audioKept_of rfl rfl)
  | signalRefreshAnchorRealTime b =>
    cases h
    exact kept rfl (signalRefresh_audioKept env s b)
  | signalAudioSinkChanged => cases h; exact kept rfl (audioKept_of rfl rfl)
  | notifySeekPosition seekTime =>
    cases h
    exact kept rfl ⟨rfl, [Out.position seekTime s.mVideoLateByUs], rfl, by simp [neutralOut]⟩
  | setMediaPresence audio bValue =>
    cases h
    refine kept rfl ?_
    unfold setMediaPresence
    split <;> exact audioKept_of rfl rfl
  | setLiveStream b => cases h; exact kept rfl (audioKept_of rfl rfl)
  | deliver i =>
    have h1 : (match s.mailbox[i]? with
      | none => Result.fail Fault.noMessage
      | some (msg, _) =>
        onMessageReceived env { s with mailbox := s.mailbox.eraseIdx i } msg) = .ok r := h
    cases hm : s.mailbox[i]? with
    | none => rw [hm] at h1; cases h1
    | some md =>
      obtain ⟨msg, d⟩ := md
      rw [hm] at h1
      dsimp only at h1
      have hi1 : OffsetInv w { s with mailbox := s.mailbox.eraseIdx i } := hi
      obtain ⟨k1, k2⟩ := onMessageReceived_head hw hi1 h1
      cases hr : rejectsAudio s (.deliver i) with
      | true =>
        unfold headWrittenStep
        rw [hr]
        simp only [if_true]
        simp only [rejectsAudio, deliveredBuffer, hm] at hr
        cases msg with
        | queueBuffer audio buffer cb =>
          cases audio with
          | false => simp at hr
          | true =>
            have hf : s.mFlushingAudio = true := by simpa using hr
            have hq : r.mAudioQueue = s.mAudioQueue := k2 buffer cb rfl hf
            rw [hq]
            exact hg
        | queueEOS audio finalResult => simp at hr
        | flush audio => simp at hr
        | drainAudioQueue g => simp at hr
        | drainVideoQueue g => simp at hr
        | audioSinkChanged => simp at hr
        | pause => simp at hr
        | resume => simp at hr
        | delayQueued => simp at hr
      | false =>
        rw [headWrittenStep_plain g s r _ hr]
        have ht : Tracks { s with mailbox := s.mailbox.eraseIdx i } r := by
          apply k1
          intro b cb hmsg
          subst hmsg
          simp only [rejectsAudio, deliveredBuffer, hm] at hr
          exact hr
        exact tracks_drop (s := { s with mailbox := s.mailbox.eraseIdx i }) ht hg

theorem run_head (w : Nat) : ∀ (acts : List (Env × Action)) (s r : Renderer) (g : List Nat),
    OffsetInv w s → HeadExact g s.mAudioQueue → sizedAlong w s acts = true →
    run s acts = .ok r → HeadExact (headWritten g s acts) r.mAudioQueue := by
  intro acts
  induction acts with
  | nil =>
    intro s r g _ hg _ h
    cases h
    exact hg
  | cons ea rest ih =>
    intro s r g hi hg hs h
    obtain ⟨env, a⟩ := ea
    unfold run at h
    obtain ⟨s1, h1, h2⟩ := Result.bind_eq_ok h
    unfold sizedAlong at hs
    rw [h1] at hs
    simp only [Bool.and_eq_true, decide_eq_true_eq] at hs
    unfold headWritten
    rw [h1]
    exact ih s1 r _ (step_offsetInv hs.1.1 hs.1.2 hi h1) (step_head hs.1.1 hi h1 hg) hs.2 h2

/-- C28: in every state reached from a fresh renderer by operations that all
return, a `size_t` having `w` bits and every queued buffer being shorter than
`2 ^ w`: the offset of every video entry is 0, the offset of every audio entry
behind the head of the audio queue is 0, and the offset of the head audio entry
does not exceed the size of its payload and equals the number of bytes written
to the sink from that entry.  These bytes are counted along the run
(`headWritten`): every write to the sink adds the bytes it writes, and the count
starts again whenever an entry leaves the head of the audio queue.  They are
the payload of the head entry up to its offset and the bytes written to the
sink last; with the audio queue empty the count is empty. -/
theorem C28_offsets_of_queued_entries (w : Nat) (msec : Option Int) (u1 u2 : Int)
    (acts : List (Env × Action)) (s : Renderer)
    (hr : run (Renderer.new msec u1 u2) acts = .ok s)
    (hs : sizedAlong w (Renderer.new msec u1 u2) acts = true) :
    (∀ e ∈ s.mVideoQueue, e.mOffset = 0) ∧
    (∀ e ∈ s.mAudioQueue.tail, e.mOffset = 0) ∧
    (∀ e, s.mAudioQueue.head? = some e →
      e.mOffset = (headWritten [] (Renderer.new msec u1 u2) acts).length ∧
      headWritten [] (Renderer.new msec u1 u2) acts = (entryData e).take e.mOffset ∧
      e.mOffset ≤ (entryData e).length ∧
      (entryData e).take e.mOffset <:+ bytesOf s.out) ∧
    (s.mAudioQueue = [] → headWritten [] (Renderer.new msec u1 u2) acts = []) := by
  have h0 : OffsetInv w (Renderer.new msec u1 u2) :=
    ⟨fun e he => (by cases he), fun e he => (by cases he), fun e he => (by cases he),
      fun e he => (by cases he)⟩
  have g0 : HeadExact [] (Renderer.new msec u1 u2).mAudioQueue := rfl
  obtain ⟨h1, h2, h3, _⟩ := run_offsetInv w acts _ s h0 hs hr
  have hx := run_head w acts _ s [] h0 g0 hs hr
  refine ⟨h1, h2, ?_, ?_⟩
  · intro e he
    obtain ⟨h4, h5⟩ := h3 e he
    cases hq : s.mAudioQueue with
    | nil => rw [hq] at he; cases he
    | cons e1 rest =>
      rw [hq] at he hx
      simp only [List.head?_cons, Option.some.injEq] at he
      subst he
      have hx1 : (entryData e1).take e1.mOffset = headWritten [] (Renderer.new msec u1 u2) acts :=
        hx
      refine ⟨?_, hx1.symm, h4, h5⟩
      rw [← hx1, List.length_take]
      omega
  · intro hq
    rw [hq] at hx
    exact hx

/-- C28, worked example: two audio buffers of six and four bytes were queued
and the sink took eight bytes; the second buffer is at the head of the audio
queue with offset 2, and the bytes written from it, counted along the run, are
its first two bytes. -/
theorem C28_offsets_of_queued_entries_witness :
    run (Renderer.new none 0 0) sampleDrainedHalf = .ok sampleHalfDrained ∧
      sizedAlong 32 (Renderer.new none 0 0) sampleDrainedHalf = true ∧
      sampleHalfDrained.mAudioQueue.head? =
        some { bufferEntry sampleBuffer2 2 with mOffset := 2 } ∧
      headWritten [] (Renderer.new none 0 0) sampleDrainedHalf = [7, 8] ∧
      (∀ e ∈ sampleHalfDrained.mVideoQueue, e.mOffset = 0) ∧
      (∀ e ∈ sampleHalfDrained.mAudioQueue.tail, e.mOffset = 0) ∧
      (∀ e, sampleHalfDrained.mAudioQueue.head? = some e →
        e.mOffset = (headWritten [] (Renderer.new none 0 0) sampleDrainedHalf).length ∧
        headWritten [] (Renderer.new none 0 0) sampleDrainedHalf
          = (entryData e).take e.mOffset ∧
        e.mOffset ≤ (entryData e).length ∧
        (entryData e).take e.mOffset <:+ bytesOf sampleHalfDrained.out) ∧
      (sampleHalfDrained.mAudioQueue = [] →
        headWritten [] (Renderer.new none 0 0) sampleDrainedHalf = []) :=
  ⟨rfl, by decide, rfl, by rfl,
    C28_offsets_of_queued_entries 32 none 0 0 sampleDrainedHalf sampleHalfDrained rfl
      (by decide)⟩

end DashPlayer
